import Mathlib

/-!
# Adaptive entropy decoder (`src/decode.c`)

A shallow embedding of the streaming decoder of `decode.c` and theorems about it.

Conventions of the embedding.

* `libaec.h` and `decode.h` are not part of the sources.  The fields of
  `struct aec_stream` and `struct internal_state` keep their names.  Fields that only
  `aec_decode_init` writes live in `Config`; everything a state handler may change lives in
  `aec_stream` (the two C structures merged).
* `strm->flags & AEC_X` is the boolean field `X` of `Flags`.
* `next_in`/`avail_in` are the list of unread input bytes; `avail_in` is its length.
  `next_out` is the list of bytes written so far.
* `rsi_buffer` is a word memory indexed from the start of the buffer; `rsip` and
  `flush_start` are offsets into it (`rsip - rsi_buffer` in the C code).
* A handler returns `Except.error` where the C code has no defined behaviour: an access
  outside an object (an input read past `avail_in`, a store outside `rsi_buffer`, a read
  outside `se_table` or `id_table`) or a signed counter leaving `int`; see `Fault`.
* A C loop is a recursion on a counter that bounds its number of passes.
* `size_t` is 64 bits wide, `uint32_t`/`uint64_t` arithmetic is reduced explicitly.
* `bits_per_sample`, `block_size` and `rsi` are `unsigned int`.  The three products
  `aec_decode_init` forms of them (`rsi_size`, `in_blklen`, `out_blklen`) are not reduced:
  the embedding is exact for configurations where they stay below `2 ^ 31`.
-/

namespace Aec

/-- One input byte. -/
abbrev Byte := Fin 256

/-- The option bits of `strm->flags`. -/
structure Flags where
  DATA_SIGNED : Bool
  DATA_3BYTE : Bool
  DATA_MSB : Bool
  DATA_PREPROCESS : Bool
  RESTRICTED : Bool
  PAD_RSI : Bool
deriving DecidableEq, Repr

/-- Return codes of the public entry points. -/
inductive Ret where
  | AEC_OK
  | AEC_CONF_ERROR
  | AEC_DATA_ERROR
  | AEC_MEM_ERROR
deriving DecidableEq, Repr

/-- Return values of a state handler. -/
inductive Status where
  | M_CONTINUE
  | M_EXIT
  | M_ERROR
deriving DecidableEq, Repr

/-- The state handlers `state->mode` can point to. -/
inductive Mode where
  | m_id
  | m_split
  | m_split_fs
  | m_split_output
  | m_zero_block
  | m_zero_output
  | m_se
  | m_se_decode
  | m_low_entropy
  | m_low_entropy_ref
  | m_uncomp
  | m_uncomp_copy
deriving DecidableEq, Repr

/-- Why an execution of the C code has no defined result. -/
inductive Fault where
  | input_overread
  | rsi_overflow
  | se_table_index
  | id_table_index
  | int_overflow
  | out_of_steps
deriving DecidableEq, Repr

/-- Result of a piece of code that may have no defined behaviour. -/
abbrev Res (α : Type) := Except Fault α

/-- The seven instances of the `FLUSH(KIND)` template `state->flush_output` can point to. -/
inductive FlushKind where
  | flush_msb_32
  | flush_msb_24
  | flush_msb_16
  | flush_lsb_32
  | flush_lsb_24
  | flush_lsb_16
  | flush_8
deriving DecidableEq, Repr

/-- The caller's configuration and the values `aec_decode_init` derives from it. -/
structure Config where
  bits_per_sample : Nat
  block_size : Nat
  rsi : Nat
  flags : Flags
  id_len : Nat
  id_table : List Mode
  flush_output : FlushKind
  xmin : Int
  xmax : Int
  in_blklen : Nat
  out_blklen : Nat
  pp : Bool
  bytes_per_sample : Nat
  rsi_size : Nat
  se_table : List Int
deriving DecidableEq

/-- The mutable part of `struct aec_stream` and `struct internal_state`. -/
structure aec_stream where
  next_in : List Byte
  total_in : Nat
  next_out : List Nat
  avail_out : Nat
  total_out : Nat
  mode : Mode
  id : Nat
  last_out : Int
  n : Int
  i : Int
  acc : Nat
  bitp : Nat
  fs : Nat
  ref : Nat
  rsi_buffer : Nat → Nat
  rsip : Nat
  flush_start : Nat

/-- The field `strm->avail_in`. -/
def aec_stream.avail_in (strm : aec_stream) : Nat := strm.next_in.length

/-- Width of `size_t`, `uint64_t`. -/
def W64 : Nat := 2 ^ 64

/-- Width of `uint32_t`. -/
def W32 : Nat := 2 ^ 32

/-- Conversion of a signed value to `uint32_t`. -/
def to_u32 (x : Int) : Nat := (x % (2 ^ 32 : Int)).toNat

/-- Conversion of a signed value to `size_t`. -/
def to_size_t (x : Int) : Nat := (x % (2 ^ 64 : Int)).toNat

/-- Conversion of an `unsigned int` value to `int`. -/
def to_int (x : Nat) : Int :=
  if x % W32 < 2 ^ 31 then ((x % W32 : Nat) : Int) else ((x % W32 : Nat) : Int) - (W32 : Int)

/-- Subtraction in `size_t`. -/
def sub_size_t (a b : Nat) : Nat := (a + (W64 - b % W64)) % W64

/-! ## Output of one sample: `put_msb_32` .. `put_8` -/

/-- Bytes stored by `put_msb_32`. -/
def put_msb_32 (data : Nat) : List Nat :=
  [(data >>> 24) % 256, (data >>> 16) % 256, (data >>> 8) % 256, data % 256]

/-- Bytes stored by `put_msb_24`. -/
def put_msb_24 (data : Nat) : List Nat :=
  [(data >>> 16) % 256, (data >>> 8) % 256, data % 256]

/-- Bytes stored by `put_msb_16`. -/
def put_msb_16 (data : Nat) : List Nat :=
  [(data >>> 8) % 256, data % 256]

/-- Bytes stored by `put_lsb_32`. -/
def put_lsb_32 (data : Nat) : List Nat :=
  [data % 256, (data >>> 8) % 256, (data >>> 16) % 256, (data >>> 24) % 256]

/-- Bytes stored by `put_lsb_24`. -/
def put_lsb_24 (data : Nat) : List Nat :=
  [data % 256, (data >>> 8) % 256, (data >>> 16) % 256]

/-- Bytes stored by `put_lsb_16`. -/
def put_lsb_16 (data : Nat) : List Nat :=
  [data % 256, (data >>> 8) % 256]

/-- Bytes stored by `put_8`. -/
def put_8 (data : Nat) : List Nat :=
  [data % 256]

/-- The call `put_##KIND(strm, data)` of the template; `data` is already a `uint32_t`. -/
def put (kind : FlushKind) (data : Nat) : List Nat :=
  match kind with
  | .flush_msb_32 => put_msb_32 data
  | .flush_msb_24 => put_msb_24 data
  | .flush_msb_16 => put_msb_16 data
  | .flush_lsb_32 => put_lsb_32 data
  | .flush_lsb_24 => put_lsb_24 data
  | .flush_lsb_16 => put_lsb_16 data
  | .flush_8 => put_8 data

/-! ## The `FLUSH` template -/

/-- The value `med` of the template. -/
def flush_med (c : Config) : Int :=
  if c.flags.DATA_SIGNED then 0 else (c.xmax - c.xmin) / 2 + 1

/-- One pass through the body of the preprocessor loop of `FLUSH`: the new `data`
for the residual word `d`. -/
def flush_step (med xmin xmax : Int) (data : Int) (d : Nat) : Int :=
  let half_d : Int := ((d + 1) >>> 1 : Nat)
  if data < med then
    if half_d ≤ data - xmin then
      if d &&& 1 ≠ 0 then data - half_d else data + half_d
    else
      xmin + d
  else
    if half_d ≤ xmax - data then
      if d &&& 1 ≠ 0 then data - half_d else data + half_d
    else
      xmax - d

/-- The preprocessor loop of `FLUSH` over the words `[flush_start, flush_end)`:
the values of `data` in the order they are put, and the last one. -/
def flush_loop (med xmin xmax : Int) : Int → List Nat → List Int × Int
  | data, [] => ([], data)
  | data, d :: ds =>
    let data1 := flush_step med xmin xmax data d
    let r := flush_loop med xmin xmax data1 ds
    (data1 :: r.1, r.2)

/-- The words `rsi_buffer[lo .. hi)`. -/
def rsi_words (strm : aec_stream) (lo hi : Nat) : List Nat :=
  (List.range' lo (hi - lo)).map strm.rsi_buffer

/-- Sign extension of the reference sample: `(last_out ^ m) - m` with
`m = 1ULL << (bits_per_sample - 1)`. -/
def sign_extend (bits_per_sample : Nat) (v : Nat) : Int :=
  let m : Nat := 1 <<< (bits_per_sample - 1)
  ((v ^^^ m : Nat) : Int) - (m : Int)

/-- The sample values `flush_##KIND` puts, in order, and the value left in `last_out`. -/
def flush_samples (c : Config) (strm : aec_stream) : List Int × Int :=
  if c.pp then
    let isref : Bool := strm.flush_start = 0 ∧ 0 < strm.rsip
    let last_out : Int :=
      if isref then
        if c.flags.DATA_SIGNED then sign_extend c.bits_per_sample (strm.rsi_buffer 0)
        else (strm.rsi_buffer 0 : Int)
      else strm.last_out
    let flush_start := if isref then strm.flush_start + 1 else strm.flush_start
    let r := flush_loop (flush_med c) c.xmin c.xmax last_out
      (rsi_words strm flush_start strm.rsip)
    (if isref then last_out :: r.1 else r.1, r.2)
  else
    ((rsi_words strm strm.flush_start strm.rsip).map (fun (w : Nat) => (w : Int)), strm.last_out)

/-- The function `flush_##KIND` selected by `state->flush_output`. -/
def flush (c : Config) (strm : aec_stream) : aec_stream :=
  let r := flush_samples c strm
  { strm with
    next_out := strm.next_out ++ (r.1.map (fun v => put c.flush_output (to_u32 v))).flatten
    last_out := r.2
    flush_start := strm.rsip }

/-! ## `create_se_table` and `aec_decode_init` -/

/-- The inner loop of `create_se_table`: `j` runs over `0 .. i`. -/
def create_se_row (i ms : Nat) : Nat → Nat → List Int → Nat × List Int
  | 0, k, table => (k, table)
  | cnt + 1, k, table =>
    create_se_row i ms cnt (k + 1) ((table.set (2 * k) (i : Int)).set (2 * k + 1) (ms : Int))

/-- The outer loop of `create_se_table`: `cnt` rows remain, the next one is row `i`. -/
def create_se_rows : Nat → Nat → Nat → List Int → List Int
  | 0, _, _, table => table
  | cnt + 1, i, k, table =>
    let r := create_se_row i k (i + 1) k table
    create_se_rows cnt (i + 1) r.1 r.2

/-- The function `create_se_table`, on the 182 entries of `state->se_table`. -/
def create_se_table (table : List Int) : List Int :=
  create_se_rows 13 0 0 table

/-- The table `state->id_table` as `aec_decode_init` fills it, `modi = 1UL << id_len`. -/
def make_id_table (modi : Nat) : List Mode :=
  (List.range modi).map (fun i =>
    if i = modi - 1 then Mode.m_uncomp
    else if i = 0 then Mode.m_low_entropy
    else Mode.m_split)

/-- The configuration part of `aec_decode_init`: the return code and, when it is `AEC_OK`,
the derived values.  Allocations succeed. -/
def init_config (bits_per_sample block_size rsi : Nat) (flags : Flags) : Ret × Option Config :=
  if bits_per_sample > 32 ∨ bits_per_sample = 0 then (Ret.AEC_CONF_ERROR, none)
  else
    let wide : Option (Nat × Nat × FlushKind) :=
      if bits_per_sample > 16 then
        if bits_per_sample ≤ 24 ∧ flags.DATA_3BYTE then
          some (5, 3, if flags.DATA_MSB then FlushKind.flush_msb_24 else FlushKind.flush_lsb_24)
        else
          some (5, 4, if flags.DATA_MSB then FlushKind.flush_msb_32 else FlushKind.flush_lsb_32)
      else if bits_per_sample > 8 then
        some (4, 2, if flags.DATA_MSB then FlushKind.flush_msb_16 else FlushKind.flush_lsb_16)
      else
        if flags.RESTRICTED then
          if bits_per_sample ≤ 4 then
            if bits_per_sample ≤ 2 then some (1, 1, FlushKind.flush_8)
            else some (2, 1, FlushKind.flush_8)
          else none
        else some (3, 1, FlushKind.flush_8)
    match wide with
    | none => (Ret.AEC_CONF_ERROR, none)
    | some (id_len, bytes_per_sample, flush_output) =>
      let xmin : Int :=
        if flags.DATA_SIGNED then -((1 <<< (bits_per_sample - 1) : Nat) : Int) else 0
      let xmax : Int :=
        if flags.DATA_SIGNED then ((1 <<< (bits_per_sample - 1) : Nat) : Int) - 1
        else ((1 <<< bits_per_sample : Nat) : Int) - 1
      (Ret.AEC_OK, some {
        bits_per_sample := bits_per_sample
        block_size := block_size
        rsi := rsi
        flags := flags
        id_len := id_len
        id_table := make_id_table (1 <<< id_len)
        flush_output := flush_output
        xmin := xmin
        xmax := xmax
        in_blklen := (block_size * bits_per_sample + id_len) / 8 + 9
        out_blklen := block_size * bytes_per_sample
        pp := flags.DATA_PREPROCESS
        bytes_per_sample := bytes_per_sample
        rsi_size := rsi * block_size
        se_table := create_se_table (List.replicate 182 0) })

/-- The stream part of `aec_decode_init`: the fields it resets; the others keep the
(indeterminate) values of `strm`. -/
def init_stream (strm : aec_stream) : aec_stream :=
  { strm with
    total_in := 0
    total_out := 0
    rsip := 0
    flush_start := 0
    bitp := 0
    fs := 0
    mode := Mode.m_id }

/-- The function `aec_decode_init`. -/
def aec_decode_init (bits_per_sample block_size rsi : Nat) (flags : Flags) (strm : aec_stream) :
    Ret × Option (Config × aec_stream) :=
  match init_config bits_per_sample block_size rsi flags with
  | (r, none) => (r, none)
  | (r, some c) => (r, some (c, init_stream strm))

/-! ## The bit reader -/

/-- The statement `acc = (acc << 8) | *next_in++` on the 64-bit accumulator. -/
def acc_push (acc : Nat) (b : Byte) : Nat := ((acc <<< 8) ||| b.val) % W64

/-- The function `fill_acc`: `b = (63 - bitp) >> 3` bytes are taken without a check. -/
def fill_acc (strm : aec_stream) : Res aec_stream :=
  let b := (63 - strm.bitp) >>> 3
  if strm.next_in.length < b then Except.error Fault.input_overread
  else Except.ok { strm with
    acc := (strm.next_in.take b).foldl acc_push strm.acc
    next_in := strm.next_in.drop b
    bitp := strm.bitp + (b <<< 3) }

/-- The function `direct_get`. -/
def direct_get (strm : aec_stream) (n : Nat) : Res (Nat × aec_stream) :=
  (if strm.bitp < n then fill_acc strm else pure strm) >>= fun s1 =>
    let s2 : aec_stream := { s1 with bitp := s1.bitp - n }
    pure ((s2.acc >>> s2.bitp) &&& ((1 <<< n) - 1), s2)

/-- The loop `while (state->acc == 0)` of `direct_get_fs`; every pass takes seven bytes. -/
def direct_get_fs_fill : Nat → Nat → aec_stream → Res (Nat × aec_stream)
  | 0, _, _ => Except.error Fault.out_of_steps
  | fuel + 1, fs, strm =>
    if strm.acc = 0 then do
      let s1 ← fill_acc { strm with bitp := 0 }
      direct_get_fs_fill fuel ((fs + strm.bitp) % W32) s1
    else pure (fs, strm)

/-- Count of leading zero bits of a non-zero 64-bit value, `__builtin_clzll`. -/
def clzll (x : Nat) : Nat := 63 - Nat.log2 x

/-- The loop `while ((acc & (1ULL << bitp)) == 0)` of `direct_get_fs` without
`__builtin_clzll`. -/
def direct_get_fs_scan : Nat → Nat → aec_stream → Res (Nat × aec_stream)
  | 0, _, _ => Except.error Fault.out_of_steps
  | fuel + 1, fs, strm =>
    if strm.acc &&& (1 <<< strm.bitp) = 0 then
      if strm.bitp = 0 then Except.error Fault.int_overflow
      else direct_get_fs_scan fuel ((fs + 1) % W32) { strm with bitp := strm.bitp - 1 }
    else pure (fs, strm)

/-- The function `direct_get_fs`; `clz` says whether `HAVE_DECL___BUILTIN_CLZLL` is set. -/
def direct_get_fs (clz : Bool) (strm : aec_stream) : Res (Nat × aec_stream) := do
  let s0 : aec_stream := { strm with acc := strm.acc &&& ((1 <<< strm.bitp) - 1) }
  let r ← direct_get_fs_fill (s0.next_in.length / 7 + 2) 0 s0
  if clz then
    let lz := clzll r.2.acc
    pure ((r.1 + lz + r.2.bitp + (W32 - 64)) % W32, { r.2 with bitp := 63 - lz })
  else
    if r.2.bitp = 0 then Except.error Fault.int_overflow
    else direct_get_fs_scan (r.2.bitp + 1) r.1 { r.2 with bitp := r.2.bitp - 1 }

/-- The loop of `bits_ask`. -/
def bits_ask_loop : Nat → aec_stream → Nat → Bool × aec_stream
  | 0, strm, n => (decide (n ≤ strm.bitp), strm)
  | fuel + 1, strm, n =>
    if strm.bitp < n then
      match strm.next_in with
      | [] => (false, strm)
      | b :: rest =>
        bits_ask_loop fuel
          { strm with next_in := rest, acc := acc_push strm.acc b, bitp := strm.bitp + 8 } n
    else (true, strm)

/-- The function `bits_ask`. -/
def bits_ask (strm : aec_stream) (n : Nat) : Bool × aec_stream :=
  bits_ask_loop strm.next_in.length strm n

/-- The function `bits_get`. -/
def bits_get (strm : aec_stream) (n : Nat) : Nat :=
  (strm.acc >>> (strm.bitp - n)) &&& ((1 <<< n) - 1)

/-- The function `bits_drop`. -/
def bits_drop (strm : aec_stream) (n : Nat) : aec_stream :=
  { strm with bitp := strm.bitp - n }

/-- The loop of `fs_ask`; every pass uses up one bit of `acc` or of the input. -/
def fs_ask_loop : Nat → aec_stream → Bool × aec_stream
  | 0, strm => (false, strm)
  | fuel + 1, strm =>
    if strm.acc &&& (1 <<< (strm.bitp - 1)) = 0 then
      if strm.bitp = 1 then
        match strm.next_in with
        | [] => (false, strm)
        | b :: rest =>
          fs_ask_loop fuel
            { strm with
              next_in := rest, acc := acc_push strm.acc b, bitp := strm.bitp + 8 - 1
              fs := strm.fs + 1 }
      else fs_ask_loop fuel { strm with fs := strm.fs + 1, bitp := strm.bitp - 1 }
    else (true, strm)

/-- The function `fs_ask`. -/
def fs_ask (strm : aec_stream) : Bool × aec_stream :=
  let r := bits_ask strm 1
  if r.1 = false then (false, r.2)
  else fs_ask_loop (r.2.bitp + 8 * r.2.next_in.length + 1) r.2

/-- The function `fs_drop`. -/
def fs_drop (strm : aec_stream) : aec_stream :=
  { strm with fs := 0, bitp := strm.bitp - 1 }

/-! ## The RSI buffer -/

/-- The store `buf[i] = v`. -/
def upd (buf : Nat → Nat) (i v : Nat) : Nat → Nat :=
  fun j => if j = i then v else buf j

/-- A store `rsi_buffer[i] = v`; the buffer has `rsi_size` words. -/
def rsi_store (c : Config) (strm : aec_stream) (i v : Nat) : Res aec_stream :=
  if i < c.rsi_size then Except.ok { strm with rsi_buffer := upd strm.rsi_buffer i v }
  else Except.error Fault.rsi_overflow

/-- The function `check_rsi_end`. -/
def check_rsi_end (c : Config) (strm : aec_stream) : aec_stream :=
  if strm.rsip = c.rsi_size then
    { flush c strm with flush_start := 0, rsip := 0 }
  else strm

/-- The function `put_sample`. -/
def put_sample (c : Config) (strm : aec_stream) (s : Nat) : Res aec_stream := do
  let s1 ← rsi_store c strm strm.rsip s
  pure (check_rsi_end c
    { s1 with
      rsip := s1.rsip + 1
      avail_out := sub_size_t s1.avail_out c.bytes_per_sample })

/-- The function `copysample`. -/
def copysample (c : Config) (strm : aec_stream) : Res (Bool × aec_stream) :=
  let r := bits_ask strm c.bits_per_sample
  if r.1 = false ∨ r.2.avail_out = 0 then pure (false, r.2)
  else do
    let s1 ← put_sample c r.2 (bits_get r.2 c.bits_per_sample)
    pure (true, bits_drop s1 c.bits_per_sample)

/-- The macro `BUFFERSPACE`. -/
def BUFFERSPACE (c : Config) (strm : aec_stream) : Bool :=
  decide (c.in_blklen ≤ strm.avail_in) && decide (c.out_blklen ≤ strm.avail_out)

/-! ## The state handlers -/

/-- The first statement of `m_id`: `state->ref` is set and, with `AEC_PAD_RSI`, the bits left
of the last byte are dropped. -/
def m_id_ref (c : Config) (strm : aec_stream) : aec_stream :=
  if c.pp ∧ strm.rsip = 0 then
    { strm with
      ref := 1
      bitp := if c.flags.PAD_RSI then strm.bitp - strm.bitp % 8 else strm.bitp }
  else { strm with ref := 0 }

/-- The function `m_id`. -/
def m_id (c : Config) (strm : aec_stream) : Res (Status × aec_stream) :=
  let r := bits_ask (m_id_ref c strm) c.id_len
  if r.1 = false then pure (Status.M_EXIT, r.2)
  else
    let id := bits_get r.2 c.id_len
    match c.id_table[id]? with
    | none => Except.error Fault.id_table_index
    | some mode =>
      pure (Status.M_CONTINUE, { bits_drop r.2 c.id_len with id := id, mode := mode })

/-- The loop of `m_split_output` and the statements after it. -/
def m_split_output_loop (c : Config) (k : Nat) : Nat → aec_stream → Res (Status × aec_stream)
  | 0, _ => Except.error Fault.out_of_steps
  | fuel + 1, strm =>
    let r := bits_ask strm k
    if r.1 = false ∨ r.2.avail_out = 0 then pure (Status.M_EXIT, r.2)
    else do
      let s0 ← rsi_store c r.2 r.2.rsip ((r.2.rsi_buffer r.2.rsip + bits_get r.2 k) % W32)
      let s1 : aec_stream :=
        { s0 with
          rsip := s0.rsip + 1
          avail_out := sub_size_t s0.avail_out c.bytes_per_sample }
      let s2 := bits_drop s1 k
      let s3 : aec_stream := { s2 with i := s2.i + 1 }
      if s3.i < s3.n then m_split_output_loop c k fuel s3
      else pure (Status.M_CONTINUE, { check_rsi_end c s3 with mode := Mode.m_id })

/-- The function `m_split_output`. -/
def m_split_output (c : Config) (strm : aec_stream) : Res (Status × aec_stream) :=
  m_split_output_loop c (strm.id - 1) ((strm.n - strm.i).toNat + 1) strm

/-- The loop of `m_split_fs` and the statements after it. -/
def m_split_fs_loop (c : Config) (k : Nat) : Nat → aec_stream → Res (Status × aec_stream)
  | 0, _ => Except.error Fault.out_of_steps
  | fuel + 1, strm =>
    let r := fs_ask strm
    if r.1 = false then pure (Status.M_EXIT, r.2)
    else do
      let s1 ← rsi_store c r.2 (r.2.rsip + r.2.i.toNat) ((r.2.fs <<< k) % W32)
      let s2 := fs_drop s1
      let s3 : aec_stream := { s2 with i := s2.i + 1 }
      if s3.i < s3.n then m_split_fs_loop c k fuel s3
      else pure (Status.M_CONTINUE, { s3 with i := 0, mode := Mode.m_split_output })

/-- The function `m_split_fs`. -/
def m_split_fs (c : Config) (strm : aec_stream) : Res (Status × aec_stream) :=
  m_split_fs_loop c (strm.id - 1) ((strm.n - strm.i).toNat + 1) strm

/-- The first loop of the fast path of `m_split`: `rsip[i] = direct_get_fs(strm) << k`. -/
def m_split_direct_fs (clz : Bool) (c : Config) (k : Nat) :
    Nat → Nat → aec_stream → Res aec_stream
  | 0, _, strm => pure strm
  | cnt + 1, i, strm => do
    let r ← direct_get_fs clz strm
    let s1 ← rsi_store c r.2 (r.2.rsip + i) ((r.1 <<< k) % W32)
    m_split_direct_fs clz c k cnt (i + 1) s1

/-- The second loop of the fast path of `m_split`: `*rsip++ += direct_get(strm, k)`. -/
def m_split_direct_out (c : Config) (k : Nat) : Nat → aec_stream → Res aec_stream
  | 0, strm => pure strm
  | cnt + 1, strm => do
    let r ← direct_get strm k
    let s1 ← rsi_store c r.2 r.2.rsip ((r.2.rsi_buffer r.2.rsip + r.1) % W32)
    m_split_direct_out c k cnt { s1 with rsip := s1.rsip + 1 }

/-- The statement `*state->rsip++ = direct_get(strm, strm->bits_per_sample)` of the fast path
of `m_split`. -/
def m_split_direct_ref (c : Config) (strm : aec_stream) : Res aec_stream := do
  let r ← direct_get strm c.bits_per_sample
  let s0 ← rsi_store c r.2 r.2.rsip r.1
  pure { s0 with rsip := s0.rsip + 1 }

/-- The function `m_split`. -/
def m_split (clz : Bool) (c : Config) (strm : aec_stream) : Res (Status × aec_stream) :=
  if BUFFERSPACE c strm then
    (if strm.ref ≠ 0 then m_split_direct_ref c strm else pure strm) >>= fun s1 =>
    m_split_direct_fs clz c (strm.id - 1) (c.block_size - strm.ref) 0 s1 >>= fun s2 =>
    m_split_direct_out c (strm.id - 1) (c.block_size - strm.ref) s2 >>= fun s3 =>
      let s4 : aec_stream := { s3 with avail_out := sub_size_t s3.avail_out c.out_blklen }
      pure (Status.M_CONTINUE, { check_rsi_end c s4 with mode := Mode.m_id })
  else
    if strm.ref ≠ 0 then do
      let r ← copysample c strm
      if r.1 = false then pure (Status.M_EXIT, r.2)
      else
        pure (Status.M_CONTINUE,
          { r.2 with n := (c.block_size : Int) - 1, i := 0, mode := Mode.m_split_fs })
    else
      pure (Status.M_CONTINUE,
        { strm with n := (c.block_size : Int), i := 0, mode := Mode.m_split_fs })

/-- The value `INT_MIN`. -/
def INT_MIN : Int := -(2 ^ 31)

/-- The loop of `m_zero_output` and the statements after it. -/
def m_zero_output_loop (c : Config) : Nat → aec_stream → Res (Status × aec_stream)
  | 0, _ => Except.error Fault.out_of_steps
  | fuel + 1, strm =>
    if strm.avail_out = 0 then pure (Status.M_EXIT, strm)
    else do
      let s1 ← put_sample c strm 0
      if s1.i = INT_MIN then Except.error Fault.int_overflow
      else
        let s2 : aec_stream := { s1 with i := s1.i - 1 }
        if s2.i ≠ 0 then m_zero_output_loop c fuel s2
        else pure (Status.M_CONTINUE, { s2 with mode := Mode.m_id })

/-- The function `m_zero_output`. -/
def m_zero_output (c : Config) (strm : aec_stream) : Res (Status × aec_stream) :=
  m_zero_output_loop c ((strm.i - INT_MIN).toNat + 1) strm

/-- The constant `ROS`. -/
def ROS : Nat := 5

/-- The store `memset(rsip, 0, cnt * sizeof(uint32_t))`. -/
def memset_zero (buf : Nat → Nat) (rsip cnt : Nat) : Nat → Nat :=
  fun j => if rsip ≤ j ∧ j < rsip + cnt then 0 else buf j

/-- The number `i` of zero samples `m_zero_block` computes from the fundamental sequence
`fs`: `zero_blocks * block_size`, less the reference sample.  The product is taken in
`unsigned int` and stored in the `int i`. -/
def zero_samples (c : Config) (fs rsip ref : Nat) : Int :=
  let zero_blocks0 := fs + 1
  let zero_blocks :=
    if zero_blocks0 = ROS then
      let b := rsip / c.block_size
      min ((c.rsi + (W32 - b % W32)) % W32) (64 - b % 64)
    else if zero_blocks0 > ROS then zero_blocks0 - 1
    else zero_blocks0
  if ref ≠ 0 then to_int (zero_blocks * c.block_size + (W32 - 1))
  else to_int (zero_blocks * c.block_size)

/-- The function `m_zero_block`. -/
def m_zero_block (c : Config) (strm : aec_stream) : Res (Status × aec_stream) :=
  let r := fs_ask strm
  if r.1 = false then pure (Status.M_EXIT, r.2)
  else
    let i : Int := zero_samples c r.2.fs r.2.rsip r.2.ref
    let s1 := fs_drop r.2
    let zero_bytes : Int := i * c.bytes_per_sample
    if zero_bytes < INT_MIN ∨ -INT_MIN ≤ zero_bytes then Except.error Fault.int_overflow
    else if to_size_t zero_bytes ≤ s1.avail_out then
      if sub_size_t c.rsi_size s1.rsip < to_size_t i then pure (Status.M_ERROR, s1)
      else if c.rsi_size < s1.rsip + i.toNat then Except.error Fault.rsi_overflow
      else
        let s2 : aec_stream :=
          { s1 with
            rsi_buffer := memset_zero s1.rsi_buffer s1.rsip i.toNat
            rsip := s1.rsip + i.toNat
            avail_out := sub_size_t s1.avail_out (to_size_t zero_bytes) }
        pure (Status.M_CONTINUE, { check_rsi_end c s2 with mode := Mode.m_id })
    else
      pure (Status.M_CONTINUE, { s1 with i := i, mode := Mode.m_zero_output })

/-- The two reads `se_table[2 * m + 1]` and `se_table[2 * m]`. -/
def se_lookup (c : Config) (m : Nat) : Res (Int × Int) :=
  match c.se_table[2 * m + 1]?, c.se_table[2 * m]? with
  | some t1, some t0 => pure (t1, t0)
  | _, _ => Except.error Fault.se_table_index

/-- The statements `put_sample(strm, state->se_table[2 * m] - d1); state->i++` of
`m_se_decode`. -/
def m_se_first (c : Config) (strm : aec_stream) (w : Nat) : Res aec_stream := do
  let s1 ← put_sample c strm w
  pure { s1 with i := s1.i + 1 }

/-- The loop of `m_se_decode` and the statements after it. -/
def m_se_decode_loop (c : Config) : Nat → aec_stream → Res (Status × aec_stream)
  | 0, _ => Except.error Fault.out_of_steps
  | fuel + 1, strm =>
    if strm.i < c.block_size then
      let r := fs_ask strm
      if r.1 = false then pure (Status.M_EXIT, r.2)
      else do
        let m := r.2.fs
        let t ← se_lookup c m
        let d1 : Int := (m : Int) - t.1
        if r.2.i % 2 = 0 ∧ r.2.avail_out = 0 then pure (Status.M_EXIT, r.2)
        else
          (if r.2.i % 2 = 0 then m_se_first c r.2 (to_u32 (t.2 - d1)) else pure r.2) >>= fun s2 =>
            if s2.avail_out = 0 then pure (Status.M_EXIT, s2)
            else do
              let s3 ← put_sample c s2 (to_u32 d1)
              m_se_decode_loop c fuel (fs_drop { s3 with i := s3.i + 1 })
    else pure (Status.M_CONTINUE, { strm with mode := Mode.m_id })

/-- The function `m_se_decode`. -/
def m_se_decode (c : Config) (strm : aec_stream) : Res (Status × aec_stream) :=
  m_se_decode_loop c (((c.block_size : Int) - strm.i).toNat + 1) strm

/-- The loop of the fast path of `m_se`; `i` is the local counter. -/
def m_se_direct (clz : Bool) (c : Config) : Nat → Nat → aec_stream → Res aec_stream
  | 0, _, _ => Except.error Fault.out_of_steps
  | fuel + 1, i, strm =>
    if i < c.block_size then do
      let r ← direct_get_fs clz strm
      let t ← se_lookup c r.1
      let d1 : Int := (r.1 : Int) - t.1
      let i2 := if i % 2 = 0 then i + 1 else i
      (if i % 2 = 0 then put_sample c r.2 (to_u32 (t.2 - d1)) else pure r.2) >>= fun s2 => do
        let s3 ← put_sample c s2 (to_u32 d1)
        m_se_direct clz c fuel (i2 + 1) s3
    else pure strm

/-- The function `m_se`. -/
def m_se (clz : Bool) (c : Config) (strm : aec_stream) : Res (Status × aec_stream) :=
  if BUFFERSPACE c strm then do
    let s1 ← m_se_direct clz c (c.block_size - strm.ref + 1) strm.ref strm
    pure (Status.M_CONTINUE, { s1 with mode := Mode.m_id })
  else
    pure (Status.M_CONTINUE, { strm with mode := Mode.m_se_decode, i := (strm.ref : Int) })

/-- The function `m_low_entropy_ref`. -/
def m_low_entropy_ref (c : Config) (strm : aec_stream) : Res (Status × aec_stream) :=
  (if strm.ref ≠ 0 then copysample c strm else pure (true, strm)) >>= fun r =>
    if r.1 = false then pure (Status.M_EXIT, r.2)
    else if r.2.id = 1 then pure (Status.M_CONTINUE, { r.2 with mode := Mode.m_se })
    else pure (Status.M_CONTINUE, { r.2 with mode := Mode.m_zero_block })

/-- The function `m_low_entropy`. -/
def m_low_entropy (strm : aec_stream) : Res (Status × aec_stream) :=
  let r := bits_ask strm 1
  if r.1 = false then pure (Status.M_EXIT, r.2)
  else
    pure (Status.M_CONTINUE,
      { bits_drop r.2 1 with id := bits_get r.2 1, mode := Mode.m_low_entropy_ref })

/-- The loop of `m_uncomp_copy` and the statements after it. -/
def m_uncomp_copy_loop (c : Config) : Nat → aec_stream → Res (Status × aec_stream)
  | 0, _ => Except.error Fault.out_of_steps
  | fuel + 1, strm => do
    let r ← copysample c strm
    if r.1 = false then pure (Status.M_EXIT, r.2)
    else if r.2.i = INT_MIN then Except.error Fault.int_overflow
    else
      let s1 : aec_stream := { r.2 with i := r.2.i - 1 }
      if s1.i ≠ 0 then m_uncomp_copy_loop c fuel s1
      else pure (Status.M_CONTINUE, { s1 with mode := Mode.m_id })

/-- The function `m_uncomp_copy`. -/
def m_uncomp_copy (c : Config) (strm : aec_stream) : Res (Status × aec_stream) :=
  m_uncomp_copy_loop c ((strm.i - INT_MIN).toNat + 1) strm

/-- The loop of the fast path of `m_uncomp`: `*rsip++ = direct_get(strm, bits_per_sample)`. -/
def m_uncomp_direct (c : Config) : Nat → aec_stream → Res aec_stream
  | 0, strm => pure strm
  | cnt + 1, strm => do
    let r ← direct_get strm c.bits_per_sample
    let s1 ← rsi_store c r.2 r.2.rsip r.1
    m_uncomp_direct c cnt { s1 with rsip := s1.rsip + 1 }

/-- The function `m_uncomp`. -/
def m_uncomp (c : Config) (strm : aec_stream) : Res (Status × aec_stream) :=
  if BUFFERSPACE c strm then do
    let s1 ← m_uncomp_direct c c.block_size strm
    let s2 : aec_stream := { s1 with avail_out := sub_size_t s1.avail_out c.out_blklen }
    pure (Status.M_CONTINUE, { check_rsi_end c s2 with mode := Mode.m_id })
  else
    pure (Status.M_CONTINUE,
      { strm with i := (c.block_size : Int), mode := Mode.m_uncomp_copy })

/-! ## The driver -/

/-- The call `state->mode(strm)`. -/
def call_mode (clz : Bool) (c : Config) (strm : aec_stream) : Res (Status × aec_stream) :=
  match strm.mode with
  | .m_id => m_id c strm
  | .m_split => m_split clz c strm
  | .m_split_fs => m_split_fs c strm
  | .m_split_output => m_split_output c strm
  | .m_zero_block => m_zero_block c strm
  | .m_zero_output => m_zero_output c strm
  | .m_se => m_se clz c strm
  | .m_se_decode => m_se_decode c strm
  | .m_low_entropy => m_low_entropy strm
  | .m_low_entropy_ref => m_low_entropy_ref c strm
  | .m_uncomp => m_uncomp c strm
  | .m_uncomp_copy => m_uncomp_copy c strm

/-- The loop `do status = state->mode(strm); while (status == M_CONTINUE)`, at most
`fuel` calls. -/
def run_modes (clz : Bool) (c : Config) : Nat → aec_stream → Res (Status × aec_stream)
  | 0, _ => Except.error Fault.out_of_steps
  | fuel + 1, strm => do
    let r ← call_mode clz c strm
    if r.1 = Status.M_CONTINUE then run_modes clz c fuel r.2 else pure r

/-- A bound on the number of handler calls of one `aec_decode`: every block takes at least
one input bit and at most five calls. -/
def decode_fuel (strm : aec_stream) : Nat :=
  6 * (strm.bitp + 8 * strm.next_in.length) + 8

/-- The function `aec_decode`; its argument `flush` is not used by the code. -/
def aec_decode (clz : Bool) (c : Config) (strm : aec_stream) : Res (Ret × aec_stream) := do
  let s0 : aec_stream :=
    { strm with
      total_in := (strm.total_in + strm.avail_in) % W64
      total_out := (strm.total_out + strm.avail_out) % W64 }
  let r ← run_modes clz c (decode_fuel s0) s0
  if r.1 = Status.M_ERROR then pure (Ret.AEC_DATA_ERROR, r.2)
  else
    let s2 := flush c r.2
    pure (Ret.AEC_OK,
      { s2 with
        total_in := sub_size_t s2.total_in s2.avail_in
        total_out := sub_size_t s2.total_out s2.avail_out })

/-- A caller that hands the input over in chunks: before each call the chunk is appended to
the input not yet taken; it stops at the first call that does not return `AEC_OK`. -/
def decode_chunks (clz : Bool) (c : Config) : aec_stream → List (List Byte) →
    Res (Ret × aec_stream)
  | strm, [] => pure (Ret.AEC_OK, strm)
  | strm, chunk :: rest => do
    let r ← aec_decode clz c { strm with next_in := strm.next_in ++ chunk }
    if r.1 = Ret.AEC_OK then decode_chunks clz c r.2 rest else pure r

/-! ## Objects used to state the theorems -/

/-- A stream structure before `aec_decode_init`: no input, no output space, zeroed memory. -/
def blank_stream : aec_stream :=
  { next_in := [], total_in := 0, next_out := [], avail_out := 0, total_out := 0
    mode := Mode.m_id, id := 0, last_out := 0, n := 0, i := 0, acc := 0, bitp := 0, fs := 0
    ref := 0, rsi_buffer := fun _ => 0, rsip := 0, flush_start := 0 }

/-- No option bit set. -/
def no_flags : Flags :=
  { DATA_SIGNED := false, DATA_3BYTE := false, DATA_MSB := false, DATA_PREPROCESS := false
    RESTRICTED := false, PAD_RSI := false }

/-- The configuration `aec_decode_init` derives; a configuration it rejects gives the
dummy with all fields zero. -/
def config_of (bits_per_sample block_size rsi : Nat) (flags : Flags) : Config :=
  match (init_config bits_per_sample block_size rsi flags).2 with
  | some c => c
  | none =>
    { bits_per_sample := 0, block_size := 0, rsi := 0, flags := no_flags, id_len := 0
      id_table := [], flush_output := FlushKind.flush_8, xmin := 0, xmax := 0, in_blklen := 0
      out_blklen := 0, pp := false, bytes_per_sample := 0, rsi_size := 0, se_table := [] }

/-- What `aec_decode_init` establishes about an accepted configuration. -/
structure Accepted (c : Config) : Prop where
  bps_pos : 1 ≤ c.bits_per_sample
  bps_le : c.bits_per_sample ≤ 32
  id_len_eq : c.id_len =
    if 16 < c.bits_per_sample then 5
    else if 8 < c.bits_per_sample then 4
    else if c.flags.RESTRICTED then (if c.bits_per_sample ≤ 2 then 1 else 2)
    else 3
  restricted : c.flags.RESTRICTED = true → 8 < c.bits_per_sample ∨ c.bits_per_sample ≤ 4
  bytes_eq : c.bytes_per_sample =
    if 16 < c.bits_per_sample then
      (if c.bits_per_sample ≤ 24 ∧ c.flags.DATA_3BYTE = true then 3 else 4)
    else if 8 < c.bits_per_sample then 2
    else 1
  flush_eq : c.flush_output =
    if 16 < c.bits_per_sample then
      (if c.bits_per_sample ≤ 24 ∧ c.flags.DATA_3BYTE = true then
        (if c.flags.DATA_MSB then FlushKind.flush_msb_24 else FlushKind.flush_lsb_24)
      else (if c.flags.DATA_MSB then FlushKind.flush_msb_32 else FlushKind.flush_lsb_32))
    else if 8 < c.bits_per_sample then
      (if c.flags.DATA_MSB then FlushKind.flush_msb_16 else FlushKind.flush_lsb_16)
    else FlushKind.flush_8
  id_table_eq : c.id_table = make_id_table (1 <<< c.id_len)
  xmin_eq : c.xmin =
    if c.flags.DATA_SIGNED then -((2 ^ (c.bits_per_sample - 1) : Nat) : Int) else 0
  xmax_eq : c.xmax =
    if c.flags.DATA_SIGNED then ((2 ^ (c.bits_per_sample - 1) : Nat) : Int) - 1
    else ((2 ^ c.bits_per_sample : Nat) : Int) - 1
  in_blklen_eq : c.in_blklen = (c.block_size * c.bits_per_sample + c.id_len) / 8 + 9
  out_blklen_eq : c.out_blklen = c.block_size * c.bytes_per_sample
  pp_eq : c.pp = c.flags.DATA_PREPROCESS
  rsi_size_eq : c.rsi_size = c.rsi * c.block_size
  se_table_eq : c.se_table = create_se_table (List.replicate 182 0)

/-! ## The preprocessor of the encoder, as the CCSDS recommendation words it -/

/-- The mapped prediction residual of the sample `x` against the prediction `p`:
`theta = min (p - xmin) (xmax - p)`, `delta = x - p`, and `2 * delta` if
`0 ≤ delta ≤ theta`, `2 * |delta| - 1` if `-theta ≤ delta < 0`, `theta + |delta|` otherwise. -/
def ccsds_map (xmin xmax p x : Int) : Int :=
  let theta := min (p - xmin) (xmax - p)
  let delta := x - p
  if 0 ≤ delta ∧ delta ≤ theta then 2 * delta
  else if -theta ≤ delta ∧ delta < 0 then 2 * |delta| - 1
  else theta + |delta|

/-- The residual words of a sample sequence; the first prediction is `p`, every later one
the sample before. -/
def ccsds_map_seq (xmin xmax : Int) : Int → List Int → List Nat
  | _, [] => []
  | p, x :: xs => (ccsds_map xmin xmax p x).toNat :: ccsds_map_seq xmin xmax x xs

/-- A stream whose RSI buffer holds the words `ws` from its start, all of them unflushed. -/
def stream_with_words (ws : List Nat) : aec_stream :=
  { blank_stream with rsi_buffer := fun j => ws.getD j 0, rsip := ws.length }

/-! ## The logical decoder

The decoder seen on the unread bit stream and the decoded samples, without the accumulator and
without the split of the samples between RSI buffer and output.  The theorems on suspension
relate the handlers above to it. -/

/-- The bits of one byte, most significant first. -/
def byte_bits (b : Byte) : List Bool := (List.range 8).reverse.map (fun j => b.val.testBit j)

/-- The bits of a byte sequence in stream order. -/
def bytes_bits (l : List Byte) : List Bool := (l.map byte_bits).flatten

/-- The `bitp` unread bits of the accumulator, next bit first. -/
def acc_bits (acc bitp : Nat) : List Bool := (List.range bitp).reverse.map (fun j => acc.testBit j)

/-- The bit stream a decoder state has not read yet. -/
def lbits (strm : aec_stream) : List Bool := acc_bits strm.acc strm.bitp ++ bytes_bits strm.next_in

/-- The number a bit sequence spells, most significant bit first. -/
def bits_val (l : List Bool) : Nat := l.foldl (fun v b => 2 * v + b.toNat) 0

/-- Scan of a fundamental sequence on the unread bits: zero bits are counted into `fs` as
long as another bit follows; it stops in front of the first one bit. -/
def L_fs_scan : List Bool → Nat → Bool × List Bool × Nat
  | [], fs => (false, [], fs)
  | true :: rest, fs => (true, true :: rest, fs)
  | [false], fs => (false, [false], fs)
  | false :: b :: rest, fs => L_fs_scan (b :: rest) (fs + 1)

/-- The logical state of the decoder: what a decoder state means for the rest of the
decoding, whatever the split of the unread bits between accumulator and input and of the
decoded samples between RSI buffer and output. -/
@[ext] structure LState where
  bits : List Bool
  avail_out : Nat
  mode : Mode
  id : Nat
  n : Int
  i : Int
  fs : Nat
  ref : Nat
  rsi_buffer : Nat → Nat
  rsip : Nat
  vout : List Nat
  vlast : Int

/-- Modes in which `state->i` is read before it is written. -/
def i_live : Mode → Bool
  | .m_split_fs | .m_split_output | .m_zero_output | .m_se_decode | .m_uncomp_copy => true
  | _ => false

/-- Modes in which `state->n` is read before it is written. -/
def n_live : Mode → Bool
  | .m_split_fs | .m_split_output => true
  | _ => false

/-- Scratch counters that will be overwritten before they are read are set to zero. -/
def Lnorm (L : LState) : LState :=
  { L with n := if n_live L.mode then L.n else 0, i := if i_live L.mode then L.i else 0 }

/-- Output bytes of a list of sample values. -/
def out_bytes (c : Config) (vs : List Int) : List Nat :=
  (vs.map (fun v => put c.flush_output (to_u32 v))).flatten

/-- The sample value `flush` gives the word `w` stored at offset `idx` of the RSI buffer when
the sample before it is `vlast`. -/
def emit1 (c : Config) (idx : Nat) (vlast : Int) (w : Nat) : Int :=
  if c.pp then
    if idx = 0 then
      (if c.flags.DATA_SIGNED then sign_extend c.bits_per_sample w else (w : Int))
    else flush_step (flush_med c) c.xmin c.xmax vlast w
  else (w : Int)

/-- The sample values `flush` gives the words `ws` stored from offset `idx` on, and the value
of `last_out` after them. -/
def emit_words (c : Config) : Nat → Int → List Nat → List Int × Int
  | _, vlast, [] => ([], vlast)
  | idx, vlast, w :: ws =>
    let v := emit1 c idx vlast w
    let r := emit_words c (idx + 1) (if c.pp then v else vlast) ws
    (v :: r.1, r.2)

/-- The logical state of a decoder state, scratch counters as they are. -/
def αr (c : Config) (s : aec_stream) : LState :=
  { bits := lbits s
    avail_out := s.avail_out
    mode := s.mode
    id := s.id
    n := s.n
    i := s.i
    fs := s.fs
    ref := s.ref
    rsi_buffer := s.rsi_buffer
    rsip := s.rsip
    vout := s.next_out ++ out_bytes c (flush_samples c s).1
    vlast := (flush_samples c s).2 }

/-- The logical state of a decoder state. -/
def α (c : Config) (s : aec_stream) : LState := Lnorm (αr c s)

/-- The samples at `rsip .. rsip + cnt` become output. -/
def L_commit (c : Config) (L : LState) (cnt : Nat) : LState :=
  let r := emit_words c L.rsip L.vlast ((List.range' L.rsip cnt).map L.rsi_buffer)
  { L with vout := L.vout ++ out_bytes c r.1, vlast := r.2, rsip := L.rsip + cnt }

/-- Logical `check_rsi_end`. -/
def L_check_rsi_end (c : Config) (L : LState) : LState :=
  if L.rsip = c.rsi_size then { L with rsip := 0 } else L

/-- Logical `put_sample`. -/
def L_put_sample (c : Config) (L : LState) (w : Nat) : LState :=
  let L1 := L_commit c { L with rsi_buffer := upd L.rsi_buffer L.rsip w } 1
  L_check_rsi_end c { L1 with avail_out := sub_size_t L1.avail_out c.bytes_per_sample }

/-- Logical `bits_ask`. -/
def L_ask (L : LState) (n : Nat) : Bool := decide (n ≤ L.bits.length)

/-- Logical `bits_get`. -/
def L_get (L : LState) (n : Nat) : Nat := bits_val (L.bits.take n)

/-- Logical `bits_drop`. -/
def L_drop (L : LState) (n : Nat) : LState := { L with bits := L.bits.drop n }

/-- Logical `fs_ask`. -/
def L_fs_ask (L : LState) : Bool × LState :=
  ((L_fs_scan L.bits L.fs).1,
    { L with bits := (L_fs_scan L.bits L.fs).2.1, fs := (L_fs_scan L.bits L.fs).2.2 })

/-- Logical `fs_drop`. -/
def L_fs_drop (L : LState) : LState := { L with fs := 0, bits := L.bits.drop 1 }

/-- Logical `copysample`. -/
def L_copysample (c : Config) (L : LState) : Bool × LState :=
  if L_ask L c.bits_per_sample = false ∨ L.avail_out = 0 then (false, L)
  else (true, L_drop (L_put_sample c L (L_get L c.bits_per_sample)) c.bits_per_sample)

/-- Logical `m_id_ref`. -/
def L_id_ref (c : Config) (L : LState) : LState :=
  if c.pp ∧ L.rsip = 0 then
    { L with
      ref := 1
      bits := if c.flags.PAD_RSI then L.bits.drop (L.bits.length % 8) else L.bits }
  else { L with ref := 0 }

/-- One step of the logical decoder: one call of a handler on its checked path, cut after one
pass of its loop. -/
def Lstep (c : Config) (L : LState) : Option (Status × LState) :=
  match L.mode with
  | .m_id =>
    if L_ask (L_id_ref c L) c.id_len = false then some (Status.M_EXIT, L_id_ref c L)
    else
      match c.id_table[L_get (L_id_ref c L) c.id_len]? with
      | none => none
      | some mode =>
        some (Status.M_CONTINUE,
          Lnorm { L_drop (L_id_ref c L) c.id_len with
            id := L_get (L_id_ref c L) c.id_len, mode := mode })
  | .m_low_entropy =>
    if L_ask L 1 = false then some (Status.M_EXIT, L)
    else
      some (Status.M_CONTINUE,
        Lnorm { L_drop L 1 with id := L_get L 1, mode := Mode.m_low_entropy_ref })
  | .m_low_entropy_ref =>
    let r : Bool × LState := if L.ref ≠ 0 then L_copysample c L else (true, L)
    if r.1 = false then some (Status.M_EXIT, r.2)
    else if r.2.id = 1 then some (Status.M_CONTINUE, Lnorm { r.2 with mode := Mode.m_se })
    else some (Status.M_CONTINUE, Lnorm { r.2 with mode := Mode.m_zero_block })
  | .m_split =>
    if L.ref ≠ 0 then
      let r := L_copysample c L
      if r.1 = false then some (Status.M_EXIT, r.2)
      else
        some (Status.M_CONTINUE,
          Lnorm { r.2 with n := (c.block_size : Int) - 1, i := 0, mode := Mode.m_split_fs })
    else
      some (Status.M_CONTINUE,
        Lnorm { L with n := (c.block_size : Int), i := 0, mode := Mode.m_split_fs })
  | .m_split_fs =>
    let r := L_fs_ask L
    if r.1 = false then some (Status.M_EXIT, r.2)
    else
      let L1 : LState :=
        { r.2 with
          rsi_buffer := upd r.2.rsi_buffer (r.2.rsip + r.2.i.toNat) ((r.2.fs <<< (L.id - 1)) % W32) }
      let L2 := L_fs_drop L1
      let L3 : LState := { L2 with i := L2.i + 1 }
      if L3.i < L3.n then some (Status.M_CONTINUE, L3)
      else some (Status.M_CONTINUE, Lnorm { L3 with i := 0, mode := Mode.m_split_output })
  | .m_split_output =>
    if L_ask L (L.id - 1) = false ∨ L.avail_out = 0 then some (Status.M_EXIT, L)
    else
      let L0 : LState :=
        { L with
          rsi_buffer := upd L.rsi_buffer L.rsip ((L.rsi_buffer L.rsip + L_get L (L.id - 1)) % W32) }
      let L1 := L_commit c L0 1
      let L2 : LState := { L1 with avail_out := sub_size_t L1.avail_out c.bytes_per_sample }
      let L3 := L_drop L2 (L.id - 1)
      let L4 : LState := { L3 with i := L3.i + 1 }
      if L4.i < L4.n then some (Status.M_CONTINUE, L4)
      else some (Status.M_CONTINUE, Lnorm { L_check_rsi_end c L4 with mode := Mode.m_id })
  | .m_zero_block =>
    let r := L_fs_ask L
    if r.1 = false then some (Status.M_EXIT, r.2)
    else
      let i : Int := zero_samples c r.2.fs r.2.rsip r.2.ref
      let L1 := L_fs_drop r.2
      let zero_bytes : Int := i * c.bytes_per_sample
      if to_size_t zero_bytes ≤ L1.avail_out then
        if sub_size_t c.rsi_size L1.rsip < to_size_t i then some (Status.M_ERROR, L1)
        else
          let L2 := L_commit c { L1 with rsi_buffer := memset_zero L1.rsi_buffer L1.rsip i.toNat }
            i.toNat
          let L3 : LState :=
            { L2 with avail_out := sub_size_t L1.avail_out (to_size_t zero_bytes) }
          some (Status.M_CONTINUE, Lnorm { L_check_rsi_end c L3 with mode := Mode.m_id })
      else
        some (Status.M_CONTINUE, Lnorm { L1 with i := i, mode := Mode.m_zero_output })
  | .m_zero_output =>
    if L.avail_out = 0 then some (Status.M_EXIT, L)
    else
      let L1 := L_put_sample c L 0
      let L2 : LState := { L1 with i := L1.i - 1 }
      if L2.i ≠ 0 then some (Status.M_CONTINUE, L2)
      else some (Status.M_CONTINUE, Lnorm { L2 with mode := Mode.m_id })
  | .m_se =>
    some (Status.M_CONTINUE, Lnorm { L with mode := Mode.m_se_decode, i := (L.ref : Int) })
  | .m_se_decode =>
    if L.i < c.block_size then
      let r := L_fs_ask L
      if r.1 = false then some (Status.M_EXIT, r.2)
      else
        match se_lookup c r.2.fs with
        | Except.error _ => none
        | Except.ok t =>
          let d1 : Int := (r.2.fs : Int) - t.1
          if r.2.i % 2 = 0 ∧ r.2.avail_out = 0 then some (Status.M_EXIT, r.2)
          else
            let L2 : LState :=
              if r.2.i % 2 = 0 then
                let L1 := L_put_sample c r.2 (to_u32 (t.2 - d1))
                { L1 with i := L1.i + 1 }
              else r.2
            if L2.avail_out = 0 then some (Status.M_EXIT, L2)
            else
              let L3 := L_put_sample c L2 (to_u32 d1)
              some (Status.M_CONTINUE, L_fs_drop { L3 with i := L3.i + 1 })
    else some (Status.M_CONTINUE, Lnorm { L with mode := Mode.m_id })
  | .m_uncomp =>
    some (Status.M_CONTINUE,
      Lnorm { L with i := (c.block_size : Int), mode := Mode.m_uncomp_copy })
  | .m_uncomp_copy =>
    let r := L_copysample c L
    if r.1 = false then some (Status.M_EXIT, r.2)
    else
      let L1 : LState := { r.2 with i := r.2.i - 1 }
      if L1.i ≠ 0 then some (Status.M_CONTINUE, L1)
      else some (Status.M_CONTINUE, Lnorm { L1 with mode := Mode.m_id })

/-- Some steps of the logical decoder, none of them a suspension. -/
inductive Lsteps (c : Config) : LState → LState → Prop where
  | refl (L : LState) : Lsteps c L L
  | step {L L1 L2 : LState} :
      Lstep c L = some (Status.M_CONTINUE, L1) → Lsteps c L1 L2 → Lsteps c L L2

/-- A run of the logical decoder up to the step that returns `M_EXIT` or `M_ERROR`. -/
inductive Lrun (c : Config) : LState → Status × LState → Prop where
  | stop {L L1 : LState} {st : Status} :
      Lstep c L = some (st, L1) → st ≠ Status.M_CONTINUE → Lrun c L (st, L1)
  | step {L L1 : LState} {r : Status × LState} :
      Lstep c L = some (Status.M_CONTINUE, L1) → Lrun c L1 r → Lrun c L r

/-- Modes in which `state->fs` may hold the count of a fundamental sequence still unread. -/
def fs_live : Mode → Bool
  | .m_split_fs | .m_zero_block | .m_se_decode => true
  | _ => false

/-- What holds of every decoder state between two handler calls. -/
structure Inv (s : aec_stream) : Prop where
  flush_le : s.flush_start ≤ s.rsip
  avail_lt : s.avail_out < W64
  bitp_le : s.bitp ≤ 63
  fs_zero : fs_live s.mode = false → s.fs = 0
  id_le : s.mode ≠ Mode.m_id → s.id ≤ 32

/-- A handler leaves the byte counters alone. -/
def SameTotals (s s' : aec_stream) : Prop :=
  s'.total_in = s.total_in ∧ s'.total_out = s.total_out

/-- A handler call is matched by steps of the logical decoder. -/
def Sim (c : Config) (s : aec_stream) (st : Status) (s' : aec_stream) : Prop :=
  Inv s' ∧ SameTotals s s' ∧
    ∃ Lm, Lsteps c (α c s) Lm ∧
      ((st = Status.M_CONTINUE ∧ Lm = α c s') ∨
        (st ≠ Status.M_CONTINUE ∧ Lstep c Lm = some (st, α c s')))

/-- The logical state `A` with the output space and the control fields replaced. -/
def tag (A : LState) (a : Nat) (m : Mode) (N x : Int) : LState :=
  Lnorm { A with avail_out := a, mode := m, n := N, i := x }

/-- What holds of every logical state the decoder reaches besides `Inv`. -/
structure LI (c : Config) (L : LState) : Prop where
  ref_le : L.mode ≠ Mode.m_id → L.ref ≤ 1
  se_fs : L.mode = Mode.m_se_decode → ¬ L.i < c.block_size → L.fs = 0
  se_odd : L.mode = Mode.m_se_decode → L.i % 2 = 1 → L.i < c.block_size

/-- More input: the bits `b` are appended to the unread bits. -/
def Lext (L : LState) (b : List Bool) : LState := { L with bits := L.bits ++ b }

/-- What more input does to one step of the logical decoder: a step that continues is the
same step, and after a suspension the step is the one the decoder would have made with the
input there from the start. -/
def ExtOK (c : Config) (b : List Bool) (L : LState) (st : Status) (L1 : LState) : Prop :=
  (st = Status.M_CONTINUE → Lstep c (Lext L b) = some (Status.M_CONTINUE, Lext L1 b)) ∧
  (st = Status.M_EXIT → Lstep c (Lext L1 b) = Lstep c (Lext L b))

/-- The decoder state of a result; the blank stream when the model faulted. -/
def result_stream (r : Res (Ret × aec_stream)) : aec_stream :=
  match r with
  | Except.ok p => p.2
  | Except.error _ => blank_stream

/-- A caller of `fs_ask` that, each time it fails for lack of input, appends the next chunk
to the input and calls it again; it stops at the first success. -/
def fs_ask_chunks : aec_stream → List (List Byte) → Bool × aec_stream
  | strm, [] => fs_ask strm
  | strm, chunk :: rest =>
    let r := fs_ask strm
    if r.1 = true then r
    else fs_ask_chunks { r.2 with next_in := r.2.next_in ++ chunk } rest

/-- The state `s'` differs from `s` at most in the bit reader (`next_in`, `acc`, `bitp`, `fs`):
same RSI buffer and cursors, same output and output space, same counters and mode. -/
def only_reader_moved (s s' : aec_stream) : Prop :=
  s'.rsip = s.rsip ∧ s'.avail_out = s.avail_out ∧ s'.rsi_buffer = s.rsi_buffer ∧
  s'.flush_start = s.flush_start ∧ s'.next_out = s.next_out ∧ s'.last_out = s.last_out ∧
  s'.i = s.i ∧ s'.n = s.n ∧ s'.mode = s.mode ∧ s'.id = s.id ∧ s'.ref = s.ref

/-- The flush function of the other byte order. -/
def mirror : FlushKind → FlushKind
  | .flush_msb_32 => .flush_lsb_32
  | .flush_msb_24 => .flush_lsb_24
  | .flush_msb_16 => .flush_lsb_16
  | .flush_lsb_32 => .flush_msb_32
  | .flush_lsb_24 => .flush_msb_24
  | .flush_lsb_16 => .flush_msb_16
  | .flush_8 => .flush_8

/-- The configuration with the flag `AEC_DATA_MSB` toggled. -/
def toggle_msb (c : Config) : Config :=
  { c with
    flags := { c.flags with DATA_MSB := !c.flags.DATA_MSB }
    flush_output := mirror c.flush_output }

/-- The byte groups of `r`, a byte sequence given last byte first, each of `B` bytes counted
from the front of `r`, put back in stream order with the bytes of every group reversed. -/
def swap_rev (B : Nat) : Nat → List Nat → List Nat
  | 0, _ => []
  | fuel + 1, r => if r = [] then [] else swap_rev B fuel (r.drop B) ++ r.take B

/-- The output `o` with the bytes of every sample in the other order; samples are groups of `B`
bytes counted from the end of `o`. -/
def swap_bytes (B : Nat) (o : List Nat) : List Nat := swap_rev B o.length o.reverse

/-- The decoder state with the output bytes of every sample in the other order. -/
def swap_out (B : Nat) (s : aec_stream) : aec_stream :=
  { s with next_out := swap_bytes B s.next_out }

/-- The map of a result over its state. -/
def on_state {α : Type} (f : aec_stream → aec_stream) (r : Res (α × aec_stream)) :
    Res (α × aec_stream) :=
  r.map (fun p => (p.1, f p.2))

/-- The option bits with only `AEC_DATA_PREPROCESS` set. -/
def pp_flags : Flags := { no_flags with DATA_PREPROCESS := true }

/-- The state in which `bits_ask(strm, n)` returns `b` and changes nothing: enough bits are
pending, or too few are and the input is used up. -/
def asked (s : aec_stream) (n : Nat) (b : Bool) : Prop :=
  (b = true ∧ n ≤ s.bitp) ∨ (b = false ∧ s.next_in = [] ∧ s.bitp < n)

/-- The state in which `fs_ask(strm)` returns `b` and changes nothing: the next pending bit is
the one that ends the fundamental sequence, or the input is used up and at most one bit, a
zero, is pending. -/
def fs_asked (s : aec_stream) (b : Bool) : Prop :=
  (b = true ∧ 1 ≤ s.bitp ∧ s.acc &&& (1 <<< (s.bitp - 1)) ≠ 0) ∨
  (b = false ∧ s.next_in = [] ∧
    (s.bitp = 0 ∨ (s.bitp = 1 ∧ s.acc &&& (1 <<< (s.bitp - 1)) = 0)))

/-- The state in which `copysample` returns 0 and changes nothing. -/
def copy_waiting (c : Config) (s : aec_stream) : Prop :=
  ∃ b, asked s c.bits_per_sample b ∧ (b = false ∨ s.avail_out = 0)

/-- The state in which the handler `state->mode` returns `M_EXIT` and changes nothing: its
next read finds too few bits and no input, or its next sample finds no output space. -/
def waiting (c : Config) (s : aec_stream) : Prop :=
  match s.mode with
  | .m_id =>
    (if c.pp = true ∧ s.rsip = 0 then
      s.ref = 1 ∧ (c.flags.PAD_RSI = true → s.bitp % 8 = 0)
    else s.ref = 0) ∧ asked s c.id_len false
  | .m_split =>
    ¬ (c.in_blklen ≤ s.avail_in ∧ c.out_blklen ≤ s.avail_out) ∧ s.ref ≠ 0 ∧ copy_waiting c s
  | .m_split_fs => fs_asked s false
  | .m_split_output => ∃ b, asked s (s.id - 1) b ∧ (b = false ∨ s.avail_out = 0)
  | .m_zero_block => fs_asked s false
  | .m_zero_output => s.avail_out = 0
  | .m_se => False
  | .m_se_decode =>
    s.i < c.block_size ∧
      (fs_asked s false ∨
        (fs_asked s true ∧ (∃ t, se_lookup c s.fs = Except.ok t) ∧ s.avail_out = 0))
  | .m_low_entropy => asked s 1 false
  | .m_low_entropy_ref => s.ref ≠ 0 ∧ copy_waiting c s
  | .m_uncomp => False
  | .m_uncomp_copy => copy_waiting c s

/-- The fields `bits_ask` and `fs_ask` leave alone. -/
def reader_frame (s s' : aec_stream) : Prop :=
  s'.total_in = s.total_in ∧ s'.next_out = s.next_out ∧ s'.avail_out = s.avail_out ∧
  s'.total_out = s.total_out ∧ s'.mode = s.mode ∧ s'.id = s.id ∧ s'.last_out = s.last_out ∧
  s'.n = s.n ∧ s'.i = s.i ∧ s'.ref = s.ref ∧ s'.rsi_buffer = s.rsi_buffer ∧
  s'.rsip = s.rsip ∧ s'.flush_start = s.flush_start ∧
  s'.next_in.length ≤ s.next_in.length

/-! # Theorems -/

/-! ## `aec_decode_init` -/

theorem init_config_ok_iff (bps bs rsi : Nat) (flags : Flags) :
    (init_config bps bs rsi flags).1 = Ret.AEC_OK ↔
      ¬ (bps = 0 ∨ 32 < bps ∨ (flags.RESTRICTED = true ∧ 4 < bps ∧ bps ≤ 8)) := by
  unfold init_config
  by_cases h0 : bps > 32 ∨ bps = 0
  · simp only [h0, if_true]
    constructor
    · intro h; cases h
    · intro h; exfalso; apply h; omega
  · simp only [h0, if_false]
    by_cases h16 : bps > 16
    · simp only [h16, if_true]
      split_ifs <;> simp <;> omega
    · simp only [h16, if_false]
      by_cases h8 : bps > 8
      · simp only [h8, if_true]
        simp; omega
      · simp only [h8, if_false]
        cases hr : flags.RESTRICTED
        · simp; omega
        · by_cases h4 : bps ≤ 4
          · simp only [h4, if_true]
            split_ifs <;> simp <;> omega
          · simp [h4]; omega

theorem init_config_ret (bps bs rsi : Nat) (flags : Flags) :
    ((init_config bps bs rsi flags).1 = Ret.AEC_OK ∧ (init_config bps bs rsi flags).2.isSome) ∨
    ((init_config bps bs rsi flags).1 = Ret.AEC_CONF_ERROR ∧
      (init_config bps bs rsi flags).2 = none) := by
  unfold init_config
  split_ifs <;> simp

/-- C5 (as stated, refuted): with `bits_per_sample = 16` and `RESTRICTED` set the claim
demands `AEC_CONF_ERROR`, and `aec_decode_init` returns `AEC_OK`. -/
theorem C5_counterexample :
    ¬ ((aec_decode_init 16 8 1 { no_flags with RESTRICTED := true } blank_stream).1
          = Ret.AEC_CONF_ERROR ↔
        (¬ (1 ≤ 16 ∧ 16 ≤ 32) ∨
          (({ no_flags with RESTRICTED := true } : Flags).RESTRICTED = true ∧ 4 < 16))) := by
  decide

/-- C5 (amended): `aec_decode_init` returns `AEC_CONF_ERROR` if and only if
`bits_per_sample` is outside 1..32 or `RESTRICTED` is set together with
`4 < bits_per_sample ≤ 8`; for every other configuration it returns `AEC_OK` (allocations
succeed).  `RESTRICTED` with more than 8 bits per sample is accepted. -/
theorem C5_init_conf_error_iff (bps bs rsi : Nat) (flags : Flags) (strm : aec_stream) :
    ((aec_decode_init bps bs rsi flags strm).1 = Ret.AEC_CONF_ERROR ↔
      (bps = 0 ∨ 32 < bps ∨ (flags.RESTRICTED = true ∧ 4 < bps ∧ bps ≤ 8))) ∧
    ((aec_decode_init bps bs rsi flags strm).1 ≠ Ret.AEC_CONF_ERROR →
      (aec_decode_init bps bs rsi flags strm).1 = Ret.AEC_OK ∧
      (aec_decode_init bps bs rsi flags strm).2.isSome) := by
  have h1 := init_config_ok_iff bps bs rsi flags
  have h2 := init_config_ret bps bs rsi flags
  have e1 : (aec_decode_init bps bs rsi flags strm).1 = (init_config bps bs rsi flags).1 := by
    unfold aec_decode_init
    rcases h : init_config bps bs rsi flags with ⟨r, _ | c⟩ <;> rfl
  have e2 : (aec_decode_init bps bs rsi flags strm).2.isSome
      = (init_config bps bs rsi flags).2.isSome := by
    unfold aec_decode_init
    rcases h : init_config bps bs rsi flags with ⟨r, _ | c⟩ <;> rfl
  rw [e1, e2]
  rcases h2 with ⟨ha, hb⟩ | ⟨ha, hb⟩
  · refine ⟨?_, fun _ => ⟨ha, hb⟩⟩
    constructor
    · intro h; rw [ha] at h; cases h
    · intro h; exact absurd ha (by rw [h1]; exact fun hn => hn h)
  · refine ⟨?_, fun h => absurd ha h⟩
    constructor
    · intro _
      by_contra hn
      have := h1.mpr hn
      rw [ha] at this; cases this
    · intro _; exact ha

theorem init_config_accepted {bps bs rsi : Nat} {flags : Flags} {c : Config}
    (h : (init_config bps bs rsi flags).2 = some c) :
    Accepted c ∧ c.bits_per_sample = bps ∧ c.block_size = bs ∧ c.rsi = rsi ∧
      c.flags = flags := by
  unfold init_config at h
  by_cases h0 : bps > 32 ∨ bps = 0
  · simp [h0] at h
  · simp only [h0, if_false] at h
    have hb1 : 1 ≤ bps := by omega
    have hb2 : bps ≤ 32 := by omega
    split at h
    · simp at h
    · rename_i il by_ fo hw
      simp only [Option.some.injEq] at h
      subst h
      refine ⟨?_, rfl, rfl, rfl, rfl⟩
      have hw' : (il, by_, fo) =
          (if 16 < bps then 5
            else if 8 < bps then 4
            else if flags.RESTRICTED then (if bps ≤ 2 then 1 else 2) else 3,
           if 16 < bps then (if bps ≤ 24 ∧ flags.DATA_3BYTE = true then 3 else 4)
            else if 8 < bps then 2 else 1,
           if 16 < bps then
              (if bps ≤ 24 ∧ flags.DATA_3BYTE = true then
                (if flags.DATA_MSB then FlushKind.flush_msb_24 else FlushKind.flush_lsb_24)
              else (if flags.DATA_MSB then FlushKind.flush_msb_32 else FlushKind.flush_lsb_32))
            else if 8 < bps then
              (if flags.DATA_MSB then FlushKind.flush_msb_16 else FlushKind.flush_lsb_16)
            else FlushKind.flush_8) ∧
          (flags.RESTRICTED = true → 8 < bps ∨ bps ≤ 4) := by
        have hres : flags.RESTRICTED = true → 8 < bps ∨ bps ≤ 4 := by
          intro hr
          by_contra hcon
          have a : ¬ bps > 16 := by omega
          have b : ¬ bps > 8 := by omega
          have d : ¬ bps ≤ 4 := by omega
          simp [a, b, hr, d] at hw
        refine ⟨?_, hres⟩
        rcases flags with ⟨sg, tb, msb, ppf, rs, pad⟩
        simp only at hw hres ⊢
        cases tb <;> cases msb <;> cases rs <;>
          simp only [Bool.false_eq_true, and_false, and_true, if_false, if_true] at hw ⊢ <;>
          split_ifs at hw <;>
          simp only [Option.some.injEq, Prod.mk.injEq, reduceCtorEq] at hw <;>
          obtain ⟨rfl, rfl, rfl⟩ := hw <;>
          (refine Prod.ext ?_ (Prod.ext ?_ ?_) <;> simp only <;> split_ifs <;>
            first | rfl | omega)
      obtain ⟨hw1, hres⟩ := hw'
      simp only [Prod.mk.injEq] at hw1
      obtain ⟨e1, e2, e3⟩ := hw1
      exact
        { bps_pos := hb1
          bps_le := hb2
          id_len_eq := e1
          restricted := hres
          bytes_eq := e2
          flush_eq := e3
          id_table_eq := rfl
          xmin_eq := by simp [Nat.shiftLeft_eq]
          xmax_eq := by simp [Nat.shiftLeft_eq]
          in_blklen_eq := rfl
          out_blklen_eq := rfl
          pp_eq := rfl
          rsi_size_eq := rfl
          se_table_eq := rfl }

theorem aec_decode_init_some {bps bs rsi : Nat} {flags : Flags} {strm : aec_stream}
    {r : Ret} {c : Config} {s : aec_stream}
    (h : aec_decode_init bps bs rsi flags strm = (r, some (c, s))) :
    (init_config bps bs rsi flags).2 = some c ∧ s = init_stream strm ∧ r = Ret.AEC_OK := by
  unfold aec_decode_init at h
  have h2 := init_config_ret bps bs rsi flags
  rcases hc : init_config bps bs rsi flags with ⟨r', _ | c'⟩
  · rw [hc] at h; simp at h
  · rw [hc] at h h2
    simp only [Prod.mk.injEq, Option.some.injEq] at h
    obtain ⟨rfl, rfl, rfl⟩ := h
    refine ⟨rfl, rfl, ?_⟩
    rcases h2 with ⟨ha, _⟩ | ⟨_, hb⟩
    · exact ha
    · simp at hb

theorem accepted_id_len_range {c : Config} (h : Accepted c) : 1 ≤ c.id_len ∧ c.id_len ≤ 5 := by
  rw [h.id_len_eq]
  split_ifs <;> omega

/-- C6: for every configuration accepted by `aec_decode_init` the derived `id_len` is 5 when
`bits_per_sample > 16`, 4 when `8 < bits_per_sample ≤ 16`, and for at most 8 bits it is 1 when
`RESTRICTED` and `bits_per_sample ≤ 2`, 2 when `RESTRICTED` and `3 ≤ bits_per_sample ≤ 4`,
3 when `RESTRICTED` is not set; it always lies in 1..5. -/
theorem C6_id_len (bps bs rsi : Nat) (flags : Flags) (strm : aec_stream) (c : Config)
    (s : aec_stream)
    (h : aec_decode_init bps bs rsi flags strm = (Ret.AEC_OK, some (c, s))) :
    (16 < bps → c.id_len = 5) ∧
    (8 < bps ∧ bps ≤ 16 → c.id_len = 4) ∧
    (bps ≤ 8 → flags.RESTRICTED = true → bps ≤ 2 → c.id_len = 1) ∧
    (bps ≤ 8 → flags.RESTRICTED = true → 3 ≤ bps ∧ bps ≤ 4 → c.id_len = 2) ∧
    (bps ≤ 8 → flags.RESTRICTED = false → c.id_len = 3) ∧
    (c.id_len = 1 ∨ c.id_len = 2 ∨ c.id_len = 3 ∨ c.id_len = 4 ∨ c.id_len = 5) := by
  obtain ⟨hc, -, -⟩ := aec_decode_init_some h
  obtain ⟨ha, rfl, -, -, rfl⟩ := init_config_accepted hc
  have hr := accepted_id_len_range ha
  have he := ha.id_len_eq
  refine ⟨?_, ?_, ?_, ?_, ?_, by omega⟩
  · intro h1; rw [he]; simp [h1]
  · intro h1; rw [he]
    have : ¬ 16 < c.bits_per_sample := by omega
    simp [this, h1.1]
  · intro h1 h2 h3; rw [he]
    have a : ¬ 16 < c.bits_per_sample := by omega
    have b : ¬ 8 < c.bits_per_sample := by omega
    simp [a, b, h2, h3]
  · intro h1 h2 h3; rw [he]
    have a : ¬ 16 < c.bits_per_sample := by omega
    have b : ¬ 8 < c.bits_per_sample := by omega
    have d : ¬ c.bits_per_sample ≤ 2 := by omega
    simp [a, b, h2, d]
  · intro h1 h2; rw [he]
    have a : ¬ 16 < c.bits_per_sample := by omega
    have b : ¬ 8 < c.bits_per_sample := by omega
    simp [a, b, h2]

/-- Witness of C6: 3 bits per sample with `RESTRICTED`. -/
theorem C6_id_len_witness :
    aec_decode_init 3 8 1 { no_flags with RESTRICTED := true } blank_stream =
      (Ret.AEC_OK, some (config_of 3 8 1 { no_flags with RESTRICTED := true },
        init_stream blank_stream)) ∧
    (config_of 3 8 1 { no_flags with RESTRICTED := true }).id_len = 2 :=
  ⟨rfl, (C6_id_len 3 8 1 { no_flags with RESTRICTED := true } blank_stream _ _ rfl).2.2.2.1
    (by decide) rfl (by decide)⟩

/-! ## The preprocessor inverse (`FLUSH`) -/

theorem flush_step_eq (med xmin xmax data : Int) (d : Nat) :
    flush_step med xmin xmax data d =
      if data < med then
        if ((d + 1) / 2 : Int) ≤ data - xmin then
          (if d % 2 = 1 then data - ((d + 1) / 2 : Int) else data + ((d + 1) / 2 : Int))
        else xmin + d
      else
        if ((d + 1) / 2 : Int) ≤ xmax - data then
          (if d % 2 = 1 then data - ((d + 1) / 2 : Int) else data + ((d + 1) / 2 : Int))
        else xmax - d := by
  unfold flush_step
  have h1 : (((d + 1) >>> 1 : Nat) : Int) = ((d + 1) / 2 : Int) := by
    rw [Nat.shiftRight_eq_div_pow]; norm_num
  have h2 : (d &&& 1 ≠ 0) ↔ d % 2 = 1 := by
    rw [Nat.and_one_is_mod]; omega
  simp only [h1, h2]

theorem accepted_range {c : Config} (h : Accepted c) :
    ∃ M : Nat, 1 ≤ M ∧ 2 ^ c.bits_per_sample = 2 * M ∧ M ≤ 2 ^ 31 ∧
      ((c.flags.DATA_SIGNED = true ∧ c.xmin = -(M : Int) ∧ c.xmax = (M : Int) - 1 ∧
          flush_med c = 0) ∨
       (c.flags.DATA_SIGNED = false ∧ c.xmin = 0 ∧ c.xmax = 2 * (M : Int) - 1 ∧
          flush_med c = (M : Int))) := by
  have hb := h.bps_pos
  have hb2 := h.bps_le
  have e2 : (2 : Nat) ^ c.bits_per_sample = 2 * 2 ^ (c.bits_per_sample - 1) := by
    conv_lhs => rw [show c.bits_per_sample = (c.bits_per_sample - 1) + 1 by omega]
    rw [pow_succ]; ring
  have hxmin := h.xmin_eq
  have hxmax := h.xmax_eq
  rw [e2] at hxmax
  have hle : 2 ^ (c.bits_per_sample - 1) ≤ 2 ^ 31 :=
    Nat.pow_le_pow_right (by norm_num) (by omega)
  have h1 : 1 ≤ 2 ^ (c.bits_per_sample - 1) := Nat.one_le_two_pow
  generalize 2 ^ (c.bits_per_sample - 1) = M at e2 hxmin hxmax hle h1
  refine ⟨M, h1, e2, hle, ?_⟩
  cases hs : c.flags.DATA_SIGNED
  · right
    rw [hs] at hxmin hxmax
    simp only [Bool.false_eq_true, if_false] at hxmin hxmax
    push_cast at hxmax
    refine ⟨rfl, hxmin, hxmax, ?_⟩
    unfold flush_med
    rw [hs, hxmin, hxmax]
    simp only [Bool.false_eq_true, if_false]
    omega
  · left
    rw [hs] at hxmin hxmax
    simp only [if_true] at hxmin hxmax
    refine ⟨rfl, hxmin, hxmax, ?_⟩
    unfold flush_med
    rw [hs]; rfl

theorem accepted_theta {c : Config} (h : Accepted c) (p : Int) :
    min (p - c.xmin) (c.xmax - p) =
      if p < flush_med c then p - c.xmin else c.xmax - p := by
  obtain ⟨M, hM1, -, -, hcase⟩ := accepted_range h
  rcases hcase with ⟨-, h1, h2, h3⟩ | ⟨-, h1, h2, h3⟩ <;>
  · rw [h1, h2]
    rw [h3]
    split_ifs with hlt
    · exact min_eq_left (by omega)
    · exact min_eq_right (by omega)

theorem ccsds_map_bounds {c : Config} {p x : Int}
    (hp : c.xmin ≤ p ∧ p ≤ c.xmax) (hx : c.xmin ≤ x ∧ x ≤ c.xmax) :
    0 ≤ ccsds_map c.xmin c.xmax p x ∧ ccsds_map c.xmin c.xmax p x ≤ c.xmax - c.xmin := by
  unfold ccsds_map
  simp only []
  rcases le_total 0 (x - p) with hd | hd
  · rw [abs_of_nonneg hd]
    rcases le_total (p - c.xmin) (c.xmax - p) with ht | ht
    · rw [min_eq_left ht]; split_ifs <;> omega
    · rw [min_eq_right ht]; split_ifs <;> omega
  · rw [abs_of_nonpos hd]
    rcases le_total (p - c.xmin) (c.xmax - p) with ht | ht
    · rw [min_eq_left ht]; split_ifs <;> omega
    · rw [min_eq_right ht]; split_ifs <;> omega

theorem unmap_arith (med xmin xmax p x D : Int) (hp : xmin ≤ p ∧ p ≤ xmax)
    (hx : xmin ≤ x ∧ x ≤ xmax)
    (hD : D = (if 0 ≤ x - p ∧ x - p ≤ (if p < med then p - xmin else xmax - p) then 2 * (x - p)
      else if -(if p < med then p - xmin else xmax - p) ≤ x - p ∧ x - p < 0 then
        2 * |x - p| - 1
      else (if p < med then p - xmin else xmax - p) + |x - p|)) :
    (if p < med then
        if (D + 1) / 2 ≤ p - xmin then
          (if D % 2 = 1 then p - (D + 1) / 2 else p + (D + 1) / 2)
        else xmin + D
      else
        if (D + 1) / 2 ≤ xmax - p then
          (if D % 2 = 1 then p - (D + 1) / 2 else p + (D + 1) / 2)
        else xmax - D) = x := by
  by_cases hlt : p < med
  · simp only [hlt, if_true] at hD ⊢
    rcases le_total 0 (x - p) with hd | hd
    · rw [abs_of_nonneg hd] at hD
      split_ifs at hD <;> subst hD <;> split_ifs <;> omega
    · rw [abs_of_nonpos hd] at hD
      split_ifs at hD <;> subst hD <;> split_ifs <;> omega
  · simp only [hlt, if_false] at hD ⊢
    rcases le_total 0 (x - p) with hd | hd
    · rw [abs_of_nonneg hd] at hD
      split_ifs at hD <;> subst hD <;> split_ifs <;> omega
    · rw [abs_of_nonpos hd] at hD
      split_ifs at hD <;> subst hD <;> split_ifs <;> omega

theorem flush_step_ccsds_map {c : Config} (h : Accepted c) {p x : Int}
    (hp : c.xmin ≤ p ∧ p ≤ c.xmax) (hx : c.xmin ≤ x ∧ x ≤ c.xmax) :
    flush_step (flush_med c) c.xmin c.xmax p (ccsds_map c.xmin c.xmax p x).toNat = x := by
  obtain ⟨hD0, -⟩ := @ccsds_map_bounds c p x hp hx
  rw [flush_step_eq]
  have hcast : (((ccsds_map c.xmin c.xmax p x).toNat : Nat) : Int)
      = ccsds_map c.xmin c.xmax p x := Int.toNat_of_nonneg hD0
  have hmod : ((ccsds_map c.xmin c.xmax p x).toNat % 2 = 1) ↔
      (ccsds_map c.xmin c.xmax p x % 2 = 1) := by omega
  simp only [hcast, hmod]
  apply unmap_arith (flush_med c) c.xmin c.xmax p x _ hp hx
  unfold ccsds_map
  simp only []
  rw [accepted_theta h p]

theorem flush_loop_ccsds_map_seq {c : Config} (h : Accepted c) :
    ∀ (S : List Int) (p : Int), (c.xmin ≤ p ∧ p ≤ c.xmax) →
      (∀ x ∈ S, c.xmin ≤ x ∧ x ≤ c.xmax) →
      flush_loop (flush_med c) c.xmin c.xmax p (ccsds_map_seq c.xmin c.xmax p S)
        = (S, S.getLastD p) := by
  intro S
  induction S with
  | nil => intro p _ _; rfl
  | cons x xs ih =>
    intro p hp hS
    have hx := hS x (List.mem_cons_self _ _)
    have hxs : ∀ y ∈ xs, c.xmin ≤ y ∧ y ≤ c.xmax :=
      fun y hy => hS y (List.mem_cons_of_mem _ hy)
    simp only [ccsds_map_seq, flush_loop]
    rw [flush_step_ccsds_map h hp hx, ih x hx hxs]
    cases xs <;> simp [List.getLastD]

/-- C2: round trip of the preprocessor stage.  For every accepted configuration (1..32 bits,
signed or unsigned), every prediction `p` and sample `x` in `[xmin, xmax]`, the CCSDS mapped
residual of `x` against `p` fits a 32-bit word and one pass of the flush loop started with
`data = p` turns it back into `x`; hence a residual sequence mapped from samples `S` is flushed
back to exactly `S`, also by `flush_##KIND` itself on an RSI buffer that holds it. -/
theorem C2_preprocessor_round_trip (bps bs rsi : Nat) (flags : Flags) (strm0 : aec_stream)
    (c : Config) (s0 : aec_stream)
    (h : aec_decode_init bps bs rsi flags strm0 = (Ret.AEC_OK, some (c, s0)))
    (p x : Int) (hp : c.xmin ≤ p ∧ p ≤ c.xmax) (hx : c.xmin ≤ x ∧ x ≤ c.xmax)
    (S : List Int) (hS : ∀ y ∈ S, c.xmin ≤ y ∧ y ≤ c.xmax) :
    flush_step (flush_med c) c.xmin c.xmax p (ccsds_map c.xmin c.xmax p x).toNat = x ∧
    (ccsds_map c.xmin c.xmax p x).toNat < 2 ^ 32 ∧
    flush_loop (flush_med c) c.xmin c.xmax p (ccsds_map_seq c.xmin c.xmax p S)
      = (S, S.getLastD p) ∧
    (∀ strm : aec_stream, c.pp = true → 0 < strm.flush_start → strm.last_out = p →
      rsi_words strm strm.flush_start strm.rsip = ccsds_map_seq c.xmin c.xmax p S →
      flush_samples c strm = (S, S.getLastD p) ∧ (flush c strm).last_out = S.getLastD p) := by
  obtain ⟨hc, -, -⟩ := aec_decode_init_some h
  obtain ⟨ha, -, -, -, -⟩ := init_config_accepted hc
  refine ⟨flush_step_ccsds_map ha hp hx, ?_, flush_loop_ccsds_map_seq ha S p hp hS, ?_⟩
  · obtain ⟨h0, h1⟩ := @ccsds_map_bounds c p x hp hx
    obtain ⟨M, hM1, -, hM2, hcase⟩ := accepted_range ha
    have hM : (M : Int) ≤ 2 ^ 31 := by exact_mod_cast hM2
    have hr : c.xmax - c.xmin < 2 ^ 32 := by
      rcases hcase with ⟨-, e1, e2, -⟩ | ⟨-, e1, e2, -⟩ <;>
      · rw [e1, e2]; omega
    omega
  · intro strm hpp hfs hlast hw
    have hsamp : flush_samples c strm = (S, S.getLastD p) := by
      unfold flush_samples
      have hne : ¬ (strm.flush_start = 0 ∧ 0 < strm.rsip) := by omega
      simp only [hpp, if_true, hne, decide_False, Bool.false_eq_true, if_false, hlast, hw]
      rw [flush_loop_ccsds_map_seq ha S p hp hS]
    refine ⟨hsamp, ?_⟩
    unfold flush
    simp only [hsamp]

/-- Witness of C2: 8 bits unsigned, prediction 10, sample 200, then the samples 3 and 250. -/
theorem C2_preprocessor_round_trip_witness :
    flush_step (flush_med (config_of 8 8 1 no_flags)) (config_of 8 8 1 no_flags).xmin
        (config_of 8 8 1 no_flags).xmax 10
        (ccsds_map (config_of 8 8 1 no_flags).xmin (config_of 8 8 1 no_flags).xmax 10 200).toNat
      = 200 ∧
    flush_loop (flush_med (config_of 8 8 1 no_flags)) (config_of 8 8 1 no_flags).xmin
        (config_of 8 8 1 no_flags).xmax 10
        (ccsds_map_seq (config_of 8 8 1 no_flags).xmin (config_of 8 8 1 no_flags).xmax 10
          [3, 250])
      = ([3, 250], 250) :=
  have h := C2_preprocessor_round_trip 8 8 1 no_flags blank_stream (config_of 8 8 1 no_flags)
    (init_stream blank_stream) rfl 10 200 (by decide) (by decide) [3, 250] (by decide)
  ⟨h.1, h.2.2.1⟩

/-! ### Bounds of the emitted samples -/

theorem xor_two_pow_of_lt (k v : Nat) (h : v < 2 ^ k) : v ^^^ 2 ^ k = v + 2 ^ k := by
  apply Nat.eq_of_testBit_eq
  intro j
  rw [Nat.testBit_xor, Nat.testBit_two_pow, Nat.add_comm]
  rcases Nat.lt_trichotomy j k with hj | hj | hj
  · rw [Nat.testBit_two_pow_add_gt hj]
    have : ¬ k = j := by omega
    simp [this]
  · subst hj
    rw [Nat.testBit_two_pow_add_eq]
    simp [Nat.testBit_lt_two_pow h]
  · have h1 : v.testBit j = false :=
      Nat.testBit_lt_two_pow (lt_of_lt_of_le h (Nat.pow_le_pow_right (by norm_num) hj.le))
    have h2 : (2 ^ k + v).testBit j = false := by
      apply Nat.testBit_lt_two_pow
      calc 2 ^ k + v < 2 ^ k + 2 ^ k := by omega
        _ = 2 ^ (k + 1) := by ring
        _ ≤ 2 ^ j := Nat.pow_le_pow_right (by norm_num) hj
    have : ¬ k = j := by omega
    simp [h1, h2, this]

theorem xor_two_pow_of_ge_lt (k v : Nat) (h1 : 2 ^ k ≤ v) (h2 : v < 2 ^ (k + 1)) :
    v ^^^ 2 ^ k = v - 2 ^ k := by
  have hw : v - 2 ^ k < 2 ^ k := by rw [pow_succ] at h2; omega
  have e := xor_two_pow_of_lt k (v - 2 ^ k) hw
  have e2 : v - 2 ^ k + 2 ^ k = v := by omega
  rw [e2] at e
  calc v ^^^ 2 ^ k = ((v - 2 ^ k) ^^^ 2 ^ k) ^^^ 2 ^ k := by rw [e]
    _ = v - 2 ^ k := by rw [Nat.xor_assoc, Nat.xor_self, Nat.xor_zero]

theorem sign_extend_eq (bps v : Nat) (hb : 1 ≤ bps) (hv : v < 2 ^ bps) :
    sign_extend bps v = if v < 2 ^ (bps - 1) then (v : Int) else (v : Int) - 2 ^ bps := by
  unfold sign_extend
  simp only [Nat.one_shiftLeft]
  have e2 : (2 : Nat) ^ bps = 2 * 2 ^ (bps - 1) := by
    conv_lhs => rw [show bps = (bps - 1) + 1 by omega]
    rw [pow_succ]; ring
  have e3 : (2 : Int) ^ bps = 2 * ((2 ^ (bps - 1) : Nat) : Int) := by
    have : ((2 ^ bps : Nat) : Int) = ((2 * 2 ^ (bps - 1) : Nat) : Int) := by rw [e2]
    push_cast at this ⊢
    exact this
  split_ifs with hlt
  · rw [xor_two_pow_of_lt _ _ hlt]; push_cast; ring
  · have hge : 2 ^ (bps - 1) ≤ v := by omega
    have hlt2 : v < 2 ^ ((bps - 1) + 1) := by
      rw [show (bps - 1) + 1 = bps by omega]; exact hv
    rw [xor_two_pow_of_ge_lt _ _ hge hlt2, e3]
    rw [Nat.cast_sub hge]; ring

theorem flush_step_bounds {c : Config} (h : Accepted c) {data : Int} {d : Nat}
    (hdata : c.xmin ≤ data ∧ data ≤ c.xmax) (hd : (d : Int) ≤ c.xmax - c.xmin) :
    c.xmin ≤ flush_step (flush_med c) c.xmin c.xmax data d ∧
      flush_step (flush_med c) c.xmin c.xmax data d ≤ c.xmax := by
  obtain ⟨M, hM1, -, -, hcase⟩ := accepted_range h
  rw [flush_step_eq]
  rcases hcase with ⟨-, h1, h2, h3⟩ | ⟨-, h1, h2, h3⟩ <;>
  · rw [h1, h2] at hdata hd ⊢
    rw [h3]
    split_ifs <;> omega

theorem flush_loop_bounds {c : Config} (h : Accepted c) :
    ∀ (ds : List Nat) (data : Int), (c.xmin ≤ data ∧ data ≤ c.xmax) →
      (∀ d ∈ ds, (d : Int) ≤ c.xmax - c.xmin) →
      (∀ v ∈ (flush_loop (flush_med c) c.xmin c.xmax data ds).1, c.xmin ≤ v ∧ v ≤ c.xmax) ∧
      c.xmin ≤ (flush_loop (flush_med c) c.xmin c.xmax data ds).2 ∧
      (flush_loop (flush_med c) c.xmin c.xmax data ds).2 ≤ c.xmax := by
  intro ds
  induction ds with
  | nil => intro data hdata _; simpa [flush_loop] using hdata
  | cons d ds ih =>
    intro data hdata hds
    have hd := hds d (List.mem_cons_self _ _)
    have hstep := flush_step_bounds h hdata hd
    have := ih _ hstep (fun e he => hds e (List.mem_cons_of_mem _ he))
    simp only [flush_loop, List.mem_cons, forall_eq_or_imp]
    exact ⟨⟨hstep, this.1⟩, this.2⟩

theorem mem_rsi_words {strm : aec_stream} {lo hi w : Nat} (hw : w ∈ rsi_words strm lo hi) :
    ∃ j, lo ≤ j ∧ j < hi ∧ w = strm.rsi_buffer j := by
  unfold rsi_words at hw
  rw [List.mem_map] at hw
  obtain ⟨j, hj, rfl⟩ := hw
  rw [List.mem_range'_1] at hj
  exact ⟨j, hj.1, by omega, rfl⟩

/-- C3 (as stated, refuted): 8 bits unsigned with the preprocessor; the RSI buffer holds the
reference sample 0 and the residual word 1000; `flush` emits the sample value 1000 and leaves
it in `last_out`, above `xmax = 255`. -/
theorem C3_counterexample :
    (config_of 8 8 1 { no_flags with DATA_PREPROCESS := true }).xmax = 255 ∧
    (flush_samples (config_of 8 8 1 { no_flags with DATA_PREPROCESS := true })
      (stream_with_words [0, 1000])).1 = [0, 1000] ∧
    (flush (config_of 8 8 1 { no_flags with DATA_PREPROCESS := true })
      (stream_with_words [0, 1000])).last_out = 1000 ∧
    ¬ (∀ v ∈ (flush_samples (config_of 8 8 1 { no_flags with DATA_PREPROCESS := true })
          (stream_with_words [0, 1000])).1,
        (config_of 8 8 1 { no_flags with DATA_PREPROCESS := true }).xmin ≤ v ∧
        v ≤ (config_of 8 8 1 { no_flags with DATA_PREPROCESS := true }).xmax) := by
  decide

/-- C3 (amended): with `PREPROCESS` on, if the reference word is below
`2 ^ bits_per_sample`, every residual word held in the RSI buffer is at most `xmax - xmin`,
and `last_out` is within `[xmin, xmax]` when the flush does not start at a reference sample,
then every sample value `flush` computes and emits lies within `[xmin, xmax]` and
`xmin ≤ last_out ≤ xmax` holds after the flush. -/
theorem C3_flush_bounds (bps bs rsi : Nat) (flags : Flags) (strm0 : aec_stream)
    (c : Config) (s0 : aec_stream)
    (h : aec_decode_init bps bs rsi flags strm0 = (Ret.AEC_OK, some (c, s0)))
    (strm : aec_stream) (hpp : c.pp = true)
    (href : strm.flush_start = 0 → 0 < strm.rsip →
      strm.rsi_buffer 0 < 2 ^ c.bits_per_sample)
    (hlast : ¬ (strm.flush_start = 0 ∧ 0 < strm.rsip) →
      c.xmin ≤ strm.last_out ∧ strm.last_out ≤ c.xmax)
    (hres : ∀ j, strm.flush_start ≤ j → j < strm.rsip → 0 < j →
      (strm.rsi_buffer j : Int) ≤ c.xmax - c.xmin) :
    (∀ v ∈ (flush_samples c strm).1, c.xmin ≤ v ∧ v ≤ c.xmax) ∧
    c.xmin ≤ (flush c strm).last_out ∧ (flush c strm).last_out ≤ c.xmax := by
  obtain ⟨hc, -, -⟩ := aec_decode_init_some h
  obtain ⟨ha, -, -, -, -⟩ := init_config_accepted hc
  have key : (∀ v ∈ (flush_samples c strm).1, c.xmin ≤ v ∧ v ≤ c.xmax) ∧
      c.xmin ≤ (flush_samples c strm).2 ∧ (flush_samples c strm).2 ≤ c.xmax := by
    unfold flush_samples
    simp only [hpp, if_true]
    by_cases hr : strm.flush_start = 0 ∧ 0 < strm.rsip
    · simp only [hr, and_self, decide_True, if_true]
      have hv := href hr.1 hr.2
      obtain ⟨M, hM1, hM2, -, hcase⟩ := accepted_range ha
      have hrefb : c.xmin ≤ (if c.flags.DATA_SIGNED = true then
            sign_extend c.bits_per_sample (strm.rsi_buffer 0)
          else (strm.rsi_buffer 0 : Int)) ∧
          (if c.flags.DATA_SIGNED = true then
            sign_extend c.bits_per_sample (strm.rsi_buffer 0)
          else (strm.rsi_buffer 0 : Int)) ≤ c.xmax := by
        rcases hcase with ⟨hs, e1, e2, -⟩ | ⟨hs, e1, e2, -⟩
        · rw [hs, e1, e2]
          simp only [if_true]
          rw [sign_extend_eq _ _ ha.bps_pos hv]
          have e3 : (2 : Int) ^ c.bits_per_sample = 2 * (M : Int) := by exact_mod_cast hM2
          have e4 : 2 ^ (c.bits_per_sample - 1) = M := by
            have hb := ha.bps_pos
            have : (2 : Nat) ^ c.bits_per_sample = 2 * 2 ^ (c.bits_per_sample - 1) := by
              conv_lhs => rw [show c.bits_per_sample = (c.bits_per_sample - 1) + 1 by omega]
              rw [pow_succ]; ring
            omega
          rw [e3, e4]
          split_ifs <;> omega
        · rw [hs, e1, e2]
          simp only [Bool.false_eq_true, if_false]
          omega
      have hl := flush_loop_bounds ha (rsi_words strm (0 + 1) strm.rsip) _ hrefb
        (fun d hd => by
          obtain ⟨j, hj1, hj2, rfl⟩ := mem_rsi_words hd
          exact hres j (by omega) hj2 (by omega))
      refine ⟨?_, hl.2⟩
      intro v hv
      rw [List.mem_cons] at hv
      rcases hv with rfl | hv
      · exact hrefb
      · exact hl.1 v hv
    · have hr' : ¬ (strm.flush_start = 0 ∧ 0 < strm.rsip) := hr
      simp only [hr, decide_False, Bool.false_eq_true, if_false]
      have hl := flush_loop_bounds ha (rsi_words strm strm.flush_start strm.rsip) _ (hlast hr')
        (fun d hd => by
          obtain ⟨j, hj1, hj2, rfl⟩ := mem_rsi_words hd
          exact hres j hj1 hj2 (by omega))
      exact hl
  refine ⟨key.1, ?_⟩
  unfold flush
  exact key.2

/-- Witness of C3 (amended): 8 bits unsigned, reference sample 7 and the residual words 5
and 255. -/
theorem C3_flush_bounds_witness :
    (∀ v ∈ (flush_samples (config_of 8 8 1 { no_flags with DATA_PREPROCESS := true })
        (stream_with_words [7, 5, 255])).1,
      (config_of 8 8 1 { no_flags with DATA_PREPROCESS := true }).xmin ≤ v ∧
      v ≤ (config_of 8 8 1 { no_flags with DATA_PREPROCESS := true }).xmax) ∧
    (config_of 8 8 1 { no_flags with DATA_PREPROCESS := true }).xmin ≤
      (flush (config_of 8 8 1 { no_flags with DATA_PREPROCESS := true })
        (stream_with_words [7, 5, 255])).last_out ∧
    (flush (config_of 8 8 1 { no_flags with DATA_PREPROCESS := true })
        (stream_with_words [7, 5, 255])).last_out ≤
      (config_of 8 8 1 { no_flags with DATA_PREPROCESS := true }).xmax :=
  C3_flush_bounds 8 8 1 { no_flags with DATA_PREPROCESS := true } blank_stream
    (config_of 8 8 1 { no_flags with DATA_PREPROCESS := true }) (init_stream blank_stream) rfl
    (stream_with_words [7, 5, 255]) rfl (by intro _ _; decide) (by intro hn; exact absurd (by decide) hn)
    (by
      intro j h1 h2 h3
      have h2' : j < 3 := h2
      interval_cases j <;> decide)

theorem acc_bits_length (a n : Nat) : (acc_bits a n).length = n := by
  simp [acc_bits]

theorem acc_bits_zero (a : Nat) : acc_bits a 0 = [] := rfl

theorem acc_bits_succ (a n : Nat) : acc_bits a (n + 1) = a.testBit n :: acc_bits a n := by
  simp [acc_bits, List.range_succ]

theorem byte_bits_length (b : Byte) : (byte_bits b).length = 8 := by
  simp [byte_bits]

theorem bytes_bits_nil : bytes_bits [] = [] := rfl

theorem bytes_bits_cons (b : Byte) (l : List Byte) :
    bytes_bits (b :: l) = byte_bits b ++ bytes_bits l := by
  simp [bytes_bits]

theorem bytes_bits_append (l1 l2 : List Byte) :
    bytes_bits (l1 ++ l2) = bytes_bits l1 ++ bytes_bits l2 := by
  simp [bytes_bits]

theorem bytes_bits_length (l : List Byte) : (bytes_bits l).length = 8 * l.length := by
  induction l with
  | nil => rfl
  | cons b l ih => rw [bytes_bits_cons, List.length_append, byte_bits_length, ih]; simp; omega

theorem lbits_length (s : aec_stream) : (lbits s).length = s.bitp + 8 * s.next_in.length := by
  simp [lbits, acc_bits_length, bytes_bits_length]

theorem acc_bits_congr {a b n : Nat} (h : ∀ j, j < n → a.testBit j = b.testBit j) :
    acc_bits a n = acc_bits b n := by
  unfold acc_bits
  apply List.map_congr_left
  intro j hj
  simp at hj
  exact h j hj

theorem acc_bits_split (a m k : Nat) :
    acc_bits a (m + k) = (List.range m).reverse.map (fun j => a.testBit (j + k)) ++ acc_bits a k := by
  induction m with
  | zero => simp
  | succ m ih =>
    rw [show m + 1 + k = (m + k) + 1 by omega, acc_bits_succ, ih]
    simp [List.range_succ]

theorem testBit_acc_push (acc : Nat) (b : Byte) (i : Nat) (hi : i < 64) :
    (acc_push acc b).testBit i = if i < 8 then b.val.testBit i else acc.testBit (i - 8) := by
  unfold acc_push W64
  rw [Nat.testBit_mod_two_pow, Nat.testBit_or, Nat.testBit_shiftLeft]
  simp only [hi, decide_True, Bool.true_and]
  by_cases h8 : i < 8
  · have : ¬ i ≥ 8 := by omega
    simp [h8, this]
  · have hb : b.val.testBit i = false := by
      apply Nat.testBit_lt_two_pow
      calc b.val < 2 ^ 8 := b.isLt
        _ ≤ 2 ^ i := Nat.pow_le_pow_right (by norm_num) (by omega)
    have : i ≥ 8 := by omega
    simp [h8, this, hb]

theorem acc_bits_push (acc bitp : Nat) (b : Byte) (h : bitp + 8 ≤ 64) :
    acc_bits (acc_push acc b) (bitp + 8) = acc_bits acc bitp ++ byte_bits b := by
  rw [acc_bits_split]
  congr 1
  · unfold acc_bits
    apply List.map_congr_left
    intro j hj
    simp at hj
    rw [testBit_acc_push _ _ _ (by omega)]
    have : ¬ j + 8 < 8 := by omega
    simp [this]
  · unfold byte_bits acc_bits
    apply List.map_congr_left
    intro j hj
    simp at hj
    rw [testBit_acc_push _ _ _ (by omega)]
    simp [hj]

theorem acc_bits_take (acc bitp n : Nat) (h : n ≤ bitp) :
    (acc_bits acc bitp).take n = acc_bits (acc >>> (bitp - n)) n := by
  conv_lhs => rw [show bitp = n + (bitp - n) by omega, acc_bits_split]
  rw [List.take_left' (by simp)]
  unfold acc_bits
  apply List.map_congr_left
  intro j _
  rw [Nat.testBit_shiftRight]
  congr 1; omega

theorem acc_bits_drop (acc bitp n : Nat) (h : n ≤ bitp) :
    (acc_bits acc bitp).drop n = acc_bits acc (bitp - n) := by
  conv_lhs => rw [show bitp = n + (bitp - n) by omega, acc_bits_split]
  rw [List.drop_left' (by simp)]

theorem bits_val_foldl (l : List Bool) (v : Nat) :
    l.foldl (fun v b => 2 * v + b.toNat) v = v * 2 ^ l.length + bits_val l := by
  induction l generalizing v with
  | nil => simp [bits_val]
  | cons b l ih =>
    unfold bits_val
    simp only [List.foldl_cons, List.length_cons]
    rw [ih, ih (2 * 0 + b.toNat)]
    ring

theorem bits_val_nil : bits_val [] = 0 := rfl

theorem bits_val_cons (b : Bool) (l : List Bool) :
    bits_val (b :: l) = b.toNat * 2 ^ l.length + bits_val l := by
  unfold bits_val
  simp only [List.foldl_cons]
  rw [bits_val_foldl]
  simp [bits_val]

theorem bits_val_lt (l : List Bool) : bits_val l < 2 ^ l.length := by
  induction l with
  | nil => simp [bits_val]
  | cons b l ih =>
    rw [bits_val_cons, List.length_cons, pow_succ]
    have : b.toNat ≤ 1 := Bool.toNat_le b
    nlinarith

theorem bits_val_acc_bits (a n : Nat) : bits_val (acc_bits a n) = a % 2 ^ n := by
  induction n with
  | zero => simp [acc_bits_zero, bits_val_nil, Nat.mod_one]
  | succ n ih =>
    rw [acc_bits_succ, bits_val_cons, ih, acc_bits_length, Nat.mod_pow_succ, Nat.toNat_testBit]
    ring

theorem bits_get_eq (s : aec_stream) (n : Nat) (h : n ≤ s.bitp) :
    bits_get s n = bits_val ((lbits s).take n) := by
  unfold bits_get lbits
  rw [List.take_append_of_le_length (by rw [acc_bits_length]; exact h), acc_bits_take _ _ _ h,
    bits_val_acc_bits, Nat.one_shiftLeft, Nat.and_pow_two_sub_one_eq_mod]

theorem bits_ask_loop_spec (n : Nat) (hn : n ≤ 56) :
    ∀ (fuel : Nat) (s : aec_stream), s.next_in.length ≤ fuel → s.bitp ≤ 63 →
      ∃ ni a b,
        bits_ask_loop fuel s n =
          (decide (n ≤ (lbits s).length), { s with next_in := ni, acc := a, bitp := b }) ∧
        acc_bits a b ++ bytes_bits ni = lbits s ∧
        (n ≤ (lbits s).length → n ≤ b) ∧
        (¬ n ≤ (lbits s).length → ni = []) ∧
        b ≤ 63 ∧
        (n ≤ s.bitp → ni = s.next_in ∧ a = s.acc ∧ b = s.bitp) := by
  intro fuel
  induction fuel with
  | zero =>
    intro s hlen hb
    have hnil : s.next_in = [] := List.length_eq_zero.mp (Nat.le_zero.mp hlen)
    have hl : (lbits s).length = s.bitp := by rw [lbits_length, hnil]; simp
    refine ⟨s.next_in, s.acc, s.bitp, ?_, rfl, ?_, fun _ => hnil, hb, fun _ => ⟨rfl, rfl, rfl⟩⟩
    · simp only [bits_ask_loop, hl]
    · rw [hl]; exact id
  | succ fuel ih =>
    intro s hlen hb
    unfold bits_ask_loop
    by_cases hlt : s.bitp < n
    · simp only [hlt, if_true]
      rcases hs : s.next_in with _ | ⟨b, rest⟩
      · have hl : (lbits s).length = s.bitp := by rw [lbits_length, hs]; simp
        have hdec : decide (n ≤ (lbits s).length) = false := by rw [hl]; simp; omega
        have hse : s = { s with next_in := [], acc := s.acc, bitp := s.bitp } := by
          rw [← hs]
        have hlb : acc_bits s.acc s.bitp ++ bytes_bits [] = lbits s := by
          unfold lbits; rw [hs]
        refine ⟨[], s.acc, s.bitp, ?_, hlb, ?_, fun _ => rfl, hb,
          fun h => absurd h (by omega)⟩
        · rw [hdec, ← hse]
        · rw [hl]; exact id
      · simp only
        have hlen' : rest.length ≤ fuel := by rw [hs] at hlen; simp at hlen; omega
        obtain ⟨ni, a, b', h1, h2, h3, h4, h5, _⟩ := ih
          { s with next_in := rest, acc := acc_push s.acc b, bitp := s.bitp + 8 } hlen'
          (by simp only; omega)
        have hl : lbits { s with next_in := rest, acc := acc_push s.acc b, bitp := s.bitp + 8 }
            = lbits s := by
          simp only [lbits]
          rw [acc_bits_push _ _ _ (by omega), hs, bytes_bits_cons, List.append_assoc]
        rw [hl] at h1 h2 h3 h4
        exact ⟨ni, a, b', h1, h2, h3, h4, h5, fun h => absurd h (by omega)⟩
    · simp only [hlt, if_false]
      have hle : n ≤ (lbits s).length := by rw [lbits_length]; omega
      refine ⟨s.next_in, s.acc, s.bitp, ?_, rfl, fun _ => by omega, fun h => absurd hle h, hb,
        fun _ => ⟨rfl, rfl, rfl⟩⟩
      simp [hle]

theorem bits_ask_spec (s : aec_stream) (n : Nat) (hn : n ≤ 56) (hb : s.bitp ≤ 63) :
    ∃ ni a b,
      bits_ask s n =
        (decide (n ≤ (lbits s).length), { s with next_in := ni, acc := a, bitp := b }) ∧
      acc_bits a b ++ bytes_bits ni = lbits s ∧
      (n ≤ (lbits s).length → n ≤ b) ∧
      (¬ n ≤ (lbits s).length → ni = []) ∧
      b ≤ 63 ∧
      (n ≤ s.bitp → ni = s.next_in ∧ a = s.acc ∧ b = s.bitp) :=
  bits_ask_loop_spec n hn _ s le_rfl hb

theorem and_one_shiftLeft_eq_zero (a i : Nat) : (a &&& (1 <<< i) = 0) ↔ a.testBit i = false := by
  rw [Nat.one_shiftLeft, Nat.and_two_pow]
  cases h : a.testBit i <;> simp [Nat.pos_iff_ne_zero.mp (Nat.two_pow_pos i)]

theorem acc_bits_cons_of_pos (a b : Nat) (h : 1 ≤ b) :
    acc_bits a b = a.testBit (b - 1) :: acc_bits a (b - 1) := by
  conv_lhs => rw [show b = (b - 1) + 1 by omega, acc_bits_succ]

theorem L_fs_scan_false_cons (l : List Bool) (hl : l ≠ []) (fs : Nat) :
    L_fs_scan (false :: l) fs = L_fs_scan l (fs + 1) := by
  rcases l with _ | ⟨x, xs⟩
  · exact absurd rfl hl
  · simp only [L_fs_scan]

theorem fs_ask_loop_spec :
    ∀ (fuel : Nat) (s : aec_stream), s.bitp + 8 * s.next_in.length ≤ fuel → 1 ≤ s.bitp →
      s.bitp ≤ 63 →
      ∃ ni a b f,
        fs_ask_loop fuel s =
          ((L_fs_scan (lbits s) s.fs).1,
            { s with next_in := ni, acc := a, bitp := b, fs := f }) ∧
        acc_bits a b ++ bytes_bits ni = (L_fs_scan (lbits s) s.fs).2.1 ∧
        f = (L_fs_scan (lbits s) s.fs).2.2 ∧
        1 ≤ b ∧ b ≤ 63 := by
  intro fuel
  induction fuel with
  | zero => intro s h1 h2 _; omega
  | succ fuel ih =>
    intro s hfuel h1 h63
    unfold fs_ask_loop
    have hl : lbits s = s.acc.testBit (s.bitp - 1) ::
        (acc_bits s.acc (s.bitp - 1) ++ bytes_bits s.next_in) := by
      unfold lbits; rw [acc_bits_cons_of_pos _ _ h1]; rfl
    by_cases hz : s.acc &&& 1 <<< (s.bitp - 1) = 0
    · have htb := (and_one_shiftLeft_eq_zero _ _).mp hz
      simp only [hz, if_true]
      rw [htb] at hl
      by_cases hb1 : s.bitp = 1
      · simp only [hb1, if_true]
        rcases hs : s.next_in with _ | ⟨b, rest⟩
        · have hls : lbits s = [false] := by
            rw [hl, hs, hb1]; simp [acc_bits_zero, bytes_bits_nil]
          have hse : s = { s with next_in := [], acc := s.acc, bitp := s.bitp, fs := s.fs } := by
            rw [← hs]
          have hlb : acc_bits s.acc s.bitp ++ bytes_bits [] = lbits s := by
            unfold lbits; rw [hs]
          refine ⟨[], s.acc, s.bitp, s.fs, ?_, ?_, ?_, h1, h63⟩
          · rw [hls]; simp only [L_fs_scan]; rw [← hse]
          · rw [hlb, hls]; simp only [L_fs_scan]
          · rw [hls]; simp only [L_fs_scan]
        · simp only
          have hrest : 8 + 8 * rest.length ≤ fuel := by
            rw [hs] at hfuel; simp at hfuel; omega
          obtain ⟨ni, a, b', f, e1, e2, e3, e5, e6⟩ := ih
            { s with next_in := rest, acc := acc_push s.acc b, bitp := 1 + 8 - 1, fs := s.fs + 1 }
            (by simp only; omega) (by simp only; omega) (by simp only; omega)
          have hl' : lbits
              { s with next_in := rest, acc := acc_push s.acc b, bitp := 1 + 8 - 1, fs := s.fs + 1 }
              = byte_bits b ++ bytes_bits rest := by
            have hp := acc_bits_push s.acc 1 b (by omega)
            rw [show 1 + 8 = 8 + 1 by rfl, acc_bits_succ] at hp
            have hp2 : acc_bits (acc_push s.acc b) 8 = byte_bits b := by
              have := congrArg List.tail hp
              simpa [acc_bits_succ, acc_bits_zero] using this
            show acc_bits (acc_push s.acc b) 8 ++ bytes_bits rest = _
            rw [hp2]
          have hls : lbits s = false :: (byte_bits b ++ bytes_bits rest) := by
            rw [hl, hs, hb1, bytes_bits_cons]; simp [acc_bits_zero]
          have hne : (byte_bits b ++ bytes_bits rest) ≠ [] := by
            intro h
            have := congrArg List.length h
            simp [byte_bits_length] at this
          have hscan : L_fs_scan (lbits s) s.fs
              = L_fs_scan (byte_bits b ++ bytes_bits rest) (s.fs + 1) := by
            rw [hls, L_fs_scan_false_cons _ hne]
          rw [hl'] at e1 e2 e3
          simp only at e1 e2 e3
          rw [← hscan] at e1 e2 e3
          exact ⟨ni, a, b', f, e1, e2, e3, e5, e6⟩
      · simp only [hb1, if_false]
        obtain ⟨ni, a, b', f, e1, e2, e3, e5, e6⟩ := ih
          { s with fs := s.fs + 1, bitp := s.bitp - 1 }
          (by simp only; omega) (by simp only; omega) (by simp only; omega)
        have hl' : lbits { s with fs := s.fs + 1, bitp := s.bitp - 1 }
            = acc_bits s.acc (s.bitp - 1) ++ bytes_bits s.next_in := rfl
        have hne : acc_bits s.acc (s.bitp - 1) ++ bytes_bits s.next_in ≠ [] := by
          intro h
          have := congrArg List.length h
          simp [acc_bits_length] at this
          omega
        have hscan : L_fs_scan (lbits s) s.fs
            = L_fs_scan (acc_bits s.acc (s.bitp - 1) ++ bytes_bits s.next_in) (s.fs + 1) := by
          rw [hl, L_fs_scan_false_cons _ hne]
        rw [hl'] at e1 e2 e3
        simp only at e1 e2 e3
        rw [← hscan] at e1 e2 e3
        exact ⟨ni, a, b', f, e1, e2, e3, e5, e6⟩
    · have htb : s.acc.testBit (s.bitp - 1) = true := by
        cases h : s.acc.testBit (s.bitp - 1)
        · exact absurd ((and_one_shiftLeft_eq_zero _ _).mpr h) hz
        · rfl
      simp only [hz, if_false]
      rw [htb] at hl
      refine ⟨s.next_in, s.acc, s.bitp, s.fs, ?_, ?_, ?_, h1, h63⟩
      · rw [hl]; simp only [L_fs_scan]
      · rw [hl]; simp only [L_fs_scan]; rw [← hl]; rfl
      · rw [hl]; simp only [L_fs_scan]

theorem fs_ask_spec (s : aec_stream) (h63 : s.bitp ≤ 63) :
    ∃ ni a b f,
      fs_ask s =
        ((L_fs_scan (lbits s) s.fs).1,
          { s with next_in := ni, acc := a, bitp := b, fs := f }) ∧
      acc_bits a b ++ bytes_bits ni = (L_fs_scan (lbits s) s.fs).2.1 ∧
      f = (L_fs_scan (lbits s) s.fs).2.2 ∧
      ((L_fs_scan (lbits s) s.fs).1 = true → 1 ≤ b) ∧ b ≤ 63 := by
  obtain ⟨ni, a, b, e1, e2, e3, e4, e5, e6⟩ := bits_ask_spec s 1 (by norm_num) h63
  unfold fs_ask
  rw [e1]
  by_cases hlen : 1 ≤ (lbits s).length
  · have hb1 := e3 hlen
    simp only [hlen, decide_True, Bool.true_eq_false, if_false]
    obtain ⟨ni', a', b', f', g1, g2, g3, g4, g5⟩ := fs_ask_loop_spec
      (b + 8 * ni.length + 1) { s with next_in := ni, acc := a, bitp := b }
      (by simp only; omega) hb1 e5
    have hl : lbits { s with next_in := ni, acc := a, bitp := b } = lbits s := e2
    rw [hl] at g1 g2 g3
    exact ⟨ni', a', b', f', g1, g2, g3, fun _ => g4, g5⟩
  · simp only [hlen, decide_False, if_true]
    have hnil : lbits s = [] := by
      apply List.eq_nil_of_length_eq_zero; omega
    refine ⟨ni, a, b, s.fs, ?_, ?_, ?_, ?_, e5⟩
    · rw [hnil]; simp only [L_fs_scan]
    · rw [hnil]; simp only [L_fs_scan]; rw [e2, hnil]
    · rw [hnil]; simp only [L_fs_scan]
    · rw [hnil]; simp only [L_fs_scan]; intro h; cases h

theorem Lsteps_trans {c : Config} {a b d : LState} (h1 : Lsteps c a b) (h2 : Lsteps c b d) :
    Lsteps c a d := by
  induction h1 with
  | refl => exact h2
  | step hs _ ih => exact Lsteps.step hs (ih h2)

theorem Lsteps_one {c : Config} {a b : LState} (h : Lstep c a = some (Status.M_CONTINUE, b)) :
    Lsteps c a b := Lsteps.step h (Lsteps.refl b)

theorem Lsteps_run {c : Config} {a b : LState} {r : Status × LState}
    (h1 : Lsteps c a b) (h2 : Lrun c b r) : Lrun c a r := by
  induction h1 with
  | refl => exact h2
  | step hs _ ih => exact Lrun.step hs (ih h2)

theorem Lrun_det {c : Config} {a : LState} {r1 r2 : Status × LState}
    (h1 : Lrun c a r1) (h2 : Lrun c a r2) : r1 = r2 := by
  induction h1 with
  | stop hs hne =>
    cases h2 with
    | stop hs2 _ => rw [hs] at hs2; simpa using hs2
    | step hs2 _ => rw [hs] at hs2; simp at hs2; exact absurd hs2.1 hne
  | step hs _ ih =>
    cases h2 with
    | stop hs2 hne2 => rw [hs] at hs2; simp at hs2; exact absurd hs2.1.symm hne2
    | step hs2 hr2 =>
      rw [hs] at hs2
      simp at hs2
      subst hs2
      exact ih hr2

/-! ### `flush` and the logical output -/

theorem flush_samples_congr (c : Config) (s s' : aec_stream)
    (h1 : s'.flush_start = s.flush_start) (h2 : s'.rsip = s.rsip)
    (h3 : s'.rsi_buffer = s.rsi_buffer) (h4 : s'.last_out = s.last_out) :
    flush_samples c s' = flush_samples c s := by
  unfold flush_samples rsi_words
  rw [h1, h2, h3, h4]

theorem flush_loop_append (med xmin xmax : Int) (a b : List Nat) (data : Int) :
    flush_loop med xmin xmax data (a ++ b) =
      ((flush_loop med xmin xmax data a).1 ++
          (flush_loop med xmin xmax (flush_loop med xmin xmax data a).2 b).1,
        (flush_loop med xmin xmax (flush_loop med xmin xmax data a).2 b).2) := by
  induction a generalizing data with
  | nil => simp [flush_loop]
  | cons d ds ih => simp [flush_loop, ih]

theorem emit_words_pp (c : Config) (hpp : c.pp = true) (ws : List Nat) (idx : Nat) (vlast : Int)
    (hidx : 1 ≤ idx) :
    emit_words c idx vlast ws = flush_loop (flush_med c) c.xmin c.xmax vlast ws := by
  induction ws generalizing idx vlast with
  | nil => rfl
  | cons w ws ih =>
    have hne : idx ≠ 0 := by omega
    simp only [emit_words, flush_loop, emit1, hpp, if_true, hne, if_false]
    rw [ih _ _ (by omega)]

theorem emit_words_nopp (c : Config) (hpp : c.pp = false) (ws : List Nat) (idx : Nat)
    (vlast : Int) :
    emit_words c idx vlast ws = (ws.map (fun (w : Nat) => (w : Int)), vlast) := by
  induction ws generalizing idx with
  | nil => rfl
  | cons w ws ih =>
    simp only [emit_words, emit1, hpp, Bool.false_eq_true, if_false, List.map_cons]
    rw [ih]

theorem range'_append_words (f : Nat → Nat) (lo mid cnt : Nat) (h : lo ≤ mid) :
    (List.range' lo (mid + cnt - lo)).map f =
      (List.range' lo (mid - lo)).map f ++ (List.range' mid cnt).map f := by
  rw [← List.map_append]
  congr 1
  have e : mid = lo + (mid - lo) := by omega
  conv_rhs => rw [e]
  conv_rhs => rw [show lo + (mid - lo) - lo = mid - lo by omega]
  rw [List.range'_append_1]
  congr 1
  omega

theorem map_range'_congr (f g : Nat → Nat) (lo cnt : Nat)
    (h : ∀ j, lo ≤ j → j < lo + cnt → f j = g j) :
    (List.range' lo cnt).map f = (List.range' lo cnt).map g := by
  apply List.map_congr_left
  intro j hj
  rw [List.mem_range'_1] at hj
  exact h j hj.1 hj.2

/-- Advancing `rsip` over `cnt` words extends what `flush` will emit by those words. -/
theorem flush_samples_advance (c : Config) (s s' : aec_stream) (cnt : Nat)
    (hfs : s.flush_start ≤ s.rsip)
    (h1 : s'.flush_start = s.flush_start) (h2 : s'.rsip = s.rsip + cnt)
    (h3 : ∀ j, j < s.rsip → s'.rsi_buffer j = s.rsi_buffer j)
    (h4 : s'.last_out = s.last_out) :
    flush_samples c s' =
      ((flush_samples c s).1 ++
        (emit_words c s.rsip (flush_samples c s).2
          ((List.range' s.rsip cnt).map s'.rsi_buffer)).1,
       (emit_words c s.rsip (flush_samples c s).2
          ((List.range' s.rsip cnt).map s'.rsi_buffer)).2) := by
  cases hpp : c.pp
  · -- no preprocessor
    unfold flush_samples rsi_words
    simp only [hpp, Bool.false_eq_true, if_false]
    rw [emit_words_nopp c hpp, h1, h2, h4, range'_append_words _ _ _ _ hfs, List.map_append]
    congr 2
    rw [map_range'_congr s'.rsi_buffer s.rsi_buffer]
    intro j _ hj
    exact h3 j (by omega)
  · rcases Nat.eq_zero_or_pos cnt with hc | hc
    · subst hc
      have : flush_samples c s' = flush_samples c s := by
        unfold flush_samples rsi_words
        rw [h1, h2, h4]
        simp only [hpp, if_true, Nat.add_zero]
        by_cases hr : s.flush_start = 0 ∧ 0 < s.rsip
        · simp only [hr, and_self, decide_True, if_true]
          rw [h3 0 hr.2, map_range'_congr s'.rsi_buffer s.rsi_buffer]
          intro j _ hj; exact h3 j (by omega)
        · simp only [hr, decide_False, Bool.false_eq_true, if_false]
          rw [map_range'_congr s'.rsi_buffer s.rsi_buffer]
          intro j _ hj; exact h3 j (by omega)
      rw [this]
      simp [emit_words]
    · by_cases hr0 : s.rsip = 0
      · -- the first word is the reference sample
        have hf0 : s.flush_start = 0 := by omega
        obtain ⟨cnt', rfl⟩ : ∃ k, cnt = k + 1 := ⟨cnt - 1, by omega⟩
        unfold flush_samples rsi_words
        rw [h1, h2, h4, hr0, hf0]
        simp only [hpp, if_true, lt_self_iff_false, and_false, decide_False,
          Bool.false_eq_true, if_false, Nat.sub_self, List.range'_zero, List.map_nil,
          flush_loop, List.nil_append, Nat.zero_add, Nat.lt_add_left_iff_pos, Nat.lt_add_one,
          and_self, decide_True]
        rw [List.range'_succ, List.map_cons]
        simp only [emit_words, emit1, hpp, if_true]
        rw [emit_words_pp c hpp _ _ _ (by omega)]
        simp
      · have hrp : 0 < s.rsip := by omega
        unfold flush_samples rsi_words
        rw [h1, h2, h4]
        simp only [hpp, if_true]
        rw [emit_words_pp c hpp _ _ _ (by omega)]
        by_cases hr : s.flush_start = 0
        · have e1 : (s.flush_start = 0 ∧ 0 < s.rsip) := ⟨hr, hrp⟩
          have e2 : (s.flush_start = 0 ∧ 0 < s.rsip + cnt) := ⟨hr, by omega⟩
          simp only [e1, e2, and_self, decide_True, if_true]
          rw [h3 0 hrp, range'_append_words _ _ _ _ (by omega : 0 + 1 ≤ s.rsip),
            flush_loop_append]
          rw [map_range'_congr s'.rsi_buffer s.rsi_buffer (0 + 1) (s.rsip - (0 + 1))
            (fun j _ hj => h3 j (by omega))]
          simp
        · have e1 : ¬ (s.flush_start = 0 ∧ 0 < s.rsip) := fun h => hr h.1
          have e2 : ¬ (s.flush_start = 0 ∧ 0 < s.rsip + cnt) := fun h => hr h.1
          simp only [e1, e2, decide_False, Bool.false_eq_true, if_false]
          rw [range'_append_words _ _ _ _ hfs, flush_loop_append]
          rw [map_range'_congr s'.rsi_buffer s.rsi_buffer s.flush_start
            (s.rsip - s.flush_start) (fun j _ hj => h3 j (by omega))]

theorem out_bytes_append (c : Config) (a b : List Int) :
    out_bytes c (a ++ b) = out_bytes c a ++ out_bytes c b := by
  simp [out_bytes]

theorem out_bytes_nil (c : Config) : out_bytes c [] = [] := rfl

theorem flush_samples_flushed (c : Config) (s : aec_stream) (h : s.flush_start = s.rsip) :
    flush_samples c s = ([], s.last_out) := by
  unfold flush_samples rsi_words
  have : ¬ (s.flush_start = 0 ∧ 0 < s.rsip) := by omega
  rw [h] at this ⊢
  cases c.pp <;> simp [this, flush_loop]

theorem flush_samples_reset (c : Config) (s : aec_stream)
    (h : s.flush_start = 0) (h2 : s.rsip = 0) :
    flush_samples c s = ([], s.last_out) :=
  flush_samples_flushed c s (by rw [h, h2])

@[simp] theorem αr_bits (c : Config) (s : aec_stream) : (αr c s).bits = lbits s := rfl

@[simp] theorem αr_avail_out (c : Config) (s : aec_stream) : (αr c s).avail_out = s.avail_out := rfl

@[simp] theorem αr_mode (c : Config) (s : aec_stream) : (αr c s).mode = s.mode := rfl

@[simp] theorem αr_id (c : Config) (s : aec_stream) : (αr c s).id = s.id := rfl

@[simp] theorem αr_n (c : Config) (s : aec_stream) : (αr c s).n = s.n := rfl

@[simp] theorem αr_i (c : Config) (s : aec_stream) : (αr c s).i = s.i := rfl

@[simp] theorem αr_fs (c : Config) (s : aec_stream) : (αr c s).fs = s.fs := rfl

@[simp] theorem αr_ref (c : Config) (s : aec_stream) : (αr c s).ref = s.ref := rfl

@[simp] theorem αr_rsi_buffer (c : Config) (s : aec_stream) :
    (αr c s).rsi_buffer = s.rsi_buffer := rfl

@[simp] theorem αr_rsip (c : Config) (s : aec_stream) : (αr c s).rsip = s.rsip := rfl

theorem αr_vout (c : Config) (s : aec_stream) :
    (αr c s).vout = s.next_out ++ out_bytes c (flush_samples c s).1 := rfl

theorem αr_vlast (c : Config) (s : aec_stream) : (αr c s).vlast = (flush_samples c s).2 := rfl

/-- Two decoder states with the same unread bits, the same pending samples and the same
remaining fields have the same logical state. -/
theorem αr_congr (c : Config) (s s' : aec_stream)
    (hb : lbits s' = lbits s) (h1 : s'.avail_out = s.avail_out) (h2 : s'.mode = s.mode)
    (h3 : s'.id = s.id) (h4 : s'.n = s.n) (h5 : s'.i = s.i) (h6 : s'.fs = s.fs)
    (h7 : s'.ref = s.ref) (h8 : s'.rsi_buffer = s.rsi_buffer) (h9 : s'.rsip = s.rsip)
    (h10 : s'.next_out = s.next_out) (h11 : s'.flush_start = s.flush_start)
    (h12 : s'.last_out = s.last_out) : αr c s' = αr c s := by
  have hf := flush_samples_congr c s s' h11 h9 h8 h12
  unfold αr
  rw [hb, h1, h2, h3, h4, h5, h6, h7, h8, h9, h10, hf]

theorem bits_ask_sim (c : Config) (s : aec_stream) (n : Nat) (hn : n ≤ 56) (hI : Inv s) :
    (bits_ask s n).1 = L_ask (αr c s) n ∧ αr c (bits_ask s n).2 = αr c s ∧
      Inv (bits_ask s n).2 ∧ SameTotals s (bits_ask s n).2 ∧
      ((bits_ask s n).1 = true → n ≤ (bits_ask s n).2.bitp) ∧
      ((bits_ask s n).1 = false → (bits_ask s n).2.next_in = []) ∧
      (bits_ask s n).2.flush_start = s.flush_start := by
  obtain ⟨ni, a, b, e1, e2, e3, e4, e5, _⟩ := bits_ask_spec s n hn hI.bitp_le
  rw [e1]
  refine ⟨rfl, ?_, ?_, ⟨rfl, rfl⟩, ?_, ?_, rfl⟩
  · exact αr_congr c s _ e2 rfl rfl rfl rfl rfl rfl rfl rfl rfl rfl rfl rfl
  · exact ⟨hI.flush_le, hI.avail_lt, e5, hI.fs_zero, hI.id_le⟩
  · intro h; simp only [decide_eq_true_eq] at h; exact e3 h
  · intro h; simp only [decide_eq_false_iff_not] at h; exact e4 h

theorem lbits_bits_drop (s : aec_stream) (n : Nat) (h : n ≤ s.bitp) :
    lbits (bits_drop s n) = (lbits s).drop n := by
  unfold lbits bits_drop
  simp only
  rw [List.drop_append_of_le_length (by rw [acc_bits_length]; exact h), acc_bits_drop _ _ _ h]

theorem bits_drop_sim (c : Config) (s : aec_stream) (n : Nat) (h : n ≤ s.bitp) (hI : Inv s) :
    αr c (bits_drop s n) = L_drop (αr c s) n ∧ Inv (bits_drop s n) ∧
      SameTotals s (bits_drop s n) := by
  refine ⟨?_, ⟨hI.flush_le, hI.avail_lt, ?_, hI.fs_zero, hI.id_le⟩, ⟨rfl, rfl⟩⟩
  · have hf : flush_samples c (bits_drop s n) = flush_samples c s :=
      flush_samples_congr c s _ rfl rfl rfl rfl
    unfold αr L_drop
    simp only
    rw [lbits_bits_drop s n h, hf]
    rfl
  · have := hI.bitp_le
    show s.bitp - n ≤ 63
    omega

theorem bits_get_sim (c : Config) (s : aec_stream) (n : Nat) (h : n ≤ s.bitp) :
    bits_get s n = L_get (αr c s) n := bits_get_eq s n h

theorem fs_ask_sim (c : Config) (s : aec_stream) (hI : Inv s) (hm : fs_live s.mode = true) :
    (fs_ask s).1 = (L_fs_ask (αr c s)).1 ∧ αr c (fs_ask s).2 = (L_fs_ask (αr c s)).2 ∧
      Inv (fs_ask s).2 ∧ SameTotals s (fs_ask s).2 ∧
      ((fs_ask s).1 = true → 1 ≤ (fs_ask s).2.bitp) ∧
      (fs_ask s).2.flush_start = s.flush_start := by
  obtain ⟨ni, a, b, f, e1, e2, e3, e4, e5⟩ := fs_ask_spec s hI.bitp_le
  rw [e1]
  refine ⟨rfl, ?_, ?_, ⟨rfl, rfl⟩, ?_, rfl⟩
  · have hf : flush_samples c { s with next_in := ni, acc := a, bitp := b, fs := f }
        = flush_samples c s := flush_samples_congr c s _ rfl rfl rfl rfl
    unfold αr L_fs_ask
    simp only
    rw [hf, e3]
    show _ = _
    unfold lbits
    simp only
    rw [e2]
    rfl
  · exact ⟨hI.flush_le, hI.avail_lt, e5, fun h => (by simp only at h; rw [hm] at h; cases h),
      hI.id_le⟩
  · intro h; exact e4 h

theorem lbits_fs_drop (s : aec_stream) (h : 1 ≤ s.bitp) :
    lbits (fs_drop s) = (lbits s).drop 1 := by
  unfold lbits fs_drop
  simp only
  rw [List.drop_append_of_le_length (by rw [acc_bits_length]; exact h), acc_bits_drop _ _ _ h]

theorem fs_drop_sim (c : Config) (s : aec_stream) (h : 1 ≤ s.bitp) (hI : Inv s) :
    αr c (fs_drop s) = L_fs_drop (αr c s) ∧ Inv (fs_drop s) ∧ SameTotals s (fs_drop s) := by
  refine ⟨?_, ⟨hI.flush_le, hI.avail_lt, ?_, fun _ => rfl, hI.id_le⟩, ⟨rfl, rfl⟩⟩
  · have hf : flush_samples c (fs_drop s) = flush_samples c s :=
      flush_samples_congr c s _ rfl rfl rfl rfl
    unfold αr L_fs_drop
    simp only
    rw [lbits_fs_drop s h, hf]
    rfl
  · have := hI.bitp_le
    show s.bitp - 1 ≤ 63
    omega

theorem flush_sim (c : Config) (s : aec_stream) (hI : Inv s) :
    αr c (flush c s) = αr c s ∧ Inv (flush c s) ∧ SameTotals s (flush c s) ∧
      (flush c s).flush_start = (flush c s).rsip := by
  refine ⟨?_, ⟨le_of_eq rfl, hI.avail_lt, hI.bitp_le, hI.fs_zero, hI.id_le⟩, ⟨rfl, rfl⟩, rfl⟩
  have hf : flush_samples c (flush c s) = ([], (flush_samples c s).2) :=
    flush_samples_flushed c (flush c s) rfl
  unfold αr
  rw [hf]
  simp only [out_bytes_nil, List.append_nil]
  rfl

theorem check_rsi_end_sim (c : Config) (s : aec_stream) (hI : Inv s) :
    αr c (check_rsi_end c s) = L_check_rsi_end c (αr c s) ∧ Inv (check_rsi_end c s) ∧
      SameTotals s (check_rsi_end c s) ∧
      lbits (check_rsi_end c s) = lbits s := by
  unfold check_rsi_end L_check_rsi_end
  by_cases h : s.rsip = c.rsi_size
  · simp only [h, if_true, αr_rsip]
    obtain ⟨e1, e2, e3, e4⟩ := flush_sim c s hI
    refine ⟨?_, ⟨le_of_eq rfl, hI.avail_lt, hI.bitp_le, hI.fs_zero, hI.id_le⟩, ⟨rfl, rfl⟩, rfl⟩
    have hf : flush_samples c { flush c s with flush_start := 0, rsip := 0 }
        = ([], (flush_samples c s).2) := flush_samples_reset c _ rfl rfl
    unfold αr
    rw [hf]
    simp only [out_bytes_nil, List.append_nil]
    rfl
  · simp only [h, if_false, αr_rsip]
    exact ⟨by first | rfl | trivial, hI, ⟨rfl, rfl⟩, by first | rfl | trivial⟩

theorem sub_size_t_lt (a b : Nat) : sub_size_t a b < W64 := by
  unfold sub_size_t
  exact Nat.mod_lt _ (by unfold W64; positivity)

/-- A state whose `rsip` has moved over `cnt` words, stored at or above the old `rsip`. -/
theorem advance_sim (c : Config) (s s' : aec_stream) (cnt : Nat) (hI : Inv s)
    (hb : lbits s' = lbits s) (h1 : s'.avail_out = s.avail_out) (h2 : s'.mode = s.mode)
    (h3 : s'.id = s.id) (h4 : s'.n = s.n) (h5 : s'.i = s.i) (h6 : s'.fs = s.fs)
    (h7 : s'.ref = s.ref) (h8 : ∀ j, j < s.rsip → s'.rsi_buffer j = s.rsi_buffer j)
    (h9 : s'.rsip = s.rsip + cnt)
    (h10 : s'.next_out = s.next_out) (h11 : s'.flush_start = s.flush_start)
    (h12 : s'.last_out = s.last_out) :
    αr c s' = L_commit c { αr c s with rsi_buffer := s'.rsi_buffer } cnt := by
  have hf := flush_samples_advance c s s' cnt hI.flush_le h11 h9 h8 h12
  unfold αr L_commit
  simp only
  rw [hf, hb, h1, h2, h3, h4, h5, h6, h7, h9, h10]
  simp only [out_bytes_append, List.append_assoc]

theorem rsi_store_sim (c : Config) (s s1 : aec_stream) (idx v : Nat) (hI : Inv s)
    (hidx : s.rsip ≤ idx) (h : rsi_store c s idx v = Except.ok s1) :
    s1 = { s with rsi_buffer := upd s.rsi_buffer idx v } ∧ idx < c.rsi_size ∧
      αr c s1 = { αr c s with rsi_buffer := upd s.rsi_buffer idx v } ∧ Inv s1 ∧
      SameTotals s s1 := by
  unfold rsi_store at h
  by_cases hlt : idx < c.rsi_size
  · simp only [hlt, if_true, Except.ok.injEq] at h
    subst h
    refine ⟨rfl, hlt, ?_, ⟨hI.flush_le, hI.avail_lt, hI.bitp_le, hI.fs_zero, hI.id_le⟩,
      ⟨rfl, rfl⟩⟩
    have := advance_sim c s { s with rsi_buffer := upd s.rsi_buffer idx v } 0 hI rfl rfl rfl
      rfl rfl rfl rfl rfl (fun j hj => by
        show upd s.rsi_buffer idx v j = s.rsi_buffer j
        unfold upd
        have : j ≠ idx := by omega
        simp [this]) rfl rfl rfl rfl
    rw [this]
    unfold L_commit
    simp [emit_words, out_bytes_nil]
  · simp [hlt] at h

@[simp] theorem Lnorm_bits (L : LState) : (Lnorm L).bits = L.bits := rfl

@[simp] theorem Lnorm_avail_out (L : LState) : (Lnorm L).avail_out = L.avail_out := rfl

@[simp] theorem Lnorm_mode (L : LState) : (Lnorm L).mode = L.mode := rfl

@[simp] theorem Lnorm_id (L : LState) : (Lnorm L).id = L.id := rfl

@[simp] theorem Lnorm_fs (L : LState) : (Lnorm L).fs = L.fs := rfl

@[simp] theorem Lnorm_ref (L : LState) : (Lnorm L).ref = L.ref := rfl

@[simp] theorem Lnorm_rsi_buffer (L : LState) : (Lnorm L).rsi_buffer = L.rsi_buffer := rfl

@[simp] theorem Lnorm_rsip (L : LState) : (Lnorm L).rsip = L.rsip := rfl

@[simp] theorem Lnorm_vout (L : LState) : (Lnorm L).vout = L.vout := rfl

@[simp] theorem Lnorm_vlast (L : LState) : (Lnorm L).vlast = L.vlast := rfl

theorem Lnorm_n (L : LState) : (Lnorm L).n = if n_live L.mode then L.n else 0 := rfl

theorem Lnorm_i (L : LState) : (Lnorm L).i = if i_live L.mode then L.i else 0 := rfl

@[simp] theorem Lnorm_Lnorm (L : LState) : Lnorm (Lnorm L) = Lnorm L := by
  ext <;> simp only [Lnorm_n, Lnorm_i, Lnorm_mode, Lnorm_bits, Lnorm_avail_out, Lnorm_id,
    Lnorm_fs, Lnorm_ref, Lnorm_rsi_buffer, Lnorm_rsip, Lnorm_vout, Lnorm_vlast] <;>
    split_ifs <;> rfl

@[simp] theorem α_mode (c : Config) (s : aec_stream) : (α c s).mode = s.mode := rfl

theorem Lnorm_L_drop (L : LState) (n : Nat) : L_drop (Lnorm L) n = Lnorm (L_drop L n) := rfl

theorem Lnorm_L_fs_drop (L : LState) : L_fs_drop (Lnorm L) = Lnorm (L_fs_drop L) := rfl

theorem Lnorm_L_fs_ask (L : LState) :
    L_fs_ask (Lnorm L) = ((L_fs_ask L).1, Lnorm (L_fs_ask L).2) := rfl

theorem Lnorm_L_commit (c : Config) (L : LState) (cnt : Nat) :
    L_commit c (Lnorm L) cnt = Lnorm (L_commit c L cnt) := rfl

theorem Lnorm_L_check_rsi_end (c : Config) (L : LState) :
    L_check_rsi_end c (Lnorm L) = Lnorm (L_check_rsi_end c L) := by
  unfold L_check_rsi_end
  simp only [Lnorm_rsip]
  split_ifs <;> rfl

theorem Lnorm_L_put_sample (c : Config) (L : LState) (w : Nat) :
    L_put_sample c (Lnorm L) w = Lnorm (L_put_sample c L w) := by
  unfold L_put_sample
  simp only
  rw [← Lnorm_L_check_rsi_end]
  rfl

theorem Lnorm_L_copysample (c : Config) (L : LState) :
    L_copysample c (Lnorm L) = ((L_copysample c L).1, Lnorm (L_copysample c L).2) := by
  unfold L_copysample
  have e1 : L_ask (Lnorm L) c.bits_per_sample = L_ask L c.bits_per_sample := rfl
  have e2 : (Lnorm L).avail_out = L.avail_out := rfl
  have e3 : L_get (Lnorm L) c.bits_per_sample = L_get L c.bits_per_sample := rfl
  rw [e1, e2, e3, Lnorm_L_put_sample, Lnorm_L_drop]
  split_ifs <;> rfl

theorem L_check_rsi_end_frame (c : Config) (L : LState) :
    L_check_rsi_end c L = { L with rsip := (L_check_rsi_end c L).rsip } := by
  unfold L_check_rsi_end
  split_ifs <;> rfl

theorem put_sample_sim (c : Config) (s s' : aec_stream) (w : Nat) (hI : Inv s)
    (h : put_sample c s w = Except.ok s') :
    αr c s' = L_put_sample c (αr c s) w ∧ Inv s' ∧ SameTotals s s' ∧ s'.bitp = s.bitp ∧
      s.rsip < c.rsi_size := by
  unfold put_sample at h
  rcases hst : rsi_store c s s.rsip w with e | s1
  · rw [hst] at h; cases h
  · rw [hst] at h
    simp only [bind, Except.bind, pure, Except.pure, Except.ok.injEq] at h
    obtain ⟨rfl, hlt, -, hI1, -⟩ := rsi_store_sim c s s1 s.rsip w hI le_rfl hst
    simp only at h
    have hI2 : Inv { s with rsi_buffer := upd s.rsi_buffer s.rsip w, rsip := s.rsip + 1, avail_out := sub_size_t s.avail_out c.bytes_per_sample } :=
      ⟨by show s.flush_start ≤ s.rsip + 1; have := hI.flush_le; omega, sub_size_t_lt _ _,
        hI.bitp_le, hI.fs_zero, hI.id_le⟩
    obtain ⟨e1, e2, e3, e4⟩ := check_rsi_end_sim c _ hI2
    subst h
    refine ⟨?_, e2, ⟨e3.1, e3.2⟩, ?_, hlt⟩
    · rw [e1]
      unfold L_put_sample
      congr 1
      have := advance_sim c s { s with rsi_buffer := upd s.rsi_buffer s.rsip w, rsip := s.rsip + 1 } 1 hI rfl rfl rfl rfl rfl rfl rfl rfl
        (fun j hj => by
          show upd s.rsi_buffer s.rsip w j = s.rsi_buffer j
          unfold upd
          have : j ≠ s.rsip := by omega
          simp [this]) rfl rfl rfl rfl
      have e5 : αr c { s with rsi_buffer := upd s.rsi_buffer s.rsip w, rsip := s.rsip + 1, avail_out := sub_size_t s.avail_out c.bytes_per_sample }
          = { αr c { s with rsi_buffer := upd s.rsi_buffer s.rsip w, rsip := s.rsip + 1 } with
              avail_out := sub_size_t s.avail_out c.bytes_per_sample } := rfl
      rw [e5, this]
      rfl
    · have := congrArg List.length e4
      have hb : lbits (check_rsi_end c { s with rsi_buffer := upd s.rsi_buffer s.rsip w, rsip := s.rsip + 1, avail_out := sub_size_t s.avail_out c.bytes_per_sample })
          = lbits s := e4
      unfold check_rsi_end
      split_ifs <;> rfl

theorem copysample_sim (c : Config) (s : aec_stream) (r : Bool × aec_stream) (hI : Inv s)
    (hbps : c.bits_per_sample ≤ 32) (h : copysample c s = Except.ok r) :
    r.1 = (L_copysample c (αr c s)).1 ∧ αr c r.2 = (L_copysample c (αr c s)).2 ∧ Inv r.2 ∧
      SameTotals s r.2 := by
  unfold copysample at h
  obtain ⟨a1, a2, a3, a4, a5, a6, a7⟩ := bits_ask_sim c s c.bits_per_sample (by omega) hI
  unfold L_copysample
  rw [← a1]
  have hav : (bits_ask s c.bits_per_sample).2.avail_out = s.avail_out := by
    have := congrArg LState.avail_out a2
    simpa using this
  by_cases hcond : (bits_ask s c.bits_per_sample).1 = false ∨
      (bits_ask s c.bits_per_sample).2.avail_out = 0
  · simp only [hcond, if_true, pure, Except.pure, Except.ok.injEq] at h
    subst h
    have hcond' : (bits_ask s c.bits_per_sample).1 = false ∨ (αr c s).avail_out = 0 := by
      rw [hav] at hcond; exact hcond
    simp only [hcond', if_true]
    exact ⟨trivial, a2, a3, a4⟩
  · simp only [hcond, if_false] at h
    have hcond' : ¬ ((bits_ask s c.bits_per_sample).1 = false ∨ (αr c s).avail_out = 0) := by
      rw [hav] at hcond; exact hcond
    simp only [hcond', if_false]
    have hok : (bits_ask s c.bits_per_sample).1 = true := by
      cases hx : (bits_ask s c.bits_per_sample).1
      · exact absurd (Or.inl hx) hcond
      · rfl
    have hbit := a5 hok
    rcases hp : put_sample c (bits_ask s c.bits_per_sample).2
        (bits_get (bits_ask s c.bits_per_sample).2 c.bits_per_sample) with e | s1
    · rw [hp] at h; cases h
    · rw [hp] at h
      simp only [bind, Except.bind, pure, Except.pure, Except.ok.injEq] at h
      subst h
      obtain ⟨p1, p2, p3, p4, _⟩ := put_sample_sim c _ s1 _ a3 hp
      obtain ⟨d1, d2, d3⟩ := bits_drop_sim c s1 c.bits_per_sample (by rw [p4]; exact hbit) p2
      refine ⟨rfl, ?_, d2, ⟨?_, ?_⟩⟩
      · simp only
        rw [d1, p1, a2, bits_get_sim c _ _ hbit, a2]
      · rw [d3.1, p3.1, a4.1]
      · rw [d3.2, p3.2, a4.2]

theorem Sim_of_step {c : Config} {s s' : aec_stream} {st : Status} (hI : Inv s')
    (hT : SameTotals s s') (h : Lstep c (α c s) = some (st, α c s')) : Sim c s st s' := by
  refine ⟨hI, hT, ?_⟩
  by_cases hst : st = Status.M_CONTINUE
  · subst hst
    exact ⟨α c s', Lsteps_one h, Or.inl ⟨rfl, rfl⟩⟩
  · exact ⟨α c s, Lsteps.refl _, Or.inr ⟨hst, h⟩⟩

theorem SameTotals.trans {a b d : aec_stream} (h1 : SameTotals a b) (h2 : SameTotals b d) :
    SameTotals a d := ⟨h2.1.trans h1.1, h2.2.trans h1.2⟩

theorem Sim_step_then {c : Config} {s s1 s' : aec_stream} {st : Status}
    (hI : Inv s1) (hT : SameTotals s s1)
    (h : Lstep c (α c s) = some (Status.M_CONTINUE, α c s1)) (h2 : Sim c s1 st s') :
    Sim c s st s' := by
  obtain ⟨i2, t2, Lm, l1, l2⟩ := h2
  exact ⟨i2, hT.trans t2, Lm, Lsteps.step h l1, l2⟩

theorem α_eq_of_αr {c : Config} {s s' : aec_stream} (h : αr c s' = αr c s) : α c s' = α c s := by
  unfold α; rw [h]

theorem m_low_entropy_sim (c : Config) (s s' : aec_stream) (st : Status) (hI : Inv s)
    (hm : s.mode = Mode.m_low_entropy) (h : m_low_entropy s = Except.ok (st, s')) :
    Sim c s st s' := by
  obtain ⟨a1, a2, a3, a4, a5, a6, a7⟩ := bits_ask_sim c s 1 (by norm_num) hI
  unfold m_low_entropy at h
  simp only at h
  by_cases hr : (bits_ask s 1).1 = false
  · simp only [hr, if_true, pure, Except.pure, Except.ok.injEq, Prod.mk.injEq] at h
    obtain ⟨rfl, rfl⟩ := h
    apply Sim_of_step a3 a4
    rw [α_eq_of_αr a2]
    have hask : L_ask (α c s) 1 = false := by rw [← hr, a1]; rfl
    unfold Lstep
    simp only [α_mode, hm, hask, if_true]
  · simp only [hr, if_false, pure, Except.pure, Except.ok.injEq, Prod.mk.injEq] at h
    obtain ⟨rfl, rfl⟩ := h
    have hok : (bits_ask s 1).1 = true := by
      cases hx : (bits_ask s 1).1
      · exact absurd hx hr
      · rfl
    obtain ⟨d1, d2, d3⟩ := bits_drop_sim c _ 1 (a5 hok) a3
    have hmode : (bits_ask s 1).2.mode = s.mode := by
      have := congrArg LState.mode a2; simpa using this
    apply Sim_of_step
    · exact ⟨d2.flush_le, d2.avail_lt, d2.bitp_le, fun _ => by
        have := d2.fs_zero (by show fs_live (bits_ask s 1).2.mode = false; rw [hmode, hm]; rfl)
        exact this, fun _ => by
        show bits_get (bits_ask s 1).2 1 ≤ 32
        rw [bits_get_sim c _ _ (a5 hok)]
        have := bits_val_lt (List.take 1 (αr c (bits_ask s 1).2).bits)
        have hl : (List.take 1 (αr c (bits_ask s 1).2).bits).length ≤ 1 := by simp
        have : 2 ^ (List.take 1 (αr c (bits_ask s 1).2).bits).length ≤ 2 ^ 1 :=
          Nat.pow_le_pow_right (by norm_num) hl
        unfold L_get
        omega⟩
    · exact ⟨d3.1.trans a4.1, d3.2.trans a4.2⟩
    · have hask : L_ask (α c s) 1 = true := by rw [← hok, a1]; rfl
      unfold Lstep
      simp only [α_mode, hm, hask, Bool.true_eq_false, if_false]
      congr 2
      unfold α
      have e : αr c { bits_drop (bits_ask s 1).2 1 with
          id := bits_get (bits_ask s 1).2 1, mode := Mode.m_low_entropy_ref }
          = { αr c (bits_drop (bits_ask s 1).2 1) with
              id := bits_get (bits_ask s 1).2 1, mode := Mode.m_low_entropy_ref } := rfl
      rw [e, d1, a2, bits_get_sim c _ _ (a5 hok), a2]
      ext <;> simp [Lnorm_n, Lnorm_i, n_live, i_live, L_drop, L_get]

theorem bits_get_le (c : Config) (s : aec_stream) (n : Nat) (h : n ≤ s.bitp) (hn : n ≤ 5) :
    bits_get s n ≤ 32 := by
  rw [bits_get_sim c _ _ h]
  unfold L_get
  have h1 := bits_val_lt (List.take n (αr c s).bits)
  have hl : (List.take n (αr c s).bits).length ≤ 5 := by
    rw [List.length_take]; omega
  have : 2 ^ (List.take n (αr c s).bits).length ≤ 2 ^ 5 :=
    Nat.pow_le_pow_right (by norm_num) hl
  omega

theorem Lnorm_L_id_ref (c : Config) (L : LState) :
    L_id_ref c (Lnorm L) = Lnorm (L_id_ref c L) := by
  unfold L_id_ref
  simp only [Lnorm_rsip, Lnorm_bits]
  split_ifs <;> rfl

theorem m_id_ref_sim (c : Config) (s : aec_stream) (hI : Inv s) :
    αr c (m_id_ref c s) = L_id_ref c (αr c s) ∧ Inv (m_id_ref c s) ∧
      SameTotals s (m_id_ref c s) ∧ (m_id_ref c s).mode = s.mode := by
  unfold m_id_ref L_id_ref
  by_cases hcond : c.pp = true ∧ s.rsip = 0
  · rw [if_pos hcond, if_pos (show c.pp = true ∧ (αr c s).rsip = 0 from hcond)]
    by_cases hpad : c.flags.PAD_RSI = true
    · rw [if_pos hpad, if_pos hpad]
      have hb : s.bitp % 8 ≤ s.bitp := Nat.mod_le _ _
      have e := bits_drop_sim c s (s.bitp % 8) hb hI
      have e2 : αr c { s with ref := 1, bitp := s.bitp - s.bitp % 8 }
          = { αr c (bits_drop s (s.bitp % 8)) with ref := 1 } := rfl
      refine ⟨?_, ⟨hI.flush_le, hI.avail_lt, ?_, hI.fs_zero, hI.id_le⟩, ⟨rfl, rfl⟩, rfl⟩
      · rw [e2, e.1]
        unfold L_drop
        simp only [αr_bits]
        rw [lbits_length]
        have : (s.bitp + 8 * s.next_in.length) % 8 = s.bitp % 8 := by omega
        rw [this]
      · show s.bitp - s.bitp % 8 ≤ 63
        have := hI.bitp_le; omega
    · rw [if_neg hpad, if_neg hpad]
      exact ⟨rfl, ⟨hI.flush_le, hI.avail_lt, hI.bitp_le, hI.fs_zero, hI.id_le⟩, ⟨rfl, rfl⟩, rfl⟩
  · rw [if_neg hcond, if_neg (show ¬ (c.pp = true ∧ (αr c s).rsip = 0) from hcond)]
    exact ⟨rfl, ⟨hI.flush_le, hI.avail_lt, hI.bitp_le, hI.fs_zero, hI.id_le⟩, ⟨rfl, rfl⟩, rfl⟩

theorem L_id_ref_mode (c : Config) (L : LState) : (L_id_ref c L).mode = L.mode := by
  unfold L_id_ref; split_ifs <;> rfl

theorem L_id_ref_n (c : Config) (L : LState) : (L_id_ref c L).n = L.n := by
  unfold L_id_ref; split_ifs <;> rfl

theorem L_id_ref_i (c : Config) (L : LState) : (L_id_ref c L).i = L.i := by
  unfold L_id_ref; split_ifs <;> rfl

theorem make_id_table_getElem? (modi id : Nat) (h : id < modi) :
    (make_id_table modi)[id]? = some
      (if id = modi - 1 then Mode.m_uncomp
        else if id = 0 then Mode.m_low_entropy else Mode.m_split) := by
  unfold make_id_table
  rw [List.getElem?_map, List.getElem?_range h]
  rfl

theorem make_id_table_length (modi : Nat) : (make_id_table modi).length = modi := by
  simp [make_id_table]

theorem id_table_modes {c : Config} (hc : Accepted c) {id : Nat} {mode : Mode}
    (h : c.id_table[id]? = some mode) :
    mode = Mode.m_low_entropy ∨ mode = Mode.m_split ∨ mode = Mode.m_uncomp := by
  rw [hc.id_table_eq] at h
  have hlt : id < 1 <<< c.id_len := by
    by_contra hn
    rw [List.getElem?_eq_none (by rw [make_id_table_length]; omega)] at h
    cases h
  rw [make_id_table_getElem? _ _ hlt] at h
  simp only [Option.some.injEq] at h
  subst h
  split_ifs <;> simp

theorem m_id_sim (c : Config) (hc : Accepted c) (s s' : aec_stream) (st : Status) (hI : Inv s)
    (hm : s.mode = Mode.m_id) (h : m_id c s = Except.ok (st, s')) :
    Sim c s st s' := by
  have hid := accepted_id_len_range hc
  unfold m_id at h
  simp only at h
  obtain ⟨hL0, hI0, hT0, hm0⟩ := m_id_ref_sim c s hI
  obtain ⟨a1, a2, a3, a4, a5, a6, a7⟩ :=
    bits_ask_sim c (m_id_ref c s) c.id_len (by omega) hI0
  have hmode : (bits_ask (m_id_ref c s) c.id_len).2.mode = s.mode := by
    have := congrArg LState.mode a2
    simp only [αr_mode] at this
    rw [this, hm0]
  have hLs : L_id_ref c (α c s) = Lnorm (αr c (m_id_ref c s)) := by
    unfold α; rw [Lnorm_L_id_ref, hL0]
  by_cases hr : (bits_ask (m_id_ref c s) c.id_len).1 = false
  · rw [if_pos hr] at h
    simp only [pure, Except.pure, Except.ok.injEq, Prod.mk.injEq] at h
    obtain ⟨rfl, rfl⟩ := h
    apply Sim_of_step a3 (hT0.trans a4)
    unfold Lstep
    simp only [α_mode, hm]
    rw [hLs]
    have hask : L_ask (Lnorm (αr c (m_id_ref c s))) c.id_len = false := by rw [← hr, a1]; rfl
    rw [if_pos hask, α_eq_of_αr a2]
    rfl
  · rw [if_neg hr] at h
    have hok : (bits_ask (m_id_ref c s) c.id_len).1 = true := by
      cases hx : (bits_ask (m_id_ref c s) c.id_len).1
      · exact absurd hx hr
      · rfl
    have hbit := a5 hok
    rcases htab : c.id_table[bits_get (bits_ask (m_id_ref c s) c.id_len).2 c.id_len]?
      with _ | mode
    · rw [htab] at h; cases h
    · rw [htab] at h
      simp only [pure, Except.pure, Except.ok.injEq, Prod.mk.injEq] at h
      obtain ⟨rfl, rfl⟩ := h
      obtain ⟨d1, d2, d3⟩ := bits_drop_sim c _ c.id_len hbit a3
      have hfs : (bits_ask (m_id_ref c s) c.id_len).2.fs = 0 := by
        apply a3.fs_zero
        rw [hmode, hm]; rfl
      apply Sim_of_step
      · exact ⟨d2.flush_le, d2.avail_lt, d2.bitp_le, fun _ => hfs,
          fun _ => bits_get_le c _ _ hbit (by omega)⟩
      · exact ⟨d3.1.trans (a4.1.trans hT0.1), d3.2.trans (a4.2.trans hT0.2)⟩
      · unfold Lstep
        simp only [α_mode, hm]
        rw [hLs]
        have hask : L_ask (Lnorm (αr c (m_id_ref c s))) c.id_len = true := by
          rw [← hok, a1]; rfl
        have hget : L_get (Lnorm (αr c (m_id_ref c s))) c.id_len
            = bits_get (bits_ask (m_id_ref c s) c.id_len).2 c.id_len := by
          rw [bits_get_sim c _ _ hbit, a2]; rfl
        rw [if_neg (by rw [hask]; simp), hget, htab]
        simp only
        congr 2
        unfold α
        have e : αr c { bits_drop (bits_ask (m_id_ref c s) c.id_len).2 c.id_len with
            id := bits_get (bits_ask (m_id_ref c s) c.id_len).2 c.id_len, mode := mode }
            = { αr c (bits_drop (bits_ask (m_id_ref c s) c.id_len).2 c.id_len) with
                id := bits_get (bits_ask (m_id_ref c s) c.id_len).2 c.id_len, mode := mode } :=
          rfl
        rw [e, d1, a2]
        have hmm : (m_id_ref c s).mode = Mode.m_id := by rw [hm0, hm]
        rcases id_table_modes hc htab with rfl | rfl | rfl <;>
          ext <;> simp [Lnorm_n, Lnorm_i, L_drop, hmm, n_live, i_live]

theorem L_check_rsi_end_fields (c : Config) (L : LState) :
    (L_check_rsi_end c L).mode = L.mode ∧ (L_check_rsi_end c L).id = L.id ∧
    (L_check_rsi_end c L).n = L.n ∧ (L_check_rsi_end c L).i = L.i ∧
    (L_check_rsi_end c L).fs = L.fs ∧ (L_check_rsi_end c L).ref = L.ref ∧
    (L_check_rsi_end c L).bits = L.bits ∧ (L_check_rsi_end c L).avail_out = L.avail_out := by
  unfold L_check_rsi_end
  split_ifs <;> exact ⟨rfl, rfl, rfl, rfl, rfl, rfl, rfl, rfl⟩

theorem L_put_sample_fields (c : Config) (L : LState) (w : Nat) :
    (L_put_sample c L w).mode = L.mode ∧ (L_put_sample c L w).id = L.id ∧
    (L_put_sample c L w).n = L.n ∧ (L_put_sample c L w).i = L.i ∧
    (L_put_sample c L w).fs = L.fs ∧ (L_put_sample c L w).ref = L.ref ∧
    (L_put_sample c L w).bits = L.bits ∧
    (L_put_sample c L w).avail_out = sub_size_t L.avail_out c.bytes_per_sample := by
  unfold L_put_sample
  simp only
  obtain ⟨h1, h2, h3, h4, h5, h6, h7, h8⟩ := L_check_rsi_end_fields c
    { L_commit c { L with rsi_buffer := upd L.rsi_buffer L.rsip w } 1 with
      avail_out := sub_size_t (L_commit c { L with rsi_buffer := upd L.rsi_buffer L.rsip w } 1).avail_out
        c.bytes_per_sample }
  exact ⟨h1, h2, h3, h4, h5, h6, h7, h8⟩

theorem L_copysample_fields (c : Config) (L : LState) :
    (L_copysample c L).2.mode = L.mode ∧ (L_copysample c L).2.id = L.id ∧
    (L_copysample c L).2.n = L.n ∧ (L_copysample c L).2.i = L.i ∧
    (L_copysample c L).2.fs = L.fs ∧ (L_copysample c L).2.ref = L.ref := by
  unfold L_copysample
  split_ifs
  · exact ⟨rfl, rfl, rfl, rfl, rfl, rfl⟩
  · obtain ⟨h1, h2, h3, h4, h5, h6, -, -⟩ :=
      L_put_sample_fields c L (L_get L c.bits_per_sample)
    exact ⟨h1, h2, h3, h4, h5, h6⟩

/-- The fields of a state after `copysample`, read off its logical state. -/
theorem copysample_fields (c : Config) (s : aec_stream) (r : Bool × aec_stream)
    (h : αr c r.2 = (L_copysample c (αr c s)).2) :
    r.2.mode = s.mode ∧ r.2.id = s.id ∧ r.2.n = s.n ∧ r.2.i = s.i ∧ r.2.fs = s.fs ∧
      r.2.ref = s.ref := by
  obtain ⟨h1, h2, h3, h4, h5, h6⟩ := L_copysample_fields c (αr c s)
  rw [← h] at h1 h2 h3 h4 h5 h6
  exact ⟨h1, h2, h3, h4, h5, h6⟩

theorem m_low_entropy_ref_sim (c : Config) (hc : Accepted c) (s s' : aec_stream) (st : Status)
    (hI : Inv s) (hm : s.mode = Mode.m_low_entropy_ref)
    (h : m_low_entropy_ref c s = Except.ok (st, s')) : Sim c s st s' := by
  unfold m_low_entropy_ref at h
  -- the optional copy of the reference sample
  have key : ∃ r : Bool × aec_stream,
      (if s.ref ≠ 0 then copysample c s else pure (true, s)) = Except.ok r ∧
      r = (if s.ref ≠ 0 then r else (true, s)) ∧
      r.1 = (if (αr c s).ref ≠ 0 then L_copysample c (αr c s) else (true, αr c s)).1 ∧
      αr c r.2 = (if (αr c s).ref ≠ 0 then L_copysample c (αr c s) else (true, αr c s)).2 ∧
      Inv r.2 ∧ SameTotals s r.2 ∧ r.2.mode = s.mode ∧ r.2.id = s.id := by
    by_cases href : s.ref ≠ 0
    · rw [if_pos href, if_pos (show (αr c s).ref ≠ 0 from href)]
      rcases hcs : copysample c s with e | r
      · rw [if_pos href, hcs] at h; cases h
      · obtain ⟨c1, c2, c3, c4⟩ := copysample_sim c s r hI hc.bps_le hcs
        obtain ⟨f1, f2, -, -, -, -⟩ := copysample_fields c s r c2
        exact ⟨r, rfl, by rw [if_pos href], c1, c2, c3, c4, f1, f2⟩
    · rw [if_neg href, if_neg (show ¬ (αr c s).ref ≠ 0 from href)]
      exact ⟨(true, s), rfl, by rw [if_neg href], rfl, rfl, hI, ⟨rfl, rfl⟩, rfl, rfl⟩
  obtain ⟨r, hr, -, k1, k2, k3, k4, k5, k6⟩ := key
  rw [hr] at h
  simp only [bind, Except.bind] at h
  have hLr : (if (α c s).ref ≠ 0 then L_copysample c (α c s) else (true, α c s)) =
      (r.1, Lnorm (αr c r.2)) := by
    unfold α
    simp only [Lnorm_ref]
    rw [Lnorm_L_copysample]
    rw [k1, k2]
    split_ifs <;> rfl
  have hfs : r.2.fs = 0 := k3.fs_zero (by rw [k5, hm]; rfl)
  have hid : r.2.id ≤ 32 := k3.id_le (by rw [k5, hm]; simp)
  by_cases hr1 : r.1 = false
  · rw [if_pos hr1] at h
    simp only [pure, Except.pure, Except.ok.injEq, Prod.mk.injEq] at h
    obtain ⟨rfl, rfl⟩ := h
    apply Sim_of_step k3 k4
    unfold Lstep
    simp only [α_mode, hm]
    rw [hLr]
    simp only [hr1, if_true]
    rfl
  · rw [if_neg hr1] at h
    by_cases hid1 : r.2.id = 1
    · rw [if_pos hid1] at h
      simp only [pure, Except.pure, Except.ok.injEq, Prod.mk.injEq] at h
      obtain ⟨rfl, rfl⟩ := h
      apply Sim_of_step
      · exact ⟨k3.flush_le, k3.avail_lt, k3.bitp_le, fun _ => hfs, fun _ => hid⟩
      · exact k4
      · unfold Lstep
        simp only [α_mode, hm]
        rw [hLr]
        simp only [hr1, if_false, Lnorm_id, αr_id, hid1, if_true]
        rfl
    · rw [if_neg hid1] at h
      simp only [pure, Except.pure, Except.ok.injEq, Prod.mk.injEq] at h
      obtain ⟨rfl, rfl⟩ := h
      apply Sim_of_step
      · exact ⟨k3.flush_le, k3.avail_lt, k3.bitp_le, fun _ => hfs, fun _ => hid⟩
      · exact k4
      · unfold Lstep
        simp only [α_mode, hm]
        rw [hLr]
        simp only [hr1, if_false, Lnorm_id, αr_id, hid1]
        rfl

theorem m_split_slow_sim (c : Config) (hc : Accepted c) (s s' : aec_stream) (st : Status)
    (clz : Bool) (hI : Inv s) (hm : s.mode = Mode.m_split) (hB : BUFFERSPACE c s = false)
    (h : m_split clz c s = Except.ok (st, s')) : Sim c s st s' := by
  unfold m_split at h
  rw [hB] at h
  simp only [Bool.false_eq_true, if_false] at h
  have hfs0 : s.fs = 0 := hI.fs_zero (by rw [hm]; rfl)
  have hid0 : s.id ≤ 32 := hI.id_le (by rw [hm]; simp)
  by_cases href : s.ref ≠ 0
  · rw [if_pos href] at h
    rcases hcs : copysample c s with e | r
    · rw [hcs] at h; cases h
    · rw [hcs] at h
      simp only [bind, Except.bind] at h
      obtain ⟨c1, c2, c3, c4⟩ := copysample_sim c s r hI hc.bps_le hcs
      obtain ⟨f1, f2, f3, f4, f5, f6⟩ := copysample_fields c s r c2
      have hLr : L_copysample c (α c s) = (r.1, Lnorm (αr c r.2)) := by
        unfold α
        rw [Lnorm_L_copysample, c1, c2]
      by_cases hr1 : r.1 = false
      · rw [if_pos hr1] at h
        simp only [pure, Except.pure, Except.ok.injEq, Prod.mk.injEq] at h
        obtain ⟨rfl, rfl⟩ := h
        apply Sim_of_step c3 c4
        unfold Lstep
        simp only [α_mode, hm]
        rw [if_pos (show (α c s).ref ≠ 0 from href), hLr]
        simp only [hr1, if_true]
        rfl
      · rw [if_neg hr1] at h
        simp only [pure, Except.pure, Except.ok.injEq, Prod.mk.injEq] at h
        obtain ⟨rfl, rfl⟩ := h
        apply Sim_of_step
        · exact ⟨c3.flush_le, c3.avail_lt, c3.bitp_le, fun hh => by simp [fs_live] at hh,
            fun _ => by show r.2.id ≤ 32; rw [f2]; exact hid0⟩
        · exact c4
        · unfold Lstep
          simp only [α_mode, hm]
          rw [if_pos (show (α c s).ref ≠ 0 from href), hLr]
          simp only [hr1, if_false]
          rfl
  · rw [if_neg href] at h
    simp only [pure, Except.pure, Except.ok.injEq, Prod.mk.injEq] at h
    obtain ⟨rfl, rfl⟩ := h
    apply Sim_of_step
    · exact ⟨hI.flush_le, hI.avail_lt, hI.bitp_le, fun hh => by simp [fs_live] at hh,
        fun _ => hid0⟩
    · exact ⟨rfl, rfl⟩
    · unfold Lstep
      simp only [α_mode, hm]
      rw [if_neg (show ¬ (α c s).ref ≠ 0 from href)]
      rfl

theorem m_se_slow_sim (c : Config) (s s' : aec_stream) (st : Status)
    (clz : Bool) (hI : Inv s) (hm : s.mode = Mode.m_se) (hB : BUFFERSPACE c s = false)
    (h : m_se clz c s = Except.ok (st, s')) : Sim c s st s' := by
  unfold m_se at h
  rw [hB] at h
  simp only [Bool.false_eq_true, if_false, pure, Except.pure, Except.ok.injEq,
    Prod.mk.injEq] at h
  obtain ⟨rfl, rfl⟩ := h
  have hid0 : s.id ≤ 32 := hI.id_le (by rw [hm]; simp)
  apply Sim_of_step
  · exact ⟨hI.flush_le, hI.avail_lt, hI.bitp_le, fun hh => by simp [fs_live] at hh,
      fun _ => hid0⟩
  · exact ⟨rfl, rfl⟩
  · unfold Lstep
    simp only [α_mode, hm]
    rfl

theorem m_uncomp_slow_sim (c : Config) (s s' : aec_stream) (st : Status)
    (hI : Inv s) (hm : s.mode = Mode.m_uncomp) (hB : BUFFERSPACE c s = false)
    (h : m_uncomp c s = Except.ok (st, s')) : Sim c s st s' := by
  unfold m_uncomp at h
  rw [hB] at h
  simp only [Bool.false_eq_true, if_false, pure, Except.pure, Except.ok.injEq,
    Prod.mk.injEq] at h
  obtain ⟨rfl, rfl⟩ := h
  have hid0 : s.id ≤ 32 := hI.id_le (by rw [hm]; simp)
  have hfs0 : s.fs = 0 := hI.fs_zero (by rw [hm]; rfl)
  apply Sim_of_step
  · exact ⟨hI.flush_le, hI.avail_lt, hI.bitp_le, fun _ => hfs0, fun _ => hid0⟩
  · exact ⟨rfl, rfl⟩
  · unfold Lstep
    simp only [α_mode, hm]
    rfl

theorem Lnorm_set_mode_dead (Z : LState) (m : Mode) (hn : n_live m = false)
    (hi : i_live m = false) : Lnorm { Lnorm Z with mode := m } = Lnorm { Z with mode := m } := by
  ext <;> simp [Lnorm_n, Lnorm_i, hn, hi]

theorem α_i_of_live (c : Config) (s : aec_stream) (h : i_live s.mode = true) :
    (α c s).i = s.i := by
  show (if i_live s.mode then s.i else 0) = s.i
  rw [h]; rfl

theorem α_n_of_live (c : Config) (s : aec_stream) (h : n_live s.mode = true) :
    (α c s).n = s.n := by
  show (if n_live s.mode then s.n else 0) = s.n
  rw [h]; rfl

theorem α_set_i (c : Config) (s : aec_stream) (x : Int) (h : i_live s.mode = true) :
    α c { s with i := x } = { α c s with i := x } := by
  have hf : flush_samples c { s with i := x } = flush_samples c s :=
    flush_samples_congr c s _ rfl rfl rfl rfl
  ext <;> simp [α, Lnorm_n, Lnorm_i, h, αr_vout, αr_vlast, hf, lbits]

theorem put_sample_mode (c : Config) (s s1 : aec_stream) (w : Nat)
    (h : αr c s1 = L_put_sample c (αr c s) w) :
    s1.mode = s.mode ∧ s1.id = s.id ∧ s1.n = s.n ∧ s1.i = s.i ∧ s1.fs = s.fs ∧ s1.ref = s.ref := by
  obtain ⟨h1, h2, h3, h4, h5, h6, -, -⟩ := L_put_sample_fields c (αr c s) w
  rw [← h] at h1 h2 h3 h4 h5 h6
  exact ⟨h1, h2, h3, h4, h5, h6⟩

/-! ### The steps of the logical decoder, mode by mode -/

theorem Lstep_zero_output_exit (c : Config) (L : LState) (hm : L.mode = Mode.m_zero_output)
    (h : L.avail_out = 0) : Lstep c L = some (Status.M_EXIT, L) := by
  unfold Lstep; rw [hm]; simp only [h, if_true]

theorem Lstep_zero_output_ok (c : Config) (L : LState) (hm : L.mode = Mode.m_zero_output)
    (h : ¬ L.avail_out = 0) :
    Lstep c L =
      if (L_put_sample c L 0).i - 1 ≠ 0 then
        some (Status.M_CONTINUE, { L_put_sample c L 0 with i := (L_put_sample c L 0).i - 1 })
      else
        some (Status.M_CONTINUE,
          Lnorm { L_put_sample c L 0 with i := (L_put_sample c L 0).i - 1, mode := Mode.m_id }) := by
  unfold Lstep; rw [hm]; simp only [h, if_false]

theorem Lstep_uncomp_copy_exit (c : Config) (L L1 : LState) (hm : L.mode = Mode.m_uncomp_copy)
    (h : L_copysample c L = (false, L1)) : Lstep c L = some (Status.M_EXIT, L1) := by
  unfold Lstep; rw [hm]; simp only [h, if_true]

theorem Lstep_uncomp_copy_ok (c : Config) (L L1 : LState) (hm : L.mode = Mode.m_uncomp_copy)
    (h : L_copysample c L = (true, L1)) :
    Lstep c L =
      if L1.i - 1 ≠ 0 then some (Status.M_CONTINUE, { L1 with i := L1.i - 1 })
      else some (Status.M_CONTINUE, Lnorm { L1 with i := L1.i - 1, mode := Mode.m_id }) := by
  unfold Lstep; rw [hm]; simp only [h, Bool.true_eq_false, if_false]

theorem m_zero_output_loop_sim (c : Config) :
    ∀ (fuel : Nat) (s s' : aec_stream) (st : Status), Inv s → s.mode = Mode.m_zero_output →
      m_zero_output_loop c fuel s = Except.ok (st, s') → Sim c s st s' := by
  intro fuel
  induction fuel with
  | zero => intro s s' st _ _ h; cases h
  | succ fuel ih =>
    intro s s' st hI hm h
    unfold m_zero_output_loop at h
    have hid0 : s.id ≤ 32 := hI.id_le (by rw [hm]; simp)
    by_cases hav : s.avail_out = 0
    · rw [if_pos hav] at h
      simp only [pure, Except.pure, Except.ok.injEq, Prod.mk.injEq] at h
      obtain ⟨rfl, rfl⟩ := h
      apply Sim_of_step hI ⟨rfl, rfl⟩
      exact Lstep_zero_output_exit c _ hm hav
    · rw [if_neg hav] at h
      rcases hp : put_sample c s 0 with e | s1
      · rw [hp] at h; cases h
      · rw [hp] at h
        simp only [bind, Except.bind] at h
        obtain ⟨p1, p2, p3, p4, _⟩ := put_sample_sim c s s1 0 hI hp
        obtain ⟨g1, g2, g3, g4, g5, g6⟩ := put_sample_mode c s s1 0 p1
        have hlive : i_live s1.mode = true := by rw [g1, hm]; rfl
        have hLp : L_put_sample c (α c s) 0 = α c s1 := by
          unfold α; rw [Lnorm_L_put_sample, p1]
        by_cases hmin : s1.i = INT_MIN
        · rw [if_pos hmin] at h; cases h
        · rw [if_neg hmin] at h
          have hI2 : Inv { s1 with i := s1.i - 1 } :=
            ⟨p2.flush_le, p2.avail_lt, p2.bitp_le, p2.fs_zero, p2.id_le⟩
          have hstep := Lstep_zero_output_ok c (α c s) hm hav
          rw [hLp, α_i_of_live c s1 hlive] at hstep
          by_cases hne : s1.i - 1 ≠ 0
          · rw [if_pos hne] at h hstep
            rw [← α_set_i c s1 _ hlive] at hstep
            exact Sim_step_then hI2 p3 hstep
              (ih _ s' st hI2 (by show s1.mode = _; rw [g1, hm]) h)
          · rw [if_neg hne] at h hstep
            simp only [pure, Except.pure, Except.ok.injEq, Prod.mk.injEq] at h
            obtain ⟨rfl, rfl⟩ := h
            apply Sim_of_step
            · exact ⟨p2.flush_le, p2.avail_lt, p2.bitp_le,
                fun _ => p2.fs_zero (by rw [g1, hm]; rfl), fun hh => absurd rfl hh⟩
            · exact p3
            · rw [hstep]
              refine congrArg some (congrArg (Prod.mk _) ?_)
              unfold α
              ext <;> simp [Lnorm_n, Lnorm_i, n_live, i_live] <;> rfl

theorem m_zero_output_sim (c : Config) (s s' : aec_stream) (st : Status) (hI : Inv s)
    (hm : s.mode = Mode.m_zero_output) (h : m_zero_output c s = Except.ok (st, s')) :
    Sim c s st s' :=
  m_zero_output_loop_sim c _ s s' st hI hm h

theorem m_uncomp_copy_loop_sim (c : Config) (hc : Accepted c) :
    ∀ (fuel : Nat) (s s' : aec_stream) (st : Status), Inv s → s.mode = Mode.m_uncomp_copy →
      m_uncomp_copy_loop c fuel s = Except.ok (st, s') → Sim c s st s' := by
  intro fuel
  induction fuel with
  | zero => intro s s' st _ _ h; cases h
  | succ fuel ih =>
    intro s s' st hI hm h
    unfold m_uncomp_copy_loop at h
    rcases hcs : copysample c s with e | r
    · rw [hcs] at h; cases h
    · rw [hcs] at h
      simp only [bind, Except.bind] at h
      obtain ⟨c1, c2, c3, c4⟩ := copysample_sim c s r hI hc.bps_le hcs
      obtain ⟨f1, f2, f3, f4, f5, f6⟩ := copysample_fields c s r c2
      have hlive : i_live r.2.mode = true := by rw [f1, hm]; rfl
      have hLr : L_copysample c (α c s) = (r.1, α c r.2) := by
        unfold α
        rw [Lnorm_L_copysample, c1, c2]
      by_cases hr1 : r.1 = false
      · rw [if_pos hr1] at h
        simp only [pure, Except.pure, Except.ok.injEq, Prod.mk.injEq] at h
        obtain ⟨rfl, rfl⟩ := h
        apply Sim_of_step c3 c4
        rw [hr1] at hLr
        exact Lstep_uncomp_copy_exit c _ _ hm hLr
      · rw [if_neg hr1] at h
        have hr1' : r.1 = true := by
          cases hx : r.1
          · exact absurd hx hr1
          · rfl
        by_cases hmin : r.2.i = INT_MIN
        · rw [if_pos hmin] at h; cases h
        · rw [if_neg hmin] at h
          have hI2 : Inv { r.2 with i := r.2.i - 1 } :=
            ⟨c3.flush_le, c3.avail_lt, c3.bitp_le, c3.fs_zero, c3.id_le⟩
          rw [hr1'] at hLr
          have hstep := Lstep_uncomp_copy_ok c (α c s) _ hm hLr
          rw [α_i_of_live c r.2 hlive] at hstep
          by_cases hne : r.2.i - 1 ≠ 0
          · rw [if_pos hne] at h hstep
            rw [← α_set_i c r.2 _ hlive] at hstep
            exact Sim_step_then hI2 c4 hstep
              (ih _ s' st hI2 (by show r.2.mode = _; rw [f1, hm]) h)
          · rw [if_neg hne] at h hstep
            simp only [pure, Except.pure, Except.ok.injEq, Prod.mk.injEq] at h
            obtain ⟨rfl, rfl⟩ := h
            apply Sim_of_step
            · exact ⟨c3.flush_le, c3.avail_lt, c3.bitp_le,
                fun _ => c3.fs_zero (by rw [f1, hm]; rfl), fun hh => absurd rfl hh⟩
            · exact c4
            · rw [hstep]
              refine congrArg some (congrArg (Prod.mk _) ?_)
              unfold α
              ext <;> simp [Lnorm_n, Lnorm_i, n_live, i_live] <;> rfl

theorem m_uncomp_copy_sim (c : Config) (hc : Accepted c) (s s' : aec_stream) (st : Status)
    (hI : Inv s) (hm : s.mode = Mode.m_uncomp_copy)
    (h : m_uncomp_copy c s = Except.ok (st, s')) : Sim c s st s' :=
  m_uncomp_copy_loop_sim c hc _ s s' st hI hm h

theorem L_fs_ask_α (c : Config) (s : aec_stream) (hI : Inv s) (hm : fs_live s.mode = true) :
    L_fs_ask (α c s) = ((fs_ask s).1, α c (fs_ask s).2) := by
  obtain ⟨f1, f2, -, -, -, -⟩ := fs_ask_sim c s hI hm
  unfold α
  rw [Lnorm_L_fs_ask, ← f1, ← f2]

theorem fs_ask_fields (c : Config) (s : aec_stream) (hI : Inv s) (hm : fs_live s.mode = true) :
    (fs_ask s).2.mode = s.mode ∧ (fs_ask s).2.id = s.id ∧ (fs_ask s).2.n = s.n ∧
    (fs_ask s).2.i = s.i ∧ (fs_ask s).2.ref = s.ref ∧ (fs_ask s).2.rsip = s.rsip ∧
    (fs_ask s).2.avail_out = s.avail_out ∧ (fs_ask s).2.rsi_buffer = s.rsi_buffer := by
  obtain ⟨-, f2, -, -, -, -⟩ := fs_ask_sim c s hI hm
  have h1 := congrArg LState.mode f2
  have h2 := congrArg LState.id f2
  have h3 := congrArg LState.n f2
  have h4 := congrArg LState.i f2
  have h5 := congrArg LState.ref f2
  have h6 := congrArg LState.rsip f2
  have h7 := congrArg LState.avail_out f2
  have h8 := congrArg LState.rsi_buffer f2
  exact ⟨h1, h2, h3, h4, h5, h6, h7, h8⟩

theorem Lnorm_check_mode (c : Config) (B : LState) (m : Mode) (hn : n_live m = false)
    (hi : i_live m = false) :
    Lnorm { L_check_rsi_end c (Lnorm B) with mode := m }
      = Lnorm { L_check_rsi_end c B with mode := m } := by
  rw [Lnorm_L_check_rsi_end, Lnorm_set_mode_dead _ _ hn hi]

theorem αr_set_mode_i (c : Config) (s : aec_stream) (m : Mode) (x : Int) :
    αr c { s with i := x, mode := m } = { αr c s with i := x, mode := m } := by
  have hf : flush_samples c { s with i := x, mode := m } = flush_samples c s :=
    flush_samples_congr c s _ rfl rfl rfl rfl
  unfold αr
  rw [hf]
  rfl

theorem αr_set_mode_n_i (c : Config) (s : aec_stream) (m : Mode) (y x : Int) :
    αr c { s with n := y, i := x, mode := m } = { αr c s with n := y, i := x, mode := m } := by
  have hf : flush_samples c { s with n := y, i := x, mode := m } = flush_samples c s :=
    flush_samples_congr c s _ rfl rfl rfl rfl
  unfold αr
  rw [hf]
  rfl

theorem Lnorm_set_mode_i (Z : LState) (m : Mode) (x : Int) (hn : n_live m = false) :
    Lnorm { Lnorm Z with i := x, mode := m } = Lnorm { Z with i := x, mode := m } := by
  ext <;> simp [Lnorm_n, Lnorm_i, hn]

theorem Lnorm_set_mode_n_i (Z : LState) (m : Mode) (y x : Int) :
    Lnorm { Lnorm Z with n := y, i := x, mode := m }
      = Lnorm { Z with n := y, i := x, mode := m } := by
  ext <;> simp [Lnorm_n, Lnorm_i]

theorem Lstep_zero_block_exit (c : Config) (L L1 : LState) (hm : L.mode = Mode.m_zero_block)
    (h : L_fs_ask L = (false, L1)) : Lstep c L = some (Status.M_EXIT, L1) := by
  unfold Lstep; rw [hm]; simp only [h, if_true]

theorem Lstep_zero_block_ok (c : Config) (L L1 : LState) (hm : L.mode = Mode.m_zero_block)
    (h : L_fs_ask L = (true, L1)) :
    Lstep c L =
      if to_size_t (zero_samples c L1.fs L1.rsip L1.ref * c.bytes_per_sample)
          ≤ (L_fs_drop L1).avail_out then
        if sub_size_t c.rsi_size (L_fs_drop L1).rsip
            < to_size_t (zero_samples c L1.fs L1.rsip L1.ref) then
          some (Status.M_ERROR, L_fs_drop L1)
        else
          some (Status.M_CONTINUE, Lnorm
            { L_check_rsi_end c
                { L_commit c
                    { L_fs_drop L1 with
                      rsi_buffer := memset_zero (L_fs_drop L1).rsi_buffer (L_fs_drop L1).rsip
                        (zero_samples c L1.fs L1.rsip L1.ref).toNat }
                    (zero_samples c L1.fs L1.rsip L1.ref).toNat with
                  avail_out := sub_size_t (L_fs_drop L1).avail_out
                    (to_size_t (zero_samples c L1.fs L1.rsip L1.ref * c.bytes_per_sample)) } with
              mode := Mode.m_id })
      else
        some (Status.M_CONTINUE, Lnorm
          { L_fs_drop L1 with
            i := zero_samples c L1.fs L1.rsip L1.ref, mode := Mode.m_zero_output }) := by
  unfold Lstep; rw [hm]; simp only [h, Bool.true_eq_false, if_false]

theorem m_zero_block_sim (c : Config) (s s' : aec_stream) (st : Status) (hI : Inv s)
    (hm : s.mode = Mode.m_zero_block) (h : m_zero_block c s = Except.ok (st, s')) :
    Sim c s st s' := by
  have hlive : fs_live s.mode = true := by rw [hm]; rfl
  obtain ⟨f1, f2, f3, f4, f5, f6⟩ := fs_ask_sim c s hI hlive
  obtain ⟨g1, g2, g3, g4, g5, g6, g7, g8⟩ := fs_ask_fields c s hI hlive
  have hLa := L_fs_ask_α c s hI hlive
  have hid0 : s.id ≤ 32 := hI.id_le (by rw [hm]; simp)
  unfold m_zero_block at h
  simp only at h
  by_cases hr : (fs_ask s).1 = false
  · rw [if_pos hr] at h
    simp only [pure, Except.pure, Except.ok.injEq, Prod.mk.injEq] at h
    obtain ⟨rfl, rfl⟩ := h
    apply Sim_of_step f3 f4
    rw [hr] at hLa
    exact Lstep_zero_block_exit c _ _ hm hLa
  · rw [if_neg hr] at h
    have hok : (fs_ask s).1 = true := by
      cases hx : (fs_ask s).1
      · exact absurd hx hr
      · rfl
    rw [hok] at hLa
    have hstep := Lstep_zero_block_ok c (α c s) _ hm hLa
    obtain ⟨d1, d2, d3⟩ := fs_drop_sim c _ (f5 hok) f3
    have hαd : L_fs_drop (α c (fs_ask s).2) = α c (fs_drop (fs_ask s).2) := by
      unfold α; rw [Lnorm_L_fs_drop, d1]
    rw [hαd] at hstep
    have e1 : (α c (fs_ask s).2).fs = (fs_ask s).2.fs := rfl
    have e2 : (α c (fs_ask s).2).rsip = (fs_ask s).2.rsip := rfl
    have e3 : (α c (fs_ask s).2).ref = (fs_ask s).2.ref := rfl
    have e4 : (α c (fs_drop (fs_ask s).2)).avail_out = (fs_drop (fs_ask s).2).avail_out := rfl
    have e5 : (α c (fs_drop (fs_ask s).2)).rsip = (fs_drop (fs_ask s).2).rsip := rfl
    have e6 : (α c (fs_drop (fs_ask s).2)).rsi_buffer = (fs_drop (fs_ask s).2).rsi_buffer := rfl
    rw [e1, e2, e3, e4, e5, e6] at hstep
    generalize hi : zero_samples c (fs_ask s).2.fs (fs_ask s).2.rsip (fs_ask s).2.ref = i
      at h hstep
    generalize hs1 : fs_drop (fs_ask s).2 = s1 at h hstep d1 d2 d3 hαd
    have hm1 : s1.mode = Mode.m_zero_block := by rw [← hs1]; show (fs_ask s).2.mode = _; rw [g1, hm]
    have hid1 : s1.id ≤ 32 := by rw [← hs1]; show (fs_ask s).2.id ≤ 32; rw [g2]; exact hid0
    have hfs1 : s1.fs = 0 := by rw [← hs1]; rfl
    have hT1 : SameTotals s s1 := ⟨d3.1.trans f4.1, d3.2.trans f4.2⟩
    by_cases hovf : i * (c.bytes_per_sample : Int) < INT_MIN ∨ -INT_MIN ≤ i * (c.bytes_per_sample : Int)
    · rw [if_pos hovf] at h; cases h
    rw [if_neg hovf] at h
    by_cases hsz : to_size_t (i * c.bytes_per_sample) ≤ s1.avail_out
    · rw [if_pos hsz] at h hstep
      by_cases herr : sub_size_t c.rsi_size s1.rsip < to_size_t i
      · rw [if_pos herr] at h hstep
        simp only [pure, Except.pure, Except.ok.injEq, Prod.mk.injEq] at h
        obtain ⟨rfl, rfl⟩ := h
        exact Sim_of_step d2 hT1 hstep
      · rw [if_neg herr] at h hstep
        by_cases hov : c.rsi_size < s1.rsip + i.toNat
        · rw [if_pos hov] at h; cases h
        · rw [if_neg hov] at h
          simp only [pure, Except.pure, Except.ok.injEq, Prod.mk.injEq] at h
          obtain ⟨rfl, rfl⟩ := h
          have hadv := advance_sim c s1
            { s1 with rsi_buffer := memset_zero s1.rsi_buffer s1.rsip i.toNat, rsip := s1.rsip + i.toNat }
            i.toNat d2 rfl rfl rfl rfl rfl rfl rfl rfl
            (fun j hj => by
              show memset_zero s1.rsi_buffer s1.rsip i.toNat j = s1.rsi_buffer j
              unfold memset_zero
              have : ¬ (s1.rsip ≤ j ∧ j < s1.rsip + i.toNat) := by omega
              simp [this]) rfl rfl rfl rfl
          obtain ⟨X, hX⟩ : ∃ X : aec_stream, X = { s1 with rsi_buffer := memset_zero s1.rsi_buffer s1.rsip i.toNat, rsip := s1.rsip + i.toNat, avail_out := sub_size_t s1.avail_out (to_size_t (i * c.bytes_per_sample)) } := ⟨_, rfl⟩
          have hXr : αr c X = { L_commit c { αr c s1 with rsi_buffer := memset_zero s1.rsi_buffer s1.rsip i.toNat } i.toNat with avail_out := sub_size_t s1.avail_out (to_size_t (i * c.bytes_per_sample)) } := by
            rw [← hadv, hX]; rfl
          have hI2 : Inv X := by
            rw [hX]
            exact ⟨by show s1.flush_start ≤ s1.rsip + i.toNat; have := d2.flush_le; omega,
              sub_size_t_lt _ _, d2.bitp_le, fun _ => hfs1, fun _ => hid1⟩
          obtain ⟨k1, k2, k3, k4⟩ := check_rsi_end_sim c X hI2
          have hfsX : (check_rsi_end c X).fs = 0 := by
            have h1 := congrArg LState.fs k1
            rw [(L_check_rsi_end_fields c (αr c X)).2.2.2.2.1] at h1
            have h2 : X.fs = 0 := by rw [hX]; exact hfs1
            exact h1.trans h2
          have hTX : SameTotals s1 X := by rw [hX]; exact ⟨rfl, rfl⟩
          rw [← hX]
          apply Sim_of_step
          · exact ⟨k2.flush_le, k2.avail_lt, k2.bitp_le, fun _ => hfsX, fun hh => absurd rfl hh⟩
          · exact ⟨k3.1.trans (hTX.1.trans hT1.1), k3.2.trans (hTX.2.trans hT1.2)⟩
          · rw [hstep]
            refine congrArg some (congrArg (Prod.mk _) ?_)
            have e7 : α c { check_rsi_end c X with mode := Mode.m_id }
                = Lnorm { αr c (check_rsi_end c X) with mode := Mode.m_id } := rfl
            rw [e7, k1, hXr]
            exact Lnorm_check_mode c
              { L_commit c { αr c s1 with rsi_buffer := memset_zero s1.rsi_buffer s1.rsip i.toNat } i.toNat with avail_out := sub_size_t s1.avail_out (to_size_t (i * c.bytes_per_sample)) }
              Mode.m_id rfl rfl
    · rw [if_neg hsz] at h hstep
      simp only [pure, Except.pure, Except.ok.injEq, Prod.mk.injEq] at h
      obtain ⟨rfl, rfl⟩ := h
      apply Sim_of_step
      · exact ⟨d2.flush_le, d2.avail_lt, d2.bitp_le, fun _ => hfs1, fun _ => hid1⟩
      · exact hT1
      · rw [hstep]
        refine congrArg some (congrArg (Prod.mk _) ?_)
        have e9 : α c { s1 with i := i, mode := Mode.m_zero_output }
            = Lnorm { αr c s1 with i := i, mode := Mode.m_zero_output } := by
          unfold α
          rw [αr_set_mode_i]
        rw [e9]
        unfold α
        exact Lnorm_set_mode_i _ _ _ rfl

theorem Lnorm_live (Z : LState) (hn : n_live Z.mode = true) (hi : i_live Z.mode = true) :
    Lnorm Z = Z := by
  ext <;> simp [Lnorm_n, Lnorm_i, hn, hi]

theorem α_of_live (c : Config) (s : aec_stream) (hn : n_live s.mode = true)
    (hi : i_live s.mode = true) : α c s = αr c s :=
  Lnorm_live _ hn hi

theorem αr_set_i (c : Config) (s : aec_stream) (x : Int) :
    αr c { s with i := x } = { αr c s with i := x } := by
  have hf : flush_samples c { s with i := x } = flush_samples c s :=
    flush_samples_congr c s _ rfl rfl rfl rfl
  unfold αr
  rw [hf]
  rfl

theorem Lstep_split_fs_exit (c : Config) (L L1 : LState) (hm : L.mode = Mode.m_split_fs)
    (h : L_fs_ask L = (false, L1)) : Lstep c L = some (Status.M_EXIT, L1) := by
  unfold Lstep; rw [hm]; simp only [h, if_true]

theorem Lstep_split_fs_ok (c : Config) (L L1 : LState) (hm : L.mode = Mode.m_split_fs)
    (h : L_fs_ask L = (true, L1)) :
    Lstep c L =
      if L1.i + 1 < L1.n then
        some (Status.M_CONTINUE,
          { L_fs_drop { L1 with rsi_buffer := upd L1.rsi_buffer (L1.rsip + L1.i.toNat) ((L1.fs <<< (L.id - 1)) % W32) } with i := L1.i + 1 })
      else
        some (Status.M_CONTINUE, Lnorm
          { L_fs_drop { L1 with rsi_buffer := upd L1.rsi_buffer (L1.rsip + L1.i.toNat) ((L1.fs <<< (L.id - 1)) % W32) } with i := 0, mode := Mode.m_split_output }) := by
  unfold Lstep; rw [hm]; simp only [h, Bool.true_eq_false, if_false]; rfl

theorem m_split_fs_loop_sim (c : Config) (k : Nat) :
    ∀ (fuel : Nat) (s s' : aec_stream) (st : Status), Inv s → s.mode = Mode.m_split_fs →
      k = s.id - 1 →
      m_split_fs_loop c k fuel s = Except.ok (st, s') → Sim c s st s' := by
  intro fuel
  induction fuel with
  | zero => intro s s' st _ _ _ h; cases h
  | succ fuel ih =>
    intro s s' st hI hm hk h
    have hlive : fs_live s.mode = true := by rw [hm]; rfl
    obtain ⟨f1, f2, f3, f4, f5, f6⟩ := fs_ask_sim c s hI hlive
    obtain ⟨g1, g2, g3, g4, g5, g6, g7, g8⟩ := fs_ask_fields c s hI hlive
    have hLa := L_fs_ask_α c s hI hlive
    have hid0 : s.id ≤ 32 := hI.id_le (by rw [hm]; simp)
    have hmr : (fs_ask s).2.mode = Mode.m_split_fs := by rw [g1, hm]
    unfold m_split_fs_loop at h
    simp only at h
    by_cases hr : (fs_ask s).1 = false
    · rw [if_pos hr] at h
      simp only [pure, Except.pure, Except.ok.injEq, Prod.mk.injEq] at h
      obtain ⟨rfl, rfl⟩ := h
      apply Sim_of_step f3 f4
      rw [hr] at hLa
      exact Lstep_split_fs_exit c _ _ hm hLa
    · rw [if_neg hr] at h
      have hok : (fs_ask s).1 = true := by
        cases hx : (fs_ask s).1
        · exact absurd hx hr
        · rfl
      rw [hok] at hLa
      have hstep := Lstep_split_fs_ok c (α c s) _ hm hLa
      rw [α_of_live c (fs_ask s).2 (by rw [hmr]; rfl) (by rw [hmr]; rfl)] at hstep
      generalize hrr : (fs_ask s).2 = r2 at h hstep f2 f3 f4 f5 f6 g1 g2 g3 g4 g5 g6 g7 g8 hmr
      rcases hst : rsi_store c r2 (r2.rsip + r2.i.toNat) ((r2.fs <<< k) % W32) with e | s1
      · rw [hst] at h; cases h
      · rw [hst] at h
        simp only [bind, Except.bind] at h
        obtain ⟨rfl, k2, k3, k4, k5⟩ := rsi_store_sim c r2 s1 _ _ f3 (Nat.le_add_right _ _) hst
        have hb : 1 ≤ ({ r2 with rsi_buffer := upd r2.rsi_buffer (r2.rsip + r2.i.toNat) ((r2.fs <<< k) % W32) } : aec_stream).bitp := f5 hok
        obtain ⟨d1, d2, d3⟩ := fs_drop_sim c _ hb k4
        have hT : SameTotals s (fs_drop { r2 with rsi_buffer := upd r2.rsi_buffer (r2.rsip + r2.i.toNat) ((r2.fs <<< k) % W32) }) :=
          ⟨d3.1.trans (k5.1.trans f4.1), d3.2.trans (k5.2.trans f4.2)⟩
        have hL3 : αr c { fs_drop { r2 with rsi_buffer := upd r2.rsi_buffer (r2.rsip + r2.i.toNat) ((r2.fs <<< k) % W32) } with i := r2.i + 1 }
            = { L_fs_drop { αr c r2 with rsi_buffer := upd r2.rsi_buffer (r2.rsip + r2.i.toNat) ((r2.fs <<< k) % W32) } with i := r2.i + 1 } := by
          rw [αr_set_i, d1, k3]
        have hidα : (α c s).id - 1 = k := by rw [hk]; rfl
        rw [hidα] at hstep
        have hI3 : Inv { fs_drop { r2 with rsi_buffer := upd r2.rsi_buffer (r2.rsip + r2.i.toNat) ((r2.fs <<< k) % W32) } with i := r2.i + 1 } :=
          ⟨d2.flush_le, d2.avail_lt, d2.bitp_le, fun _ => rfl, d2.id_le⟩
        split at h
        · rename_i hlt0
          have hlt : r2.i + 1 < r2.n := hlt0
          have hstep2 : Lstep c (α c s) = some (Status.M_CONTINUE,
              α c { fs_drop { r2 with rsi_buffer := upd r2.rsi_buffer (r2.rsip + r2.i.toNat) ((r2.fs <<< k) % W32) } with i := r2.i + 1 }) := by
            have hα3 := α_of_live c { fs_drop { r2 with rsi_buffer := upd r2.rsi_buffer (r2.rsip + r2.i.toNat) ((r2.fs <<< k) % W32) } with i := r2.i + 1 }
              (by show n_live r2.mode = true; rw [hmr]; rfl)
              (by show i_live r2.mode = true; rw [hmr]; rfl)
            exact hstep.trans ((if_pos hlt).trans
              (congrArg some (congrArg (Prod.mk _) (hL3.symm.trans hα3.symm))))
          exact Sim_step_then hI3 hT hstep2
            (ih _ s' st hI3 (by show r2.mode = _; exact hmr) (by show k = r2.id - 1; rw [g2]; exact hk) h)
        · rename_i hlt0
          have hlt : ¬ r2.i + 1 < r2.n := hlt0
          simp only [pure, Except.pure, Except.ok.injEq, Prod.mk.injEq] at h
          obtain ⟨rfl, rfl⟩ := h
          apply Sim_of_step
          · exact ⟨d2.flush_le, d2.avail_lt, d2.bitp_le, fun _ => rfl,
              fun _ => by show r2.id ≤ 32; rw [g2]; exact hid0⟩
          · exact hT
          · rw [hstep]
            refine (if_neg hlt).trans ?_
            refine congrArg some (congrArg (Prod.mk _) ?_)
            have e9 : α c { fs_drop { r2 with rsi_buffer := upd r2.rsi_buffer (r2.rsip + r2.i.toNat) ((r2.fs <<< k) % W32) } with i := 0, mode := Mode.m_split_output }
                = Lnorm { αr c (fs_drop { r2 with rsi_buffer := upd r2.rsi_buffer (r2.rsip + r2.i.toNat) ((r2.fs <<< k) % W32) }) with i := 0, mode := Mode.m_split_output } := by
              unfold α
              rw [αr_set_mode_i]
            rw [e9, d1, k3]
            rfl

theorem m_split_fs_sim (c : Config) (s s' : aec_stream) (st : Status) (hI : Inv s)
    (hm : s.mode = Mode.m_split_fs) (h : m_split_fs c s = Except.ok (st, s')) :
    Sim c s st s' :=
  m_split_fs_loop_sim c _ _ s s' st hI hm rfl h

theorem bits_ask_fields (c : Config) (s : aec_stream) (n : Nat) (hn : n ≤ 56) (hI : Inv s) :
    (bits_ask s n).2.mode = s.mode ∧ (bits_ask s n).2.id = s.id ∧ (bits_ask s n).2.n = s.n ∧
    (bits_ask s n).2.i = s.i ∧ (bits_ask s n).2.ref = s.ref ∧ (bits_ask s n).2.rsip = s.rsip ∧
    (bits_ask s n).2.avail_out = s.avail_out ∧ (bits_ask s n).2.rsi_buffer = s.rsi_buffer ∧
    (bits_ask s n).2.fs = s.fs := by
  obtain ⟨-, f2, -, -, -, -⟩ := bits_ask_sim c s n hn hI
  exact ⟨congrArg LState.mode f2, congrArg LState.id f2, congrArg LState.n f2,
    congrArg LState.i f2, congrArg LState.ref f2, congrArg LState.rsip f2,
    congrArg LState.avail_out f2, congrArg LState.rsi_buffer f2, congrArg LState.fs f2⟩

theorem Lstep_split_output_exit (c : Config) (L : LState) (hm : L.mode = Mode.m_split_output)
    (h : L_ask L (L.id - 1) = false ∨ L.avail_out = 0) :
    Lstep c L = some (Status.M_EXIT, L) := by
  unfold Lstep; rw [hm]; simp only [h, if_true]

theorem Lstep_split_output_ok (c : Config) (L : LState) (hm : L.mode = Mode.m_split_output)
    (h : ¬ (L_ask L (L.id - 1) = false ∨ L.avail_out = 0)) :
    Lstep c L =
      if L.i + 1 < L.n then
        some (Status.M_CONTINUE,
          { L_drop { L_commit c { L with rsi_buffer := upd L.rsi_buffer L.rsip ((L.rsi_buffer L.rsip + L_get L (L.id - 1)) % W32) } 1 with avail_out := sub_size_t L.avail_out c.bytes_per_sample } (L.id - 1) with i := L.i + 1 })
      else
        some (Status.M_CONTINUE, Lnorm
          { L_check_rsi_end c { L_drop { L_commit c { L with rsi_buffer := upd L.rsi_buffer L.rsip ((L.rsi_buffer L.rsip + L_get L (L.id - 1)) % W32) } 1 with avail_out := sub_size_t L.avail_out c.bytes_per_sample } (L.id - 1) with i := L.i + 1 } with mode := Mode.m_id }) := by
  unfold Lstep; rw [hm]; simp only [h, if_false]; rfl

theorem m_split_output_loop_sim (c : Config) (k : Nat) :
    ∀ (fuel : Nat) (s s' : aec_stream) (st : Status), Inv s → s.mode = Mode.m_split_output →
      k = s.id - 1 →
      m_split_output_loop c k fuel s = Except.ok (st, s') → Sim c s st s' := by
  intro fuel
  induction fuel with
  | zero => intro s s' st _ _ _ h; cases h
  | succ fuel ih =>
    intro s s' st hI hm hk h
    have hid0 : s.id ≤ 32 := hI.id_le (by rw [hm]; simp)
    have hk56 : k ≤ 56 := by omega
    obtain ⟨a1, a2, a3, a4, a5, a6, a7⟩ := bits_ask_sim c s k hk56 hI
    obtain ⟨g1, g2, g3, g4, g5, g6, g7, g8, g9⟩ := bits_ask_fields c s k hk56 hI
    have hαs : α c s = αr c s := α_of_live c s (by rw [hm]; rfl) (by rw [hm]; rfl)
    have hidα : (αr c s).id - 1 = k := by rw [hk]; rfl
    unfold m_split_output_loop at h
    simp only at h
    generalize hrr : bits_ask s k = r at h a1 a2 a3 a4 a5 a6 a7 g1 g2 g3 g4 g5 g6 g7 g8 g9
    by_cases hex : r.1 = false ∨ r.2.avail_out = 0
    · rw [if_pos hex] at h
      simp only [pure, Except.pure, Except.ok.injEq, Prod.mk.injEq] at h
      obtain ⟨rfl, rfl⟩ := h
      apply Sim_of_step a3 a4
      rw [α_eq_of_αr a2, hαs]
      apply Lstep_split_output_exit c _ hm
      rw [hidα]
      rcases hex with h1 | h2
      · left; rw [← a1]; exact h1
      · right; show s.avail_out = 0; rw [← g7]; exact h2
    · rw [if_neg hex] at h
      have hok : r.1 = true := by
        cases hx : r.1
        · exact absurd (Or.inl hx) hex
        · rfl
      have hav : ¬ r.2.avail_out = 0 := fun hh => hex (Or.inr hh)
      have hLex : ¬ (L_ask (αr c s) ((αr c s).id - 1) = false ∨ (αr c s).avail_out = 0) := by
        rw [hidα, ← a1, hok]
        intro hh
        rcases hh with h1 | h2
        · cases h1
        · exact hav (by rw [g7]; exact h2)
      have hstep := Lstep_split_output_ok c (αr c s) hm hLex
      rw [hidα] at hstep
      replace hstep := (congrArg (Lstep c) hαs).trans hstep
      rcases hst : rsi_store c r.2 r.2.rsip ((r.2.rsi_buffer r.2.rsip + bits_get r.2 k) % W32)
        with e | s0
      · rw [hst] at h; cases h
      · rw [hst] at h
        simp only [bind, Except.bind] at h
        obtain ⟨rfl, k2, k3, k4, k5⟩ := rsi_store_sim c r.2 s0 _ _ a3 le_rfl hst
        have hget : bits_get r.2 k = L_get (αr c s) k := by
          rw [bits_get_sim c r.2 k (a5 hok), a2]
        have hadv := advance_sim c r.2
          { r.2 with rsi_buffer := upd r.2.rsi_buffer r.2.rsip ((r.2.rsi_buffer r.2.rsip + bits_get r.2 k) % W32), rsip := r.2.rsip + 1 }
          1 a3 rfl rfl rfl rfl rfl rfl rfl rfl
          (fun j hj => by
            show upd r.2.rsi_buffer r.2.rsip _ j = r.2.rsi_buffer j
            unfold upd
            have : ¬ j = r.2.rsip := by omega
            simp [this]) rfl rfl rfl rfl
        obtain ⟨S1, hS1⟩ : ∃ S1 : aec_stream, S1 = { r.2 with rsi_buffer := upd r.2.rsi_buffer r.2.rsip ((r.2.rsi_buffer r.2.rsip + bits_get r.2 k) % W32), rsip := r.2.rsip + 1, avail_out := sub_size_t r.2.avail_out c.bytes_per_sample } := ⟨_, rfl⟩
        have hS1r : αr c S1 = { L_commit c { αr c s with rsi_buffer := upd s.rsi_buffer s.rsip ((s.rsi_buffer s.rsip + L_get (αr c s) k) % W32) } 1 with avail_out := sub_size_t s.avail_out c.bytes_per_sample } := by
          have e1 : αr c S1 = { L_commit c { αr c r.2 with rsi_buffer := upd r.2.rsi_buffer r.2.rsip ((r.2.rsi_buffer r.2.rsip + bits_get r.2 k) % W32) } 1 with avail_out := sub_size_t r.2.avail_out c.bytes_per_sample } := by
            rw [← hadv, hS1]; rfl
          rw [e1, a2, hget, g8, g6, g7]
        have hI1 : Inv S1 := by
          rw [hS1]
          exact ⟨by show r.2.flush_start ≤ r.2.rsip + 1; have := a3.flush_le; omega,
            sub_size_t_lt _ _, a3.bitp_le, a3.fs_zero, a3.id_le⟩
        have hb1 : k ≤ S1.bitp := by rw [hS1]; exact a5 hok
        obtain ⟨d1, d2, d3⟩ := bits_drop_sim c S1 k hb1 hI1
        have hT1 : SameTotals s S1 := by rw [hS1]; exact a4
        have hT2 : SameTotals s (bits_drop S1 k) := ⟨d3.1.trans hT1.1, d3.2.trans hT1.2⟩
        have hm1 : S1.mode = Mode.m_split_output := by rw [hS1]; show r.2.mode = _; rw [g1, hm]
        have hi1 : S1.i = s.i := by rw [hS1]; exact g4
        have hn1 : S1.n = s.n := by rw [hS1]; exact g3
        have hid1 : S1.id = s.id := by rw [hS1]; exact g2
        have hfs1 : S1.fs = 0 := by
          rw [hS1]; show r.2.fs = 0; exact a3.fs_zero (by rw [g1, hm]; rfl)
        have hL4 : αr c { bits_drop S1 k with i := s.i + 1 }
            = { L_drop { L_commit c { αr c s with rsi_buffer := upd s.rsi_buffer s.rsip ((s.rsi_buffer s.rsip + L_get (αr c s) k) % W32) } 1 with avail_out := sub_size_t s.avail_out c.bytes_per_sample } k with i := s.i + 1 } := by
          rw [αr_set_i, d1, hS1r]
        have hI3 : Inv { bits_drop S1 k with i := s.i + 1 } :=
          ⟨d2.flush_le, d2.avail_lt, d2.bitp_le, d2.fs_zero, d2.id_le⟩
        have hα3 := α_of_live c { bits_drop S1 k with i := s.i + 1 }
          (by show n_live S1.mode = true; rw [hm1]; rfl)
          (by show i_live S1.mode = true; rw [hm1]; rfl)
        have hs3 : ({ bits_drop S1 k with i := (bits_drop S1 k).i + 1 } : aec_stream)
            = { bits_drop S1 k with i := s.i + 1 } := by
          show ({ bits_drop S1 k with i := S1.i + 1 } : aec_stream) = _
          rw [hi1]
        rw [← hS1, hs3] at h
        split at h
        · rename_i hlt0
          have hlt : s.i + 1 < s.n := by
            have : S1.i + 1 < S1.n := hlt0
            rw [hn1, hi1] at this; exact this
          have hstep2 : Lstep c (α c s) = some (Status.M_CONTINUE,
              α c { bits_drop S1 k with i := s.i + 1 }) :=
            hstep.trans ((if_pos hlt).trans
              (congrArg some (congrArg (Prod.mk _) (hL4.symm.trans hα3.symm))))
          exact Sim_step_then hI3 hT2 hstep2
            (ih _ s' st hI3 (by show S1.mode = _; exact hm1)
              (by show k = S1.id - 1; rw [hid1]; exact hk) h)
        · rename_i hlt0
          have hlt : ¬ s.i + 1 < s.n := by
            intro hh
            apply hlt0
            show S1.i + 1 < S1.n
            rw [hn1, hi1]; exact hh
          simp only [pure, Except.pure, Except.ok.injEq, Prod.mk.injEq] at h
          obtain ⟨rfl, rfl⟩ := h
          obtain ⟨c1, c2, c3, c4⟩ := check_rsi_end_sim c _ hI3
          have hfsX : (check_rsi_end c { bits_drop S1 k with i := s.i + 1 }).fs = 0 := by
            have h1 := congrArg LState.fs c1
            rw [(L_check_rsi_end_fields c _).2.2.2.2.1] at h1
            exact h1.trans hfs1
          apply Sim_of_step
          · exact ⟨c2.flush_le, c2.avail_lt, c2.bitp_le, fun _ => hfsX, fun hh => absurd rfl hh⟩
          · exact ⟨c3.1.trans hT2.1, c3.2.trans hT2.2⟩
          · rw [hstep]
            refine (if_neg hlt).trans ?_
            refine congrArg some (congrArg (Prod.mk _) ?_)
            have e7 : α c { check_rsi_end c { bits_drop S1 k with i := s.i + 1 } with mode := Mode.m_id }
                = Lnorm { αr c (check_rsi_end c { bits_drop S1 k with i := s.i + 1 }) with mode := Mode.m_id } := rfl
            rw [e7, c1, hL4]
            rfl

theorem m_split_output_sim (c : Config) (s s' : aec_stream) (st : Status) (hI : Inv s)
    (hm : s.mode = Mode.m_split_output) (h : m_split_output c s = Except.ok (st, s')) :
    Sim c s st s' :=
  m_split_output_loop_sim c _ _ s s' st hI hm rfl h

theorem α_put_sample (c : Config) (s s1 : aec_stream) (w : Nat) (hI : Inv s)
    (h : put_sample c s w = Except.ok s1) : L_put_sample c (α c s) w = α c s1 := by
  obtain ⟨p1, -, -, -, -⟩ := put_sample_sim c s s1 w hI h
  unfold α; rw [Lnorm_L_put_sample, p1]

theorem α_fs_drop (c : Config) (s : aec_stream) (h : 1 ≤ s.bitp) (hI : Inv s) :
    L_fs_drop (α c s) = α c (fs_drop s) := by
  obtain ⟨d1, -, -⟩ := fs_drop_sim c s h hI
  unfold α; rw [Lnorm_L_fs_drop, d1]

theorem m_se_first_sim (c : Config) (s s1 : aec_stream) (w : Nat) (hI : Inv s)
    (hlive : i_live s.mode = true) (h : m_se_first c s w = Except.ok s1) :
    α c s1 = { L_put_sample c (α c s) w with i := (L_put_sample c (α c s) w).i + 1 } ∧
      Inv s1 ∧ SameTotals s s1 ∧ s1.bitp = s.bitp ∧ s1.mode = s.mode ∧ s1.fs = s.fs ∧
      s1.id = s.id := by
  unfold m_se_first at h
  rcases hp : put_sample c s w with e | p
  · rw [hp] at h; cases h
  · rw [hp] at h
    simp only [bind, Except.bind, pure, Except.pure, Except.ok.injEq] at h
    subst h
    obtain ⟨p1, p2, p3, p4, _⟩ := put_sample_sim c s p w hI hp
    obtain ⟨g1, g2, g3, g4, g5, g6⟩ := put_sample_mode c s p w p1
    have hl : i_live p.mode = true := by rw [g1]; exact hlive
    refine ⟨?_, ⟨p2.flush_le, p2.avail_lt, p2.bitp_le, p2.fs_zero, p2.id_le⟩, p3, p4, g1, g5, g2⟩
    rw [α_put_sample c s p w hI hp, α_i_of_live c p hl, α_set_i c p _ hl]

theorem Lstep_se_decode_done (c : Config) (L : LState) (hm : L.mode = Mode.m_se_decode)
    (h : ¬ L.i < c.block_size) :
    Lstep c L = some (Status.M_CONTINUE, Lnorm { L with mode := Mode.m_id }) := by
  unfold Lstep; rw [hm]; simp only [h, if_false]

theorem Lstep_se_decode_exit (c : Config) (L L1 : LState) (hm : L.mode = Mode.m_se_decode)
    (h : L.i < c.block_size) (ha : L_fs_ask L = (false, L1)) :
    Lstep c L = some (Status.M_EXIT, L1) := by
  unfold Lstep; rw [hm]; simp only [h, ha, if_true]

theorem Lstep_se_decode_ok (c : Config) (L L1 : LState) (t : Int × Int)
    (hm : L.mode = Mode.m_se_decode)
    (h : L.i < c.block_size) (ha : L_fs_ask L = (true, L1))
    (ht : se_lookup c L1.fs = Except.ok t) :
    Lstep c L =
      if L1.i % 2 = 0 ∧ L1.avail_out = 0 then some (Status.M_EXIT, L1)
      else
        if (if L1.i % 2 = 0 then
              { L_put_sample c L1 (to_u32 (t.2 - ((L1.fs : Int) - t.1))) with
                i := (L_put_sample c L1 (to_u32 (t.2 - ((L1.fs : Int) - t.1)))).i + 1 }
            else L1).avail_out = 0 then
          some (Status.M_EXIT,
            (if L1.i % 2 = 0 then
              { L_put_sample c L1 (to_u32 (t.2 - ((L1.fs : Int) - t.1))) with
                i := (L_put_sample c L1 (to_u32 (t.2 - ((L1.fs : Int) - t.1)))).i + 1 }
            else L1))
        else
          some (Status.M_CONTINUE,
            L_fs_drop
              { L_put_sample c
                  (if L1.i % 2 = 0 then
                    { L_put_sample c L1 (to_u32 (t.2 - ((L1.fs : Int) - t.1))) with
                      i := (L_put_sample c L1 (to_u32 (t.2 - ((L1.fs : Int) - t.1)))).i + 1 }
                  else L1) (to_u32 ((L1.fs : Int) - t.1)) with
                i := (L_put_sample c
                  (if L1.i % 2 = 0 then
                    { L_put_sample c L1 (to_u32 (t.2 - ((L1.fs : Int) - t.1))) with
                      i := (L_put_sample c L1 (to_u32 (t.2 - ((L1.fs : Int) - t.1)))).i + 1 }
                  else L1) (to_u32 ((L1.fs : Int) - t.1))).i + 1 }) := by
  unfold Lstep; rw [hm]; simp only [h, ha, ht, if_true, Bool.true_eq_false, if_false]

theorem αr_set_mode (c : Config) (s : aec_stream) (m : Mode) :
    αr c { s with mode := m } = { αr c s with mode := m } := by
  have hf : flush_samples c { s with mode := m } = flush_samples c s :=
    flush_samples_congr c s _ rfl rfl rfl rfl
  unfold αr
  rw [hf]
  rfl

theorem α_set_mode_dead (c : Config) (s : aec_stream) (m : Mode) (hn : n_live m = false)
    (hi : i_live m = false) : α c { s with mode := m } = Lnorm { α c s with mode := m } := by
  unfold α
  rw [αr_set_mode, Lnorm_set_mode_dead _ _ hn hi]

theorem m_se_decode_loop_sim (c : Config) :
    ∀ (fuel : Nat) (s s' : aec_stream) (st : Status), Inv s → s.mode = Mode.m_se_decode →
      (¬ s.i < c.block_size → s.fs = 0) →
      m_se_decode_loop c fuel s = Except.ok (st, s') → Sim c s st s' := by
  intro fuel
  induction fuel with
  | zero => intro s s' st _ _ _ h; cases h
  | succ fuel ih =>
    intro s s' st hI hm hse h
    have hid0 : s.id ≤ 32 := hI.id_le (by rw [hm]; simp)
    have hil : i_live s.mode = true := by rw [hm]; rfl
    unfold m_se_decode_loop at h
    by_cases hlt : s.i < c.block_size
    · rw [if_pos hlt] at h
      simp only at h
      have hlive : fs_live s.mode = true := by rw [hm]; rfl
      obtain ⟨f1, f2, f3, f4, f5, f6⟩ := fs_ask_sim c s hI hlive
      obtain ⟨g1, g2, g3, g4, g5, g6, g7, g8⟩ := fs_ask_fields c s hI hlive
      have hLa := L_fs_ask_α c s hI hlive
      have hLlt : (α c s).i < c.block_size := by rw [α_i_of_live c s hil]; exact hlt
      generalize hrr : fs_ask s = r at h f1 f2 f3 f4 f5 f6 g1 g2 g3 g4 g5 g6 g7 g8 hLa
      have hmr : r.2.mode = Mode.m_se_decode := by rw [g1, hm]
      have hilr : i_live r.2.mode = true := by rw [hmr]; rfl
      by_cases hr : r.1 = false
      · rw [if_pos hr] at h
        simp only [pure, Except.pure, Except.ok.injEq, Prod.mk.injEq] at h
        obtain ⟨rfl, rfl⟩ := h
        apply Sim_of_step f3 f4
        rw [hr] at hLa
        exact Lstep_se_decode_exit c _ _ hm hLlt hLa
      · rw [if_neg hr] at h
        have hok : r.1 = true := by
          cases hx : r.1
          · exact absurd hx hr
          · rfl
        rw [hok] at hLa
        rcases ht : se_lookup c r.2.fs with e | t
        · rw [ht] at h; cases h
        · rw [ht] at h
          simp only [bind, Except.bind] at h
          have hstep := Lstep_se_decode_ok c (α c s) (α c r.2) t hm hLlt hLa ht
          have ei : (α c r.2).i = r.2.i := α_i_of_live c r.2 hilr
          have ea : (α c r.2).avail_out = r.2.avail_out := rfl
          have ef : (α c r.2).fs = r.2.fs := rfl
          rw [ei, ea, ef] at hstep
          by_cases hc1 : r.2.i % 2 = 0 ∧ r.2.avail_out = 0
          · rw [if_pos hc1] at h hstep
            simp only [pure, Except.pure, Except.ok.injEq, Prod.mk.injEq] at h
            obtain ⟨rfl, rfl⟩ := h
            exact Sim_of_step f3 f4 hstep
          · rw [if_neg hc1] at h hstep
            rcases h2 : (if r.2.i % 2 = 0 then m_se_first c r.2 (to_u32 (t.2 - ((r.2.fs : Int) - t.1))) else pure r.2) with e | s2
            · rw [h2] at h; cases h
            · rw [h2] at h
              simp only [bind, Except.bind] at h
              have hs2 : α c s2 = (if r.2.i % 2 = 0 then
                    { L_put_sample c (α c r.2) (to_u32 (t.2 - ((r.2.fs : Int) - t.1))) with
                      i := (L_put_sample c (α c r.2) (to_u32 (t.2 - ((r.2.fs : Int) - t.1)))).i + 1 }
                  else α c r.2) ∧ Inv s2 ∧ SameTotals r.2 s2 ∧ s2.bitp = r.2.bitp ∧
                  s2.mode = r.2.mode ∧ s2.id = r.2.id := by
                by_cases hev : r.2.i % 2 = 0
                · rw [if_pos hev] at h2 ⊢
                  obtain ⟨q1, q2, q3, q4, q5, q6, q7⟩ := m_se_first_sim c r.2 s2 _ f3 hilr h2
                  exact ⟨q1, q2, q3, q4, q5, q7⟩
                · rw [if_neg hev] at h2 ⊢
                  simp only [pure, Except.pure, Except.ok.injEq] at h2
                  subst h2
                  exact ⟨rfl, f3, ⟨rfl, rfl⟩, rfl, rfl, rfl⟩
              obtain ⟨q1, q2, q3, q4, q5, q6⟩ := hs2
              rw [← q1] at hstep
              have ea2 : (α c s2).avail_out = s2.avail_out := rfl
              rw [ea2] at hstep
              have hT2 : SameTotals s s2 := ⟨q3.1.trans f4.1, q3.2.trans f4.2⟩
              by_cases hav : s2.avail_out = 0
              · rw [if_pos hav] at h hstep
                simp only [pure, Except.pure, Except.ok.injEq, Prod.mk.injEq] at h
                obtain ⟨rfl, rfl⟩ := h
                exact Sim_of_step q2 hT2 hstep
              · rw [if_neg hav] at h hstep
                rcases hp : put_sample c s2 (to_u32 ((r.2.fs : Int) - t.1)) with e | s3
                · rw [hp] at h; cases h
                · rw [hp] at h
                  simp only at h
                  obtain ⟨p1, p2, p3, p4, _⟩ := put_sample_sim c s2 s3 _ q2 hp
                  obtain ⟨m1, m2, m3, m4, m5, m6⟩ := put_sample_mode c s2 s3 _ p1
                  have hil3 : i_live s3.mode = true := by rw [m1, q5, hmr]; rfl
                  have hm3 : s3.mode = Mode.m_se_decode := by rw [m1, q5, hmr]
                  rw [α_put_sample c s2 s3 _ q2 hp, α_i_of_live c s3 hil3,
                    ← α_set_i c s3 _ hil3] at hstep
                  have hI4 : Inv { s3 with i := s3.i + 1 } :=
                    ⟨p2.flush_le, p2.avail_lt, p2.bitp_le, p2.fs_zero, p2.id_le⟩
                  have hb4 : 1 ≤ ({ s3 with i := s3.i + 1 } : aec_stream).bitp := by
                    show 1 ≤ s3.bitp
                    rw [p4, q4]; exact f5 hok
                  rw [α_fs_drop c _ hb4 hI4] at hstep
                  obtain ⟨d1, d2, d3⟩ := fs_drop_sim c _ hb4 hI4
                  have hT4 : SameTotals s (fs_drop { s3 with i := s3.i + 1 }) :=
                    ⟨d3.1.trans (p3.1.trans hT2.1), d3.2.trans (p3.2.trans hT2.2)⟩
                  exact Sim_step_then d2 hT4 hstep
                    (ih _ s' st d2 (by show s3.mode = _; exact hm3) (fun _ => rfl) h)
    · rw [if_neg hlt] at h
      simp only [pure, Except.pure, Except.ok.injEq, Prod.mk.injEq] at h
      obtain ⟨rfl, rfl⟩ := h
      apply Sim_of_step
      · exact ⟨hI.flush_le, hI.avail_lt, hI.bitp_le, fun _ => hse hlt, fun hh => absurd rfl hh⟩
      · exact ⟨rfl, rfl⟩
      · rw [Lstep_se_decode_done c (α c s) hm (by rw [α_i_of_live c s hil]; exact hlt),
          α_set_mode_dead c s Mode.m_id rfl rfl]

theorem m_se_decode_sim (c : Config) (s s' : aec_stream) (st : Status) (hI : Inv s)
    (hm : s.mode = Mode.m_se_decode) (hse : ¬ s.i < c.block_size → s.fs = 0)
    (h : m_se_decode c s = Except.ok (st, s')) : Sim c s st s' :=
  m_se_decode_loop_sim c _ s s' st hI hm hse h

theorem acc_bits_foldl_push (l : List Byte) :
    ∀ (acc bitp : Nat), bitp + 8 * l.length ≤ 64 →
      acc_bits (l.foldl acc_push acc) (bitp + 8 * l.length) = acc_bits acc bitp ++ bytes_bits l := by
  induction l with
  | nil => intro acc bitp _; simp [bytes_bits_nil]
  | cons b l ih =>
    intro acc bitp h
    simp only [List.length_cons] at h
    rw [List.foldl_cons, bytes_bits_cons, ← List.append_assoc, ← acc_bits_push acc bitp b (by omega)]
    have := ih (acc_push acc b) (bitp + 8) (by omega)
    rw [← this]
    congr 1
    simp only [List.length_cons]
    omega

/-- What `fill_acc` does to the unread bits: nothing; the accumulator then holds at least 56
of them. -/
theorem fill_acc_spec (s s' : aec_stream) (hb : s.bitp ≤ 63) (h : fill_acc s = Except.ok s') :
    lbits s' = lbits s ∧ s'.bitp ≤ 63 ∧ 56 ≤ s'.bitp ∧
      s' = { s with acc := s'.acc, next_in := s'.next_in, bitp := s'.bitp } ∧
      s'.next_in.length ≤ s.next_in.length := by
  unfold fill_acc at h
  simp only at h
  split at h
  · cases h
  · rename_i hlen
    simp only [Except.ok.injEq] at h
    subst h
    have hsh : (63 - s.bitp) >>> 3 = (63 - s.bitp) / 8 := by
      rw [Nat.shiftRight_eq_div_pow]
    have hsl : ((63 - s.bitp) >>> 3) <<< 3 = 8 * ((63 - s.bitp) / 8) := by
      rw [hsh, Nat.shiftLeft_eq]; ring
    refine ⟨?_, ?_, ?_, rfl, ?_⟩
    · unfold lbits
      simp only
      rw [hsl]
      have hl : (List.take ((63 - s.bitp) >>> 3) s.next_in).length = (63 - s.bitp) / 8 := by
        rw [List.length_take, hsh]; omega
      have := acc_bits_foldl_push (List.take ((63 - s.bitp) >>> 3) s.next_in) s.acc s.bitp
        (by rw [hl]; omega)
      rw [hl] at this
      rw [this, List.append_assoc, ← bytes_bits_append, List.take_append_drop]
    · show s.bitp + ((63 - s.bitp) >>> 3) <<< 3 ≤ 63
      rw [hsl]; omega
    · show 56 ≤ s.bitp + ((63 - s.bitp) >>> 3) <<< 3
      rw [hsl]; omega
    · show (List.drop _ s.next_in).length ≤ _
      rw [List.length_drop]; omega

/-- What `direct_get` reads: the next `n` unread bits. -/
theorem direct_get_spec (s s' : aec_stream) (n v : Nat) (hb : s.bitp ≤ 63) (hn : n ≤ 32)
    (h : direct_get s n = Except.ok (v, s')) :
    n ≤ (lbits s).length ∧ v = bits_val ((lbits s).take n) ∧ lbits s' = (lbits s).drop n ∧
      s'.bitp ≤ 63 ∧ s' = { s with acc := s'.acc, next_in := s'.next_in, bitp := s'.bitp } ∧
      s'.next_in.length ≤ s.next_in.length := by
  unfold direct_get at h
  have key : ∀ s1 : aec_stream, lbits s1 = lbits s → s1.bitp ≤ 63 → n ≤ s1.bitp →
      s1 = { s with acc := s1.acc, next_in := s1.next_in, bitp := s1.bitp } →
      s1.next_in.length ≤ s.next_in.length →
      (v, s') = (((({ s1 with bitp := s1.bitp - n } : aec_stream).acc >>>
          ({ s1 with bitp := s1.bitp - n } : aec_stream).bitp) &&& ((1 <<< n) - 1)),
        ({ s1 with bitp := s1.bitp - n } : aec_stream)) →
      n ≤ (lbits s).length ∧ v = bits_val ((lbits s).take n) ∧ lbits s' = (lbits s).drop n ∧
      s'.bitp ≤ 63 ∧ s' = { s with acc := s'.acc, next_in := s'.next_in, bitp := s'.bitp } ∧
      s'.next_in.length ≤ s.next_in.length := by
    intro s1 hl hb1 hn1 hfr hlen hv
    simp only [Prod.mk.injEq] at hv
    obtain ⟨rfl, rfl⟩ := hv
    refine ⟨?_, ?_, ?_, ?_, ?_, hlen⟩
    · rw [← hl, lbits_length]; omega
    · rw [← hl, ← bits_get_eq s1 n hn1]; rfl
    · rw [← hl]; exact lbits_bits_drop s1 n hn1
    · show s1.bitp - n ≤ 63; omega
    · rw [hfr]
  by_cases hlt : s.bitp < n
  · rw [if_pos hlt] at h
    rcases hf : fill_acc s with e | s1
    · rw [hf] at h; cases h
    · rw [hf] at h
      simp only [bind, Except.bind, pure, Except.pure, Except.ok.injEq] at h
      obtain ⟨f1, f2, f3, f4, f5⟩ := fill_acc_spec s s1 hb hf
      exact key s1 f1 f2 (by omega) f4 f5 h.symm
  · rw [if_neg hlt] at h
    simp only [bind, Except.bind, pure, Except.pure, Except.ok.injEq] at h
    exact key s rfl hb (by omega) rfl le_rfl h.symm

theorem testBit_log2 (a : Nat) (h : a ≠ 0) : a.testBit a.log2 = true := by
  have h1 := Nat.log2_self_le h
  have h2 : a < 2 ^ (a.log2 + 1) := Nat.lt_log2_self
  rw [Nat.testBit_to_div_mod]
  have : a / 2 ^ a.log2 = 1 := by
    apply Nat.div_eq_of_lt_le
    · simpa using h1
    · simpa [pow_succ, Nat.mul_comm] using h2
  simp [this]

theorem acc_bits_of_lt (a : Nat) : ∀ (n m : Nat), a < 2 ^ m →
    acc_bits a (m + n) = List.replicate n false ++ acc_bits a m := by
  intro n
  induction n with
  | zero => intro m _; simp
  | succ n ih =>
    intro m h
    rw [← Nat.add_assoc, acc_bits_succ, ih m h, List.replicate_succ, List.cons_append]
    congr 1
    apply Nat.testBit_lt_two_pow
    calc a < 2 ^ m := h
      _ ≤ 2 ^ (m + n) := Nat.pow_le_pow_right (by norm_num) (by omega)

theorem acc_bits_zero_acc (n : Nat) : acc_bits 0 n = List.replicate n false := by
  have := acc_bits_of_lt 0 n 0 (by norm_num)
  simpa [acc_bits_zero] using this

theorem acc_push_lt (acc : Nat) (b : Byte) (n : Nat) (h : acc < 2 ^ n) :
    acc_push acc b < 2 ^ (n + 8) := by
  unfold acc_push
  apply lt_of_le_of_lt (Nat.mod_le _ _)
  apply Nat.or_lt_two_pow
  · exact Nat.shiftLeft_lt h
  · calc b.val < 256 := b.isLt
      _ = 2 ^ 8 := by norm_num
      _ ≤ 2 ^ (n + 8) := Nat.pow_le_pow_right (by norm_num) (by omega)

theorem foldl_acc_push_lt (l : List Byte) : ∀ (acc n : Nat), acc < 2 ^ n →
    l.foldl acc_push acc < 2 ^ (n + 8 * l.length) := by
  induction l with
  | nil => intro acc n h; simpa using h
  | cons b l ih =>
    intro acc n h
    rw [List.foldl_cons]
    have := ih (acc_push acc b) (n + 8) (acc_push_lt acc b n h)
    simp only [List.length_cons]
    rw [show n + 8 * (l.length + 1) = n + 8 + 8 * l.length by ring]
    exact this

theorem fill_acc_lt (s s' : aec_stream) (hb : s.bitp ≤ 63) (ha : s.acc < 2 ^ s.bitp)
    (h : fill_acc s = Except.ok s') : s'.acc < 2 ^ s'.bitp := by
  unfold fill_acc at h
  simp only at h
  split at h
  · cases h
  · rename_i hlen
    simp only [Except.ok.injEq] at h
    subst h
    show List.foldl acc_push s.acc (List.take _ s.next_in) < 2 ^ (s.bitp + ((63 - s.bitp) >>> 3) <<< 3)
    have hl : (List.take ((63 - s.bitp) >>> 3) s.next_in).length = (63 - s.bitp) >>> 3 := by
      rw [List.length_take]; omega
    have := foldl_acc_push_lt (List.take ((63 - s.bitp) >>> 3) s.next_in) s.acc s.bitp ha
    rw [hl] at this
    rw [Nat.shiftLeft_eq, Nat.mul_comm]
    exact this

/-- The loop `while (state->acc == 0)` of `direct_get_fs` passes zero bits only. -/
theorem direct_get_fs_fill_spec : ∀ (fuel fs0 : Nat) (t t1 : aec_stream) (fs1 : Nat),
    t.bitp ≤ 63 → t.acc < 2 ^ t.bitp →
    direct_get_fs_fill fuel fs0 t = Except.ok (fs1, t1) →
    ∃ z, lbits t = List.replicate z false ++ lbits t1 ∧ fs1 % W32 = (fs0 + z) % W32 ∧
      (fs0 < W32 → fs1 < W32) ∧ t1.acc ≠ 0 ∧
      t1.acc < 2 ^ t1.bitp ∧ t1.bitp ≤ 63 ∧
      t1 = { t with acc := t1.acc, next_in := t1.next_in, bitp := t1.bitp } ∧
      t1.next_in.length ≤ t.next_in.length := by
  intro fuel
  induction fuel with
  | zero => intro fs0 t t1 fs1 _ _ h; cases h
  | succ fuel ih =>
    intro fs0 t t1 fs1 hb ha h
    unfold direct_get_fs_fill at h
    by_cases h0 : t.acc = 0
    · rw [if_pos h0] at h
      rcases hf : fill_acc { t with bitp := 0 } with e | u
      · rw [hf] at h; cases h
      · rw [hf] at h
        simp only [bind, Except.bind] at h
        obtain ⟨f1, f2, f3, f4, f5⟩ := fill_acc_spec _ u (by show 0 ≤ 63; omega) hf
        have hu := fill_acc_lt _ u (by show 0 ≤ 63; omega)
          (by show t.acc < 2 ^ 0; rw [h0]; norm_num) hf
        obtain ⟨z, e1, e2, eb, e3, e4, e5, e6, e7⟩ := ih _ u t1 fs1 f2 hu h
        refine ⟨t.bitp + z, ?_, ?_, fun _ => eb (Nat.mod_lt _ (by norm_num [W32])), e3, e4, e5, ?_,
          le_trans e7 f5⟩
        · have hlt : lbits t = List.replicate t.bitp false ++ lbits u := by
            rw [f1]
            unfold lbits
            simp only
            rw [h0, acc_bits_zero_acc, acc_bits_zero, List.nil_append]
          rw [hlt, e1, ← List.append_assoc, ← List.replicate_add]
        · rw [e2, ← Nat.add_assoc, Nat.add_mod, Nat.mod_mod, ← Nat.add_mod]
        · rw [e6, f4]
    · rw [if_neg h0] at h
      simp only [pure, Except.pure, Except.ok.injEq, Prod.mk.injEq] at h
      obtain ⟨rfl, rfl⟩ := h
      exact ⟨0, by simp, by simp, fun hh => hh, h0, ha, hb, rfl, le_rfl⟩

/-- The loop `while ((acc & (1ULL << bitp)) == 0)` of `direct_get_fs` passes zero bits and
stops on a one bit. -/
theorem direct_get_fs_scan_spec : ∀ (fuel fs0 : Nat) (t t1 : aec_stream) (fs1 : Nat),
    direct_get_fs_scan fuel fs0 t = Except.ok (fs1, t1) →
    ∃ z, acc_bits t.acc (t.bitp + 1) = List.replicate z false ++ true :: acc_bits t.acc t1.bitp ∧
      fs1 % W32 = (fs0 + z) % W32 ∧ (fs0 < W32 → fs1 < W32) ∧ t1 = { t with bitp := t1.bitp } ∧
      t1.bitp ≤ t.bitp := by
  intro fuel
  induction fuel with
  | zero => intro fs0 t t1 fs1 h; cases h
  | succ fuel ih =>
    intro fs0 t t1 fs1 h
    unfold direct_get_fs_scan at h
    by_cases hz : t.acc &&& (1 <<< t.bitp) = 0
    · rw [if_pos hz] at h
      by_cases hb0 : t.bitp = 0
      · rw [if_pos hb0] at h; cases h
      · rw [if_neg hb0] at h
        obtain ⟨z, e1, e2, eb, e3, e4⟩ := ih _ _ t1 fs1 h
        have e1' : acc_bits t.acc (t.bitp - 1 + 1) =
            List.replicate z false ++ true :: acc_bits t.acc t1.bitp := e1
        have e4' : t1.bitp ≤ t.bitp - 1 := e4
        refine ⟨z + 1, ?_, ?_, fun _ => eb (Nat.mod_lt _ (by norm_num [W32])), ?_, by omega⟩
        · rw [acc_bits_succ, (and_one_shiftLeft_eq_zero _ _).mp hz, List.replicate_succ,
            List.cons_append]
          congr 1
          rw [show t.bitp = t.bitp - 1 + 1 by omega]
          exact e1'
        · rw [e2, Nat.add_mod, Nat.mod_mod, ← Nat.add_mod]
          congr 1
          omega
        · rw [e3]
    · rw [if_neg hz] at h
      simp only [pure, Except.pure, Except.ok.injEq, Prod.mk.injEq] at h
      obtain ⟨rfl, rfl⟩ := h
      have hbit : t.acc.testBit t.bitp = true := by
        cases hx : t.acc.testBit t.bitp
        · exact absurd ((and_one_shiftLeft_eq_zero _ _).mpr hx) hz
        · rfl
      exact ⟨0, by rw [acc_bits_succ, hbit]; simp, by simp, fun hh => hh, rfl, le_rfl⟩

theorem lbits_congr_acc (s : aec_stream) (a : Nat)
    (h : ∀ j, j < s.bitp → a.testBit j = s.acc.testBit j) :
    lbits { s with acc := a } = lbits s := by
  unfold lbits
  simp only
  rw [acc_bits_congr h]

/-- What `direct_get_fs` reads: a run of zero bits and the one bit that ends it. -/
theorem direct_get_fs_spec (clz : Bool) (s s' : aec_stream) (fs : Nat) (hb : s.bitp ≤ 63)
    (h : direct_get_fs clz s = Except.ok (fs, s')) :
    ∃ z, lbits s = List.replicate z false ++ true :: lbits s' ∧ fs = z % W32 ∧ s'.bitp ≤ 63 ∧
      s' = { s with acc := s'.acc, next_in := s'.next_in, bitp := s'.bitp } ∧
      s'.next_in.length ≤ s.next_in.length := by
  unfold direct_get_fs at h
  simp only at h
  have hmask : lbits { s with acc := s.acc &&& ((1 <<< s.bitp) - 1) } = lbits s := by
    apply lbits_congr_acc
    intro j hj
    rw [Nat.one_shiftLeft, Nat.testBit_and, Nat.testBit_two_pow_sub_one]
    simp [hj]
  have hlt0 : s.acc &&& ((1 <<< s.bitp) - 1) < 2 ^ s.bitp := by
    rw [Nat.one_shiftLeft, Nat.and_pow_two_sub_one_eq_mod]
    exact Nat.mod_lt _ (Nat.pow_pos (by norm_num))
  rcases hf : direct_get_fs_fill (s.next_in.length / 7 + 2) 0
      { s with acc := s.acc &&& ((1 <<< s.bitp) - 1) } with e | r
  · rw [hf] at h; cases h
  · rw [hf] at h
    simp only [bind, Except.bind] at h
    obtain ⟨z1, e1, e2, eb, e3, e4, e5, e6, e7⟩ :=
      direct_get_fs_fill_spec _ 0 { s with acc := s.acc &&& ((1 <<< s.bitp) - 1) } r.2 r.1 hb hlt0 hf
    have hfs1 : r.1 < W32 := eb (by norm_num [W32])
    replace e6 : r.2 = { s with acc := r.2.acc, next_in := r.2.next_in, bitp := r.2.bitp } := e6
    replace e7 : r.2.next_in.length ≤ s.next_in.length := e7
    rw [Nat.zero_add] at e2
    rw [hmask] at e1
    have hp : r.2.acc.log2 < r.2.bitp := (Nat.log2_lt e3).mpr e4
    cases clz
    · simp only [Bool.false_eq_true, if_false] at h
      by_cases hb0 : r.2.bitp = 0
      · rw [if_pos hb0] at h; cases h
      · rw [if_neg hb0] at h
        obtain ⟨z2, d1, d2, db, d3, d4⟩ := direct_get_fs_scan_spec _ _ _ s' fs h
        have d1' : acc_bits r.2.acc (r.2.bitp - 1 + 1)
            = List.replicate z2 false ++ true :: acc_bits r.2.acc s'.bitp := d1
        have d4' : s'.bitp ≤ r.2.bitp - 1 := d4
        rw [show r.2.bitp - 1 + 1 = r.2.bitp by omega] at d1'
        refine ⟨z1 + z2, ?_, ?_, by omega, ?_, ?_⟩
        · rw [e1, List.replicate_add, List.append_assoc]
          congr 1
          have hl : lbits r.2 = acc_bits r.2.acc r.2.bitp ++ bytes_bits r.2.next_in := rfl
          rw [hl, d1', List.append_assoc, List.cons_append]
          congr 2
          rw [d3]
          rfl
        · have hfs2 : fs < W32 := db hfs1
          have : fs % W32 = (z1 + z2) % W32 := by
            rw [d2, Nat.add_mod, e2, ← Nat.add_mod]
          rw [← this, Nat.mod_eq_of_lt hfs2]
        · rw [d3]
          show _ = ({ s with acc := r.2.acc, next_in := r.2.next_in, bitp := s'.bitp } : aec_stream)
          rw [e6]
        · rw [d3]; exact e7
    · simp only [if_true, pure, Except.pure, Except.ok.injEq, Prod.mk.injEq] at h
      obtain ⟨rfl, rfl⟩ := h
      have hclz : 63 - clzll r.2.acc = r.2.acc.log2 := by
        unfold clzll; omega
      have hsplit : acc_bits r.2.acc r.2.bitp =
          List.replicate (r.2.bitp - 1 - r.2.acc.log2) false ++
            true :: acc_bits r.2.acc r.2.acc.log2 := by
        have := acc_bits_of_lt r.2.acc (r.2.bitp - 1 - r.2.acc.log2) (r.2.acc.log2 + 1)
          Nat.lt_log2_self
        rw [show r.2.acc.log2 + 1 + (r.2.bitp - 1 - r.2.acc.log2) = r.2.bitp by omega] at this
        rw [this, acc_bits_succ, testBit_log2 _ e3]
      refine ⟨z1 + (r.2.bitp - 1 - r.2.acc.log2), ?_, ?_, ?_, ?_, e7⟩
      · rw [e1, List.replicate_add, List.append_assoc]
        congr 1
        have hl : lbits r.2 = acc_bits r.2.acc r.2.bitp ++ bytes_bits r.2.next_in := rfl
        rw [hl, hsplit, List.append_assoc, List.cons_append]
        congr 2
        unfold lbits
        simp only
        rw [hclz]
      · have hz : r.1 + clzll r.2.acc + r.2.bitp + (W32 - 64)
            = (r.1 + (r.2.bitp - 1 - r.2.acc.log2)) + W32 := by
          unfold clzll W32
          omega
        rw [hz, Nat.add_mod_right, Nat.add_mod, e2, ← Nat.add_mod]
      · show 63 - clzll r.2.acc ≤ 63
        omega
      · show _ = ({ s with acc := r.2.acc, next_in := r.2.next_in, bitp := 63 - clzll r.2.acc } : aec_stream)
        rw [e6]

theorem sub_size_t_eq (a b : Nat) (h : b ≤ a) (ha : a < W64) : sub_size_t a b = a - b := by
  unfold sub_size_t
  have hb : b % W64 = b := Nat.mod_eq_of_lt (by omega)
  rw [hb]
  have : a + (W64 - b) = (a - b) + W64 := by omega
  rw [this, Nat.add_mod_right, Nat.mod_eq_of_lt (by omega)]

/-- A state that differs in the bit reader only. -/
theorem αr_frame_bits (c : Config) (t t1 : aec_stream)
    (h : t1 = { t with acc := t1.acc, next_in := t1.next_in, bitp := t1.bitp }) :
    αr c t1 = { αr c t with bits := lbits t1 } := by
  have hf : flush_samples c t1 = flush_samples c t := by
    apply flush_samples_congr <;> (rw [h])
  unfold αr
  rw [hf, h]

theorem direct_get_sim (c : Config) (t t1 : aec_stream) (n v : Nat) (hI : Inv t) (hn : n ≤ 32)
    (h : direct_get t n = Except.ok (v, t1)) :
    L_ask (αr c t) n = true ∧ v = L_get (αr c t) n ∧ αr c t1 = L_drop (αr c t) n ∧ Inv t1 ∧
      SameTotals t t1 ∧ t1.rsip = t.rsip ∧ t1.rsi_buffer = t.rsi_buffer ∧
      t1.avail_out = t.avail_out ∧ t1.fs = t.fs ∧ t1.id = t.id ∧ t1.ref = t.ref ∧
      t1.next_in.length ≤ t.next_in.length := by
  obtain ⟨d1, d2, d3, d4, d5, d6⟩ := direct_get_spec t t1 n v hI.bitp_le hn h
  refine ⟨?_, d2, ?_, ?_, ?_, ?_, ?_, ?_, ?_, ?_, ?_, d6⟩
  · unfold L_ask; simpa using d1
  · rw [αr_frame_bits c t t1 d5, d3]; rfl
  · rw [d5]; exact ⟨hI.flush_le, hI.avail_lt, d4, hI.fs_zero, hI.id_le⟩
  all_goals first | (rw [d5]; exact ⟨rfl, rfl⟩) | rw [d5]

theorem L_fs_scan_run (z : Nat) : ∀ (fs : Nat) (rest : List Bool),
    L_fs_scan (List.replicate z false ++ true :: rest) fs = (true, true :: rest, fs + z) := by
  induction z with
  | zero => intro fs rest; simp [L_fs_scan]
  | succ z ih =>
    intro fs rest
    rw [List.replicate_succ, List.cons_append, L_fs_scan_false_cons _ (by simp), ih]
    congr 2
    omega

theorem direct_get_fs_sim (c : Config) (clz : Bool) (t t1 : aec_stream) (fs : Nat) (hI : Inv t)
    (hfs : t.fs = 0) (hlen : (lbits t).length < W32)
    (h : direct_get_fs clz t = Except.ok (fs, t1)) :
    L_fs_ask (αr c t) = (true, { αr c t with bits := true :: lbits t1, fs := fs }) ∧
      αr c t1 = L_fs_drop { αr c t with bits := true :: lbits t1, fs := fs } ∧ Inv t1 ∧
      SameTotals t t1 ∧ t1.rsip = t.rsip ∧ t1.rsi_buffer = t.rsi_buffer ∧
      t1.avail_out = t.avail_out ∧ t1.fs = t.fs ∧ t1.id = t.id ∧ t1.ref = t.ref ∧
      t1.next_in.length ≤ t.next_in.length ∧ (lbits t1).length < (lbits t).length := by
  obtain ⟨z, d1, d2, d3, d4, d5⟩ := direct_get_fs_spec clz t t1 fs hI.bitp_le h
  have hz : z < W32 := by
    have := congrArg List.length d1
    simp only [List.length_append, List.length_replicate, List.length_cons] at this
    omega
  have hfz : fs = z := by rw [d2, Nat.mod_eq_of_lt hz]
  have hlt : (lbits t1).length < (lbits t).length := by
    have := congrArg List.length d1
    simp only [List.length_append, List.length_replicate, List.length_cons] at this
    omega
  refine ⟨?_, ?_, ?_, ?_, ?_, ?_, ?_, ?_, ?_, ?_, d5, hlt⟩
  · unfold L_fs_ask
    have hb : (αr c t).bits = List.replicate z false ++ true :: lbits t1 := d1
    have hf0 : (αr c t).fs = 0 := hfs
    rw [hb, hf0, L_fs_scan_run, Nat.zero_add, hfz]
  · rw [αr_frame_bits c t t1 d4]
    unfold L_fs_drop
    ext <;> simp [hfs]
  · rw [d4]; exact ⟨hI.flush_le, hI.avail_lt, d3, hI.fs_zero, hI.id_le⟩
  all_goals first | (rw [d4]; exact ⟨rfl, rfl⟩) | rw [d4]

theorem sub_size_t_eq' (a b : Nat) (h : b ≤ a) (ha : a < W64) : a - b = sub_size_t a b :=
  (sub_size_t_eq a b h ha).symm

/-- One pass of the logical `m_uncomp_copy` loop, the last one of the block. -/
theorem L_uncomp_alg_last (c : Config) (A : LState) (a n w : Nat) (x y : Int) :
    Lnorm { L_drop (L_put_sample c
        (Lnorm { A with avail_out := a, mode := Mode.m_uncomp_copy, i := x }) w) n with
      i := y, mode := Mode.m_id }
    = Lnorm { L_check_rsi_end c
        { L_commit c { L_drop A n with rsi_buffer := upd A.rsi_buffer A.rsip w } 1 with
          avail_out := sub_size_t a c.bytes_per_sample } with mode := Mode.m_id } := by
  unfold L_put_sample L_check_rsi_end L_commit L_drop
  simp only [Lnorm_rsip, Lnorm_avail_out]
  by_cases h : A.rsip + 1 = c.rsi_size
  · simp only [h, if_true]
    ext <;> simp [Lnorm_n, Lnorm_i, n_live, i_live]
  · simp only [h, if_false]
    ext <;> simp [Lnorm_n, Lnorm_i, n_live, i_live]

/-- One pass of the logical `m_uncomp_copy` loop that does not end the RSI. -/
theorem L_uncomp_alg_step (c : Config) (A : LState) (a n w : Nat) (x y : Int)
    (h : A.rsip + 1 ≠ c.rsi_size) :
    { L_drop (L_put_sample c
        (Lnorm { A with avail_out := a, mode := Mode.m_uncomp_copy, i := x }) w) n with i := y }
    = Lnorm { L_commit c { L_drop A n with rsi_buffer := upd A.rsi_buffer A.rsip w } 1 with
        avail_out := sub_size_t a c.bytes_per_sample, mode := Mode.m_uncomp_copy, i := y } := by
  unfold L_put_sample L_check_rsi_end L_commit L_drop
  simp only [Lnorm_rsip, Lnorm_avail_out]
  simp only [h, if_false]
  ext <;> simp [Lnorm_n, Lnorm_i, n_live, i_live]

theorem L_copysample_ok (c : Config) (L : LState) (h1 : L_ask L c.bits_per_sample = true)
    (h2 : L.avail_out ≠ 0) :
    L_copysample c L =
      (true, L_drop (L_put_sample c L (L_get L c.bits_per_sample)) c.bits_per_sample) := by
  unfold L_copysample
  rw [if_neg]
  rw [h1]
  intro hh
  rcases hh with hh | hh
  · cases hh
  · exact h2 hh

/-- One pass of the fast loop of `m_uncomp`, seen from the RSI buffer. -/
theorem uncomp_direct_pass (c : Config) (hc : Accepted c) (t r2 s1 : aec_stream) (v : Nat)
    (hI : Inv t) (hd : direct_get t c.bits_per_sample = Except.ok (v, r2))
    (hst : rsi_store c r2 r2.rsip v = Except.ok s1) :
    L_ask (αr c t) c.bits_per_sample = true ∧
    αr c { s1 with rsip := s1.rsip + 1 }
      = L_commit c { L_drop (αr c t) c.bits_per_sample with
          rsi_buffer := upd (αr c t).rsi_buffer (αr c t).rsip
            (L_get (αr c t) c.bits_per_sample) } 1 ∧
    Inv { s1 with rsip := s1.rsip + 1 } ∧ SameTotals t { s1 with rsip := s1.rsip + 1 } ∧
    s1.avail_out = t.avail_out ∧ s1.fs = t.fs ∧ s1.id = t.id ∧ s1.ref = t.ref ∧
    s1.next_in.length ≤ t.next_in.length ∧ t.rsip < c.rsi_size ∧ s1.rsip = t.rsip := by
  obtain ⟨g1, g2, g3, g4, g5, g6, g7, g8, g9, g10, g11, g12⟩ :=
    direct_get_sim c t r2 c.bits_per_sample v hI hc.bps_le hd
  obtain ⟨rfl, k2, k3, k4, k5⟩ := rsi_store_sim c r2 s1 _ _ g4 le_rfl hst
  have hadv := advance_sim c r2
    { r2 with rsi_buffer := upd r2.rsi_buffer r2.rsip v, rsip := r2.rsip + 1 }
    1 g4 rfl rfl rfl rfl rfl rfl rfl rfl
    (fun j hj => by
      show upd r2.rsi_buffer r2.rsip _ j = r2.rsi_buffer j
      unfold upd
      have : ¬ j = r2.rsip := by omega
      simp [this]) rfl rfl rfl rfl
  refine ⟨g1, ?_, ?_, g5, g8, g9, g10, g11, g12, by rw [← g6]; exact k2, g6⟩
  · have e : αr c ({ ({ r2 with rsi_buffer := upd r2.rsi_buffer r2.rsip v } : aec_stream) with
        rsip := r2.rsip + 1 })
        = L_commit c { αr c r2 with rsi_buffer := upd r2.rsi_buffer r2.rsip v } 1 := hadv
    rw [e, g3, g2, g7, g6]
    rfl
  · exact ⟨by show r2.flush_start ≤ r2.rsip + 1; have := g4.flush_le; omega,
      g4.avail_lt, g4.bitp_le, g4.fs_zero, g4.id_le⟩

theorem m_uncomp_direct_sim (c : Config) (hc : Accepted c) :
    ∀ (cnt : Nat) (t t' : aec_stream) (a : Nat), Inv t →
      m_uncomp_direct c (cnt + 1) t = Except.ok t' → a < W64 →
      (cnt + 1) * c.bytes_per_sample ≤ a →
      Lsteps c
        (Lnorm { αr c t with avail_out := a, mode := Mode.m_uncomp_copy, i := ((cnt + 1 : Nat) : Int) })
        (Lnorm { L_check_rsi_end c
          { αr c t' with avail_out := a - (cnt + 1) * c.bytes_per_sample } with
          mode := Mode.m_id }) ∧
      Inv t' ∧ SameTotals t t' ∧ t'.avail_out = t.avail_out ∧ t'.fs = t.fs ∧ t'.id = t.id ∧
      t'.next_in.length ≤ t.next_in.length := by
  have hbytes : 1 ≤ c.bytes_per_sample := by
    rw [hc.bytes_eq]; split_ifs <;> omega
  intro cnt
  induction cnt with
  | zero =>
    intro t t' a hI h ha hsz
    unfold m_uncomp_direct at h
    rcases hd : direct_get t c.bits_per_sample with e | r
    · rw [hd] at h; cases h
    · rw [hd] at h
      simp only [bind, Except.bind] at h
      rcases hst : rsi_store c r.2 r.2.rsip r.1 with e | s1
      · rw [hst] at h; cases h
      · rw [hst] at h
        simp only [m_uncomp_direct, pure, Except.pure, Except.ok.injEq] at h
        subst h
        obtain ⟨p1, p2, p3, p4, p5, p6, p7, p8, p9, p10, p11⟩ :=
          uncomp_direct_pass c hc t r.2 s1 r.1 hI hd hst
        refine ⟨?_, p3, p4, p5, p6, p7, p9⟩
        apply Lsteps_one
        have hcopy := L_copysample_ok c
          (Lnorm { αr c t with avail_out := a, mode := Mode.m_uncomp_copy, i := ((0 + 1 : Nat) : Int) })
          p1 (by show a ≠ 0; omega)
        rw [Lstep_uncomp_copy_ok c _ _ rfl hcopy]
        have hi : (L_drop (L_put_sample c
            (Lnorm { αr c t with avail_out := a, mode := Mode.m_uncomp_copy, i := ((0 + 1 : Nat) : Int) })
            (L_get (Lnorm { αr c t with avail_out := a, mode := Mode.m_uncomp_copy, i := ((0 + 1 : Nat) : Int) })
              c.bits_per_sample)) c.bits_per_sample).i = 1 := by
          show (L_put_sample c _ _).i = 1
          rw [(L_put_sample_fields c _ _).2.2.2.1]
          rfl
        rw [hi, if_neg (by norm_num)]
        refine congrArg some (congrArg (Prod.mk _) ?_)
        have e0 : a - (0 + 1) * c.bytes_per_sample = sub_size_t a c.bytes_per_sample := by
          rw [Nat.zero_add, Nat.one_mul]
          exact sub_size_t_eq' a c.bytes_per_sample (by omega) ha
        rw [p2, e0]
        exact L_uncomp_alg_last c (αr c t) a c.bits_per_sample _ _ _
  | succ k ih =>
    intro t t' a hI h ha hsz
    unfold m_uncomp_direct at h
    rcases hd : direct_get t c.bits_per_sample with e | r
    · rw [hd] at h; cases h
    · rw [hd] at h
      simp only [bind, Except.bind] at h
      rcases hst : rsi_store c r.2 r.2.rsip r.1 with e | s1
      · rw [hst] at h; cases h
      · rw [hst] at h
        simp only at h
        obtain ⟨p1, p2, p3, p4, p5, p6, p7, p8, p9, p10, p11⟩ :=
          uncomp_direct_pass c hc t r.2 s1 r.1 hI hd hst
        have hsz2 : (k + 1) * c.bytes_per_sample ≤ a - c.bytes_per_sample := by
          have : (k + 1 + 1) * c.bytes_per_sample
              = (k + 1) * c.bytes_per_sample + c.bytes_per_sample := by ring
          omega
        obtain ⟨q1, q2, q3, q4, q5, q6, q7⟩ :=
          ih { s1 with rsip := s1.rsip + 1 } t' (a - c.bytes_per_sample) p3 h (by omega) hsz2
        have hnext : t.rsip + 1 < c.rsi_size := by
          have h' := h
          unfold m_uncomp_direct at h'
          rcases hd2 : direct_get { s1 with rsip := s1.rsip + 1 } c.bits_per_sample with e | r'
          · rw [hd2] at h'; cases h'
          · rw [hd2] at h'
            simp only [bind, Except.bind] at h'
            rcases hst2 : rsi_store c r'.2 r'.2.rsip r'.1 with e | s2
            · rw [hst2] at h'; cases h'
            · obtain ⟨-, -, -, -, -, -, -, -, -, z10, -⟩ :=
                uncomp_direct_pass c hc _ r'.2 s2 r'.1 p3 hd2 hst2
              have : ({ s1 with rsip := s1.rsip + 1 } : aec_stream).rsip = t.rsip + 1 := by
                show s1.rsip + 1 = _
                rw [p11]
              rw [this] at z10
              exact z10
        have hle : c.bytes_per_sample ≤ a := by
          have : (k + 1 + 1) * c.bytes_per_sample
              = (k + 1) * c.bytes_per_sample + c.bytes_per_sample := by ring
          omega
        refine ⟨?_, q2, ⟨q3.1.trans p4.1, q3.2.trans p4.2⟩, ?_, ?_, ?_, le_trans q7 p9⟩
        · refine @Lsteps.step c _ (Lnorm { αr c { s1 with rsip := s1.rsip + 1 } with
              avail_out := a - c.bytes_per_sample, mode := Mode.m_uncomp_copy,
              i := ((k + 1 : Nat) : Int) }) _ ?_ ?_
          · have hcopy := L_copysample_ok c
              (Lnorm { αr c t with avail_out := a, mode := Mode.m_uncomp_copy, i := ((k + 1 + 1 : Nat) : Int) })
              p1 (by show a ≠ 0; omega)
            rw [Lstep_uncomp_copy_ok c _ _ rfl hcopy]
            have hi : (L_drop (L_put_sample c
                (Lnorm { αr c t with avail_out := a, mode := Mode.m_uncomp_copy, i := ((k + 1 + 1 : Nat) : Int) })
                (L_get (Lnorm { αr c t with avail_out := a, mode := Mode.m_uncomp_copy, i := ((k + 1 + 1 : Nat) : Int) })
                  c.bits_per_sample)) c.bits_per_sample).i = ((k + 1 + 1 : Nat) : Int) := by
              show (L_put_sample c _ _).i = _
              rw [(L_put_sample_fields c _ _).2.2.2.1]
              rfl
            have hne : ((k + 1 + 1 : Nat) : Int) - 1 ≠ 0 := by push_cast; omega
            rw [hi, if_pos hne]
            refine congrArg some (congrArg (Prod.mk _) ?_)
            have hle : c.bytes_per_sample ≤ a := by
              have : (k + 1 + 1) * c.bytes_per_sample
                  = (k + 1) * c.bytes_per_sample + c.bytes_per_sample := by ring
              omega
            rw [p2, sub_size_t_eq' a c.bytes_per_sample hle ha]
            have := L_uncomp_alg_step c (αr c t) a c.bits_per_sample
              (L_get (αr c t) c.bits_per_sample) ((k + 1 + 1 : Nat) : Int)
              (((k + 1 + 1 : Nat) : Int) - 1) (by show t.rsip + 1 ≠ c.rsi_size; omega)
            rw [show ((k + 1 : Nat) : Int) = ((k + 1 + 1 : Nat) : Int) - 1 by push_cast; ring]
            exact this
          · have e : a - c.bytes_per_sample - (k + 1) * c.bytes_per_sample
                = a - (k + 1 + 1) * c.bytes_per_sample := by
              have : (k + 1 + 1) * c.bytes_per_sample
                  = (k + 1) * c.bytes_per_sample + c.bytes_per_sample := by ring
              omega
            rw [e] at q1
            exact q1
        · rw [q4]; exact p5
        · rw [q5]; exact p6
        · rw [q6]; exact p7

/-- The end of a block in the fast paths: `check_rsi_end` and `state->mode = m_id`. -/
theorem finish_block_sim (c : Config) (s2 : aec_stream) (hI : Inv s2) (hfs : s2.fs = 0) :
    Inv { check_rsi_end c s2 with mode := Mode.m_id } ∧
      SameTotals s2 { check_rsi_end c s2 with mode := Mode.m_id } ∧
      α c { check_rsi_end c s2 with mode := Mode.m_id }
        = Lnorm { L_check_rsi_end c (αr c s2) with mode := Mode.m_id } := by
  obtain ⟨k1, k2, k3, k4⟩ := check_rsi_end_sim c s2 hI
  have hfsX : (check_rsi_end c s2).fs = 0 := by
    have h1 := congrArg LState.fs k1
    rw [(L_check_rsi_end_fields c (αr c s2)).2.2.2.2.1] at h1
    exact h1.trans hfs
  refine ⟨⟨k2.flush_le, k2.avail_lt, k2.bitp_le, fun _ => hfsX, fun hh => absurd rfl hh⟩,
    k3, ?_⟩
  have e7 : α c { check_rsi_end c s2 with mode := Mode.m_id }
      = Lnorm { αr c (check_rsi_end c s2) with mode := Mode.m_id } := rfl
  rw [e7, k1]

theorem Lstep_uncomp (c : Config) (L : LState) (hm : L.mode = Mode.m_uncomp) :
    Lstep c L = some (Status.M_CONTINUE,
      Lnorm { L with i := (c.block_size : Int), mode := Mode.m_uncomp_copy }) := by
  unfold Lstep; rw [hm]

theorem BUFFERSPACE_true (c : Config) (s : aec_stream) (h : BUFFERSPACE c s = true) :
    c.in_blklen ≤ s.next_in.length ∧ c.out_blklen ≤ s.avail_out := by
  unfold BUFFERSPACE at h
  simp only [Bool.and_eq_true, decide_eq_true_eq] at h
  exact h

theorem m_uncomp_fast_sim (c : Config) (hc : Accepted c) (s s' : aec_stream) (st : Status)
    (hI : Inv s) (hm : s.mode = Mode.m_uncomp) (hB : BUFFERSPACE c s = true)
    (hbs : 1 ≤ c.block_size) (h : m_uncomp c s = Except.ok (st, s')) : Sim c s st s' := by
  unfold m_uncomp at h
  rw [hB] at h
  simp only [if_true] at h
  obtain ⟨-, hout⟩ := BUFFERSPACE_true c s hB
  rw [hc.out_blklen_eq] at hout
  have hfs0 : s.fs = 0 := hI.fs_zero (by rw [hm]; rfl)
  rcases hd : m_uncomp_direct c c.block_size s with e | s1
  · rw [hd] at h; cases h
  · rw [hd] at h
    simp only [bind, Except.bind, pure, Except.pure, Except.ok.injEq, Prod.mk.injEq] at h
    obtain ⟨rfl, rfl⟩ := h
    obtain ⟨k, hk⟩ : ∃ k, c.block_size = k + 1 := ⟨c.block_size - 1, by omega⟩
    rw [hk] at hd hout
    obtain ⟨q1, q2, q3, q4, q5, q6, q7⟩ :=
      m_uncomp_direct_sim c hc k s s1 s.avail_out hI hd hI.avail_lt hout
    have hI2 : Inv { s1 with avail_out := sub_size_t s1.avail_out c.out_blklen } :=
      ⟨q2.flush_le, sub_size_t_lt _ _, q2.bitp_le, q2.fs_zero, q2.id_le⟩
    obtain ⟨f1, f2, f3⟩ := finish_block_sim c _ hI2 (by show s1.fs = 0; rw [q5]; exact hfs0)
    refine ⟨f1, ⟨f2.1.trans q3.1, f2.2.trans q3.2⟩, _, Lsteps.step ?_ q1, Or.inl ⟨rfl, ?_⟩⟩
    · rw [Lstep_uncomp c (α c s) hm, hk]
      refine congrArg some (congrArg (Prod.mk _) ?_)
      unfold α
      exact Lnorm_set_mode_i _ _ _ rfl
    · rw [f3]
      have e : sub_size_t s1.avail_out c.out_blklen
          = s.avail_out - (k + 1) * c.bytes_per_sample := by
        rw [q4, hc.out_blklen_eq, hk]
        exact sub_size_t_eq _ _ hout hI.avail_lt
      rw [← e]
      rfl

theorem L_fs_ask_tag (A : LState) (rest : List Bool) (z : Nat) (x : Int) (m : Mode)
    (h : L_fs_ask A = (true, { A with bits := true :: rest, fs := z })) :
    L_fs_ask (Lnorm { A with mode := m, i := x })
      = (true, Lnorm { A with bits := true :: rest, fs := z, mode := m, i := x }) := by
  unfold L_fs_ask at h ⊢
  simp only [Prod.mk.injEq] at h
  obtain ⟨h1, h2⟩ := h
  have hb := congrArg LState.bits h2
  have hf := congrArg LState.fs h2
  simp only at hb hf
  simp only [Lnorm_bits, Lnorm_fs, h1, hb, hf]
  rfl

/-- One pass of the logical `m_se_decode` loop that starts at an even `i`. -/
theorem L_se_alg_even (c : Config) (A : LState) (rest : List Bool) (z w w' : Nat) (x : Int) :
    L_fs_drop
      { L_put_sample c
          { L_put_sample c
              (Lnorm { A with bits := true :: rest, fs := z, mode := Mode.m_se_decode, i := x }) w with
            i := (L_put_sample c
              (Lnorm { A with bits := true :: rest, fs := z, mode := Mode.m_se_decode, i := x }) w).i + 1 } w' with
        i := (L_put_sample c
          { L_put_sample c
              (Lnorm { A with bits := true :: rest, fs := z, mode := Mode.m_se_decode, i := x }) w with
            i := (L_put_sample c
              (Lnorm { A with bits := true :: rest, fs := z, mode := Mode.m_se_decode, i := x }) w).i + 1 } w').i + 1 }
    = Lnorm { L_put_sample c (L_put_sample c { A with bits := rest, fs := 0 } w) w' with
        mode := Mode.m_se_decode, i := x + 1 + 1 } := by
  unfold L_put_sample L_check_rsi_end L_commit L_fs_drop
  simp only [Lnorm_rsip, Lnorm_avail_out]
  by_cases h : A.rsip + 1 = c.rsi_size
  · simp only [h, if_true]
    by_cases h2 : 0 + 1 = c.rsi_size
    · simp only [h2, if_true]
      ext <;> simp [Lnorm_n, Lnorm_i, n_live, i_live]
    · simp only [h2, if_false]
      ext <;> simp [Lnorm_n, Lnorm_i, n_live, i_live]
  · simp only [h, if_false]
    by_cases h2 : A.rsip + 1 + 1 = c.rsi_size
    · simp only [h2, if_true]
      ext <;> simp [Lnorm_n, Lnorm_i, n_live, i_live]
    · simp only [h2, if_false]
      ext <;> simp [Lnorm_n, Lnorm_i, n_live, i_live]

/-- One pass of the logical `m_se_decode` loop that starts at an odd `i`. -/
theorem L_se_alg_odd (c : Config) (A : LState) (rest : List Bool) (z w' : Nat) (x : Int) :
    L_fs_drop
      { L_put_sample c
          (Lnorm { A with bits := true :: rest, fs := z, mode := Mode.m_se_decode, i := x }) w' with
        i := (L_put_sample c
          (Lnorm { A with bits := true :: rest, fs := z, mode := Mode.m_se_decode, i := x }) w').i + 1 }
    = Lnorm { L_put_sample c { A with bits := rest, fs := 0 } w' with
        mode := Mode.m_se_decode, i := x + 1 } := by
  unfold L_put_sample L_check_rsi_end L_commit L_fs_drop
  simp only [Lnorm_rsip, Lnorm_avail_out]
  by_cases h : A.rsip + 1 = c.rsi_size
  · simp only [h, if_true]
    ext <;> simp [Lnorm_n, Lnorm_i, n_live, i_live]
  · simp only [h, if_false]
    ext <;> simp [Lnorm_n, Lnorm_i, n_live, i_live]

theorem put_sample_facts (c : Config) (s s' : aec_stream) (w : Nat) (hI : Inv s)
    (h : put_sample c s w = Except.ok s') :
    αr c s' = L_put_sample c (αr c s) w ∧ Inv s' ∧ SameTotals s s' ∧ lbits s' = lbits s ∧
      s'.avail_out = sub_size_t s.avail_out c.bytes_per_sample ∧ s'.fs = s.fs ∧ s'.id = s.id ∧
      s'.mode = s.mode := by
  obtain ⟨p1, p2, p3, -, -⟩ := put_sample_sim c s s' w hI h
  obtain ⟨g1, g2, -, -, g5, -⟩ := put_sample_mode c s s' w p1
  obtain ⟨-, -, -, -, -, -, f7, f8⟩ := L_put_sample_fields c (αr c s) w
  refine ⟨p1, p2, p3, ?_, ?_, g5, g2, g1⟩
  · have := congrArg LState.bits p1
    rw [f7] at this
    exact this
  · have := congrArg LState.avail_out p1
    rw [f8] at this
    exact this

theorem Lnorm_retag (A : LState) (m1 m2 : Mode) (x : Int) (hn : n_live m2 = false)
    (hi : i_live m2 = false) :
    Lnorm { Lnorm { A with mode := m1, i := x } with mode := m2 } = Lnorm { A with mode := m2 } := by
  ext <;> simp [Lnorm_n, Lnorm_i, hn, hi]

theorem m_se_direct_sim (c : Config) (hc : Accepted c) (clz : Bool) (hE : Even c.block_size) :
    ∀ (fuel i : Nat) (t t' : aec_stream), Inv t → t.fs = 0 → (lbits t).length < W32 →
      (i % 2 = 1 → i < c.block_size) →
      (c.block_size - i) * c.bytes_per_sample ≤ t.avail_out →
      m_se_direct clz c fuel i t = Except.ok t' →
      Lsteps c (Lnorm { αr c t with mode := Mode.m_se_decode, i := (i : Int) })
        (Lnorm { αr c t' with mode := Mode.m_id }) ∧
      Inv t' ∧ SameTotals t t' ∧ t'.fs = 0 ∧ t'.id = t.id ∧
      (lbits t').length ≤ (lbits t).length := by
  have hbytes : 1 ≤ c.bytes_per_sample := by
    rw [hc.bytes_eq]; split_ifs <;> omega
  obtain ⟨hb, hbe⟩ := hE
  intro fuel
  induction fuel with
  | zero => intro i t t' _ _ _ _ _ h; cases h
  | succ fuel ih =>
    intro i t t' hI hfs hlen hodd hav h
    unfold m_se_direct at h
    by_cases hlt : i < c.block_size
    · rw [if_pos hlt] at h
      rcases hd : direct_get_fs clz t with e | r
      · rw [hd] at h; cases h
      · rw [hd] at h
        simp only [bind, Except.bind] at h
        rcases ht : se_lookup c r.1 with e | tb
        · rw [ht] at h; cases h
        · rw [ht] at h
          simp only at h
          obtain ⟨g1, g2, g3, g4, g5, g6, g7, g8, g9, g10, g11, g12⟩ :=
            direct_get_fs_sim c clz t r.2 r.1 hI hfs hlen hd
          have hask := L_fs_ask_tag (αr c t) (lbits r.2) r.1 (i : Int) Mode.m_se_decode g1
          have hLlt : (Lnorm { αr c t with mode := Mode.m_se_decode, i := (i : Int) }).i
              < c.block_size := by
            show ((i : Nat) : Int) < _
            exact_mod_cast hlt
          have hstep := Lstep_se_decode_ok c _ _ tb rfl hLlt hask ht
          have hr2 : αr c r.2 = { αr c t with bits := lbits r.2, fs := 0 } := g2
          have hsz : c.bytes_per_sample ≤ t.avail_out := by
            have : 1 ≤ c.block_size - i := by omega
            calc c.bytes_per_sample = 1 * c.bytes_per_sample := by ring
              _ ≤ (c.block_size - i) * c.bytes_per_sample := Nat.mul_le_mul_right _ this
              _ ≤ t.avail_out := hav
          have hne : t.avail_out ≠ 0 := by omega
          have e1 : (Lnorm ({ αr c t with bits := true :: lbits r.2, fs := r.1, mode := Mode.m_se_decode, i := (i : Int) })).i = (i : Int) := rfl
          have e2 : (Lnorm ({ αr c t with bits := true :: lbits r.2, fs := r.1, mode := Mode.m_se_decode, i := (i : Int) })).avail_out = t.avail_out := rfl
          have e3 : (Lnorm ({ αr c t with bits := true :: lbits r.2, fs := r.1, mode := Mode.m_se_decode, i := (i : Int) })).fs = r.1 := rfl
          rw [e1, e2, e3] at hstep
          rw [if_neg (fun hh => hne hh.2)] at hstep
          by_cases hev : i % 2 = 0
          · have hev' : (i : Int) % 2 = 0 := by omega
            rw [if_pos hev, if_pos hev] at h
            rw [if_pos hev'] at hstep
            rcases hp1 : put_sample c r.2 (to_u32 (tb.2 - ((r.1 : Int) - tb.1))) with e | s2
            · rw [hp1] at h; cases h
            · rw [hp1] at h
              simp only at h
              rcases hp2 : put_sample c s2 (to_u32 ((r.1 : Int) - tb.1)) with e | s3
              · rw [hp2] at h; cases h
              · rw [hp2] at h
                simp only at h
                obtain ⟨a1, a2, a3, a4, a5, a6, a7, a8⟩ := put_sample_facts c r.2 s2 _ g3 hp1
                obtain ⟨b1, b2, b3, b4, b5, b6, b7, b8⟩ := put_sample_facts c s2 s3 _ a2 hp2
                have hi2 : i + 2 ≤ c.block_size := by omega
                have h2sz : 2 * c.bytes_per_sample ≤ t.avail_out := by
                  have : 2 ≤ c.block_size - i := by omega
                  calc 2 * c.bytes_per_sample ≤ (c.block_size - i) * c.bytes_per_sample :=
                        Nat.mul_le_mul_right _ this
                    _ ≤ t.avail_out := hav
                have hav2 : s2.avail_out = t.avail_out - c.bytes_per_sample := by
                  rw [a5, g7]; exact sub_size_t_eq _ _ hsz hI.avail_lt
                have hav3 : s3.avail_out = t.avail_out - c.bytes_per_sample - c.bytes_per_sample := by
                  rw [b5, hav2]
                  exact sub_size_t_eq _ _ (by omega) (by have := hI.avail_lt; omega)
                have hL2av : ({ L_put_sample c (Lnorm ({ αr c t with bits := true :: lbits r.2, fs := r.1, mode := Mode.m_se_decode, i := (i : Int) })) (to_u32 (tb.2 - ((r.1 : Int) - tb.1))) with
                    i := (L_put_sample c (Lnorm ({ αr c t with bits := true :: lbits r.2, fs := r.1, mode := Mode.m_se_decode, i := (i : Int) })) (to_u32 (tb.2 - ((r.1 : Int) - tb.1)))).i + 1 } : LState).avail_out ≠ 0 := by
                  show (L_put_sample c _ _).avail_out ≠ 0
                  rw [(L_put_sample_fields c _ _).2.2.2.2.2.2.2]
                  show sub_size_t t.avail_out c.bytes_per_sample ≠ 0
                  rw [sub_size_t_eq _ _ hsz hI.avail_lt]
                  omega
                rw [if_neg hL2av, L_se_alg_even, ← hr2, ← a1, ← b1] at hstep
                have hrec := ih (i + 1 + 1) s3 t' b2 (by rw [b6, a6, g8]; exact hfs)
                  (by rw [b4, a4]; omega)
                  (by intro hh; omega)
                  (by
                    rw [hav3]
                    have : (c.block_size - i) * c.bytes_per_sample
                        = (c.block_size - (i + 1 + 1)) * c.bytes_per_sample
                          + 2 * c.bytes_per_sample := by
                      rw [← Nat.add_mul]
                      congr 1
                      omega
                    omega) h
                obtain ⟨q1, q2, q3, q4, q5, q6⟩ := hrec
                refine ⟨Lsteps.step ?_ q1, q2, ?_, q4, ?_, ?_⟩
                · rw [hstep]
                  refine congrArg some (congrArg (Prod.mk _) ?_)
                  push_cast
                  rfl
                · exact ⟨q3.1.trans (b3.1.trans (a3.1.trans g4.1)),
                    q3.2.trans (b3.2.trans (a3.2.trans g4.2))⟩
                · rw [q5, b7, a7, g9]
                · rw [b4, a4] at q6; omega
          · have hev' : ¬ (i : Int) % 2 = 0 := by omega
            rw [if_neg hev, if_neg hev] at h
            rw [if_neg hev'] at hstep
            simp only [pure, Except.pure] at h
            rcases hp2 : put_sample c r.2 (to_u32 ((r.1 : Int) - tb.1)) with e | s3
            · rw [hp2] at h; cases h
            · rw [hp2] at h
              simp only at h
              obtain ⟨b1, b2, b3, b4, b5, b6, b7, b8⟩ := put_sample_facts c r.2 s3 _ g3 hp2
              have hav3 : s3.avail_out = t.avail_out - c.bytes_per_sample := by
                rw [b5, g7]; exact sub_size_t_eq _ _ hsz hI.avail_lt
              rw [e2, if_neg hne, L_se_alg_odd, ← hr2, ← b1] at hstep
              have hrec := ih (i + 1) s3 t' b2 (by rw [b6, g8]; exact hfs)
                (by rw [b4]; omega)
                (by intro hh; omega)
                (by
                  rw [hav3]
                  have : (c.block_size - i) * c.bytes_per_sample
                      = (c.block_size - (i + 1)) * c.bytes_per_sample
                        + 1 * c.bytes_per_sample := by
                    rw [← Nat.add_mul]
                    congr 1
                    omega
                  omega) h
              obtain ⟨q1, q2, q3, q4, q5, q6⟩ := hrec
              refine ⟨Lsteps.step ?_ q1, q2, ?_, q4, ?_, ?_⟩
              · rw [hstep]
                refine congrArg some (congrArg (Prod.mk _) ?_)
                push_cast
                rfl
              · exact ⟨q3.1.trans (b3.1.trans g4.1), q3.2.trans (b3.2.trans g4.2)⟩
              · rw [q5, b7, g9]
              · rw [b4] at q6; omega
    · rw [if_neg hlt] at h
      simp only [pure, Except.pure, Except.ok.injEq] at h
      subst h
      refine ⟨Lsteps_one ?_, hI, ⟨rfl, rfl⟩, hfs, rfl, le_rfl⟩
      rw [Lstep_se_decode_done c _ rfl (by
        show ¬ ((i : Nat) : Int) < _
        exact_mod_cast hlt)]
      refine congrArg some (congrArg (Prod.mk _) ?_)
      exact Lnorm_retag _ _ _ _ rfl rfl

theorem Lstep_se (c : Config) (L : LState) (hm : L.mode = Mode.m_se) :
    Lstep c L = some (Status.M_CONTINUE,
      Lnorm { L with mode := Mode.m_se_decode, i := (L.ref : Int) }) := by
  unfold Lstep; rw [hm]

theorem m_se_fast_sim (c : Config) (hc : Accepted c) (clz : Bool) (s s' : aec_stream)
    (st : Status) (hI : Inv s) (hm : s.mode = Mode.m_se) (hB : BUFFERSPACE c s = true)
    (hE : Even c.block_size) (hbs : 2 ≤ c.block_size) (href : s.ref ≤ 1)
    (hlen : (lbits s).length < W32)
    (h : m_se clz c s = Except.ok (st, s')) : Sim c s st s' := by
  unfold m_se at h
  rw [hB] at h
  simp only [if_true] at h
  obtain ⟨-, hout⟩ := BUFFERSPACE_true c s hB
  rw [hc.out_blklen_eq] at hout
  have hfs0 : s.fs = 0 := hI.fs_zero (by rw [hm]; rfl)
  rcases hd : m_se_direct clz c (c.block_size - s.ref + 1) s.ref s with e | s1
  · rw [hd] at h; cases h
  · rw [hd] at h
    simp only [bind, Except.bind, pure, Except.pure, Except.ok.injEq, Prod.mk.injEq] at h
    obtain ⟨rfl, rfl⟩ := h
    obtain ⟨q1, q2, q3, q4, q5, q6⟩ :=
      m_se_direct_sim c hc clz hE _ s.ref s s1 hI hfs0 hlen (by intro _; omega)
        (le_trans (Nat.mul_le_mul_right _ (Nat.sub_le _ _)) hout) hd
    refine ⟨⟨q2.flush_le, q2.avail_lt, q2.bitp_le, fun _ => q4, fun hh => absurd rfl hh⟩, q3,
      _, Lsteps.step ?_ q1, Or.inl ⟨rfl, ?_⟩⟩
    · rw [Lstep_se c (α c s) hm]
      refine congrArg some (congrArg (Prod.mk _) ?_)
      unfold α
      have : (Lnorm (αr c s)).ref = s.ref := rfl
      rw [this]
      ext <;> simp [Lnorm_n, Lnorm_i, n_live, i_live]
    · exact (congrArg Lnorm (αr_set_mode c s1 Mode.m_id)).symm

theorem tag_mode (A : LState) (a : Nat) (m : Mode) (N x : Int) : (tag A a m N x).mode = m := rfl

theorem tag_bits (A : LState) (a : Nat) (m : Mode) (N x : Int) :
    (tag A a m N x).bits = A.bits := rfl

theorem tag_avail_out (A : LState) (a : Nat) (m : Mode) (N x : Int) :
    (tag A a m N x).avail_out = a := rfl

theorem tag_id (A : LState) (a : Nat) (m : Mode) (N x : Int) : (tag A a m N x).id = A.id := rfl

theorem L_fs_ask_tag2 (A : LState) (rest : List Bool) (z a : Nat) (N x : Int) (m : Mode)
    (h : L_fs_ask A = (true, { A with bits := true :: rest, fs := z })) :
    L_fs_ask (tag A a m N x) = (true, tag { A with bits := true :: rest, fs := z } a m N x) := by
  unfold L_fs_ask at h ⊢
  simp only [Prod.mk.injEq] at h
  obtain ⟨h1, h2⟩ := h
  have hb := congrArg LState.bits h2
  have hf := congrArg LState.fs h2
  simp only at hb hf
  unfold tag
  simp only [Lnorm_bits, Lnorm_fs, h1, hb, hf]
  rfl

/-- One pass of the logical `m_split_fs` loop, not the last one. -/
theorem L_split_fs_alg_step (A : LState) (rest : List Bool) (z a v : Nat) (N : Int) (i : Nat) :
    ({ L_fs_drop { tag { A with bits := true :: rest, fs := z } a Mode.m_split_fs N (i : Int) with
          rsi_buffer := upd (tag { A with bits := true :: rest, fs := z } a Mode.m_split_fs N (i : Int)).rsi_buffer
            ((tag { A with bits := true :: rest, fs := z } a Mode.m_split_fs N (i : Int)).rsip
              + (tag { A with bits := true :: rest, fs := z } a Mode.m_split_fs N (i : Int)).i.toNat) v } with
        i := (tag { A with bits := true :: rest, fs := z } a Mode.m_split_fs N (i : Int)).i + 1 } : LState)
    = tag { A with bits := rest, fs := 0, rsi_buffer := upd A.rsi_buffer (A.rsip + i) v }
        a Mode.m_split_fs N ((i + 1 : Nat) : Int) := by
  unfold tag L_fs_drop
  ext <;> simp [Lnorm_n, Lnorm_i, n_live, i_live]

/-- The last pass of the logical `m_split_fs` loop. -/
theorem L_split_fs_alg_last (A : LState) (rest : List Bool) (z a v : Nat) (N : Int) (i : Nat) :
    Lnorm ({ L_fs_drop { tag { A with bits := true :: rest, fs := z } a Mode.m_split_fs N (i : Int) with
          rsi_buffer := upd (tag { A with bits := true :: rest, fs := z } a Mode.m_split_fs N (i : Int)).rsi_buffer
            ((tag { A with bits := true :: rest, fs := z } a Mode.m_split_fs N (i : Int)).rsip
              + (tag { A with bits := true :: rest, fs := z } a Mode.m_split_fs N (i : Int)).i.toNat) v } with
        i := 0, mode := Mode.m_split_output } : LState)
    = tag { A with bits := rest, fs := 0, rsi_buffer := upd A.rsi_buffer (A.rsip + i) v }
        a Mode.m_split_output N 0 := by
  unfold tag L_fs_drop
  ext <;> simp [Lnorm_n, Lnorm_i, n_live, i_live]

/-- One pass of the logical `m_split_output` loop, not the last one. -/
theorem L_split_out_alg_step (c : Config) (A : LState) (a k w : Nat) (N x : Int) :
    ({ L_drop { L_commit c { tag A a Mode.m_split_output N x with
            rsi_buffer := upd (tag A a Mode.m_split_output N x).rsi_buffer
              (tag A a Mode.m_split_output N x).rsip w } 1 with
          avail_out := sub_size_t (tag A a Mode.m_split_output N x).avail_out c.bytes_per_sample } k with
        i := (tag A a Mode.m_split_output N x).i + 1 } : LState)
    = tag (L_commit c { L_drop A k with rsi_buffer := upd A.rsi_buffer A.rsip w } 1)
        (sub_size_t a c.bytes_per_sample) Mode.m_split_output N (x + 1) := by
  unfold tag L_commit L_drop
  ext <;> simp [Lnorm_n, Lnorm_i, n_live, i_live]

/-- The last pass of the logical `m_split_output` loop. -/
theorem L_split_out_alg_last (c : Config) (A : LState) (a k w : Nat) (N x : Int) :
    Lnorm ({ L_check_rsi_end c
        { L_drop { L_commit c { tag A a Mode.m_split_output N x with
            rsi_buffer := upd (tag A a Mode.m_split_output N x).rsi_buffer
              (tag A a Mode.m_split_output N x).rsip w } 1 with
          avail_out := sub_size_t (tag A a Mode.m_split_output N x).avail_out c.bytes_per_sample } k with
        i := (tag A a Mode.m_split_output N x).i + 1 } with mode := Mode.m_id } : LState)
    = Lnorm { L_check_rsi_end c
        { L_commit c { L_drop A k with rsi_buffer := upd A.rsi_buffer A.rsip w } 1 with
          avail_out := sub_size_t a c.bytes_per_sample } with mode := Mode.m_id } := by
  unfold tag L_check_rsi_end L_commit L_drop
  simp only [Lnorm_rsip]
  by_cases h : A.rsip + 1 = c.rsi_size
  · simp only [h, if_true]
    ext <;> simp [Lnorm_n, Lnorm_i, n_live, i_live]
  · simp only [h, if_false]
    ext <;> simp [Lnorm_n, Lnorm_i, n_live, i_live]

/-- The logical `m_split` step that copies the reference sample. -/
theorem L_split_ref_alg (c : Config) (A : LState) (n w : Nat) (N : Int)
    (h : A.rsip + 1 ≠ c.rsi_size) :
    Lnorm ({ L_drop (L_put_sample c (Lnorm A) w) n with
        n := N, i := 0, mode := Mode.m_split_fs } : LState)
    = tag (L_commit c { L_drop A n with rsi_buffer := upd A.rsi_buffer A.rsip w } 1)
        (sub_size_t A.avail_out c.bytes_per_sample) Mode.m_split_fs N 0 := by
  unfold tag L_put_sample L_check_rsi_end L_commit L_drop
  simp only [Lnorm_rsip, Lnorm_avail_out]
  simp only [h, if_false]
  ext <;> simp [Lnorm_n, Lnorm_i, n_live, i_live]

/-- A fast-path pass `*rsip++ = w` after a `direct_get` of `n` bits, seen from the RSI
buffer. -/
theorem direct_pass (c : Config) (t r2 s1 : aec_stream) (n v w : Nat) (hn : n ≤ 32)
    (hI : Inv t) (hd : direct_get t n = Except.ok (v, r2))
    (hst : rsi_store c r2 r2.rsip w = Except.ok s1) :
    L_ask (αr c t) n = true ∧ v = L_get (αr c t) n ∧
    αr c { s1 with rsip := s1.rsip + 1 }
      = L_commit c { L_drop (αr c t) n with
          rsi_buffer := upd (αr c t).rsi_buffer (αr c t).rsip w } 1 ∧
    Inv { s1 with rsip := s1.rsip + 1 } ∧ SameTotals t { s1 with rsip := s1.rsip + 1 } ∧
    s1.avail_out = t.avail_out ∧ s1.fs = t.fs ∧ s1.id = t.id ∧ s1.ref = t.ref ∧
    (lbits s1).length ≤ (lbits t).length ∧ t.rsip < c.rsi_size ∧ s1.rsip = t.rsip ∧
    r2.rsi_buffer = t.rsi_buffer ∧ r2.rsip = t.rsip := by
  obtain ⟨g1, g2, g3, g4, g5, g6, g7, g8, g9, g10, g11, g12⟩ :=
    direct_get_sim c t r2 n v hI hn hd
  obtain ⟨rfl, k2, k3, k4, k5⟩ := rsi_store_sim c r2 s1 _ _ g4 le_rfl hst
  have hadv := advance_sim c r2
    { r2 with rsi_buffer := upd r2.rsi_buffer r2.rsip w, rsip := r2.rsip + 1 }
    1 g4 rfl rfl rfl rfl rfl rfl rfl rfl
    (fun j hj => by
      show upd r2.rsi_buffer r2.rsip _ j = r2.rsi_buffer j
      unfold upd
      have : ¬ j = r2.rsip := by omega
      simp [this]) rfl rfl rfl rfl
  have hbits : lbits r2 = (lbits t).drop n := congrArg LState.bits g3
  refine ⟨g1, g2, ?_, ?_, g5, g8, g9, g10, g11, ?_, by rw [← g6]; exact k2, g6, g7, g6⟩
  · have e : αr c ({ ({ r2 with rsi_buffer := upd r2.rsi_buffer r2.rsip w } : aec_stream) with
        rsip := r2.rsip + 1 })
        = L_commit c { αr c r2 with rsi_buffer := upd r2.rsi_buffer r2.rsip w } 1 := hadv
    rw [e, g3, g7, g6]
    rfl
  · exact ⟨by show r2.flush_start ≤ r2.rsip + 1; have := g4.flush_le; omega,
      g4.avail_lt, g4.bitp_le, g4.fs_zero, g4.id_le⟩
  · show (lbits r2).length ≤ _
    rw [hbits, List.length_drop]
    omega

theorem m_split_direct_fs_sim (c : Config) (clz : Bool) (k : Nat) :
    ∀ (cnt i : Nat) (t t' : aec_stream) (a : Nat), Inv t → t.fs = 0 →
      (lbits t).length < W32 → k = t.id - 1 →
      m_split_direct_fs clz c k (cnt + 1) i t = Except.ok t' →
      Lsteps c (tag (αr c t) a Mode.m_split_fs ((i + cnt + 1 : Nat) : Int) (i : Int))
        (tag (αr c t') a Mode.m_split_output ((i + cnt + 1 : Nat) : Int) 0) ∧
      Inv t' ∧ SameTotals t t' ∧ t'.fs = 0 ∧ t'.id = t.id ∧ t'.rsip = t.rsip ∧
      t'.avail_out = t.avail_out ∧ (lbits t').length ≤ (lbits t).length ∧ t'.ref = t.ref := by
  intro cnt
  induction cnt with
  | zero =>
    intro i t t' a hI hfs hlen hk h
    unfold m_split_direct_fs at h
    rcases hd : direct_get_fs clz t with e | r
    · rw [hd] at h; cases h
    · rw [hd] at h
      simp only [bind, Except.bind] at h
      rcases hst : rsi_store c r.2 (r.2.rsip + i) ((r.1 <<< k) % W32) with e | s1
      · rw [hst] at h; cases h
      · rw [hst] at h
        simp only [m_split_direct_fs, pure, Except.pure, Except.ok.injEq] at h
        subst h
        obtain ⟨g1, g2, g3, g4, g5, g6, g7, g8, g9, g10, g11, g12⟩ :=
          direct_get_fs_sim c clz t r.2 r.1 hI hfs hlen hd
        obtain ⟨rfl, k2, k3, k4, k5⟩ :=
          rsi_store_sim c r.2 s1 _ _ g3 (Nat.le_add_right _ _) hst
        have hask := L_fs_ask_tag2 (αr c t) (lbits r.2) r.1 a
          ((i + 0 + 1 : Nat) : Int) (i : Int) Mode.m_split_fs g1
        have hstep := Lstep_split_fs_ok c _ _ rfl hask
        have ei : (tag { αr c t with bits := true :: lbits r.2, fs := r.1 } a Mode.m_split_fs
            ((i + 0 + 1 : Nat) : Int) (i : Int)).i = (i : Int) := rfl
        have en : (tag { αr c t with bits := true :: lbits r.2, fs := r.1 } a Mode.m_split_fs
            ((i + 0 + 1 : Nat) : Int) (i : Int)).n = ((i + 0 + 1 : Nat) : Int) := rfl
        have hnlt : ¬ (tag { αr c t with bits := true :: lbits r.2, fs := r.1 } a Mode.m_split_fs
            ((i + 0 + 1 : Nat) : Int) (i : Int)).i + 1
            < (tag { αr c t with bits := true :: lbits r.2, fs := r.1 } a Mode.m_split_fs
            ((i + 0 + 1 : Nat) : Int) (i : Int)).n := by
          rw [ei, en]; push_cast; omega
        rw [if_neg hnlt] at hstep
        refine ⟨Lsteps_one ?_, k4, ⟨k5.1.trans g4.1, k5.2.trans g4.2⟩, g8.trans hfs, g9, g5, g7,
          le_of_lt g12, g10⟩
        rw [hstep]
        refine congrArg some (congrArg (Prod.mk _) ?_)
        have halg := L_split_fs_alg_last (αr c t) (lbits r.2) r.1 a
          ((r.1 <<< (t.id - 1)) % W32) ((i + 0 + 1 : Nat) : Int) i
        refine halg.trans ?_
        rw [k3, g2, g6, g5, hk]
        rfl
  | succ n ih =>
    intro i t t' a hI hfs hlen hk h
    unfold m_split_direct_fs at h
    rcases hd : direct_get_fs clz t with e | r
    · rw [hd] at h; cases h
    · rw [hd] at h
      simp only [bind, Except.bind] at h
      rcases hst : rsi_store c r.2 (r.2.rsip + i) ((r.1 <<< k) % W32) with e | s1
      · rw [hst] at h; cases h
      · rw [hst] at h
        simp only at h
        obtain ⟨g1, g2, g3, g4, g5, g6, g7, g8, g9, g10, g11, g12⟩ :=
          direct_get_fs_sim c clz t r.2 r.1 hI hfs hlen hd
        obtain ⟨rfl, k2, k3, k4, k5⟩ :=
          rsi_store_sim c r.2 s1 _ _ g3 (Nat.le_add_right _ _) hst
        have hask := L_fs_ask_tag2 (αr c t) (lbits r.2) r.1 a
          ((i + (n + 1) + 1 : Nat) : Int) (i : Int) Mode.m_split_fs g1
        have hstep := Lstep_split_fs_ok c _ _ rfl hask
        have ei : (tag { αr c t with bits := true :: lbits r.2, fs := r.1 } a Mode.m_split_fs
            ((i + (n + 1) + 1 : Nat) : Int) (i : Int)).i = (i : Int) := rfl
        have en : (tag { αr c t with bits := true :: lbits r.2, fs := r.1 } a Mode.m_split_fs
            ((i + (n + 1) + 1 : Nat) : Int) (i : Int)).n = ((i + (n + 1) + 1 : Nat) : Int) := rfl
        have hnlt : (tag { αr c t with bits := true :: lbits r.2, fs := r.1 } a Mode.m_split_fs
            ((i + (n + 1) + 1 : Nat) : Int) (i : Int)).i + 1
            < (tag { αr c t with bits := true :: lbits r.2, fs := r.1 } a Mode.m_split_fs
            ((i + (n + 1) + 1 : Nat) : Int) (i : Int)).n := by
          rw [ei, en]; push_cast; omega
        rw [if_pos hnlt] at hstep
        obtain ⟨q1, q2, q3, q4, q5, q6, q7, q8, q9⟩ :=
          ih (i + 1) { r.2 with rsi_buffer := upd r.2.rsi_buffer (r.2.rsip + i) ((r.1 <<< k) % W32) }
            t' a k4 (g8.trans hfs) (lt_trans g12 hlen) (by show k = r.2.id - 1; rw [g9]; exact hk) h
        have hN : ((i + 1 + n + 1 : Nat) : Int) = ((i + (n + 1) + 1 : Nat) : Int) := by
          push_cast; ring
        rw [hN] at q1
        refine ⟨Lsteps.step ?_ q1, q2, ⟨q3.1.trans (k5.1.trans g4.1), q3.2.trans (k5.2.trans g4.2)⟩,
          q4, q5.trans g9, q6.trans g5, q7.trans g7, le_trans q8 (le_of_lt g12), q9.trans g10⟩
        rw [hstep]
        refine congrArg some (congrArg (Prod.mk _) ?_)
        have halg := L_split_fs_alg_step (αr c t) (lbits r.2) r.1 a
          ((r.1 <<< (t.id - 1)) % W32) ((i + (n + 1) + 1 : Nat) : Int) i
        refine halg.trans ?_
        rw [k3, g2, g6, g5, hk]
        rfl

theorem m_split_direct_out_sim (c : Config) (hc : Accepted c) (k : Nat) (hk32 : k ≤ 32) :
    ∀ (cnt : Nat) (t t' : aec_stream) (a j : Nat), Inv t → k = t.id - 1 →
      m_split_direct_out c k (cnt + 1) t = Except.ok t' → a < W64 →
      (cnt + 1) * c.bytes_per_sample ≤ a →
      Lsteps c (tag (αr c t) a Mode.m_split_output ((j + cnt + 1 : Nat) : Int) (j : Int))
        (Lnorm { L_check_rsi_end c
          { αr c t' with avail_out := a - (cnt + 1) * c.bytes_per_sample } with
          mode := Mode.m_id }) ∧
      Inv t' ∧ SameTotals t t' ∧ t'.fs = t.fs ∧ t'.avail_out = t.avail_out ∧
      (lbits t').length ≤ (lbits t).length := by
  have hbytes : 1 ≤ c.bytes_per_sample := by
    rw [hc.bytes_eq]; split_ifs <;> omega
  intro cnt
  induction cnt with
  | zero =>
    intro t t' a j hI hk h ha hsz
    unfold m_split_direct_out at h
    rcases hd : direct_get t k with e | r
    · rw [hd] at h; cases h
    · rw [hd] at h
      simp only [bind, Except.bind] at h
      rcases hst : rsi_store c r.2 r.2.rsip ((r.2.rsi_buffer r.2.rsip + r.1) % W32) with e | s1
      · rw [hst] at h; cases h
      · rw [hst] at h
        simp only [m_split_direct_out, pure, Except.pure, Except.ok.injEq] at h
        subst h
        obtain ⟨p1, p1', p2, p3, p4, p5, p6, p7, p8, p9, p10, p11, p12, p13⟩ :=
          direct_pass c t r.2 s1 k r.1 _ hk32 hI hd hst
        have hle : c.bytes_per_sample ≤ a := by omega
        have hex : ¬ (L_ask (tag (αr c t) a Mode.m_split_output ((j + 0 + 1 : Nat) : Int) (j : Int))
            ((tag (αr c t) a Mode.m_split_output ((j + 0 + 1 : Nat) : Int) (j : Int)).id - 1) = false ∨
            (tag (αr c t) a Mode.m_split_output ((j + 0 + 1 : Nat) : Int) (j : Int)).avail_out = 0) := by
          intro hh
          rcases hh with hh | hh
          · have : L_ask (αr c t) (t.id - 1) = false := hh
            rw [← hk, p1] at this
            cases this
          · have : a = 0 := hh
            omega
        have hstep := Lstep_split_output_ok c _ rfl hex
        have hnlt : ¬ (tag (αr c t) a Mode.m_split_output ((j + 0 + 1 : Nat) : Int) (j : Int)).i + 1
            < (tag (αr c t) a Mode.m_split_output ((j + 0 + 1 : Nat) : Int) (j : Int)).n := by
          show ¬ ((j : Nat) : Int) + 1 < ((j + 0 + 1 : Nat) : Int)
          push_cast; omega
        rw [if_neg hnlt] at hstep
        refine ⟨Lsteps_one ?_, p3, p4, p6, p5, p9⟩
        rw [hstep]
        refine congrArg some (congrArg (Prod.mk _) ?_)
        have halg := L_split_out_alg_last c (αr c t) a (t.id - 1)
          ((t.rsi_buffer t.rsip + L_get (αr c t) (t.id - 1)) % W32) ((j + 0 + 1 : Nat) : Int) (j : Int)
        refine halg.trans ?_
        have e0 : a - (0 + 1) * c.bytes_per_sample = sub_size_t a c.bytes_per_sample := by
          rw [Nat.zero_add, Nat.one_mul]
          exact sub_size_t_eq' a c.bytes_per_sample hle ha
        rw [p2, e0, p12, p13, p1', hk]
  | succ n ih =>
    intro t t' a j hI hk h ha hsz
    unfold m_split_direct_out at h
    rcases hd : direct_get t k with e | r
    · rw [hd] at h; cases h
    · rw [hd] at h
      simp only [bind, Except.bind] at h
      rcases hst : rsi_store c r.2 r.2.rsip ((r.2.rsi_buffer r.2.rsip + r.1) % W32) with e | s1
      · rw [hst] at h; cases h
      · rw [hst] at h
        simp only at h
        obtain ⟨p1, p1', p2, p3, p4, p5, p6, p7, p8, p9, p10, p11, p12, p13⟩ :=
          direct_pass c t r.2 s1 k r.1 _ hk32 hI hd hst
        have hle : c.bytes_per_sample ≤ a := by
          have : (n + 1 + 1) * c.bytes_per_sample
              = (n + 1) * c.bytes_per_sample + c.bytes_per_sample := by ring
          omega
        have hsz2 : (n + 1) * c.bytes_per_sample ≤ a - c.bytes_per_sample := by
          have : (n + 1 + 1) * c.bytes_per_sample
              = (n + 1) * c.bytes_per_sample + c.bytes_per_sample := by ring
          omega
        have hex : ¬ (L_ask (tag (αr c t) a Mode.m_split_output ((j + (n + 1) + 1 : Nat) : Int) (j : Int))
            ((tag (αr c t) a Mode.m_split_output ((j + (n + 1) + 1 : Nat) : Int) (j : Int)).id - 1) = false ∨
            (tag (αr c t) a Mode.m_split_output ((j + (n + 1) + 1 : Nat) : Int) (j : Int)).avail_out = 0) := by
          intro hh
          rcases hh with hh | hh
          · have : L_ask (αr c t) (t.id - 1) = false := hh
            rw [← hk, p1] at this
            cases this
          · have : a = 0 := hh
            omega
        have hstep := Lstep_split_output_ok c _ rfl hex
        have hnlt : (tag (αr c t) a Mode.m_split_output ((j + (n + 1) + 1 : Nat) : Int) (j : Int)).i + 1
            < (tag (αr c t) a Mode.m_split_output ((j + (n + 1) + 1 : Nat) : Int) (j : Int)).n := by
          show ((j : Nat) : Int) + 1 < ((j + (n + 1) + 1 : Nat) : Int)
          push_cast; omega
        rw [if_pos hnlt] at hstep
        obtain ⟨q1, q2, q3, q4, q5, q6⟩ :=
          ih { s1 with rsip := s1.rsip + 1 } t' (a - c.bytes_per_sample) (j + 1) p3
            (by show k = s1.id - 1; rw [p7]; exact hk) h (by omega) hsz2
        have hN : ((j + 1 + n + 1 : Nat) : Int) = ((j + (n + 1) + 1 : Nat) : Int) := by
          push_cast; ring
        have e : a - c.bytes_per_sample - (n + 1) * c.bytes_per_sample
            = a - (n + 1 + 1) * c.bytes_per_sample := by
          have : (n + 1 + 1) * c.bytes_per_sample
              = (n + 1) * c.bytes_per_sample + c.bytes_per_sample := by ring
          omega
        rw [hN, e] at q1
        refine ⟨Lsteps.step ?_ q1, q2, ⟨q3.1.trans p4.1, q3.2.trans p4.2⟩, ?_, ?_, le_trans q6 p9⟩
        · rw [hstep]
          refine congrArg some (congrArg (Prod.mk _) ?_)
          have halg := L_split_out_alg_step c (αr c t) a (t.id - 1)
            ((t.rsi_buffer t.rsip + L_get (αr c t) (t.id - 1)) % W32)
            ((j + (n + 1) + 1 : Nat) : Int) (j : Int)
          refine halg.trans ?_
          rw [p2, sub_size_t_eq' a c.bytes_per_sample hle ha, p12, p13, p1', hk]
          push_cast
          rfl
        · rw [q4]; exact p6
        · rw [q5]; exact p5

theorem m_split_direct_fs_rsip (c : Config) (clz : Bool) (k cnt i : Nat) (t t' : aec_stream)
    (hI : Inv t) (h : m_split_direct_fs clz c k (cnt + 1) i t = Except.ok t') :
    t.rsip + i < c.rsi_size := by
  unfold m_split_direct_fs at h
  rcases hd : direct_get_fs clz t with e | r
  · rw [hd] at h; cases h
  · rw [hd] at h
    simp only [bind, Except.bind] at h
    rcases hst : rsi_store c r.2 (r.2.rsip + i) ((r.1 <<< k) % W32) with e | s1
    · rw [hst] at h; cases h
    · obtain ⟨_, -, -, -, d4, -⟩ := direct_get_fs_spec clz t r.2 r.1 hI.bitp_le hd
      have hr : r.2.rsip = t.rsip := by rw [d4]
      unfold rsi_store at hst
      split at hst
      · rename_i hlt
        rw [hr] at hlt
        exact hlt
      · cases hst

theorem Lstep_split_ref (c : Config) (L L1 : LState) (hm : L.mode = Mode.m_split)
    (href : L.ref ≠ 0) (h : L_copysample c L = (true, L1)) :
    Lstep c L = some (Status.M_CONTINUE,
      Lnorm { L1 with n := (c.block_size : Int) - 1, i := 0, mode := Mode.m_split_fs }) := by
  unfold Lstep; rw [hm]; simp only [href, ne_eq, not_false_eq_true, if_true, h, Bool.true_eq_false, if_false]

theorem Lstep_split_noref (c : Config) (L : LState) (hm : L.mode = Mode.m_split)
    (href : L.ref = 0) :
    Lstep c L = some (Status.M_CONTINUE,
      Lnorm { L with n := (c.block_size : Int), i := 0, mode := Mode.m_split_fs }) := by
  unfold Lstep; rw [hm]; simp only [href, ne_eq, not_true_eq_false, if_false]

theorem m_split_fast_sim (c : Config) (hc : Accepted c) (clz : Bool) (s s' : aec_stream)
    (st : Status) (hI : Inv s) (hm : s.mode = Mode.m_split) (hB : BUFFERSPACE c s = true)
    (hbs : 2 ≤ c.block_size) (href : s.ref ≤ 1) (hlen : (lbits s).length < W32)
    (h : m_split clz c s = Except.ok (st, s')) : Sim c s st s' := by
  have hbytes : 1 ≤ c.bytes_per_sample := by
    rw [hc.bytes_eq]; split_ifs <;> omega
  unfold m_split at h
  rw [hB] at h
  simp only [if_true] at h
  obtain ⟨-, hout⟩ := BUFFERSPACE_true c s hB
  rw [hc.out_blklen_eq] at hout
  have hfs0 : s.fs = 0 := hI.fs_zero (by rw [hm]; rfl)
  have hid0 : s.id ≤ 32 := hI.id_le (by rw [hm]; simp)
  have hk32 : s.id - 1 ≤ 32 := by omega
  obtain ⟨N, hN⟩ : ∃ N, c.block_size - s.ref = N + 1 := ⟨c.block_size - s.ref - 1, by omega⟩
  rw [hN] at h
  -- the reference sample
  have hfirst : ∀ s1 : aec_stream,
      (if s.ref ≠ 0 then m_split_direct_ref c s else pure s) = Except.ok s1 →
      (∀ t', m_split_direct_fs clz c (s.id - 1) (N + 1) 0 s1 = Except.ok t' →
        Lstep c (α c s) = some (Status.M_CONTINUE,
          tag (αr c s1) (s.avail_out - s.ref * c.bytes_per_sample) Mode.m_split_fs
            ((0 + N + 1 : Nat) : Int) ((0 : Nat) : Int))) ∧
      Inv s1 ∧ SameTotals s s1 ∧ s1.fs = 0 ∧ s1.id = s.id ∧ s1.avail_out = s.avail_out ∧
      (lbits s1).length ≤ (lbits s).length := by
    intro s1 h1
    by_cases hr : s.ref ≠ 0
    · rw [if_pos hr] at h1
      have hr1 : s.ref = 1 := by omega
      unfold m_split_direct_ref at h1
      rcases hd : direct_get s c.bits_per_sample with e | r
      · rw [hd] at h1; cases h1
      · rw [hd] at h1
        simp only [bind, Except.bind] at h1
        rcases hst : rsi_store c r.2 r.2.rsip r.1 with e | s0
        · rw [hst] at h1; cases h1
        · rw [hst] at h1
          simp only [pure, Except.pure, Except.ok.injEq] at h1
          subst h1
          obtain ⟨p1, p1', p2, p3, p4, p5, p6, p7, p8, p9, p10, p11, p12, p13⟩ :=
            direct_pass c s r.2 s0 c.bits_per_sample r.1 _ hc.bps_le hI hd hst
          refine ⟨?_, p3, p4, p6.trans hfs0, p7, p5, p9⟩
          intro t' hfsl
          have hnext := m_split_direct_fs_rsip c clz _ N 0 _ t' p3 hfsl
          have hnext' : s.rsip + 1 < c.rsi_size := by
            have : ({ s0 with rsip := s0.rsip + 1 } : aec_stream).rsip + 0 = s.rsip + 1 := by
              show s0.rsip + 1 + 0 = _
              rw [p11]
            rw [this] at hnext
            exact hnext
          have hcopy := L_copysample_ok c (α c s) p1 (by
            show s.avail_out ≠ 0
            have : 2 * c.bytes_per_sample ≤ c.block_size * c.bytes_per_sample :=
              Nat.mul_le_mul_right _ hbs
            omega)
          rw [Lstep_split_ref c _ _ hm hr hcopy]
          refine congrArg some (congrArg (Prod.mk _) ?_)
          have halg := L_split_ref_alg c (αr c s) c.bits_per_sample
            (L_get (αr c s) c.bits_per_sample) ((c.block_size : Int) - 1)
            (by show s.rsip + 1 ≠ c.rsi_size; omega)
          refine halg.trans ?_
          have hle : c.bytes_per_sample ≤ s.avail_out := by
            have : 1 * c.bytes_per_sample ≤ c.block_size * c.bytes_per_sample :=
              Nat.mul_le_mul_right _ (by omega)
            omega
          have ea : sub_size_t (αr c s).avail_out c.bytes_per_sample
              = s.avail_out - s.ref * c.bytes_per_sample := by
            rw [hr1, Nat.one_mul]
            exact sub_size_t_eq _ _ hle hI.avail_lt
          have eN : (c.block_size : Int) - 1 = ((0 + N + 1 : Nat) : Int) := by
            have : c.block_size = N + 1 + 1 := by omega
            rw [this]; push_cast; ring
          rw [ea, eN, p2, p1']
          rfl
    · rw [if_neg hr] at h1
      simp only [pure, Except.pure, Except.ok.injEq] at h1
      subst h1
      have hr0 : s.ref = 0 := by omega
      refine ⟨?_, hI, ⟨rfl, rfl⟩, hfs0, rfl, rfl, le_rfl⟩
      intro t' _
      rw [Lstep_split_noref c _ hm hr0]
      refine congrArg some (congrArg (Prod.mk _) ?_)
      have eN : (c.block_size : Int) = ((0 + N + 1 : Nat) : Int) := by
        have : c.block_size = N + 1 := by omega
        rw [this]; push_cast; ring
      rw [eN, hr0, Nat.zero_mul, Nat.sub_zero]
      unfold α tag
      ext <;> simp [Lnorm_n, Lnorm_i, n_live, i_live]
  rcases h1 : (if s.ref ≠ 0 then m_split_direct_ref c s else pure s) with e | s1
  · rw [h1] at h; cases h
  · rw [h1] at h
    simp only [bind, Except.bind] at h
    obtain ⟨a1, a2, a3, a4, a5, a6, a7⟩ := hfirst s1 h1
    rcases h2 : m_split_direct_fs clz c (s.id - 1) (N + 1) 0 s1 with e | s2
    · rw [h2] at h; cases h
    · rw [h2] at h
      simp only at h
      rcases h3 : m_split_direct_out c (s.id - 1) (N + 1) s2 with e | s3
      · rw [h3] at h; cases h
      · rw [h3] at h
        simp only [pure, Except.pure, Except.ok.injEq, Prod.mk.injEq] at h
        obtain ⟨rfl, rfl⟩ := h
        have hga : s.avail_out - s.ref * c.bytes_per_sample < W64 := by
          have := hI.avail_lt; omega
        obtain ⟨b1, b2, b3, b4, b5, b6, b7, b8, b9⟩ :=
          m_split_direct_fs_sim c clz (s.id - 1) N 0 s1 s2
            (s.avail_out - s.ref * c.bytes_per_sample) a2 a4 (lt_of_le_of_lt a7 hlen)
            (by rw [a5]) h2
        have hsz : (N + 1) * c.bytes_per_sample ≤ s.avail_out - s.ref * c.bytes_per_sample := by
          have : c.block_size * c.bytes_per_sample
              = (N + 1) * c.bytes_per_sample + s.ref * c.bytes_per_sample := by
            rw [← Nat.add_mul]
            congr 1
            omega
          omega
        obtain ⟨d1, d2, d3, d4, d5, d6⟩ :=
          m_split_direct_out_sim c hc (s.id - 1) hk32 N s2 s3
            (s.avail_out - s.ref * c.bytes_per_sample) 0 b2 (by rw [b5, a5]) h3 hga hsz
        have hI4 : Inv { s3 with avail_out := sub_size_t s3.avail_out c.out_blklen } :=
          ⟨d2.flush_le, sub_size_t_lt _ _, d2.bitp_le, d2.fs_zero, d2.id_le⟩
        obtain ⟨f1, f2, f3⟩ :=
          finish_block_sim c _ hI4 (by show s3.fs = 0; rw [d4]; exact b4)
        refine ⟨f1, ⟨f2.1.trans (d3.1.trans (b3.1.trans a3.1)),
            f2.2.trans (d3.2.trans (b3.2.trans a3.2))⟩, _,
          Lsteps.step (a1 s2 h2) (Lsteps_trans b1 d1), Or.inl ⟨rfl, ?_⟩⟩
        rw [f3]
        have e : sub_size_t s3.avail_out c.out_blklen
            = s.avail_out - s.ref * c.bytes_per_sample - (N + 1) * c.bytes_per_sample := by
          rw [d5, b7, a6, hc.out_blklen_eq, sub_size_t_eq _ _ hout hI.avail_lt]
          have : c.block_size * c.bytes_per_sample
              = (N + 1) * c.bytes_per_sample + s.ref * c.bytes_per_sample := by
            rw [← Nat.add_mul]
            congr 1
            omega
          omega
        rw [← e]
        rfl

theorem L_fs_scan_length : ∀ (l : List Bool) (fs : Nat),
    (L_fs_scan l fs).2.1.length ≤ l.length
  | [], _ => by simp [L_fs_scan]
  | true :: rest, _ => by simp [L_fs_scan]
  | [false], _ => by simp [L_fs_scan]
  | false :: b :: rest, fs => by
    have := L_fs_scan_length (b :: rest) (fs + 1)
    simp only [L_fs_scan, List.length_cons] at this ⊢
    omega

theorem L_fs_ask_facts (L : LState) :
    (L_fs_ask L).2.mode = L.mode ∧ (L_fs_ask L).2.ref = L.ref ∧ (L_fs_ask L).2.i = L.i ∧
    (L_fs_ask L).2.n = L.n ∧ (L_fs_ask L).2.bits.length ≤ L.bits.length ∧
    (L_fs_ask L).2.avail_out = L.avail_out ∧ (L_fs_ask L).2.id = L.id := by
  refine ⟨rfl, rfl, rfl, rfl, ?_, rfl, rfl⟩
  exact L_fs_scan_length _ _

theorem L_copysample_bits (c : Config) (L : LState) :
    (L_copysample c L).2.bits.length ≤ L.bits.length := by
  unfold L_copysample
  split_ifs
  · exact le_rfl
  · show (List.drop _ (L_put_sample c L _).bits).length ≤ _
    rw [(L_put_sample_fields c L _).2.2.2.2.2.2.1, List.length_drop]
    omega

theorem L_id_ref_facts (c : Config) (L : LState) :
    (L_id_ref c L).ref ≤ 1 ∧ (L_id_ref c L).bits.length ≤ L.bits.length ∧
    (L_id_ref c L).mode = L.mode := by
  unfold L_id_ref
  split_ifs
  · refine ⟨le_rfl, ?_, rfl⟩
    show (List.drop _ L.bits).length ≤ _
    rw [List.length_drop]; omega
  · exact ⟨le_rfl, le_rfl, rfl⟩
  · exact ⟨by show 0 ≤ 1; omega, le_rfl, rfl⟩

theorem LI_of_not_se {c : Config} {L : LState} (hm : L.mode ≠ Mode.m_se_decode)
    (href : L.mode ≠ Mode.m_id → L.ref ≤ 1) : LI c L :=
  ⟨href, fun h => absurd h hm, fun h => absurd h hm⟩

theorem Lstep_LI (c : Config) (hc : Accepted c) (hE : Even c.block_size)
    (hbs : 2 ≤ c.block_size) (L L' : LState) (st : Status) (hL : LI c L)
    (h : Lstep c L = some (st, L')) :
    LI c L' ∧ L'.bits.length ≤ L.bits.length := by
  obtain ⟨hb, hbe⟩ := hE
  unfold Lstep at h
  rcases hm : L.mode
  all_goals (rw [hm] at h; simp only at h)
  · -- m_id
    obtain ⟨r1, r2, r3⟩ := L_id_ref_facts c L
    split at h
    · simp only [Option.some.injEq, Prod.mk.injEq] at h
      obtain ⟨-, rfl⟩ := h
      exact ⟨LI_of_not_se (by rw [r3, hm]; simp) (fun _ => r1), r2⟩
    · split at h
      · cases h
      · rename_i mode hmode
        simp only [Option.some.injEq, Prod.mk.injEq] at h
        obtain ⟨-, rfl⟩ := h
        have hmodes := id_table_modes hc hmode
        refine ⟨LI_of_not_se ?_ (fun _ => r1), ?_⟩
        · show mode ≠ Mode.m_se_decode
          rcases hmodes with h1 | h1 | h1 <;> rw [h1] <;> simp
        · show (List.drop _ (L_id_ref c L).bits).length ≤ _
          rw [List.length_drop]; omega
  · -- m_split
    have href := hL.ref_le (by rw [hm]; simp)
    split at h
    · obtain ⟨f1, f2, f3, f4, f5, f6⟩ := L_copysample_fields c L
      have hbits := L_copysample_bits c L
      split at h
      · simp only [Option.some.injEq, Prod.mk.injEq] at h
        obtain ⟨-, rfl⟩ := h
        exact ⟨LI_of_not_se (by rw [f1, hm]; simp) (fun _ => by rw [f6]; exact href), hbits⟩
      · simp only [Option.some.injEq, Prod.mk.injEq] at h
        obtain ⟨-, rfl⟩ := h
        exact ⟨LI_of_not_se (by show Mode.m_split_fs ≠ _; simp)
          (fun _ => by show (L_copysample c L).2.ref ≤ 1; rw [f6]; exact href), hbits⟩
    · simp only [Option.some.injEq, Prod.mk.injEq] at h
      obtain ⟨-, rfl⟩ := h
      exact ⟨LI_of_not_se (by show Mode.m_split_fs ≠ _; simp) (fun _ => href), le_rfl⟩
  · -- m_split_fs
    have href := hL.ref_le (by rw [hm]; simp)
    obtain ⟨a1, a2, a3, a4, a5, a6, a7⟩ := L_fs_ask_facts L
    split at h
    · simp only [Option.some.injEq, Prod.mk.injEq] at h
      obtain ⟨-, rfl⟩ := h
      exact ⟨LI_of_not_se (by rw [a1, hm]; simp) (fun _ => by rw [a2]; exact href), a5⟩
    · split at h
      · simp only [Option.some.injEq, Prod.mk.injEq] at h
        obtain ⟨-, rfl⟩ := h
        refine ⟨LI_of_not_se (by show (L_fs_ask L).2.mode ≠ _; rw [a1, hm]; simp)
          (fun _ => by show (L_fs_ask L).2.ref ≤ 1; rw [a2]; exact href), ?_⟩
        show (List.drop 1 (L_fs_ask L).2.bits).length ≤ _
        rw [List.length_drop]; omega
      · simp only [Option.some.injEq, Prod.mk.injEq] at h
        obtain ⟨-, rfl⟩ := h
        refine ⟨LI_of_not_se (by show Mode.m_split_output ≠ _; simp)
          (fun _ => by show (L_fs_ask L).2.ref ≤ 1; rw [a2]; exact href), ?_⟩
        show (List.drop 1 (L_fs_ask L).2.bits).length ≤ _
        rw [List.length_drop]; omega
  · -- m_split_output
    have href := hL.ref_le (by rw [hm]; simp)
    split at h
    · simp only [Option.some.injEq, Prod.mk.injEq] at h
      obtain ⟨-, rfl⟩ := h
      exact ⟨hL, le_rfl⟩
    · split at h
      · simp only [Option.some.injEq, Prod.mk.injEq] at h
        obtain ⟨-, rfl⟩ := h
        refine ⟨LI_of_not_se (by simp [L_drop, L_commit]) (fun _ => href), ?_⟩
        show (List.drop _ L.bits).length ≤ _
        rw [List.length_drop]; omega
      · simp only [Option.some.injEq, Prod.mk.injEq] at h
        obtain ⟨-, rfl⟩ := h
        refine ⟨LI_of_not_se (by show Mode.m_id ≠ _; simp) (fun hh => absurd rfl hh), ?_⟩
        show (L_check_rsi_end c _).bits.length ≤ _
        rw [(L_check_rsi_end_fields c _).2.2.2.2.2.2.1]
        show (List.drop _ L.bits).length ≤ _
        rw [List.length_drop]; omega
  · -- m_zero_block
    have href := hL.ref_le (by rw [hm]; simp)
    obtain ⟨a1, a2, a3, a4, a5, a6, a7⟩ := L_fs_ask_facts L
    have hdrop : (List.drop 1 (L_fs_ask L).2.bits).length ≤ L.bits.length := by
      rw [List.length_drop]; omega
    split at h
    · simp only [Option.some.injEq, Prod.mk.injEq] at h
      obtain ⟨-, rfl⟩ := h
      exact ⟨LI_of_not_se (by rw [a1, hm]; simp) (fun _ => by rw [a2]; exact href), a5⟩
    · split at h
      · split at h
        · simp only [Option.some.injEq, Prod.mk.injEq] at h
          obtain ⟨-, rfl⟩ := h
          exact ⟨LI_of_not_se (by show (L_fs_ask L).2.mode ≠ _; rw [a1, hm]; simp)
            (fun _ => by show (L_fs_ask L).2.ref ≤ 1; rw [a2]; exact href), hdrop⟩
        · simp only [Option.some.injEq, Prod.mk.injEq] at h
          obtain ⟨-, rfl⟩ := h
          refine ⟨LI_of_not_se (by show Mode.m_id ≠ _; simp) (fun hh => absurd rfl hh), ?_⟩
          show (L_check_rsi_end c _).bits.length ≤ _
          rw [(L_check_rsi_end_fields c _).2.2.2.2.2.2.1]
          exact hdrop
      · simp only [Option.some.injEq, Prod.mk.injEq] at h
        obtain ⟨-, rfl⟩ := h
        exact ⟨LI_of_not_se (by show Mode.m_zero_output ≠ _; simp)
          (fun _ => by show (L_fs_ask L).2.ref ≤ 1; rw [a2]; exact href), hdrop⟩
  · -- m_zero_output
    have href := hL.ref_le (by rw [hm]; simp)
    obtain ⟨p1, p2, p3, p4, p5, p6, p7, p8⟩ := L_put_sample_fields c L 0
    split at h
    · simp only [Option.some.injEq, Prod.mk.injEq] at h
      obtain ⟨-, rfl⟩ := h
      exact ⟨hL, le_rfl⟩
    · split at h
      · simp only [Option.some.injEq, Prod.mk.injEq] at h
        obtain ⟨-, rfl⟩ := h
        exact ⟨LI_of_not_se (by show (L_put_sample c L 0).mode ≠ _; rw [p1, hm]; simp)
          (fun _ => by show (L_put_sample c L 0).ref ≤ 1; rw [p6]; exact href),
          by show (L_put_sample c L 0).bits.length ≤ _; rw [p7]⟩
      · simp only [Option.some.injEq, Prod.mk.injEq] at h
        obtain ⟨-, rfl⟩ := h
        exact ⟨LI_of_not_se (by show Mode.m_id ≠ _; simp) (fun hh => absurd rfl hh),
          by show (L_put_sample c L 0).bits.length ≤ _; rw [p7]⟩
  · -- m_se
    have href := hL.ref_le (by rw [hm]; simp)
    simp only [Option.some.injEq, Prod.mk.injEq] at h
    obtain ⟨-, rfl⟩ := h
    refine ⟨⟨fun _ => href, ?_, ?_⟩, le_rfl⟩
    · intro _ hh
      exfalso
      apply hh
      show (L.ref : Int) < _
      have : (L.ref : Int) ≤ 1 := by exact_mod_cast href
      have : (2 : Int) ≤ c.block_size := by exact_mod_cast hbs
      omega
    · intro _ _
      show (L.ref : Int) < _
      have : (L.ref : Int) ≤ 1 := by exact_mod_cast href
      have : (2 : Int) ≤ c.block_size := by exact_mod_cast hbs
      omega
  · -- m_se_decode
    have href := hL.ref_le (by rw [hm]; simp)
    obtain ⟨a1, a2, a3, a4, a5, a6, a7⟩ := L_fs_ask_facts L
    have hbsI : (c.block_size : Int) = (hb : Int) + (hb : Int) := by exact_mod_cast hbe
    split at h
    · rename_i hlt
      split at h
      · simp only [Option.some.injEq, Prod.mk.injEq] at h
        obtain ⟨-, rfl⟩ := h
        exact ⟨⟨fun _ => by rw [a2]; exact href, fun _ hh => absurd (by rw [a3]; exact hlt) hh,
          fun _ _ => by rw [a3]; exact hlt⟩, a5⟩
      · split at h
        · cases h
        · rename_i t ht
          split at h
          · simp only [Option.some.injEq, Prod.mk.injEq] at h
            obtain ⟨-, rfl⟩ := h
            exact ⟨⟨fun _ => by rw [a2]; exact href,
              fun _ hh => absurd (by rw [a3]; exact hlt) hh,
              fun _ _ => by rw [a3]; exact hlt⟩, a5⟩
          · by_cases hev : (L_fs_ask L).2.i % 2 = 0
            · simp only [hev, if_true] at h
              obtain ⟨p1, p2, p3, p4, p5, p6, p7, p8⟩ :=
                L_put_sample_fields c (L_fs_ask L).2 (to_u32 (t.2 - (((L_fs_ask L).2.fs : Int) - t.1)))
              have hi1 : (L_fs_ask L).2.i + 1 < c.block_size := by
                rw [a3] at hev ⊢
                omega
              split at h
              · simp only [Option.some.injEq, Prod.mk.injEq] at h
                obtain ⟨-, rfl⟩ := h
                refine ⟨⟨fun _ => ?_, fun _ hh => ?_, fun _ _ => ?_⟩, ?_⟩
                · show (L_put_sample c _ _).ref ≤ 1
                  rw [p6, a2]; exact href
                · exfalso
                  apply hh
                  show (L_put_sample c _ _).i + 1 < _
                  rw [p4]; exact hi1
                · show (L_put_sample c _ _).i + 1 < _
                  rw [p4]; exact hi1
                · show (L_put_sample c _ _).bits.length ≤ _
                  rw [p7]; exact a5
              · simp only [Option.some.injEq, Prod.mk.injEq] at h
                obtain ⟨-, rfl⟩ := h
                obtain ⟨q1, q2, q3, q4, q5, q6, q7, q8⟩ :=
                  L_put_sample_fields c
                    { L_put_sample c (L_fs_ask L).2 (to_u32 (t.2 - (((L_fs_ask L).2.fs : Int) - t.1))) with
                      i := (L_put_sample c (L_fs_ask L).2 (to_u32 (t.2 - (((L_fs_ask L).2.fs : Int) - t.1)))).i + 1 }
                    (to_u32 (((L_fs_ask L).2.fs : Int) - t.1))
                refine ⟨⟨fun _ => ?_, fun _ _ => rfl, fun _ hh => ?_⟩, ?_⟩
                · show (L_put_sample c _ _).ref ≤ 1
                  rw [q6]
                  show (L_put_sample c _ _).ref ≤ 1
                  rw [p6, a2]; exact href
                · exfalso
                  have hh' : ((L_put_sample c
                    { L_put_sample c (L_fs_ask L).2 (to_u32 (t.2 - (((L_fs_ask L).2.fs : Int) - t.1))) with
                      i := (L_put_sample c (L_fs_ask L).2 (to_u32 (t.2 - (((L_fs_ask L).2.fs : Int) - t.1)))).i + 1 }
                    (to_u32 (((L_fs_ask L).2.fs : Int) - t.1))).i + 1) % 2 = 1 := hh
                  rw [q4] at hh'
                  have hh2 : ((L_put_sample c (L_fs_ask L).2
                    (to_u32 (t.2 - (((L_fs_ask L).2.fs : Int) - t.1)))).i + 1 + 1) % 2 = 1 := hh'
                  rw [p4] at hh2
                  omega
                · show (List.drop 1 (L_put_sample c _ _).bits).length ≤ _
                  rw [q7]
                  show (List.drop 1 (L_put_sample c _ _).bits).length ≤ _
                  rw [p7, List.length_drop]; omega
            · simp only [hev, if_false] at h
              split at h
              · simp only [Option.some.injEq, Prod.mk.injEq] at h
                obtain ⟨-, rfl⟩ := h
                exact ⟨⟨fun _ => by rw [a2]; exact href,
                  fun _ hh => absurd (by rw [a3]; exact hlt) hh,
                  fun _ _ => by rw [a3]; exact hlt⟩, a5⟩
              · simp only [Option.some.injEq, Prod.mk.injEq] at h
                obtain ⟨-, rfl⟩ := h
                obtain ⟨q1, q2, q3, q4, q5, q6, q7, q8⟩ :=
                  L_put_sample_fields c (L_fs_ask L).2 (to_u32 (((L_fs_ask L).2.fs : Int) - t.1))
                refine ⟨⟨fun _ => ?_, fun _ _ => rfl, fun _ hh => ?_⟩, ?_⟩
                · show (L_put_sample c _ _).ref ≤ 1
                  rw [q6, a2]; exact href
                · exfalso
                  have hh' : ((L_put_sample c (L_fs_ask L).2
                    (to_u32 (((L_fs_ask L).2.fs : Int) - t.1))).i + 1) % 2 = 1 := hh
                  rw [q4] at hh'
                  omega
                · show (List.drop 1 (L_put_sample c _ _).bits).length ≤ _
                  rw [q7, List.length_drop]; omega
    · simp only [Option.some.injEq, Prod.mk.injEq] at h
      obtain ⟨-, rfl⟩ := h
      exact ⟨LI_of_not_se (by show Mode.m_id ≠ _; simp) (fun hh => absurd rfl hh), le_rfl⟩
  · -- m_low_entropy
    have href := hL.ref_le (by rw [hm]; simp)
    split at h
    · simp only [Option.some.injEq, Prod.mk.injEq] at h
      obtain ⟨-, rfl⟩ := h
      exact ⟨hL, le_rfl⟩
    · simp only [Option.some.injEq, Prod.mk.injEq] at h
      obtain ⟨-, rfl⟩ := h
      refine ⟨LI_of_not_se (by show Mode.m_low_entropy_ref ≠ _; simp) (fun _ => href), ?_⟩
      show (List.drop _ L.bits).length ≤ _
      rw [List.length_drop]; omega
  · -- m_low_entropy_ref
    have href := hL.ref_le (by rw [hm]; simp)
    obtain ⟨f1, f2, f3, f4, f5, f6⟩ := L_copysample_fields c L
    have hbits := L_copysample_bits c L
    by_cases hr0 : L.ref ≠ 0
    · simp only [hr0, if_true, ne_eq, not_false_eq_true] at h
      split at h
      · simp only [Option.some.injEq, Prod.mk.injEq] at h
        obtain ⟨-, rfl⟩ := h
        exact ⟨LI_of_not_se (by rw [f1, hm]; simp) (fun _ => by rw [f6]; exact href), hbits⟩
      · split at h
        · simp only [Option.some.injEq, Prod.mk.injEq] at h
          obtain ⟨-, rfl⟩ := h
          exact ⟨LI_of_not_se (by show Mode.m_se ≠ _; simp)
            (fun _ => by show (L_copysample c L).2.ref ≤ 1; rw [f6]; exact href), hbits⟩
        · simp only [Option.some.injEq, Prod.mk.injEq] at h
          obtain ⟨-, rfl⟩ := h
          exact ⟨LI_of_not_se (by show Mode.m_zero_block ≠ _; simp)
            (fun _ => by show (L_copysample c L).2.ref ≤ 1; rw [f6]; exact href), hbits⟩
    · simp only [hr0, if_false, Bool.true_eq_false] at h
      split at h
      · simp only [Option.some.injEq, Prod.mk.injEq] at h
        obtain ⟨-, rfl⟩ := h
        exact ⟨LI_of_not_se (by show Mode.m_se ≠ _; simp) (fun _ => href), le_rfl⟩
      · simp only [Option.some.injEq, Prod.mk.injEq] at h
        obtain ⟨-, rfl⟩ := h
        exact ⟨LI_of_not_se (by show Mode.m_zero_block ≠ _; simp) (fun _ => href), le_rfl⟩
  · -- m_uncomp
    have href := hL.ref_le (by rw [hm]; simp)
    simp only [Option.some.injEq, Prod.mk.injEq] at h
    obtain ⟨-, rfl⟩ := h
    exact ⟨LI_of_not_se (by show Mode.m_uncomp_copy ≠ _; simp) (fun _ => href), le_rfl⟩
  · -- m_uncomp_copy
    have href := hL.ref_le (by rw [hm]; simp)
    obtain ⟨f1, f2, f3, f4, f5, f6⟩ := L_copysample_fields c L
    have hbits := L_copysample_bits c L
    split at h
    · simp only [Option.some.injEq, Prod.mk.injEq] at h
      obtain ⟨-, rfl⟩ := h
      exact ⟨LI_of_not_se (by rw [f1, hm]; simp) (fun _ => by rw [f6]; exact href), hbits⟩
    · split at h
      · simp only [Option.some.injEq, Prod.mk.injEq] at h
        obtain ⟨-, rfl⟩ := h
        exact ⟨LI_of_not_se (by show (L_copysample c L).2.mode ≠ _; rw [f1, hm]; simp)
          (fun _ => by show (L_copysample c L).2.ref ≤ 1; rw [f6]; exact href), hbits⟩
      · simp only [Option.some.injEq, Prod.mk.injEq] at h
        obtain ⟨-, rfl⟩ := h
        exact ⟨LI_of_not_se (by show Mode.m_id ≠ _; simp) (fun hh => absurd rfl hh), hbits⟩

/-- Every handler call is a piece of a run of the logical decoder. -/
theorem call_mode_sim (c : Config) (hc : Accepted c) (clz : Bool) (hE : Even c.block_size)
    (hbs : 2 ≤ c.block_size) (s s' : aec_stream) (st : Status) (hI : Inv s)
    (hL : LI c (α c s)) (hlen : (lbits s).length < W32)
    (h : call_mode clz c s = Except.ok (st, s')) : Sim c s st s' := by
  unfold call_mode at h
  have href : s.mode ≠ Mode.m_id → s.ref ≤ 1 := hL.ref_le
  rcases hm : s.mode
  all_goals (rw [hm] at h; simp only at h)
  · exact m_id_sim c hc s s' st hI hm h
  · have hr := href (by rw [hm]; simp)
    cases hB : BUFFERSPACE c s
    · exact m_split_slow_sim c hc s s' st clz hI hm hB h
    · exact m_split_fast_sim c hc clz s s' st hI hm hB hbs hr hlen h
  · exact m_split_fs_sim c s s' st hI hm h
  · exact m_split_output_sim c s s' st hI hm h
  · exact m_zero_block_sim c s s' st hI hm h
  · exact m_zero_output_sim c s s' st hI hm h
  · have hr := href (by rw [hm]; simp)
    cases hB : BUFFERSPACE c s
    · exact m_se_slow_sim c s s' st clz hI hm hB h
    · exact m_se_fast_sim c hc clz s s' st hI hm hB hE hbs hr hlen h
  · refine m_se_decode_sim c s s' st hI hm ?_ h
    intro hh
    have := hL.se_fs hm (by rw [α_i_of_live c s (by rw [hm]; rfl)]; exact hh)
    exact this
  · exact m_low_entropy_sim c s s' st hI hm h
  · exact m_low_entropy_ref_sim c hc s s' st hI hm h
  · cases hB : BUFFERSPACE c s
    · exact m_uncomp_slow_sim c s s' st hI hm hB h
    · exact m_uncomp_fast_sim c hc s s' st hI hm hB (by omega) h
  · exact m_uncomp_copy_sim c hc s s' st hI hm h

theorem Lsteps_LI (c : Config) (hc : Accepted c) (hE : Even c.block_size)
    (hbs : 2 ≤ c.block_size) {L L' : LState} (h : Lsteps c L L') (hL : LI c L) :
    LI c L' ∧ L'.bits.length ≤ L.bits.length := by
  induction h with
  | refl => exact ⟨hL, le_rfl⟩
  | step hs _ ih =>
    obtain ⟨h1, h2⟩ := Lstep_LI c hc hE hbs _ _ _ hL hs
    obtain ⟨h3, h4⟩ := ih h1
    exact ⟨h3, le_trans h4 h2⟩

theorem Sim_LI (c : Config) (hc : Accepted c) (hE : Even c.block_size)
    (hbs : 2 ≤ c.block_size) {s s' : aec_stream} {st : Status} (h : Sim c s st s')
    (hL : LI c (α c s)) :
    LI c (α c s') ∧ (lbits s').length ≤ (lbits s).length := by
  obtain ⟨-, -, Lm, hsteps, hfin⟩ := h
  obtain ⟨h1, h2⟩ := Lsteps_LI c hc hE hbs hsteps hL
  rcases hfin with ⟨-, rfl⟩ | ⟨-, hstep⟩
  · exact ⟨h1, h2⟩
  · obtain ⟨h3, h4⟩ := Lstep_LI c hc hE hbs _ _ _ h1 hstep
    exact ⟨h3, le_trans h4 h2⟩

/-- A run of the handler loop is a run of the logical decoder. -/
theorem run_modes_sim (c : Config) (hc : Accepted c) (clz : Bool) (hE : Even c.block_size)
    (hbs : 2 ≤ c.block_size) :
    ∀ (fuel : Nat) (s s' : aec_stream) (st : Status), Inv s → LI c (α c s) →
      (lbits s).length < W32 → run_modes clz c fuel s = Except.ok (st, s') →
      st ≠ Status.M_CONTINUE ∧ Lrun c (α c s) (st, α c s') ∧ Inv s' ∧ SameTotals s s' ∧
        LI c (α c s') ∧ (lbits s').length ≤ (lbits s).length := by
  intro fuel
  induction fuel with
  | zero => intro s s' st _ _ _ h; cases h
  | succ fuel ih =>
    intro s s' st hI hL hlen h
    unfold run_modes at h
    rcases hcm : call_mode clz c s with e | r
    · rw [hcm] at h; cases h
    · rw [hcm] at h
      simp only [bind, Except.bind] at h
      have hsim := call_mode_sim c hc clz hE hbs s r.2 r.1 hI hL hlen hcm
      obtain ⟨l1, l2⟩ := Sim_LI c hc hE hbs hsim hL
      obtain ⟨i1, t1, Lm, hsteps, hfin⟩ := hsim
      by_cases hst : r.1 = Status.M_CONTINUE
      · rw [if_pos hst] at h
        obtain ⟨q1, q2, q3, q4, q5, q6⟩ := ih r.2 s' st i1 l1 (lt_of_le_of_lt l2 hlen) h
        rcases hfin with ⟨-, rfl⟩ | ⟨hne, -⟩
        · exact ⟨q1, Lsteps_run hsteps q2, q3, t1.trans q4, q5, le_trans q6 l2⟩
        · exact absurd hst hne
      · rw [if_neg hst] at h
        simp only [pure, Except.pure, Except.ok.injEq] at h
        subst h
        rcases hfin with ⟨he, -⟩ | ⟨hne, hstep⟩
        · exact absurd he hst
        · exact ⟨hst, Lsteps_run hsteps (Lrun.stop hstep hne), i1, t1, l1, l2⟩

theorem Lext_Lnorm (L : LState) (b : List Bool) : Lext (Lnorm L) b = Lnorm (Lext L b) := rfl

theorem L_ask_ext (L : LState) (b : List Bool) (n : Nat) (h : L_ask L n = true) :
    L_ask (Lext L b) n = true := by
  unfold L_ask at h ⊢
  simp only [decide_eq_true_eq] at h ⊢
  show n ≤ (L.bits ++ b).length
  rw [List.length_append]; omega

theorem L_ask_le (L : LState) (n : Nat) (h : L_ask L n = true) : n ≤ L.bits.length := by
  unfold L_ask at h
  simpa using h

theorem L_get_ext (L : LState) (b : List Bool) (n : Nat) (h : L_ask L n = true) :
    L_get (Lext L b) n = L_get L n := by
  unfold L_get
  show bits_val (List.take n (L.bits ++ b)) = _
  rw [List.take_append_of_le_length (L_ask_le L n h)]

theorem L_drop_ext (L : LState) (b : List Bool) (n : Nat) (h : L_ask L n = true) :
    L_drop (Lext L b) n = Lext (L_drop L n) b := by
  unfold L_drop Lext
  simp only
  rw [List.drop_append_of_le_length (L_ask_le L n h)]

theorem L_commit_ext (c : Config) (L : LState) (b : List Bool) (cnt : Nat) :
    L_commit c (Lext L b) cnt = Lext (L_commit c L cnt) b := rfl

theorem L_check_rsi_end_ext (c : Config) (L : LState) (b : List Bool) :
    L_check_rsi_end c (Lext L b) = Lext (L_check_rsi_end c L) b := by
  unfold L_check_rsi_end
  show (if L.rsip = c.rsi_size then _ else _) = _
  split_ifs <;> rfl

theorem L_put_sample_ext (c : Config) (L : LState) (b : List Bool) (w : Nat) :
    L_put_sample c (Lext L b) w = Lext (L_put_sample c L w) b := by
  unfold L_put_sample
  simp only
  rw [← L_check_rsi_end_ext]
  rfl

theorem L_copysample_ext (c : Config) (L : LState) (b : List Bool)
    (h : (L_copysample c L).1 = true) :
    L_copysample c (Lext L b) = (true, Lext (L_copysample c L).2 b) := by
  unfold L_copysample at h ⊢
  by_cases hc : L_ask L c.bits_per_sample = false ∨ L.avail_out = 0
  · rw [if_pos hc] at h; cases h
  · rw [if_neg hc]
    have ha : L_ask L c.bits_per_sample = true := by
      cases hx : L_ask L c.bits_per_sample
      · exact absurd (Or.inl hx) hc
      · rfl
    have hc2 : ¬ (L_ask (Lext L b) c.bits_per_sample = false ∨ (Lext L b).avail_out = 0) := by
      rw [L_ask_ext L b _ ha]
      intro hh
      rcases hh with hh | hh
      · cases hh
      · exact hc (Or.inr hh)
    rw [if_neg hc2, L_get_ext L b _ ha, L_put_sample_ext, L_drop_ext]
    show L_ask (L_put_sample c L _) c.bits_per_sample = true
    unfold L_ask
    rw [(L_put_sample_fields c L _).2.2.2.2.2.2.1]
    exact ha

theorem L_copysample_false (c : Config) (L : LState) (h : (L_copysample c L).1 = false) :
    (L_copysample c L).2 = L := by
  unfold L_copysample at h ⊢
  split_ifs at h ⊢
  rfl

theorem L_fs_scan_ext_true : ∀ (l : List Bool) (fs : Nat) (b : List Bool),
    (L_fs_scan l fs).1 = true →
    L_fs_scan (l ++ b) fs = (true, (L_fs_scan l fs).2.1 ++ b, (L_fs_scan l fs).2.2)
  | [], _, _, h => by simp [L_fs_scan] at h
  | true :: rest, fs, b, _ => by simp [L_fs_scan]
  | [false], _, _, h => by simp [L_fs_scan] at h
  | false :: x :: rest, fs, b, h => by
    have ih := L_fs_scan_ext_true (x :: rest) (fs + 1) b (by simpa [L_fs_scan] using h)
    simp only [List.cons_append] at ih ⊢
    simp only [L_fs_scan]
    exact ih

theorem L_fs_scan_ext_false : ∀ (l : List Bool) (fs : Nat) (b : List Bool),
    (L_fs_scan l fs).1 = false →
    L_fs_scan ((L_fs_scan l fs).2.1 ++ b) (L_fs_scan l fs).2.2 = L_fs_scan (l ++ b) fs
  | [], _, _, _ => by simp [L_fs_scan]
  | true :: rest, fs, b, h => by simp [L_fs_scan] at h
  | [false], _, _, _ => by simp [L_fs_scan]
  | false :: x :: rest, fs, b, h => by
    have ih := L_fs_scan_ext_false (x :: rest) (fs + 1) b (by simpa [L_fs_scan] using h)
    simp only [List.cons_append] at ih ⊢
    simp only [L_fs_scan]
    exact ih

theorem L_fs_ask_ext_true (L : LState) (b : List Bool) (h : (L_fs_ask L).1 = true) :
    L_fs_ask (Lext L b) = (true, Lext (L_fs_ask L).2 b) := by
  unfold L_fs_ask at h ⊢
  unfold Lext
  simp only at h ⊢
  rw [L_fs_scan_ext_true _ _ b h]

theorem L_fs_ask_ext_false (L : LState) (b : List Bool) (h : (L_fs_ask L).1 = false) :
    L_fs_ask (Lext (L_fs_ask L).2 b) = L_fs_ask (Lext L b) := by
  unfold L_fs_ask at h ⊢
  unfold Lext
  simp only at h ⊢
  rw [L_fs_scan_ext_false _ _ b h]

theorem L_id_ref_ext (c : Config) (L : LState) (b : List Bool) (hb : b.length % 8 = 0) :
    L_id_ref c (Lext L b) = Lext (L_id_ref c L) b := by
  unfold L_id_ref
  show (if c.pp = true ∧ L.rsip = 0 then _ else _) = _
  by_cases hcnd : c.pp = true ∧ L.rsip = 0
  · rw [if_pos hcnd, if_pos hcnd]
    by_cases hp : c.flags.PAD_RSI = true
    · simp only [hp, if_true]
      unfold Lext
      simp only [List.length_append]
      have e : (L.bits.length + b.length) % 8 = L.bits.length % 8 := by omega
      rw [e, List.drop_append_of_le_length (Nat.mod_le _ _)]
    · simp only [hp, if_false]
      rfl
  · rw [if_neg hcnd, if_neg hcnd]
    rfl

theorem L_id_ref_idem (c : Config) (L : LState) (b : List Bool) (hb : b.length % 8 = 0) :
    L_id_ref c (Lext (L_id_ref c L) b) = Lext (L_id_ref c L) b := by
  rw [L_id_ref_ext c _ b hb]
  congr 1
  unfold L_id_ref
  by_cases hcnd : c.pp = true ∧ L.rsip = 0
  · simp only [hcnd, and_self, if_true]
    by_cases hp : c.flags.PAD_RSI = true
    · simp only [hp, if_true]
      have hl : (List.drop (L.bits.length % 8) L.bits).length % 8 = 0 := by
        rw [List.length_drop]; omega
      rw [hl, List.drop_zero]
    · simp only [hp, if_false]
      rfl
  · simp only [hcnd, if_false]

theorem L_fs_scan_true_head : ∀ (l : List Bool) (fs : Nat), (L_fs_scan l fs).1 = true →
    ∃ rest, (L_fs_scan l fs).2.1 = true :: rest
  | [], _, h => by simp [L_fs_scan] at h
  | true :: rest, _, _ => ⟨rest, by simp [L_fs_scan]⟩
  | [false], _, h => by simp [L_fs_scan] at h
  | false :: x :: rest, fs, h => by
    have ih := L_fs_scan_true_head (x :: rest) (fs + 1) (by simpa [L_fs_scan] using h)
    simpa [L_fs_scan] using ih

theorem L_fs_ask_true_head (L : LState) (h : (L_fs_ask L).1 = true) :
    ∃ rest, (L_fs_ask L).2.bits = true :: rest :=
  L_fs_scan_true_head _ _ h

theorem L_fs_ask_of_head (X : LState) (rest : List Bool) (h : X.bits = true :: rest) :
    L_fs_ask X = (true, X) := by
  unfold L_fs_ask
  rw [h]
  simp only [L_fs_scan]
  congr 1
  ext <;> simp [h]

theorem L_fs_drop_ext (L : LState) (b : List Bool) (h : L.bits ≠ []) :
    L_fs_drop (Lext L b) = Lext (L_fs_drop L) b := by
  unfold L_fs_drop Lext
  simp only
  rcases hb : L.bits with _ | ⟨x, xs⟩
  · exact absurd hb h
  · simp

/-! ### The logical step, mode by mode, as an equation -/

theorem Lstep_id_eq (c : Config) (X : LState) (hm : X.mode = Mode.m_id) :
    Lstep c X =
      if L_ask (L_id_ref c X) c.id_len = false then some (Status.M_EXIT, L_id_ref c X)
      else
        match c.id_table[L_get (L_id_ref c X) c.id_len]? with
        | none => none
        | some mode =>
          some (Status.M_CONTINUE,
            Lnorm { L_drop (L_id_ref c X) c.id_len with
              id := L_get (L_id_ref c X) c.id_len, mode := mode }) := by
  unfold Lstep; rw [hm]; try rfl

theorem Lstep_low_entropy_eq (c : Config) (X : LState) (hm : X.mode = Mode.m_low_entropy) :
    Lstep c X =
      if L_ask X 1 = false then some (Status.M_EXIT, X)
      else
        some (Status.M_CONTINUE,
          Lnorm { L_drop X 1 with id := L_get X 1, mode := Mode.m_low_entropy_ref }) := by
  unfold Lstep; rw [hm]; try rfl

theorem Lstep_low_entropy_ref_eq (c : Config) (X : LState)
    (hm : X.mode = Mode.m_low_entropy_ref) :
    Lstep c X =
      if (if X.ref ≠ 0 then L_copysample c X else (true, X)).1 = false then
        some (Status.M_EXIT, (if X.ref ≠ 0 then L_copysample c X else (true, X)).2)
      else if (if X.ref ≠ 0 then L_copysample c X else (true, X)).2.id = 1 then
        some (Status.M_CONTINUE,
          Lnorm { (if X.ref ≠ 0 then L_copysample c X else (true, X)).2 with mode := Mode.m_se })
      else
        some (Status.M_CONTINUE,
          Lnorm { (if X.ref ≠ 0 then L_copysample c X else (true, X)).2 with
            mode := Mode.m_zero_block }) := by
  unfold Lstep; rw [hm]; try rfl

theorem Lstep_split_eq (c : Config) (X : LState) (hm : X.mode = Mode.m_split) :
    Lstep c X =
      if X.ref ≠ 0 then
        if (L_copysample c X).1 = false then some (Status.M_EXIT, (L_copysample c X).2)
        else
          some (Status.M_CONTINUE,
            Lnorm { (L_copysample c X).2 with
              n := (c.block_size : Int) - 1, i := 0, mode := Mode.m_split_fs })
      else
        some (Status.M_CONTINUE,
          Lnorm { X with n := (c.block_size : Int), i := 0, mode := Mode.m_split_fs }) := by
  unfold Lstep; rw [hm]; try rfl

/-- The copy of a reference sample under more input. -/
theorem L_copysample_ext_cases (c : Config) (L : LState) (b : List Bool) :
    ((L_copysample c L).1 = true ∧
        L_copysample c (Lext L b) = (true, Lext (L_copysample c L).2 b)) ∨
      ((L_copysample c L).1 = false ∧ (L_copysample c L).2 = L) := by
  cases h : (L_copysample c L).1
  · right; exact ⟨rfl, L_copysample_false c L h⟩
  · left; exact ⟨rfl, L_copysample_ext c L b h⟩

theorem ExtOK_exit_same (c : Config) (b : List Bool) (L : LState) :
    ExtOK c b L Status.M_EXIT L :=
  ⟨fun h => (nomatch h), fun _ => rfl⟩

theorem ExtOK_cont (c : Config) (b : List Bool) (L L1 : LState)
    (h : Lstep c (Lext L b) = some (Status.M_CONTINUE, Lext L1 b)) :
    ExtOK c b L Status.M_CONTINUE L1 :=
  ⟨fun _ => h, fun h => (nomatch h)⟩

theorem ExtOK_exit (c : Config) (b : List Bool) (L L1 : LState)
    (h : Lstep c (Lext L1 b) = Lstep c (Lext L b)) :
    ExtOK c b L Status.M_EXIT L1 :=
  ⟨fun h' => (nomatch h'), fun _ => h⟩

theorem ExtOK_error (c : Config) (b : List Bool) (L L1 : LState) :
    ExtOK c b L Status.M_ERROR L1 :=
  ⟨fun h => (nomatch h), fun h => (nomatch h)⟩

theorem Lstep_ext_id (c : Config) (b : List Bool) (hb : b.length % 8 = 0) (L L1 : LState)
    (st : Status) (hm : L.mode = Mode.m_id) (h : Lstep c L = some (st, L1)) :
    ExtOK c b L st L1 := by
  rw [Lstep_id_eq c L hm] at h
  have hmR : (L_id_ref c L).mode = Mode.m_id := by
    rw [(L_id_ref_facts c L).2.2]; exact hm
  by_cases ha : L_ask (L_id_ref c L) c.id_len = false
  · rw [if_pos ha] at h
    simp only [Option.some.injEq, Prod.mk.injEq] at h
    obtain ⟨rfl, rfl⟩ := h
    apply ExtOK_exit
    rw [Lstep_id_eq c (Lext (L_id_ref c L) b) hmR, Lstep_id_eq c (Lext L b) hm,
      L_id_ref_idem c L b hb, L_id_ref_ext c L b hb]
  · rw [if_neg ha] at h
    have ha' : L_ask (L_id_ref c L) c.id_len = true := by
      cases hx : L_ask (L_id_ref c L) c.id_len
      · exact absurd hx ha
      · rfl
    rcases ht : c.id_table[L_get (L_id_ref c L) c.id_len]? with _ | mode
    · rw [ht] at h; cases h
    · rw [ht] at h
      simp only [Option.some.injEq, Prod.mk.injEq] at h
      obtain ⟨rfl, rfl⟩ := h
      apply ExtOK_cont
      rw [Lstep_id_eq c (Lext L b) hm, L_id_ref_ext c L b hb,
        if_neg (by rw [L_ask_ext _ b _ ha']; simp), L_get_ext _ b _ ha', ht,
        L_drop_ext _ b _ ha']
      rfl

theorem Lstep_ext_low_entropy (c : Config) (b : List Bool) (L L1 : LState)
    (st : Status) (hm : L.mode = Mode.m_low_entropy) (h : Lstep c L = some (st, L1)) :
    ExtOK c b L st L1 := by
  rw [Lstep_low_entropy_eq c L hm] at h
  by_cases ha : L_ask L 1 = false
  · rw [if_pos ha] at h
    simp only [Option.some.injEq, Prod.mk.injEq] at h
    obtain ⟨rfl, rfl⟩ := h
    exact ExtOK_exit_same c b L
  · rw [if_neg ha] at h
    have ha' : L_ask L 1 = true := by
      cases hx : L_ask L 1
      · exact absurd hx ha
      · rfl
    simp only [Option.some.injEq, Prod.mk.injEq] at h
    obtain ⟨rfl, rfl⟩ := h
    apply ExtOK_cont
    rw [Lstep_low_entropy_eq c (Lext L b) hm,
      if_neg (by rw [L_ask_ext _ b _ ha']; simp), L_get_ext _ b _ ha', L_drop_ext _ b _ ha']
    rfl

theorem Lstep_ext_low_entropy_ref (c : Config) (b : List Bool) (L L1 : LState)
    (st : Status) (hm : L.mode = Mode.m_low_entropy_ref) (h : Lstep c L = some (st, L1)) :
    ExtOK c b L st L1 := by
  rw [Lstep_low_entropy_ref_eq c L hm] at h
  by_cases hr : L.ref ≠ 0
  · have hrE : (Lext L b).ref ≠ 0 := hr
    simp only [hr, if_true, ne_eq, not_false_eq_true] at h
    rcases L_copysample_ext_cases c L b with ⟨h1, h2⟩ | ⟨h1, h2⟩
    · rw [h1] at h
      simp only [Bool.true_eq_false, if_false] at h
      have key : Lstep c (Lext L b) =
          if (L_copysample c L).2.id = 1 then
            some (Status.M_CONTINUE, Lext (Lnorm { (L_copysample c L).2 with mode := Mode.m_se }) b)
          else
            some (Status.M_CONTINUE,
              Lext (Lnorm { (L_copysample c L).2 with mode := Mode.m_zero_block }) b) := by
        rw [Lstep_low_entropy_ref_eq c (Lext L b) hm]
        simp only [hrE, if_true, ne_eq, not_false_eq_true, h2, Bool.true_eq_false, if_false]
        rfl
      by_cases hid : (L_copysample c L).2.id = 1
      · rw [if_pos hid] at h key
        simp only [Option.some.injEq, Prod.mk.injEq] at h
        obtain ⟨rfl, rfl⟩ := h
        exact ExtOK_cont c b L _ key
      · rw [if_neg hid] at h key
        simp only [Option.some.injEq, Prod.mk.injEq] at h
        obtain ⟨rfl, rfl⟩ := h
        exact ExtOK_cont c b L _ key
    · rw [h1] at h
      simp only [if_true, Option.some.injEq, Prod.mk.injEq] at h
      obtain ⟨rfl, rfl⟩ := h
      rw [h2]
      exact ExtOK_exit_same c b L
  · have hrE : ¬ (Lext L b).ref ≠ 0 := hr
    simp only [hr, if_false, Bool.true_eq_false] at h
    have key : Lstep c (Lext L b) =
        if L.id = 1 then
          some (Status.M_CONTINUE, Lext (Lnorm { L with mode := Mode.m_se }) b)
        else
          some (Status.M_CONTINUE, Lext (Lnorm { L with mode := Mode.m_zero_block }) b) := by
      rw [Lstep_low_entropy_ref_eq c (Lext L b) hm]
      simp only [hrE, if_false, Bool.true_eq_false]
      rfl
    by_cases hid : L.id = 1
    · rw [if_pos hid] at h key
      simp only [Option.some.injEq, Prod.mk.injEq] at h
      obtain ⟨rfl, rfl⟩ := h
      exact ExtOK_cont c b L _ key
    · rw [if_neg hid] at h key
      simp only [Option.some.injEq, Prod.mk.injEq] at h
      obtain ⟨rfl, rfl⟩ := h
      exact ExtOK_cont c b L _ key

theorem Lstep_ext_split (c : Config) (b : List Bool) (L L1 : LState)
    (st : Status) (hm : L.mode = Mode.m_split) (h : Lstep c L = some (st, L1)) :
    ExtOK c b L st L1 := by
  rw [Lstep_split_eq c L hm] at h
  by_cases hr : L.ref ≠ 0
  · have hrE : (Lext L b).ref ≠ 0 := hr
    rw [if_pos hr] at h
    rcases L_copysample_ext_cases c L b with ⟨h1, h2⟩ | ⟨h1, h2⟩
    · rw [h1] at h
      simp only [Bool.true_eq_false, if_false, Option.some.injEq, Prod.mk.injEq] at h
      obtain ⟨rfl, rfl⟩ := h
      apply ExtOK_cont
      rw [Lstep_split_eq c (Lext L b) hm, if_pos hrE, h2]
      rfl
    · rw [h1] at h
      simp only [if_true, Option.some.injEq, Prod.mk.injEq] at h
      obtain ⟨rfl, rfl⟩ := h
      rw [h2]
      exact ExtOK_exit_same c b L
  · have hrE : ¬ (Lext L b).ref ≠ 0 := hr
    rw [if_neg hr] at h
    simp only [Option.some.injEq, Prod.mk.injEq] at h
    obtain ⟨rfl, rfl⟩ := h
    apply ExtOK_cont
    rw [Lstep_split_eq c (Lext L b) hm, if_neg hrE]
    rfl

theorem bool_cases_pair {α : Type} (p : Bool × α) : p = (p.1, p.2) := rfl

theorem Lstep_split_fs_congr (c : Config) (X Y : LState) (hX : X.mode = Mode.m_split_fs)
    (hY : Y.mode = Mode.m_split_fs) (hid : X.id = Y.id) (hfa : L_fs_ask X = L_fs_ask Y) :
    Lstep c X = Lstep c Y := by
  unfold Lstep; rw [hX, hY]; simp only; rw [hfa, hid]

theorem Lstep_zero_block_congr (c : Config) (X Y : LState) (hX : X.mode = Mode.m_zero_block)
    (hY : Y.mode = Mode.m_zero_block) (hfa : L_fs_ask X = L_fs_ask Y) :
    Lstep c X = Lstep c Y := by
  unfold Lstep; rw [hX, hY]; simp only; rw [hfa]

theorem Lstep_se_decode_congr (c : Config) (X Y : LState) (hX : X.mode = Mode.m_se_decode)
    (hY : Y.mode = Mode.m_se_decode) (hi : X.i = Y.i) (hlt : Y.i < c.block_size)
    (hfa : L_fs_ask X = L_fs_ask Y) :
    Lstep c X = Lstep c Y := by
  unfold Lstep; rw [hX, hY]; simp only; rw [hfa, hi]; simp only [hlt, if_true]

theorem Lstep_ext_split_fs (c : Config) (b : List Bool) (L L1 : LState)
    (st : Status) (hm : L.mode = Mode.m_split_fs) (h : Lstep c L = some (st, L1)) :
    ExtOK c b L st L1 := by
  cases hfa : (L_fs_ask L).1
  · have hask : L_fs_ask L = (false, (L_fs_ask L).2) := by rw [← hfa]
    rw [Lstep_split_fs_exit c L _ hm hask] at h
    simp only [Option.some.injEq, Prod.mk.injEq] at h
    obtain ⟨rfl, rfl⟩ := h
    apply ExtOK_exit
    exact Lstep_split_fs_congr c _ _ hm hm rfl (L_fs_ask_ext_false L b hfa)
  · have hask : L_fs_ask L = (true, (L_fs_ask L).2) := by rw [← hfa]
    have hne := L_fs_ask_true_head L hfa
    obtain ⟨rest, hrest⟩ := hne
    rw [Lstep_split_fs_ok c L _ hm hask] at h
    have hE := Lstep_split_fs_ok c (Lext L b) (Lext (L_fs_ask L).2 b) hm
      (L_fs_ask_ext_true L b hfa)
    have hi : (Lext (L_fs_ask L).2 b).i = (L_fs_ask L).2.i := rfl
    have hn : (Lext (L_fs_ask L).2 b).n = (L_fs_ask L).2.n := rfl
    rw [hi, hn] at hE
    by_cases hlt : (L_fs_ask L).2.i + 1 < (L_fs_ask L).2.n
    · rw [if_pos hlt] at h hE
      simp only [Option.some.injEq, Prod.mk.injEq] at h
      obtain ⟨rfl, rfl⟩ := h
      apply ExtOK_cont
      rw [hE]
      refine congrArg some (congrArg (Prod.mk _) ?_)
      have := L_fs_drop_ext { (L_fs_ask L).2 with rsi_buffer := upd (L_fs_ask L).2.rsi_buffer ((L_fs_ask L).2.rsip + (L_fs_ask L).2.i.toNat) (((L_fs_ask L).2.fs <<< (L.id - 1)) % W32) } b
        (by show (L_fs_ask L).2.bits ≠ []; rw [hrest]; simp)
      exact congrArg (fun Z : LState => ({ Z with i := (L_fs_ask L).2.i + 1 } : LState)) this
    · rw [if_neg hlt] at h hE
      simp only [Option.some.injEq, Prod.mk.injEq] at h
      obtain ⟨rfl, rfl⟩ := h
      apply ExtOK_cont
      rw [hE]
      refine congrArg some (congrArg (Prod.mk _) ?_)
      have := L_fs_drop_ext { (L_fs_ask L).2 with rsi_buffer := upd (L_fs_ask L).2.rsi_buffer ((L_fs_ask L).2.rsip + (L_fs_ask L).2.i.toNat) (((L_fs_ask L).2.fs <<< (L.id - 1)) % W32) } b
        (by show (L_fs_ask L).2.bits ≠ []; rw [hrest]; simp)
      exact congrArg (fun Z : LState =>
        Lnorm ({ Z with i := 0, mode := Mode.m_split_output } : LState)) this

theorem Lstep_ext_split_output (c : Config) (b : List Bool) (L L1 : LState)
    (st : Status) (hm : L.mode = Mode.m_split_output) (h : Lstep c L = some (st, L1)) :
    ExtOK c b L st L1 := by
  by_cases hex : L_ask L (L.id - 1) = false ∨ L.avail_out = 0
  · rw [Lstep_split_output_exit c L hm hex] at h
    simp only [Option.some.injEq, Prod.mk.injEq] at h
    obtain ⟨rfl, rfl⟩ := h
    exact ExtOK_exit_same c b L
  · have ha : L_ask L (L.id - 1) = true := by
      cases hx : L_ask L (L.id - 1)
      · exact absurd (Or.inl hx) hex
      · rfl
    have hexE : ¬ (L_ask (Lext L b) ((Lext L b).id - 1) = false ∨ (Lext L b).avail_out = 0) := by
      intro hh
      rcases hh with hh | hh
      · have : L_ask (Lext L b) (L.id - 1) = false := hh
        rw [L_ask_ext L b _ ha] at this
        cases this
      · exact hex (Or.inr hh)
    rw [Lstep_split_output_ok c L hm hex] at h
    have hE := Lstep_split_output_ok c (Lext L b) hm hexE
    have e1 : (Lext L b).i = L.i := rfl
    have e2 : (Lext L b).n = L.n := rfl
    have e3 : (Lext L b).id = L.id := rfl
    have e4 : (Lext L b).rsi_buffer = L.rsi_buffer := rfl
    have e5 : (Lext L b).rsip = L.rsip := rfl
    have e6 : (Lext L b).avail_out = L.avail_out := rfl
    rw [e1, e2, e3, e4, e5, e6, L_get_ext L b _ ha] at hE
    have hd : L_drop (Lext ({ L_commit c { L with rsi_buffer := upd L.rsi_buffer L.rsip ((L.rsi_buffer L.rsip + L_get L (L.id - 1)) % W32) } 1 with avail_out := sub_size_t L.avail_out c.bytes_per_sample } : LState) b) (L.id - 1)
        = Lext (L_drop ({ L_commit c { L with rsi_buffer := upd L.rsi_buffer L.rsip ((L.rsi_buffer L.rsip + L_get L (L.id - 1)) % W32) } 1 with avail_out := sub_size_t L.avail_out c.bytes_per_sample } : LState) (L.id - 1)) b :=
      L_drop_ext _ b _ ha
    by_cases hlt : L.i + 1 < L.n
    · rw [if_pos hlt] at h hE
      simp only [Option.some.injEq, Prod.mk.injEq] at h
      obtain ⟨rfl, rfl⟩ := h
      apply ExtOK_cont
      rw [hE]
      refine congrArg some (congrArg (Prod.mk _) ?_)
      exact congrArg (fun Z : LState => ({ Z with i := L.i + 1 } : LState)) hd
    · rw [if_neg hlt] at h hE
      simp only [Option.some.injEq, Prod.mk.injEq] at h
      obtain ⟨rfl, rfl⟩ := h
      apply ExtOK_cont
      rw [hE]
      refine congrArg some (congrArg (Prod.mk _) ?_)
      have h2 := L_check_rsi_end_ext c ({ L_drop ({ L_commit c { L with rsi_buffer := upd L.rsi_buffer L.rsip ((L.rsi_buffer L.rsip + L_get L (L.id - 1)) % W32) } 1 with avail_out := sub_size_t L.avail_out c.bytes_per_sample } : LState) (L.id - 1) with i := L.i + 1 } : LState) b
      refine (congrArg (fun Z : LState => Lnorm ({ L_check_rsi_end c ({ Z with i := L.i + 1 } : LState) with mode := Mode.m_id } : LState)) hd).trans ?_
      exact congrArg (fun Z : LState => Lnorm ({ Z with mode := Mode.m_id } : LState)) h2

theorem Lstep_ext_zero_block (c : Config) (b : List Bool) (L L1 : LState)
    (st : Status) (hm : L.mode = Mode.m_zero_block) (h : Lstep c L = some (st, L1)) :
    ExtOK c b L st L1 := by
  cases hfa : (L_fs_ask L).1
  · have hask : L_fs_ask L = (false, (L_fs_ask L).2) := by rw [← hfa]
    rw [Lstep_zero_block_exit c L _ hm hask] at h
    simp only [Option.some.injEq, Prod.mk.injEq] at h
    obtain ⟨rfl, rfl⟩ := h
    apply ExtOK_exit
    exact Lstep_zero_block_congr c _ _ hm hm (L_fs_ask_ext_false L b hfa)
  · have hask : L_fs_ask L = (true, (L_fs_ask L).2) := by rw [← hfa]
    obtain ⟨rest, hrest⟩ := L_fs_ask_true_head L hfa
    rw [Lstep_zero_block_ok c L _ hm hask] at h
    have hE := Lstep_zero_block_ok c (Lext L b) (Lext (L_fs_ask L).2 b) hm
      (L_fs_ask_ext_true L b hfa)
    have hd : L_fs_drop (Lext (L_fs_ask L).2 b) = Lext (L_fs_drop (L_fs_ask L).2) b :=
      L_fs_drop_ext _ b (by rw [hrest]; simp)
    rw [hd] at hE
    have e1 : (Lext (L_fs_ask L).2 b).fs = (L_fs_ask L).2.fs := rfl
    have e2 : (Lext (L_fs_ask L).2 b).rsip = (L_fs_ask L).2.rsip := rfl
    have e3 : (Lext (L_fs_ask L).2 b).ref = (L_fs_ask L).2.ref := rfl
    have e4 : (Lext (L_fs_drop (L_fs_ask L).2) b).avail_out = (L_fs_drop (L_fs_ask L).2).avail_out := rfl
    have e5 : (Lext (L_fs_drop (L_fs_ask L).2) b).rsip = (L_fs_drop (L_fs_ask L).2).rsip := rfl
    have e6 : (Lext (L_fs_drop (L_fs_ask L).2) b).rsi_buffer = (L_fs_drop (L_fs_ask L).2).rsi_buffer := rfl
    rw [e1, e2, e3, e4, e5, e6] at hE
    split at h
    · rename_i hsz
      rw [if_pos hsz] at hE
      split at h
      · simp only [Option.some.injEq, Prod.mk.injEq] at h
        obtain ⟨rfl, rfl⟩ := h
        exact ExtOK_error c b L _
      · rename_i herr
        rw [if_neg herr] at hE
        simp only [Option.some.injEq, Prod.mk.injEq] at h
        obtain ⟨rfl, rfl⟩ := h
        apply ExtOK_cont
        rw [hE]
        refine congrArg some (congrArg (Prod.mk _) ?_)
        have h2 := L_check_rsi_end_ext c
          ({ L_commit c { L_fs_drop (L_fs_ask L).2 with rsi_buffer := memset_zero (L_fs_drop (L_fs_ask L).2).rsi_buffer (L_fs_drop (L_fs_ask L).2).rsip (zero_samples c (L_fs_ask L).2.fs (L_fs_ask L).2.rsip (L_fs_ask L).2.ref).toNat } (zero_samples c (L_fs_ask L).2.fs (L_fs_ask L).2.rsip (L_fs_ask L).2.ref).toNat with
            avail_out := sub_size_t (L_fs_drop (L_fs_ask L).2).avail_out (to_size_t (zero_samples c (L_fs_ask L).2.fs (L_fs_ask L).2.rsip (L_fs_ask L).2.ref * c.bytes_per_sample)) } : LState) b
        exact congrArg (fun Z : LState => Lnorm ({ Z with mode := Mode.m_id } : LState)) h2
    · rename_i hsz
      rw [if_neg hsz] at hE
      simp only [Option.some.injEq, Prod.mk.injEq] at h
      obtain ⟨rfl, rfl⟩ := h
      apply ExtOK_cont
      rw [hE]
      rfl

theorem Lstep_ext_zero_output (c : Config) (b : List Bool) (L L1 : LState)
    (st : Status) (hm : L.mode = Mode.m_zero_output) (h : Lstep c L = some (st, L1)) :
    ExtOK c b L st L1 := by
  by_cases hav : L.avail_out = 0
  · rw [Lstep_zero_output_exit c L hm hav] at h
    simp only [Option.some.injEq, Prod.mk.injEq] at h
    obtain ⟨rfl, rfl⟩ := h
    exact ExtOK_exit_same c b L
  · rw [Lstep_zero_output_ok c L hm hav] at h
    have hE := Lstep_zero_output_ok c (Lext L b) hm hav
    rw [L_put_sample_ext] at hE
    have e1 : (Lext (L_put_sample c L 0) b).i = (L_put_sample c L 0).i := rfl
    rw [e1] at hE
    split at h
    · rename_i hne
      rw [if_pos hne] at hE
      simp only [Option.some.injEq, Prod.mk.injEq] at h
      obtain ⟨rfl, rfl⟩ := h
      apply ExtOK_cont
      rw [hE]
      rfl
    · rename_i hne
      rw [if_neg hne] at hE
      simp only [Option.some.injEq, Prod.mk.injEq] at h
      obtain ⟨rfl, rfl⟩ := h
      apply ExtOK_cont
      rw [hE]
      rfl

theorem Lstep_ext_se (c : Config) (b : List Bool) (L L1 : LState)
    (st : Status) (hm : L.mode = Mode.m_se) (h : Lstep c L = some (st, L1)) :
    ExtOK c b L st L1 := by
  rw [Lstep_se c L hm] at h
  simp only [Option.some.injEq, Prod.mk.injEq] at h
  obtain ⟨rfl, rfl⟩ := h
  apply ExtOK_cont
  rw [Lstep_se c (Lext L b) hm]
  rfl

theorem Lstep_ext_uncomp (c : Config) (b : List Bool) (L L1 : LState)
    (st : Status) (hm : L.mode = Mode.m_uncomp) (h : Lstep c L = some (st, L1)) :
    ExtOK c b L st L1 := by
  rw [Lstep_uncomp c L hm] at h
  simp only [Option.some.injEq, Prod.mk.injEq] at h
  obtain ⟨rfl, rfl⟩ := h
  apply ExtOK_cont
  rw [Lstep_uncomp c (Lext L b) hm]
  rfl

theorem Lstep_ext_uncomp_copy (c : Config) (b : List Bool) (L L1 : LState)
    (st : Status) (hm : L.mode = Mode.m_uncomp_copy) (h : Lstep c L = some (st, L1)) :
    ExtOK c b L st L1 := by
  rcases L_copysample_ext_cases c L b with ⟨h1, h2⟩ | ⟨h1, h2⟩
  · have hcp : L_copysample c L = (true, (L_copysample c L).2) := by rw [← h1]
    rw [Lstep_uncomp_copy_ok c L _ hm hcp] at h
    have hE := Lstep_uncomp_copy_ok c (Lext L b) _ hm h2
    have e1 : (Lext (L_copysample c L).2 b).i = (L_copysample c L).2.i := rfl
    rw [e1] at hE
    split at h
    · rename_i hne
      rw [if_pos hne] at hE
      simp only [Option.some.injEq, Prod.mk.injEq] at h
      obtain ⟨rfl, rfl⟩ := h
      apply ExtOK_cont
      rw [hE]
      rfl
    · rename_i hne
      rw [if_neg hne] at hE
      simp only [Option.some.injEq, Prod.mk.injEq] at h
      obtain ⟨rfl, rfl⟩ := h
      apply ExtOK_cont
      rw [hE]
      rfl
  · have hcp : L_copysample c L = (false, (L_copysample c L).2) := by rw [← h1]
    rw [Lstep_uncomp_copy_exit c L _ hm hcp] at h
    simp only [Option.some.injEq, Prod.mk.injEq] at h
    obtain ⟨rfl, rfl⟩ := h
    rw [h2]
    exact ExtOK_exit_same c b L

theorem Lstep_se_decode_err (c : Config) (L L1 : LState) (e : Fault)
    (hm : L.mode = Mode.m_se_decode)
    (h : L.i < c.block_size) (ha : L_fs_ask L = (true, L1))
    (ht : se_lookup c L1.fs = Except.error e) : Lstep c L = none := by
  unfold Lstep; rw [hm]; simp only [h, ha, ht, if_true, Bool.true_eq_false, if_false]

theorem Lstep_se_decode_head_exit1 (c : Config) (X : LState) (rest : List Bool) (t : Int × Int)
    (hm : X.mode = Mode.m_se_decode) (hlt : X.i < c.block_size)
    (hbits : X.bits = true :: rest) (ht : se_lookup c X.fs = Except.ok t)
    (h : X.i % 2 = 0 ∧ X.avail_out = 0) : Lstep c X = some (Status.M_EXIT, X) := by
  rw [Lstep_se_decode_ok c X X t hm hlt (L_fs_ask_of_head X rest hbits) ht, if_pos h]

theorem Lstep_se_decode_head_exit2 (c : Config) (X : LState) (rest : List Bool) (t : Int × Int)
    (hm : X.mode = Mode.m_se_decode) (hlt : X.i < c.block_size)
    (hbits : X.bits = true :: rest) (ht : se_lookup c X.fs = Except.ok t)
    (hodd : ¬ X.i % 2 = 0) (hav : X.avail_out = 0) : Lstep c X = some (Status.M_EXIT, X) := by
  rw [Lstep_se_decode_ok c X X t hm hlt (L_fs_ask_of_head X rest hbits) ht,
    if_neg (fun hh => hodd hh.1)]
  simp only [hodd, if_false, hav, if_true]

theorem Lstep_ext_se_decode (c : Config) (b : List Bool) (hE : Even c.block_size)
    (L L1 : LState) (st : Status) (hm : L.mode = Mode.m_se_decode)
    (h : Lstep c L = some (st, L1)) : ExtOK c b L st L1 := by
  obtain ⟨hb, hbe⟩ := hE
  have hbsI : (c.block_size : Int) = (hb : Int) + (hb : Int) := by exact_mod_cast hbe
  by_cases hlt : L.i < c.block_size
  · cases hfa : (L_fs_ask L).1
    · have hask : L_fs_ask L = (false, (L_fs_ask L).2) := by rw [← hfa]
      rw [Lstep_se_decode_exit c L _ hm hlt hask] at h
      simp only [Option.some.injEq, Prod.mk.injEq] at h
      obtain ⟨rfl, rfl⟩ := h
      apply ExtOK_exit
      exact Lstep_se_decode_congr c _ _ hm hm rfl hlt (L_fs_ask_ext_false L b hfa)
    · have hask : L_fs_ask L = (true, (L_fs_ask L).2) := by rw [← hfa]
      obtain ⟨rest, hrest⟩ := L_fs_ask_true_head L hfa
      obtain ⟨a1, a2, a3, a4, a5, a6, a7⟩ := L_fs_ask_facts L
      generalize hr2 : (L_fs_ask L).2 = r2 at hask hrest a1 a2 a3 a4 a5 a6 a7
      have haskE : L_fs_ask (Lext L b) = (true, Lext r2 b) := by
        rw [L_fs_ask_ext_true L b hfa, hr2]
      rcases ht : se_lookup c r2.fs with e | t
      · rw [Lstep_se_decode_err c L r2 e hm hlt hask ht] at h
        cases h
      · rw [Lstep_se_decode_ok c L r2 t hm hlt hask ht] at h
        have hE := Lstep_se_decode_ok c (Lext L b) (Lext r2 b) t hm hlt haskE ht
        have e1 : (Lext r2 b).i = r2.i := rfl
        have e2 : (Lext r2 b).avail_out = r2.avail_out := rfl
        have e3 : (Lext r2 b).fs = r2.fs := rfl
        rw [e1, e2, e3, L_put_sample_ext] at hE
        have hlt2 : r2.i < c.block_size := by rw [a3]; exact hlt
        have hb2 : (Lext r2 b).bits = true :: (rest ++ b) := by
          show r2.bits ++ b = _
          rw [hrest]; rfl
        by_cases hc1 : r2.i % 2 = 0 ∧ r2.avail_out = 0
        · rw [if_pos hc1] at h hE
          simp only [Option.some.injEq, Prod.mk.injEq] at h
          obtain ⟨rfl, rfl⟩ := h
          apply ExtOK_exit
          rw [hE]
          exact Lstep_se_decode_head_exit1 c (Lext r2 b) (rest ++ b) t (by rw [← hm]; exact a1)
            hlt2 hb2 ht hc1
        · rw [if_neg hc1] at h hE
          by_cases hev : r2.i % 2 = 0
          · simp only [hev, if_true] at h hE
            obtain ⟨p1, p2, p3, p4, p5, p6, p7, p8⟩ :=
              L_put_sample_fields c r2 (to_u32 (t.2 - ((r2.fs : Int) - t.1)))
            have e4 : (Lext (L_put_sample c r2 (to_u32 (t.2 - ((r2.fs : Int) - t.1)))) b).i
                = (L_put_sample c r2 (to_u32 (t.2 - ((r2.fs : Int) - t.1)))).i := rfl
            rw [e4] at hE
            split at h
            · rename_i hav
              have havE : ({ Lext (L_put_sample c r2 (to_u32 (t.2 - ((r2.fs : Int) - t.1)))) b with
                  i := (L_put_sample c r2 (to_u32 (t.2 - ((r2.fs : Int) - t.1)))).i + 1 } : LState).avail_out
                    = 0 := hav
              rw [if_pos havE] at hE
              simp only [Option.some.injEq, Prod.mk.injEq] at h
              obtain ⟨rfl, rfl⟩ := h
              apply ExtOK_exit
              rw [hE]
              refine Lstep_se_decode_head_exit2 c _ (rest ++ b) t ?_ ?_ ?_ ?_ ?_ hav
              · show (L_put_sample c r2 _).mode = _
                rw [p1, a1]; exact hm
              · show (L_put_sample c r2 _).i + 1 < _
                rw [p4]; omega
              · show (L_put_sample c r2 _).bits ++ b = _
                rw [p7, hrest]; rfl
              · show se_lookup c (L_put_sample c r2 _).fs = _
                rw [p5]; exact ht
              · show ¬ ((L_put_sample c r2 _).i + 1) % 2 = 0
                rw [p4]; omega
            · rename_i hav
              have havE : ¬ ({ Lext (L_put_sample c r2 (to_u32 (t.2 - ((r2.fs : Int) - t.1)))) b with
                  i := (L_put_sample c r2 (to_u32 (t.2 - ((r2.fs : Int) - t.1)))).i + 1 } : LState).avail_out
                    = 0 := hav
              rw [if_neg havE] at hE
              simp only [Option.some.injEq, Prod.mk.injEq] at h
              obtain ⟨rfl, rfl⟩ := h
              apply ExtOK_cont
              rw [hE]
              refine congrArg some (congrArg (Prod.mk _) ?_)
              have h1 := L_put_sample_ext c
                ({ L_put_sample c r2 (to_u32 (t.2 - ((r2.fs : Int) - t.1))) with
                  i := (L_put_sample c r2 (to_u32 (t.2 - ((r2.fs : Int) - t.1)))).i + 1 } : LState)
                b (to_u32 ((r2.fs : Int) - t.1))
              obtain ⟨q1, q2, q3, q4, q5, q6, q7, q8⟩ := L_put_sample_fields c
                ({ L_put_sample c r2 (to_u32 (t.2 - ((r2.fs : Int) - t.1))) with
                  i := (L_put_sample c r2 (to_u32 (t.2 - ((r2.fs : Int) - t.1)))).i + 1 } : LState)
                (to_u32 ((r2.fs : Int) - t.1))
              have h2 := L_fs_drop_ext
                ({ L_put_sample c ({ L_put_sample c r2 (to_u32 (t.2 - ((r2.fs : Int) - t.1))) with
                    i := (L_put_sample c r2 (to_u32 (t.2 - ((r2.fs : Int) - t.1)))).i + 1 } : LState)
                    (to_u32 ((r2.fs : Int) - t.1)) with
                  i := (L_put_sample c ({ L_put_sample c r2 (to_u32 (t.2 - ((r2.fs : Int) - t.1))) with
                    i := (L_put_sample c r2 (to_u32 (t.2 - ((r2.fs : Int) - t.1)))).i + 1 } : LState)
                    (to_u32 ((r2.fs : Int) - t.1))).i + 1 } : LState) b
                (by
                  show (L_put_sample c _ _).bits ≠ []
                  rw [q7]
                  show (L_put_sample c r2 _).bits ≠ []
                  rw [p7, hrest]; simp)
              refine Eq.trans ?_ h2
              exact congrArg (fun Z : LState => L_fs_drop ({ Z with i := Z.i + 1 } : LState)) h1
          · simp only [hev, if_false] at h hE
            split at h
            · rename_i hav
              have havE : (Lext r2 b).avail_out = 0 := hav
              rw [if_pos havE] at hE
              simp only [Option.some.injEq, Prod.mk.injEq] at h
              obtain ⟨rfl, rfl⟩ := h
              apply ExtOK_exit
              rw [hE]
              exact Lstep_se_decode_head_exit2 c (Lext r2 b) (rest ++ b) t
                (by rw [← hm]; exact a1) hlt2 hb2 ht hev hav
            · rename_i hav
              have havE : ¬ (Lext r2 b).avail_out = 0 := hav
              rw [if_neg havE] at hE
              simp only [Option.some.injEq, Prod.mk.injEq] at h
              obtain ⟨rfl, rfl⟩ := h
              apply ExtOK_cont
              rw [hE]
              refine congrArg some (congrArg (Prod.mk _) ?_)
              have h1 := L_put_sample_ext c r2 b (to_u32 ((r2.fs : Int) - t.1))
              obtain ⟨q1, q2, q3, q4, q5, q6, q7, q8⟩ :=
                L_put_sample_fields c r2 (to_u32 ((r2.fs : Int) - t.1))
              have h2 := L_fs_drop_ext
                ({ L_put_sample c r2 (to_u32 ((r2.fs : Int) - t.1)) with
                  i := (L_put_sample c r2 (to_u32 ((r2.fs : Int) - t.1))).i + 1 } : LState) b
                (by
                  show (L_put_sample c r2 _).bits ≠ []
                  rw [q7, hrest]; simp)
              refine Eq.trans ?_ h2
              exact congrArg (fun Z : LState => L_fs_drop ({ Z with i := Z.i + 1 } : LState)) h1
  · rw [Lstep_se_decode_done c L hm hlt] at h
    simp only [Option.some.injEq, Prod.mk.injEq] at h
    obtain ⟨rfl, rfl⟩ := h
    apply ExtOK_cont
    rw [Lstep_se_decode_done c (Lext L b) hm hlt]
    rfl

/-- More input and one step of the logical decoder, all modes. -/
theorem Lstep_ext (c : Config) (b : List Bool) (hb : b.length % 8 = 0)
    (hE : Even c.block_size) (L L1 : LState) (st : Status)
    (h : Lstep c L = some (st, L1)) : ExtOK c b L st L1 := by
  rcases hm : L.mode
  · exact Lstep_ext_id c b hb L L1 st hm h
  · exact Lstep_ext_split c b L L1 st hm h
  · exact Lstep_ext_split_fs c b L L1 st hm h
  · exact Lstep_ext_split_output c b L L1 st hm h
  · exact Lstep_ext_zero_block c b L L1 st hm h
  · exact Lstep_ext_zero_output c b L L1 st hm h
  · exact Lstep_ext_se c b L L1 st hm h
  · exact Lstep_ext_se_decode c b hE L L1 st hm h
  · exact Lstep_ext_low_entropy c b L L1 st hm h
  · exact Lstep_ext_low_entropy_ref c b L L1 st hm h
  · exact Lstep_ext_uncomp c b L L1 st hm h
  · exact Lstep_ext_uncomp_copy c b L L1 st hm h

theorem Lext_Lext (L : LState) (b1 b2 : List Bool) : Lext (Lext L b1) b2 = Lext L (b1 ++ b2) := by
  unfold Lext
  simp only [List.append_assoc]

theorem Lext_nil (L : LState) : Lext L [] = L := by
  unfold Lext
  simp only [List.append_nil]

/-- A run that suspends, continued with more input, is the run on the whole input. -/
theorem Lrun_ext (c : Config) (b : List Bool) (hb : b.length % 8 = 0) (hE : Even c.block_size)
    {L : LState} {p : Status × LState} (h1 : Lrun c L p) :
    ∀ (L1 : LState) (r : Status × LState), p = (Status.M_EXIT, L1) →
      Lrun c (Lext L1 b) r → Lrun c (Lext L b) r := by
  induction h1 with
  | stop hs hne =>
    intro L1 r hp h2
    simp only [Prod.mk.injEq] at hp
    obtain ⟨rfl, rfl⟩ := hp
    have hx := (Lstep_ext c b hb hE _ _ _ hs).2 rfl
    cases h2 with
    | stop hs2 hne2 => exact Lrun.stop (by rw [← hx]; exact hs2) hne2
    | step hs2 hr2 => exact Lrun.step (by rw [← hx]; exact hs2) hr2
  | step hs _ ih =>
    intro L1 r hp h2
    have hx := (Lstep_ext c b hb hE _ _ _ hs).1 rfl
    exact Lrun.step hx (ih L1 r hp h2)

theorem lbits_append (s : aec_stream) (ch : List Byte) :
    lbits { s with next_in := s.next_in ++ ch } = lbits s ++ bytes_bits ch := by
  unfold lbits
  simp only [bytes_bits_append, List.append_assoc]

theorem α_append (c : Config) (s : aec_stream) (ch : List Byte) :
    α c { s with next_in := s.next_in ++ ch } = Lext (α c s) (bytes_bits ch) := by
  have hf : flush_samples c { s with next_in := s.next_in ++ ch } = flush_samples c s :=
    flush_samples_congr c s _ rfl rfl rfl rfl
  unfold α αr
  rw [hf, lbits_append]
  rfl

theorem bytes_bits_length_mod (ch : List Byte) : (bytes_bits ch).length % 8 = 0 := by
  rw [bytes_bits_length]; omega

theorem sub_size_t_add (x b : Nat) : (sub_size_t x b + b) % W64 = x % W64 := by
  unfold sub_size_t
  have hW : 0 < W64 := by norm_num [W64]
  have h1 : b % W64 < W64 := Nat.mod_lt _ hW
  have h2 : (x + (W64 - b % W64)) % W64 + b ≡ x [MOD W64] := by
    have e1 : (x + (W64 - b % W64)) % W64 ≡ x + (W64 - b % W64) [MOD W64] := Nat.mod_modEq _ _
    have e2 : b ≡ b % W64 [MOD W64] := (Nat.mod_modEq _ _).symm
    have e3 := Nat.ModEq.add e1 e2
    have e4 : x + (W64 - b % W64) + b % W64 = x + W64 := by omega
    rw [e4] at e3
    exact e3.trans (by simp [Nat.ModEq])
  exact h2

/-- What one call of `aec_decode` that returns `AEC_OK` does, in terms of the logical
decoder. -/
theorem aec_decode_sim (c : Config) (hc : Accepted c) (clz : Bool) (hE : Even c.block_size)
    (hbs : 2 ≤ c.block_size) (strm s' : aec_stream) (hI : Inv strm) (hL : LI c (α c strm))
    (hlen : (lbits strm).length < W32)
    (h : aec_decode clz c strm = Except.ok (Ret.AEC_OK, s')) :
    Lrun c (α c strm) (Status.M_EXIT, α c s') ∧ Inv s' ∧ LI c (α c s') ∧
      (lbits s').length ≤ (lbits strm).length ∧
      (s'.total_in + s'.avail_in) % W64 = (strm.total_in + strm.avail_in) % W64 ∧
      (s'.total_out + s'.avail_out) % W64 = (strm.total_out + strm.avail_out) % W64 ∧
      s'.total_in < W64 ∧ s'.total_out < W64 ∧ (α c s').vout = s'.next_out := by
  unfold aec_decode at h
  simp only at h
  rcases hr : run_modes clz c
      (decode_fuel { strm with total_in := (strm.total_in + strm.avail_in) % W64, total_out := (strm.total_out + strm.avail_out) % W64 })
      { strm with total_in := (strm.total_in + strm.avail_in) % W64, total_out := (strm.total_out + strm.avail_out) % W64 } with e | r
  · rw [hr] at h; cases h
  · rw [hr] at h
    simp only [bind, Except.bind] at h
    have hα0 : α c { strm with total_in := (strm.total_in + strm.avail_in) % W64, total_out := (strm.total_out + strm.avail_out) % W64 } = α c strm := by
      apply α_eq_of_αr
      exact αr_congr c strm _ rfl rfl rfl rfl rfl rfl rfl rfl rfl rfl rfl rfl rfl
    have hI0 : Inv { strm with total_in := (strm.total_in + strm.avail_in) % W64, total_out := (strm.total_out + strm.avail_out) % W64 } :=
      ⟨hI.flush_le, hI.avail_lt, hI.bitp_le, hI.fs_zero, hI.id_le⟩
    obtain ⟨q1, q2, q3, q4, q5, q6⟩ :=
      run_modes_sim c hc clz hE hbs _ _ r.2 r.1 hI0 (by rw [hα0]; exact hL) hlen hr
    rw [hα0] at q2
    by_cases herr : r.1 = Status.M_ERROR
    · rw [if_pos herr] at h
      simp only [pure, Except.pure, Except.ok.injEq, Prod.mk.injEq] at h
      exact absurd h.1 (by simp)
    · rw [if_neg herr] at h
      simp only [pure, Except.pure, Except.ok.injEq, Prod.mk.injEq, true_and] at h
      subst h
      have hst : r.1 = Status.M_EXIT := by
        rcases hx : r.1
        · exact absurd hx q1
        · rfl
        · exact absurd hx herr
      obtain ⟨f1, f2, f3, f4⟩ := flush_sim c r.2 q3
      have hαf : α c ({ flush c r.2 with
          total_in := sub_size_t (flush c r.2).total_in (flush c r.2).avail_in,
          total_out := sub_size_t (flush c r.2).total_out (flush c r.2).avail_out } : aec_stream)
          = α c r.2 := by
        apply α_eq_of_αr
        rw [← f1]
        exact αr_congr c (flush c r.2) _ rfl rfl rfl rfl rfl rfl rfl rfl rfl rfl rfl rfl rfl
      rw [hst] at q2
      refine ⟨by rw [hαf]; exact q2, ⟨f2.flush_le, f2.avail_lt, f2.bitp_le, f2.fs_zero, f2.id_le⟩,
        by rw [hαf]; exact q5, q6, ?_, ?_, ?_, ?_, ?_⟩
      · show (sub_size_t (flush c r.2).total_in (flush c r.2).avail_in + (flush c r.2).avail_in) % W64 = _
        rw [sub_size_t_add]
        have : (flush c r.2).total_in = (strm.total_in + strm.avail_in) % W64 := q4.1
        rw [this, Nat.mod_mod]
      · show (sub_size_t (flush c r.2).total_out (flush c r.2).avail_out + (flush c r.2).avail_out) % W64 = _
        rw [sub_size_t_add]
        have : (flush c r.2).total_out = (strm.total_out + strm.avail_out) % W64 := q4.2
        rw [this, Nat.mod_mod]
      · exact sub_size_t_lt _ _
      · exact sub_size_t_lt _ _
      · have hfl : flush_samples c ({ flush c r.2 with
            total_in := sub_size_t (flush c r.2).total_in (flush c r.2).avail_in,
            total_out := sub_size_t (flush c r.2).total_out (flush c r.2).avail_out } : aec_stream)
            = ([], (flush c r.2).last_out) :=
          flush_samples_flushed c _ rfl
        show ((flush c r.2).next_out ++ out_bytes c (flush_samples c _).1) = (flush c r.2).next_out
        rw [hfl]
        simp [out_bytes_nil]

theorem LI_ext (c : Config) (L : LState) (b : List Bool) (h : LI c L) : LI c (Lext L b) :=
  ⟨h.ref_le, h.se_fs, h.se_odd⟩

/-- A chunked run whose calls all return `AEC_OK` is the run of the logical decoder on the
whole input. -/
theorem decode_chunks_sim (c : Config) (hc : Accepted c) (clz : Bool) (hE : Even c.block_size)
    (hbs : 2 ≤ c.block_size) :
    ∀ (chunks : List (List Byte)) (strm sB : aec_stream), chunks ≠ [] → Inv strm →
      LI c (α c strm) → (lbits strm).length + 8 * chunks.flatten.length < W32 →
      decode_chunks clz c strm chunks = Except.ok (Ret.AEC_OK, sB) →
      Lrun c (Lext (α c strm) (bytes_bits chunks.flatten)) (Status.M_EXIT, α c sB) ∧
      (sB.total_in + sB.avail_in) % W64
        = (strm.total_in + strm.avail_in + chunks.flatten.length) % W64 ∧
      (sB.total_out + sB.avail_out) % W64 = (strm.total_out + strm.avail_out) % W64 ∧
      sB.total_in < W64 ∧ sB.total_out < W64 ∧ (α c sB).vout = sB.next_out ∧ Inv sB := by
  intro chunks
  induction chunks with
  | nil => intro strm sB hne; exact absurd rfl hne
  | cons ch rest ih =>
    intro strm sB _ hI hL hlen h
    unfold decode_chunks at h
    rcases hd : aec_decode clz c { strm with next_in := strm.next_in ++ ch } with e | r
    · rw [hd] at h; cases h
    · rw [hd] at h
      simp only [bind, Except.bind] at h
      have hI1 : Inv { strm with next_in := strm.next_in ++ ch } :=
        ⟨hI.flush_le, hI.avail_lt, hI.bitp_le, hI.fs_zero, hI.id_le⟩
      have hα1 := α_append c strm ch
      have hL1 : LI c (α c { strm with next_in := strm.next_in ++ ch }) := by
        rw [hα1]; exact LI_ext c _ _ hL
      have hfl : (ch :: rest).flatten.length = ch.length + rest.flatten.length := by
        simp
      have hlen1 : (lbits { strm with next_in := strm.next_in ++ ch }).length < W32 := by
        rw [lbits_append, List.length_append, bytes_bits_length]
        omega
      by_cases hok : r.1 = Ret.AEC_OK
      · rw [if_pos hok] at h
        have hd' : aec_decode clz c { strm with next_in := strm.next_in ++ ch }
            = Except.ok (Ret.AEC_OK, r.2) := by
          rw [hd, ← hok]
        obtain ⟨a1, a2, a3, a4, a5, a6, a7, a8, a9⟩ :=
          aec_decode_sim c hc clz hE hbs _ r.2 hI1 hL1 hlen1 hd'
        rw [hα1] at a1
        have hin1 : ({ strm with next_in := strm.next_in ++ ch } : aec_stream).avail_in
            = strm.avail_in + ch.length := by
          show (strm.next_in ++ ch).length = strm.next_in.length + ch.length
          rw [List.length_append]
        rw [hin1] at a5
        rcases rest with _ | ⟨ch2, rest2⟩
        · simp only [decode_chunks, pure, Except.pure, Except.ok.injEq, Prod.mk.injEq,
            true_and] at h
          subst h
          refine ⟨?_, ?_, a6, a7, a8, a9, a2⟩
          · simpa using a1
          · rw [a5]
            simp [Nat.add_assoc]
        · have hlen2 : (lbits r.2).length + 8 * (ch2 :: rest2).flatten.length < W32 := by
            rw [lbits_append, List.length_append, bytes_bits_length] at a4
            omega
          obtain ⟨b1, b2, b3, b4, b5, b6, b7⟩ :=
            ih r.2 sB (by simp) a2 a3 hlen2 h
          refine ⟨?_, ?_, ?_, b4, b5, b6, b7⟩
          · have hk := Lrun_ext c (bytes_bits (ch2 :: rest2).flatten)
              (bytes_bits_length_mod _) hE a1 (α c r.2) _ rfl b1
            rw [Lext_Lext, ← bytes_bits_append] at hk
            have e : (ch :: ch2 :: rest2).flatten = ch ++ (ch2 :: rest2).flatten := by simp
            rw [e]
            exact hk
          · rw [b2, hfl]
            have e : (strm.total_in + strm.avail_in + (ch.length + (ch2 :: rest2).flatten.length))
                = (strm.total_in + (strm.avail_in + ch.length)) + (ch2 :: rest2).flatten.length := by
              omega
            rw [e, Nat.add_mod, a5, ← Nat.add_mod]
          · rw [b3, a6]
      · rw [if_neg hok] at h
        simp only [pure, Except.pure, Except.ok.injEq] at h
        rw [h] at hok
        exact absurd rfl hok

/-- The start state of a decoder: invariant, logical invariant and empty bit stream. -/
theorem start_state_facts (c : Config) (strm0 : aec_stream) (a : Nat) (ha : a < W64) :
    Inv { init_stream strm0 with next_in := [], avail_out := a } ∧
    LI c (α c { init_stream strm0 with next_in := [], avail_out := a }) ∧
    lbits { init_stream strm0 with next_in := [], avail_out := a } = [] := by
  refine ⟨⟨Nat.le_refl _, ha, Nat.zero_le _, fun _ => rfl, fun h => absurd rfl h⟩, ?_, rfl⟩
  exact LI_of_not_se (fun h => nomatch h) (fun h => absurd rfl h)

/-- C1 (amended): chunked decoding agrees with decoding in one call when every call returns
`AEC_OK`.  For a configuration accepted by `aec_decode_init` with an even block size of at least
2, an input of fewer than `2 ^ 28` bytes cut into a non-empty list of chunks and any amount of
output space: if the single call on the whole input and every call of the chunked run return
`AEC_OK`, both end with the same output bytes, the same `avail_out` and the same `total_out`,
and in both `total_in` is the input length less the bytes still at `next_in` (bytes already
moved into the accumulator count as taken, so the two `total_in` agree when the two `avail_in`
do). -/
theorem C1_chunked_decode_agrees (bps bs rsi : Nat) (flags : Flags) (strm0 : aec_stream)
    (c : Config) (s0 : aec_stream) (clz : Bool) (chunks : List (List Byte)) (a : Nat)
    (sA sB : aec_stream)
    (hinit : aec_decode_init bps bs rsi flags strm0 = (Ret.AEC_OK, some (c, s0)))
    (hE : Even bs) (hbs : 2 ≤ bs) (ha : a < 2 ^ 64) (hne : chunks ≠ [])
    (hlen : chunks.flatten.length < 2 ^ 28)
    (hA : aec_decode clz c { s0 with next_in := chunks.flatten, avail_out := a }
      = Except.ok (Ret.AEC_OK, sA))
    (hB : decode_chunks clz c { s0 with next_in := [], avail_out := a } chunks
      = Except.ok (Ret.AEC_OK, sB)) :
    sB.next_out = sA.next_out ∧ sB.avail_out = sA.avail_out ∧ sB.total_out = sA.total_out ∧
      sA.total_in + sA.avail_in = chunks.flatten.length ∧
      sB.total_in + sB.avail_in = chunks.flatten.length ∧
      (sB.avail_in = sA.avail_in → sB.total_in = sA.total_in) := by
  obtain ⟨hcfg, hs0, -⟩ := aec_decode_init_some hinit
  obtain ⟨hc, -, hbseq, -, -⟩ := init_config_accepted hcfg
  subst hs0
  rw [← hbseq] at hE hbs
  have ha' : a < W64 := ha
  obtain ⟨hI0, hL0, hb0⟩ := start_state_facts c strm0 a ha'
  have hW : 8 * chunks.flatten.length < W32 := by
    have : (2 : Nat) ^ 28 * 8 < W32 := by unfold W32; norm_num
    omega
  -- the chunked run
  obtain ⟨b1, b2, b3, b4, b5, b6, b7⟩ :=
    decode_chunks_sim c hc clz hE hbs chunks _ sB hne hI0 hL0
      (by rw [hb0]; simpa using hW) hB
  -- the single call
  have hαA := α_append c { init_stream strm0 with next_in := [], avail_out := a } chunks.flatten
  have hIA : Inv { init_stream strm0 with next_in := chunks.flatten, avail_out := a } :=
    ⟨hI0.flush_le, hI0.avail_lt, hI0.bitp_le, hI0.fs_zero, hI0.id_le⟩
  have hLA : LI c (α c { init_stream strm0 with next_in := chunks.flatten, avail_out := a }) :=
    LI_of_not_se (fun h => nomatch h) (fun h => absurd rfl h)
  have hlA : (lbits { init_stream strm0 with next_in := chunks.flatten, avail_out := a }).length
      = 8 * chunks.flatten.length := by
    have := lbits_append { init_stream strm0 with next_in := [], avail_out := a } chunks.flatten
    have e : lbits { init_stream strm0 with next_in := chunks.flatten, avail_out := a }
        = lbits { init_stream strm0 with next_in := [], avail_out := a }
            ++ bytes_bits chunks.flatten := this
    rw [e, hb0, List.nil_append, bytes_bits_length]
  obtain ⟨a1, a2, a3, a4, a5, a6, a7, a8, a9⟩ :=
    aec_decode_sim c hc clz hE hbs _ sA hIA hLA (by rw [hlA]; exact hW) hA
  have a1' : Lrun c (Lext (α c { init_stream strm0 with next_in := [], avail_out := a })
      (bytes_bits chunks.flatten)) (Status.M_EXIT, α c sA) := by
    rw [← hαA]; exact a1
  have hαeq : α c sB = α c sA := by
    have := Lrun_det b1 a1'
    exact (Prod.mk.injEq _ _ _ _ ▸ this : _ ∧ _).2
  have hout : sB.next_out = sA.next_out := by
    rw [← b6, ← a9, hαeq]
  have hav : sB.avail_out = sA.avail_out := by
    have := congrArg LState.avail_out hαeq
    simpa [α] using this
  have hbits : (lbits sB).length = (lbits sA).length := by
    have := congrArg LState.bits hαeq
    have e : lbits sB = lbits sA := by simpa [α] using this
    rw [e]
  have hinA : ({ init_stream strm0 with next_in := chunks.flatten, avail_out := a }
      : aec_stream).avail_in = chunks.flatten.length := rfl
  have hinB : ({ init_stream strm0 with next_in := [], avail_out := a }
      : aec_stream).avail_in = 0 := rfl
  have htA : ({ init_stream strm0 with next_in := chunks.flatten, avail_out := a }
      : aec_stream).total_in = 0 := rfl
  have htB : ({ init_stream strm0 with next_in := [], avail_out := a }
      : aec_stream).total_in = 0 := rfl
  have hoA : ({ init_stream strm0 with next_in := chunks.flatten, avail_out := a }
      : aec_stream).total_out = 0 := rfl
  have hoB : ({ init_stream strm0 with next_in := [], avail_out := a }
      : aec_stream).total_out = 0 := rfl
  have haA : ({ init_stream strm0 with next_in := chunks.flatten, avail_out := a }
      : aec_stream).avail_out = a := rfl
  have haB : ({ init_stream strm0 with next_in := [], avail_out := a }
      : aec_stream).avail_out = a := rfl
  rw [hinA, htA] at a5
  rw [hinB, htB] at b2
  rw [hoA, haA] at a6
  rw [hoB, haB] at b3
  rw [hlA] at a4
  -- bytes still at `next_in`
  have hlenA : 8 * sA.avail_in ≤ (lbits sA).length := by
    unfold lbits aec_stream.avail_in
    rw [List.length_append, bytes_bits_length]; omega
  have hlenB : 8 * sB.avail_in ≤ (lbits sB).length := by
    unfold lbits aec_stream.avail_in
    rw [List.length_append, bytes_bits_length]; omega
  have hW64 : W64 = 2 ^ 64 := rfl
  have hn : chunks.flatten.length < W64 := by
    rw [hW64]
    have : (2 : Nat) ^ 28 < 2 ^ 64 := by norm_num
    omega
  have hTA : sA.total_in + sA.avail_in = chunks.flatten.length := by
    simp only [Nat.zero_add, Nat.mod_eq_of_lt hn] at a5
    have h1 : sA.avail_in ≤ chunks.flatten.length := by omega
    have h2 := Nat.mod_add_div (sA.total_in + sA.avail_in) W64
    have h3 : (sA.total_in + sA.avail_in) / W64 < 2 := by
      apply Nat.div_lt_of_lt_mul; omega
    interval_cases hq : (sA.total_in + sA.avail_in) / W64
    · omega
    · omega
  have hTB : sB.total_in + sB.avail_in = chunks.flatten.length := by
    simp only [Nat.zero_add, Nat.mod_eq_of_lt hn] at b2
    have h1 : sB.avail_in ≤ chunks.flatten.length := by omega
    have h2 := Nat.mod_add_div (sB.total_in + sB.avail_in) W64
    have h3 : (sB.total_in + sB.avail_in) / W64 < 2 := by
      apply Nat.div_lt_of_lt_mul; omega
    interval_cases hq : (sB.total_in + sB.avail_in) / W64
    · omega
    · omega
  have hTO : sB.total_out = sA.total_out := by
    simp only [Nat.zero_add] at a6 b3
    have e : (sB.total_out + sB.avail_out) % W64 = (sA.total_out + sA.avail_out) % W64 := by
      rw [a6, b3]
    rw [hav] at e
    have h2 := Nat.mod_add_div (sA.total_out + sA.avail_out) W64
    have h3 := Nat.mod_add_div (sB.total_out + sA.avail_out) W64
    have hI' := a2.avail_lt
    have h4 : (sA.total_out + sA.avail_out) / W64 < 2 := by
      apply Nat.div_lt_of_lt_mul; omega
    have h5 : (sB.total_out + sA.avail_out) / W64 < 2 := by
      apply Nat.div_lt_of_lt_mul; omega
    by_contra hne'
    have h6 : (sA.total_out + sA.avail_out) / W64 ≠ (sB.total_out + sA.avail_out) / W64 := by
      intro h; rw [h] at h2; omega
    interval_cases hq : (sA.total_out + sA.avail_out) / W64 <;>
      interval_cases hq2 : (sB.total_out + sA.avail_out) / W64 <;> omega
  exact ⟨hout, hav, hTO, hTA, hTB, fun h => by omega⟩

/-- A result with return code `AEC_OK` is that code with its state. -/
theorem result_stream_eq (r : Res (Ret × aec_stream))
    (h : r.map (fun p => p.1) = Except.ok Ret.AEC_OK) :
    r = Except.ok (Ret.AEC_OK, result_stream r) := by
  rcases r with e | ⟨rt, s⟩
  · cases h
  · simp only [Except.map, Except.ok.injEq] at h
    subst h
    rfl

/-- C1 (counterexample): two inputs on which the chunked run and the single call differ.
First: 8 bits per sample, block size 8, one block per RSI, no flags, 8 bytes of output space,
18 input bytes (an uncompressed block, then the id of a second one).  Both runs return
`AEC_OK` with the same 8 output bytes, but the single call, whose fast path fills the
accumulator seven bytes at a time, ends with `total_in = 15` and the run fed one byte per call
with `total_in = 10`.  Second: two blocks per RSI, 1000 bytes of output space, 10 input bytes
(an uncompressed block, then a zero-block whose run is too long).  The single call returns
`AEC_DATA_ERROR` with no output byte written; fed the first 9 bytes and then the last, the
first call writes the 8 samples and the second returns `AEC_DATA_ERROR`. -/
theorem C1_counterexample :
    ((aec_decode true (config_of 8 8 1 no_flags)
        { init_stream blank_stream with
          next_in := [0xE0, 0x00, 0x20, 0x40, 0x60, 0x80, 0xA0, 0xC0, 0xFC,
            0, 0, 0, 0, 0, 0, 0, 0, 0]
          avail_out := 8 }).map
      (fun r => (r.1, r.2.next_out, r.2.total_in))
      = Except.ok (Ret.AEC_OK, [0, 1, 2, 3, 4, 5, 6, 7], 15)) ∧
    ((decode_chunks true (config_of 8 8 1 no_flags)
        { init_stream blank_stream with next_in := [], avail_out := 8 }
        [[0xE0], [0x00], [0x20], [0x40], [0x60], [0x80], [0xA0], [0xC0], [0xFC],
          [0], [0], [0], [0], [0], [0], [0], [0], [0]]).map
      (fun r => (r.1, r.2.next_out, r.2.total_in))
      = Except.ok (Ret.AEC_OK, [0, 1, 2, 3, 4, 5, 6, 7], 10)) ∧
    ((aec_decode true (config_of 8 8 2 no_flags)
        { init_stream blank_stream with
          next_in := [0xE0, 0x00, 0x20, 0x40, 0x60, 0x80, 0xA0, 0xC0, 0xE0, 0x40]
          avail_out := 1000 }).map
      (fun r => (r.1, r.2.next_out))
      = Except.ok (Ret.AEC_DATA_ERROR, [])) ∧
    ((decode_chunks true (config_of 8 8 2 no_flags)
        { init_stream blank_stream with next_in := [], avail_out := 1000 }
        [[0xE0, 0x00, 0x20, 0x40, 0x60, 0x80, 0xA0, 0xC0, 0xE0], [0x40]]).map
      (fun r => (r.1, r.2.next_out))
      = Except.ok (Ret.AEC_DATA_ERROR, [0, 1, 2, 3, 4, 5, 6, 7])) :=
  ⟨rfl, rfl, rfl, rfl⟩

/-- Witness of C1 (amended): 8 bits per sample, block size 8, one block per RSI, no flags, 100
bytes of output space; the 9 bytes of an uncompressed block with the samples 0 .. 7, fed as 4
bytes and then 5. -/
theorem C1_chunked_decode_agrees_witness :
    (result_stream (decode_chunks true (config_of 8 8 1 no_flags)
        { init_stream blank_stream with next_in := [], avail_out := 100 }
        [[0xE0, 0x00, 0x20, 0x40], [0x60, 0x80, 0xA0, 0xC0, 0xE0]])).next_out
      = [0, 1, 2, 3, 4, 5, 6, 7] ∧
    (result_stream (decode_chunks true (config_of 8 8 1 no_flags)
        { init_stream blank_stream with next_in := [], avail_out := 100 }
        [[0xE0, 0x00, 0x20, 0x40], [0x60, 0x80, 0xA0, 0xC0, 0xE0]])).next_out
      = (result_stream (aec_decode true (config_of 8 8 1 no_flags)
        { init_stream blank_stream with
          next_in := [0xE0, 0x00, 0x20, 0x40, 0x60, 0x80, 0xA0, 0xC0, 0xE0]
          avail_out := 100 })).next_out ∧
    (result_stream (decode_chunks true (config_of 8 8 1 no_flags)
        { init_stream blank_stream with next_in := [], avail_out := 100 }
        [[0xE0, 0x00, 0x20, 0x40], [0x60, 0x80, 0xA0, 0xC0, 0xE0]])).total_out
      = (result_stream (aec_decode true (config_of 8 8 1 no_flags)
        { init_stream blank_stream with
          next_in := [0xE0, 0x00, 0x20, 0x40, 0x60, 0x80, 0xA0, 0xC0, 0xE0]
          avail_out := 100 })).total_out :=
  have h := C1_chunked_decode_agrees 8 8 1 no_flags blank_stream (config_of 8 8 1 no_flags)
    (init_stream blank_stream) true [[0xE0, 0x00, 0x20, 0x40], [0x60, 0x80, 0xA0, 0xC0, 0xE0]]
    100
    (result_stream (aec_decode true (config_of 8 8 1 no_flags)
        { init_stream blank_stream with
          next_in := [0xE0, 0x00, 0x20, 0x40, 0x60, 0x80, 0xA0, 0xC0, 0xE0]
          avail_out := 100 }))
    (result_stream (decode_chunks true (config_of 8 8 1 no_flags)
        { init_stream blank_stream with next_in := [], avail_out := 100 }
        [[0xE0, 0x00, 0x20, 0x40], [0x60, 0x80, 0xA0, 0xC0, 0xE0]]))
    rfl (by decide) (by decide) (by decide) (by decide) (by decide)
    (result_stream_eq _ rfl) (result_stream_eq _ rfl)
  ⟨rfl, h.1, h.2.2.1⟩

theorem bits_get_lt (strm : aec_stream) (n : Nat) : bits_get strm n < 2 ^ n := by
  unfold bits_get
  rw [Nat.one_shiftLeft]
  have h1 : 0 < 2 ^ n := Nat.pow_pos (by norm_num)
  have h2 := @Nat.and_le_right (strm.acc >>> (strm.bitp - n)) (2 ^ n - 1)
  omega

/-- C7: block-mode dispatch.  For every accepted configuration `id_len` is in 1..5 and the id
table built at init maps the code 0 to the low-entropy selector, the code `2^id_len - 1` to the
uncompressed decoder and every other code below `2^id_len` to the split-sample decoder; `m_id`,
when `id_len` bits are there, reads a code below `2^id_len`, stores it in `state->id` and
continues in the mode the table gives; the split-sample handlers work with `k = id - 1`; the
low-entropy selector reads one bit, and then 1 selects second extension and 0 selects
zero-block. -/
theorem C7_block_mode_dispatch (bps bs rsi : Nat) (flags : Flags) (strm0 : aec_stream)
    (c : Config) (s0 : aec_stream)
    (h : aec_decode_init bps bs rsi flags strm0 = (Ret.AEC_OK, some (c, s0))) :
    (1 ≤ c.id_len ∧ c.id_len ≤ 5) ∧
    (∀ id, id < 2 ^ c.id_len →
      c.id_table[id]? = some
        (if id = 0 then Mode.m_low_entropy
          else if id = 2 ^ c.id_len - 1 then Mode.m_uncomp else Mode.m_split)) ∧
    (∀ strm : aec_stream, (bits_ask (m_id_ref c strm) c.id_len).1 = true →
      ∃ s', m_id c strm = Except.ok (Status.M_CONTINUE, s') ∧
        s'.id = bits_get (bits_ask (m_id_ref c strm) c.id_len).2 c.id_len ∧
        s'.id < 2 ^ c.id_len ∧
        s'.mode = (if s'.id = 0 then Mode.m_low_entropy
          else if s'.id = 2 ^ c.id_len - 1 then Mode.m_uncomp else Mode.m_split)) ∧
    (∀ strm : aec_stream,
      m_split_fs c strm
        = m_split_fs_loop c (strm.id - 1) ((strm.n - strm.i).toNat + 1) strm ∧
      m_split_output c strm
        = m_split_output_loop c (strm.id - 1) ((strm.n - strm.i).toNat + 1) strm) ∧
    (∀ strm : aec_stream, (bits_ask strm 1).1 = true →
      ∃ s', m_low_entropy strm = Except.ok (Status.M_CONTINUE, s') ∧
        s'.mode = Mode.m_low_entropy_ref ∧ s'.id = bits_get (bits_ask strm 1).2 1 ∧
        s'.id < 2) ∧
    (∀ strm : aec_stream, strm.ref = 0 →
      m_low_entropy_ref c strm = Except.ok (Status.M_CONTINUE,
        { strm with mode := if strm.id = 1 then Mode.m_se else Mode.m_zero_block })) ∧
    (∀ (strm : aec_stream) (r : aec_stream), strm.ref ≠ 0 →
      copysample c strm = Except.ok (true, r) →
      m_low_entropy_ref c strm = Except.ok (Status.M_CONTINUE,
        { r with mode := if r.id = 1 then Mode.m_se else Mode.m_zero_block })) := by
  obtain ⟨hc, -, -⟩ := aec_decode_init_some h
  obtain ⟨ha, -, -, -, -⟩ := init_config_accepted hc
  have hr := accepted_id_len_range ha
  have hpos : 2 ≤ 2 ^ c.id_len := by
    calc 2 = 2 ^ 1 := by norm_num
      _ ≤ 2 ^ c.id_len := Nat.pow_le_pow_right (by norm_num) hr.1
  have htab : ∀ id, id < 2 ^ c.id_len →
      c.id_table[id]? = some
        (if id = 0 then Mode.m_low_entropy
          else if id = 2 ^ c.id_len - 1 then Mode.m_uncomp else Mode.m_split) := by
    intro id hid
    rw [ha.id_table_eq, Nat.one_shiftLeft, make_id_table_getElem? _ _ hid]
    by_cases h0 : id = 0
    · have : ¬ id = 2 ^ c.id_len - 1 := by omega
      simp [h0, this]
      omega
    · by_cases h1 : id = 2 ^ c.id_len - 1
      · have : ¬ 2 ^ c.id_len - 1 = 0 := by omega
        simp [h1, this]
      · simp [h0, h1]
  refine ⟨hr, htab, ?_, fun strm => ⟨rfl, rfl⟩, ?_, ?_, ?_⟩
  · intro strm hask
    have hlt := bits_get_lt (bits_ask (m_id_ref c strm) c.id_len).2 c.id_len
    have hm : m_id c strm = Except.ok (Status.M_CONTINUE,
        { bits_drop (bits_ask (m_id_ref c strm) c.id_len).2 c.id_len with
          id := bits_get (bits_ask (m_id_ref c strm) c.id_len).2 c.id_len
          mode := (if bits_get (bits_ask (m_id_ref c strm) c.id_len).2 c.id_len = 0 then
              Mode.m_low_entropy
            else if bits_get (bits_ask (m_id_ref c strm) c.id_len).2 c.id_len
                = 2 ^ c.id_len - 1 then Mode.m_uncomp else Mode.m_split) }) := by
      unfold m_id
      simp only [hask, Bool.true_eq_false, if_false]
      rw [htab _ hlt]
      rfl
    exact ⟨_, hm, rfl, hlt, rfl⟩
  · intro strm hask
    have hlt := bits_get_lt (bits_ask strm 1).2 1
    have hm : m_low_entropy strm = Except.ok (Status.M_CONTINUE,
        { bits_drop (bits_ask strm 1).2 1 with
          id := bits_get (bits_ask strm 1).2 1, mode := Mode.m_low_entropy_ref }) := by
      unfold m_low_entropy
      simp only [hask, Bool.true_eq_false, if_false]
      rfl
    exact ⟨_, hm, rfl, rfl, by simpa using hlt⟩
  · intro strm href
    unfold m_low_entropy_ref
    rw [if_neg (by simpa using href)]
    by_cases h1 : strm.id = 1
    · simp [h1, bind, Except.bind, pure, Except.pure]
    · simp [h1, bind, Except.bind, pure, Except.pure]
  · intro strm r href hcp
    unfold m_low_entropy_ref
    rw [if_pos href, hcp]
    by_cases h1 : r.id = 1
    · simp [h1, bind, Except.bind, pure, Except.pure]
    · simp [h1, bind, Except.bind, pure, Except.pure]

/-- Witness of C7: 8 bits per sample, `id_len = 3`; the code 0 selects the low-entropy
selector, 7 the uncompressed decoder, 3 the split-sample decoder. -/
theorem C7_block_mode_dispatch_witness :
    (config_of 8 8 1 no_flags).id_table[0]? = some Mode.m_low_entropy ∧
    (config_of 8 8 1 no_flags).id_table[7]? = some Mode.m_uncomp ∧
    (config_of 8 8 1 no_flags).id_table[3]? = some Mode.m_split :=
  have h := (C7_block_mode_dispatch 8 8 1 no_flags blank_stream (config_of 8 8 1 no_flags)
    (init_stream blank_stream) rfl).2.1
  ⟨h 0 (by decide), h 7 (by decide), h 3 (by decide)⟩

/-- C4 (failing input): 8 bits per sample, block size 8, one block per RSI, no flags, 8 bytes
of output space, input byte `0x04`.  The zero-block announces 2 blocks, 16 zero residuals, and the
RSI buffer has room for 8.  With 8 bytes of output space `aec_decode` returns `AEC_OK` after
emitting 8 zero bytes and stays in `m_zero_output` with 8 more to write; with 16 bytes of output
space the same input gives `AEC_DATA_ERROR`. -/
theorem C4_zero_run_overflow_small_output :
    (config_of 8 8 1 no_flags).rsi_size = 8 ∧
    zero_samples (config_of 8 8 1 no_flags) 1 0 0 = 16 ∧
    (aec_decode true (config_of 8 8 1 no_flags)
        { init_stream blank_stream with next_in := [0x04], avail_out := 8 }).map
      (fun r => (r.1, r.2.next_out, r.2.mode, r.2.i, r.2.avail_out))
      = Except.ok (Ret.AEC_OK, [0, 0, 0, 0, 0, 0, 0, 0], Mode.m_zero_output, 8, 0) ∧
    (aec_decode true (config_of 8 8 1 no_flags)
        { init_stream blank_stream with next_in := [0x04], avail_out := 16 }).map
      (fun r => (r.1, r.2.next_out))
      = Except.ok (Ret.AEC_DATA_ERROR, []) :=
  ⟨rfl, rfl, rfl, rfl⟩

/-- C10 (failing input): 8 bits per sample, block size 8, one block per RSI, no flags, 100 bytes
of output space, input bytes `0x04 0x00`.  The call returns `AEC_DATA_ERROR` from the zero-block
check; one input byte was taken and no output byte written, and the counters stand at
`total_in = 2` and `total_out = 100`. -/
theorem C10_totals_on_data_error :
    (aec_decode true (config_of 8 8 1 no_flags)
        { init_stream blank_stream with next_in := [0x04, 0x00], avail_out := 100 }).map
      (fun r => (r.1, r.2.total_in, r.2.avail_in, r.2.total_out, r.2.avail_out, r.2.next_out))
      = Except.ok (Ret.AEC_DATA_ERROR, 2, 1, 100, 100, []) :=
  rfl

/-- A zero residual leaves `data` as it is when `data` is within `[xmin, xmax]`. -/
theorem flush_step_zero (med xmin xmax data : Int) (h1 : xmin ≤ data) (h2 : data ≤ xmax) :
    flush_step med xmin xmax data 0 = data := by
  rw [flush_step_eq]
  have e : (((0 : Nat) + 1 : Int) / 2) = 0 := by norm_num
  simp only [Nat.cast_zero, zero_add] at e ⊢
  have e1 : ((1 : Int) / 2) = 0 := by norm_num
  rw [e1]
  have a : (0 : Int) ≤ data - xmin := by omega
  have b : (0 : Int) ≤ xmax - data := by omega
  simp [a, b]

theorem flush_loop_zeros (med xmin xmax data : Int) (h1 : xmin ≤ data) (h2 : data ≤ xmax) :
    ∀ n : Nat, flush_loop med xmin xmax data (List.replicate n 0)
      = (List.replicate n data, data)
  | 0 => rfl
  | n + 1 => by
    rw [List.replicate_succ, flush_loop]
    simp only [flush_step_zero med xmin xmax data h1 h2, flush_loop_zeros med xmin xmax data h1 h2 n]
    rfl

/-- The table `create_se_table` builds, entry by entry. -/
theorem create_se_table_eq :
    create_se_table (List.replicate 182 0) =
    [0, 0, 1, 1, 1, 1, 2, 3, 2, 3, 2, 3, 3, 6, 3, 6, 3, 6, 3, 6, 4, 10, 4, 10, 4, 10, 4, 10, 4,
    10, 5, 15, 5, 15, 5, 15, 5, 15, 5, 15, 5, 15, 6, 21, 6, 21, 6, 21, 6, 21, 6, 21, 6, 21, 6,
    21, 7, 28, 7, 28, 7, 28, 7, 28, 7, 28, 7, 28, 7, 28, 7, 28, 8, 36, 8, 36, 8, 36, 8, 36, 8,
    36, 8, 36, 8, 36, 8, 36, 8, 36, 9, 45, 9, 45, 9, 45, 9, 45, 9, 45, 9, 45, 9, 45, 9, 45, 9,
    45, 9, 45, 10, 55, 10, 55, 10, 55, 10, 55, 10, 55, 10, 55, 10, 55, 10, 55, 10, 55, 10, 55,
    10, 55, 11, 66, 11, 66, 11, 66, 11, 66, 11, 66, 11, 66, 11, 66, 11, 66, 11, 66, 11, 66, 11,
    66, 11, 66, 12, 78, 12, 78, 12, 78, 12, 78, 12, 78, 12, 78, 12, 78, 12, 78, 12, 78, 12, 78,
    12, 78, 12, 78, 12, 78] := by
  rfl

theorem tri_mono {a b : Nat} (h : a ≤ b) : a * (a + 1) / 2 ≤ b * (b + 1) / 2 :=
  Nat.div_le_div_right (Nat.mul_le_mul h (Nat.succ_le_succ h))

theorem tri_succ (i : Nat) : (i + 1) * (i + 2) / 2 = i * (i + 1) / 2 + (i + 1) := by
  have h : (i + 1) * (i + 2) = i * (i + 1) + 2 * (i + 1) := by ring
  rw [h, Nat.add_mul_div_left _ _ (by norm_num : 0 < 2)]

/-- The row of a table index is unique. -/
theorem tri_row_unique {k i j : Nat} (hi1 : i * (i + 1) / 2 ≤ k)
    (hi2 : k < (i + 1) * (i + 2) / 2) (hj1 : j * (j + 1) / 2 ≤ k)
    (hj2 : k < (j + 1) * (j + 2) / 2) : i = j := by
  by_contra hne
  rcases Nat.lt_or_gt_of_ne hne with hlt | hlt
  · have := tri_mono (show i + 1 ≤ j from hlt)
    have e : (i + 1) * (i + 1 + 1) = (i + 1) * (i + 2) := by ring
    rw [e] at this
    omega
  · have := tri_mono (show j + 1 ≤ i from hlt)
    have e : (j + 1) * (j + 1 + 1) = (j + 1) * (j + 2) := by ring
    rw [e] at this
    omega

set_option maxRecDepth 20000 in
/-- Every pair of entries of the table holds a row and the first index of that row. -/
theorem se_table_rows :
    ∀ k : Nat, k < 91 → ∃ i : Nat, i < 13 ∧
      (create_se_table (List.replicate 182 0))[2 * k]? = some (i : Int) ∧
      (create_se_table (List.replicate 182 0))[2 * k + 1]? = some ((i * (i + 1) / 2 : Nat) : Int) ∧
      i * (i + 1) / 2 ≤ k ∧ k < (i + 1) * (i + 2) / 2 := by
  rw [create_se_table_eq]
  intro k hk
  interval_cases k <;> decide

/-- C19: `create_se_table` stores, for every `m` in `0 .. 90`, the row `i` of `m` at `2 * m` and
the first index `i * (i + 1) / 2` of that row at `2 * m + 1`, where `i` is the only number with
`i * (i + 1) / 2 ≤ m < (i + 1) * (i + 2) / 2`, and `i ≤ 12`.  The pair `m_se` and
`m_se_decode` compute from them, `d1 = m - se_table[2 * m + 1]` and
`a = se_table[2 * m] - d1`, has `a ≥ 0`, `d1 ≥ 0`, `a + d1 = i` and
`m = (a + d1) * (a + d1 + 1) / 2 + d1`; for `m = 0` it is `(0, 0)`. -/
theorem C19_se_pair_map (bps bs rsi : Nat) (flags : Flags) (strm0 : aec_stream)
    (c : Config) (s0 : aec_stream)
    (h : aec_decode_init bps bs rsi flags strm0 = (Ret.AEC_OK, some (c, s0)))
    (m : Nat) (hm : m ≤ 90) :
    ∃ i : Nat, i ≤ 12 ∧ i * (i + 1) / 2 ≤ m ∧ m < (i + 1) * (i + 2) / 2 ∧
      (∀ j : Nat, j * (j + 1) / 2 ≤ m → m < (j + 1) * (j + 2) / 2 → j = i) ∧
      c.se_table[2 * m]? = some (i : Int) ∧
      c.se_table[2 * m + 1]? = some ((i * (i + 1) / 2 : Nat) : Int) ∧
      se_lookup c m = Except.ok (((i * (i + 1) / 2 : Nat) : Int), (i : Int)) ∧
      (0 : Int) ≤ (i : Int) - ((m : Int) - ((i * (i + 1) / 2 : Nat) : Int)) ∧
      (0 : Int) ≤ (m : Int) - ((i * (i + 1) / 2 : Nat) : Int) ∧
      ((i : Int) - ((m : Int) - ((i * (i + 1) / 2 : Nat) : Int)))
        + ((m : Int) - ((i * (i + 1) / 2 : Nat) : Int)) = (i : Int) ∧
      (m : Int) = (i : Int) * ((i : Int) + 1) / 2 + ((m : Int) - ((i * (i + 1) / 2 : Nat) : Int)) ∧
      (m = 0 → (i : Int) - ((m : Int) - ((i * (i + 1) / 2 : Nat) : Int)) = 0 ∧
        (m : Int) - ((i * (i + 1) / 2 : Nat) : Int) = 0) := by
  obtain ⟨hcfg, -, -⟩ := aec_decode_init_some h
  obtain ⟨hc, -, -, -, -⟩ := init_config_accepted hcfg
  obtain ⟨i, hi, t0, t1, r1, r2⟩ := se_table_rows m (by omega)
  have hsucc := tri_succ i
  refine ⟨i, by omega, r1, r2, fun j a b => tri_row_unique a b r1 r2, ?_, ?_, ?_, ?_, ?_, ?_,
    ?_, ?_⟩
  · rw [hc.se_table_eq]; exact t0
  · rw [hc.se_table_eq]; exact t1
  · unfold se_lookup
    rw [hc.se_table_eq, t0, t1]
    rfl
  · omega
  · omega
  · omega
  · have e : (i : Int) * ((i : Int) + 1) / 2 = ((i * (i + 1) / 2 : Nat) : Int) := by
      push_cast
      rfl
    rw [e]; omega
  · intro h0
    subst h0
    have : i * (i + 1) / 2 = 0 := by omega
    have hi0 : i = 0 := by
      by_contra hne
      have := tri_mono (show 1 ≤ i by omega)
      omega
    subst hi0
    simp

/-- Witness of C19: `m = 7` lies in row 3, whose first index is 6; the pair is `(2, 1)`. -/
theorem C19_se_pair_map_witness :
    ∃ i : Nat, i ≤ 12 ∧ i * (i + 1) / 2 ≤ 7 ∧ 7 < (i + 1) * (i + 2) / 2 ∧
      (config_of 8 8 1 no_flags).se_table[2 * 7]? = some (i : Int) ∧
      se_lookup (config_of 8 8 1 no_flags) 7
        = Except.ok (((i * (i + 1) / 2 : Nat) : Int), (i : Int)) ∧
      (7 : Int) = (i : Int) * ((i : Int) + 1) / 2 + ((7 : Int) - ((i * (i + 1) / 2 : Nat) : Int)) :=
  have h := C19_se_pair_map 8 8 1 no_flags blank_stream (config_of 8 8 1 no_flags)
    (init_stream blank_stream) rfl 7 (by decide)
  h.elim fun i hi =>
    ⟨i, hi.1, hi.2.1, hi.2.2.1, hi.2.2.2.2.1, hi.2.2.2.2.2.2.1, hi.2.2.2.2.2.2.2.2.2.2.1⟩

/-- With nothing between `flush_start` and `rsip`, `flush` changes nothing. -/
theorem flush_idle (c : Config) (s : aec_stream) (h : s.flush_start = s.rsip) :
    flush c s = s := by
  have hw : ∀ lo, s.rsip ≤ lo → rsi_words s lo s.rsip = [] := by
    intro lo hlo
    unfold rsi_words
    rw [Nat.sub_eq_zero_of_le hlo]
    rfl
  have hnr : ¬ (s.flush_start = 0 ∧ 0 < s.rsip) := by
    rintro ⟨a, b⟩; omega
  have hs : flush_samples c s = ([], s.last_out) := by
    unfold flush_samples
    by_cases hpp : c.pp = true
    · simp [hpp, hnr, hw s.flush_start (by omega), flush_loop]
    · simp [hpp, hw s.flush_start (by omega)]
  unfold flush
  simp only [hs, List.map_nil, List.flatten_nil, List.append_nil]
  rcases s with ⟨a1, a2, a3, a4, a5, a6, a7, a8, a9, a10, a11, a12, a13, a14, a15, a16, a17⟩
  simp only at h
  subst h
  rfl

theorem m_id_ref_fields (c : Config) (s : aec_stream) :
    (m_id_ref c s).bitp ≤ s.bitp ∧ (m_id_ref c s).next_in = s.next_in ∧
    (m_id_ref c s).next_out = s.next_out ∧ (m_id_ref c s).avail_out = s.avail_out ∧
    (m_id_ref c s).total_in = s.total_in ∧ (m_id_ref c s).total_out = s.total_out ∧
    (m_id_ref c s).rsip = s.rsip ∧ (m_id_ref c s).flush_start = s.flush_start ∧
    (m_id_ref c s).mode = s.mode ∧ (m_id_ref c s).last_out = s.last_out ∧
    (m_id_ref c s).rsi_buffer = s.rsi_buffer := by
  unfold m_id_ref
  split
  · refine ⟨?_, rfl, rfl, rfl, rfl, rfl, rfl, rfl, rfl, rfl, rfl⟩
    show (if c.flags.PAD_RSI = true then s.bitp - s.bitp % 8 else s.bitp) ≤ s.bitp
    split <;> omega
  · exact ⟨le_rfl, rfl, rfl, rfl, rfl, rfl, rfl, rfl, rfl, rfl, rfl⟩

theorem m_id_ref_idem (c : Config) (s : aec_stream) :
    m_id_ref c (m_id_ref c s) = m_id_ref c s := by
  unfold m_id_ref
  by_cases h : c.pp = true ∧ s.rsip = 0
  · by_cases hp : c.flags.PAD_RSI = true
    · have : s.bitp - s.bitp % 8 - (s.bitp - s.bitp % 8) % 8 = s.bitp - s.bitp % 8 := by omega
      simp [h, hp, this]
    · simp [h, hp]
  · simp [h]

/-- Without input and with fewer than `id_len` pending bits `m_id` returns `M_EXIT`. -/
theorem m_id_idle (c : Config) (t : aec_stream) (hi : t.next_in = [])
    (hb : t.bitp < c.id_len) : m_id c t = Except.ok (Status.M_EXIT, m_id_ref c t) := by
  obtain ⟨f1, f2, -⟩ := m_id_ref_fields c t
  have hask : bits_ask (m_id_ref c t) c.id_len = (false, m_id_ref c t) := by
    unfold bits_ask
    rw [f2, hi]
    show (decide (c.id_len ≤ _), _) = _
    have : ¬ c.id_len ≤ (m_id_ref c t).bitp := by omega
    simp [this]
  unfold m_id
  simp only [hask]
  rfl

theorem sub_size_t_cancel (x a : Nat) (hx : x < W64) (ha : a < W64) :
    sub_size_t ((x + a) % W64) a = x := by
  have h := sub_size_t_add ((x + a) % W64) a
  have h2 := sub_size_t_lt ((x + a) % W64) a
  rw [Nat.mod_mod] at h
  have hW : W64 = 2 ^ 64 := rfl
  have e1 := Nat.mod_add_div (sub_size_t ((x + a) % W64) a + a) W64
  have e2 := Nat.mod_add_div (x + a) W64
  rw [h] at e1
  have q1 : (sub_size_t ((x + a) % W64) a + a) / W64 < 2 := by
    apply Nat.div_lt_of_lt_mul; omega
  have q2 : (x + a) / W64 < 2 := by
    apply Nat.div_lt_of_lt_mul; omega
  interval_cases hq1 : (sub_size_t ((x + a) % W64) a + a) / W64 <;>
    interval_cases hq2 : (x + a) / W64 <;> omega

/-- The call of `aec_decode` on an idle decoder. -/
theorem aec_decode_idle (c : Config) (clz : Bool) (t : aec_stream) (hm : t.mode = Mode.m_id)
    (hi : t.next_in = []) (hf : t.flush_start = t.rsip) (hb : t.bitp < c.id_len)
    (h1 : t.total_in < W64) (h2 : t.total_out < W64) (h3 : t.avail_out < W64) :
    aec_decode clz c t = Except.ok (Ret.AEC_OK, m_id_ref c t) := by
  obtain ⟨t0, ht0⟩ : ∃ t0 : aec_stream, t0 = { t with
      total_in := (t.total_in + t.avail_in) % W64
      total_out := (t.total_out + t.avail_out) % W64 } := ⟨_, rfl⟩
  have g1 : t0.mode = Mode.m_id := by rw [ht0]; exact hm
  have g2 : t0.next_in = [] := by rw [ht0]; exact hi
  have g3 : t0.bitp < c.id_len := by rw [ht0]; exact hb
  have hrun : ∀ fuel, run_modes clz c (fuel + 1) t0
      = Except.ok (Status.M_EXIT, m_id_ref c t0) := by
    intro fuel
    unfold run_modes call_mode
    simp only [g1, m_id_idle c t0 g2 g3]
    rfl
  obtain ⟨f1, f2, f3, f4, f5, f6, f7, f8, f9, f10, f11⟩ := m_id_ref_fields c t0
  have hfl : (m_id_ref c t0).flush_start = (m_id_ref c t0).rsip := by
    rw [f7, f8, ht0]; exact hf
  have ha0 : t.avail_in = 0 := by unfold aec_stream.avail_in; rw [hi]; rfl
  unfold aec_decode
  simp only [← ht0]
  rw [show decode_fuel t0 = (6 * (t0.bitp + 8 * t0.next_in.length) + 7) + 1 from rfl, hrun]
  simp only [bind, Except.bind, pure, Except.pure, reduceCtorEq, if_false]
  rw [flush_idle c _ hfl]
  have e1 : sub_size_t (m_id_ref c t0).total_in (m_id_ref c t0).avail_in = t.total_in := by
    have : (m_id_ref c t0).avail_in = 0 := by
      unfold aec_stream.avail_in; rw [f2, g2]; rfl
    rw [this, f5, ht0]
    show sub_size_t ((t.total_in + t.avail_in) % W64) 0 = _
    rw [ha0]
    exact sub_size_t_cancel t.total_in 0 h1 (by unfold W64; norm_num)
  have e2 : sub_size_t (m_id_ref c t0).total_out (m_id_ref c t0).avail_out = t.total_out := by
    rw [f4, f6, ht0]
    exact sub_size_t_cancel t.total_out t.avail_out h2 h3
  rw [e1, e2, ht0]
  congr 2
  unfold m_id_ref
  split <;> rfl

/-- A call without input on a decoder that waits in `m_id` with fewer than
`id_len` pending bits and nothing to flush.  `aec_decode` returns `AEC_OK`; the call writes no
output byte, leaves `avail_out`, `total_out`, `total_in`, the RSI cursors and `last_out`
unchanged and consumes no input; the state it leaves is a fixed point of `aec_decode`, so the
same holds of every further call. -/
theorem idle_call_in_m_id (c : Config) (clz : Bool)
    (s : aec_stream) (hmode : s.mode = Mode.m_id) (hin : s.avail_in = 0)
    (hfl : s.flush_start = s.rsip) (hbit : s.bitp < c.id_len)
    (hti : s.total_in < 2 ^ 64) (hto : s.total_out < 2 ^ 64) (hao : s.avail_out < 2 ^ 64) :
    ∃ s' : aec_stream, aec_decode clz c s = Except.ok (Ret.AEC_OK, s') ∧
      s'.next_out = s.next_out ∧ s'.avail_out = s.avail_out ∧ s'.total_out = s.total_out ∧
      s'.total_in = s.total_in ∧ s'.avail_in = 0 ∧ s'.rsip = s.rsip ∧
      s'.flush_start = s.flush_start ∧ s'.last_out = s.last_out ∧ s'.mode = Mode.m_id ∧
      s'.bitp ≤ s.bitp ∧
      aec_decode clz c s' = Except.ok (Ret.AEC_OK, s') := by
  have hi : s.next_in = [] := List.length_eq_zero.mp hin
  obtain ⟨f1, f2, f3, f4, f5, f6, f7, f8, f9, f10, f11⟩ := m_id_ref_fields c s
  refine ⟨m_id_ref c s, aec_decode_idle c clz s hmode hi hfl hbit hti hto hao, f3, f4, f6, f5,
    ?_, f7, f8, f10, ?_, f1, ?_⟩
  · unfold aec_stream.avail_in; rw [f2, hi]; rfl
  · rw [f9]; exact hmode
  · have := aec_decode_idle c clz (m_id_ref c s) (by rw [f9]; exact hmode) (by rw [f2]; exact hi)
      (by rw [f7, f8]; exact hfl) (by omega) (by rw [f5]; exact hti) (by rw [f6]; exact hto)
      (by rw [f4]; exact hao)
    rw [m_id_ref_idem] at this
    exact this

/-- C13 (failing input): 8 bits per sample, block size 8, one block per RSI, no flags, 8 bytes of
output space, input `0x20` followed by 17 zero bytes.  `in_blklen` is 17.  `m_id` takes one
byte and reads the id 001 (split, `k = 0`); `m_split` finds `avail_in = 17 >= in_blklen` and
`avail_out = 8 >= out_blklen` and enters the fast path, where `direct_get_fs` finds no one bit
and keeps calling `fill_acc`, seven bytes at a time: the third call takes bytes past the end of
the input.  So does the variant of `direct_get_fs` without `__builtin_clzll`. -/
theorem C13_fast_path_overread :
    (config_of 8 8 1 no_flags).in_blklen = 17 ∧
    (m_id (config_of 8 8 1 no_flags)
        { init_stream blank_stream with
          next_in := 0x20 :: List.replicate 17 0, avail_out := 8 }).map
      (fun r => (r.1, r.2.mode, r.2.id, r.2.avail_in, r.2.avail_out,
        BUFFERSPACE (config_of 8 8 1 no_flags) r.2))
      = Except.ok (Status.M_CONTINUE, Mode.m_split, 1, 17, 8, true) ∧
    (aec_decode true (config_of 8 8 1 no_flags)
        { init_stream blank_stream with
          next_in := 0x20 :: List.replicate 17 0, avail_out := 8 }).map
      (fun r => r.1) = Except.error Fault.input_overread ∧
    (aec_decode false (config_of 8 8 1 no_flags)
        { init_stream blank_stream with
          next_in := 0x20 :: List.replicate 17 0, avail_out := 8 }).map
      (fun r => r.1) = Except.error Fault.input_overread :=
  ⟨rfl, rfl, rfl, rfl⟩

/-- The bytes `bits_ask` takes: as many as it needs and no more. -/
theorem bits_ask_loop_count (n : Nat) :
    ∀ (fuel : Nat) (s : aec_stream), s.next_in.length ≤ fuel →
      ∃ m, m ≤ s.next_in.length ∧ (bits_ask_loop fuel s n).2.next_in = s.next_in.drop m ∧
        (bits_ask_loop fuel s n).2.bitp = s.bitp + 8 * m ∧
        (m ≠ 0 → s.bitp + 8 * (m - 1) < n) := by
  intro fuel
  induction fuel with
  | zero =>
    intro s _
    exact ⟨0, Nat.zero_le _, rfl, rfl, fun h => absurd rfl h⟩
  | succ fuel ih =>
    intro s hlen
    unfold bits_ask_loop
    by_cases hlt : s.bitp < n
    · rw [if_pos hlt]
      rcases hin : s.next_in with _ | ⟨b, rest⟩
      · exact ⟨0, Nat.zero_le _, by simp [hin], rfl, fun h => absurd rfl h⟩
      · simp only
        have hl : rest.length ≤ fuel := by
          rw [hin] at hlen; simp at hlen; omega
        obtain ⟨m, h1, h2, h3, h4⟩ := ih
          { s with next_in := rest, acc := acc_push s.acc b, bitp := s.bitp + 8 } hl
        refine ⟨m + 1, by simp; exact h1, ?_, ?_, ?_⟩
        · rw [h2]; rfl
        · rw [h3]; show s.bitp + 8 + 8 * m = _; omega
        · intro _
          by_cases hm : m = 0
          · subst hm; simpa using hlt
          · have := h4 hm
            have e : ({ s with next_in := rest, acc := acc_push s.acc b, bitp := s.bitp + 8 }
                : aec_stream).bitp = s.bitp + 8 := rfl
            rw [e] at this
            have : m + 1 - 1 = (m - 1) + 1 := by omega
            omega
    · rw [if_neg hlt]
      exact ⟨0, Nat.zero_le _, rfl, rfl, fun h => absurd rfl h⟩

/-- The function `fill_acc` returns when the bytes it takes are there. -/
theorem fill_acc_ok (s : aec_stream) (h : (63 - s.bitp) / 8 ≤ s.next_in.length) :
    ∃ s', fill_acc s = Except.ok s' := by
  unfold fill_acc
  have e : (63 - s.bitp) >>> 3 = (63 - s.bitp) / 8 := by
    rw [Nat.shiftRight_eq_div_pow]
  simp only [e]
  rw [if_neg (by omega)]
  exact ⟨_, rfl⟩

/-- The function `direct_get` returns when the bytes `fill_acc` takes are there. -/
theorem direct_get_ok (s : aec_stream) (n : Nat)
    (h : n ≤ s.bitp ∨ (63 - s.bitp) / 8 ≤ s.next_in.length) :
    ∃ v s', direct_get s n = Except.ok (v, s') := by
  unfold direct_get
  by_cases hlt : s.bitp < n
  · rw [if_pos hlt]
    obtain ⟨s1, h1⟩ := fill_acc_ok s (by omega)
    rw [h1]
    exact ⟨_, _, rfl⟩
  · rw [if_neg hlt]
    exact ⟨_, _, rfl⟩

/-- C18: the bit reader.  For `1 ≤ n ≤ 32` and a reader with `bitp ≤ 63` pending bits:
`bits_ask` fails exactly when `bitp + 8 * avail_in < n`; it takes `m` whole bytes, the least
number that makes `bitp ≥ n` (all of them when it fails), and keeps every pending bit, the
unread bit stream `lbits` being the same before and after; on success `bits_get` is the number
spelled by the next `n` bits of the stream, most significant first, and `bits_drop` moves the
stream on by exactly `n` bits.  `direct_get` returns the same value and leaves the same stream,
and it does return when the bytes `fill_acc` takes are there. -/
theorem C18_bit_reader (s : aec_stream) (n : Nat) (hn1 : 1 ≤ n) (hn : n ≤ 32)
    (hb : s.bitp ≤ 63) :
    ((bits_ask s n).1 = false ↔ s.bitp + 8 * s.avail_in < n) ∧
    (∃ m, m ≤ s.avail_in ∧ (bits_ask s n).2.next_in = s.next_in.drop m ∧
      (bits_ask s n).2.bitp = s.bitp + 8 * m ∧ (m ≠ 0 → s.bitp + 8 * (m - 1) < n)) ∧
    lbits (bits_ask s n).2 = lbits s ∧ (bits_ask s n).2.bitp ≤ 63 ∧
    ((bits_ask s n).1 = true →
      n ≤ (bits_ask s n).2.bitp ∧
      bits_get (bits_ask s n).2 n = bits_val ((lbits s).take n) ∧
      lbits (bits_drop (bits_ask s n).2 n) = (lbits s).drop n ∧
      (lbits (bits_drop (bits_ask s n).2 n)).length + n = (lbits s).length) ∧
    (∀ v s', direct_get s n = Except.ok (v, s') →
      (bits_ask s n).1 = true ∧ v = bits_get (bits_ask s n).2 n ∧
      lbits s' = lbits (bits_drop (bits_ask s n).2 n)) ∧
    ((n ≤ s.bitp ∨ (63 - s.bitp) / 8 ≤ s.avail_in) →
      ∃ v s', direct_get s n = Except.ok (v, s')) := by
  obtain ⟨ni, a, b, e1, e2, e3, e4, e5, e6⟩ := bits_ask_spec s n (by omega) hb
  have hlen := lbits_length s
  have hl2 : lbits (bits_ask s n).2 = lbits s := by
    rw [e1]; exact e2
  have hsucc : (bits_ask s n).1 = true →
      n ≤ (bits_ask s n).2.bitp ∧
      bits_get (bits_ask s n).2 n = bits_val ((lbits s).take n) ∧
      lbits (bits_drop (bits_ask s n).2 n) = (lbits s).drop n ∧
      (lbits (bits_drop (bits_ask s n).2 n)).length + n = (lbits s).length := by
    intro ht
    have hle : n ≤ (lbits s).length := by
      rw [e1] at ht; simpa using ht
    have hnb : n ≤ (bits_ask s n).2.bitp := by
      rw [e1]; exact e3 hle
    refine ⟨hnb, ?_, ?_, ?_⟩
    · rw [bits_get_eq _ n hnb, hl2]
    · rw [lbits_bits_drop _ n hnb, hl2]
    · rw [lbits_bits_drop _ n hnb, hl2, List.length_drop]; omega
  refine ⟨?_, ?_, hl2, ?_, hsucc, ?_, ?_⟩
  · rw [e1]
    unfold aec_stream.avail_in
    simp only [decide_eq_false_iff_not, not_le]
    rw [hlen]
  · exact bits_ask_loop_count n _ s le_rfl
  · rw [e1]; exact e5
  · intro v s' hd
    obtain ⟨d1, d2, d3, -⟩ := direct_get_spec s s' n v hb hn hd
    have ht : (bits_ask s n).1 = true := by
      rw [e1]; simpa using d1
    obtain ⟨-, g2, g3, -⟩ := hsucc ht
    exact ⟨ht, by rw [g2, d2], by rw [g3, d3]⟩
  · intro h
    exact direct_get_ok s n h

/-- Witness of C18: an empty accumulator in front of the bytes `0xA5 0x3C`; the next 12 bits
are `1010 0101 0011`, the number `0xA53`, and `bits_ask 12` takes both bytes. -/
theorem C18_bit_reader_witness :
    (bits_ask { blank_stream with next_in := [0xA5, 0x3C] } 12).1 = true ∧
    bits_get (bits_ask { blank_stream with next_in := [0xA5, 0x3C] } 12).2 12 = 0xA53 ∧
    (bits_ask { blank_stream with next_in := [0xA5, 0x3C] } 12).2.bitp = 16 ∧
    lbits (bits_drop (bits_ask { blank_stream with next_in := [0xA5, 0x3C] } 12).2 12)
      = [true, true, false, false] :=
  have h := C18_bit_reader { blank_stream with next_in := [0xA5, 0x3C] } 12 (by decide)
    (by decide) (by decide)
  ⟨by decide, (h.2.2.2.2.1 (by decide)).2.1.trans (by decide), by decide,
    (h.2.2.2.2.1 (by decide)).2.2.1.trans (by decide)⟩

theorem lbits_drop_acc (s : aec_stream) (k : Nat) (hk : k ≤ s.bitp) :
    lbits { s with bitp := s.bitp - k } = (lbits s).drop k := by
  unfold lbits
  rw [List.drop_append_of_le_length (by rw [acc_bits_length]; exact hk), acc_bits_drop _ _ _ hk]

/-- C16 (amended): with `PAD_RSI` set, `m_id` drops pending bits only when the preprocessor is
on.  With `PREPROCESS` on and `rsip` at the start of the RSI buffer it discards exactly
`bitp mod 8` pending bits (at most 7), after which the number of pending bits is a multiple of
8, so the next bit read is the first bit of an input byte; in every other case (another block,
or `PREPROCESS` off) it discards nothing.  When `m_id` suspends, entering it again discards no
further bit. -/
theorem C16_pad_rsi_alignment (bps bs rsi : Nat) (flags : Flags) (strm0 : aec_stream)
    (c : Config) (s0 : aec_stream)
    (h : aec_decode_init bps bs rsi flags strm0 = (Ret.AEC_OK, some (c, s0)))
    (hpad : flags.PAD_RSI = true) (s : aec_stream) (hb : s.bitp ≤ 63) :
    (flags.DATA_PREPROCESS = true → s.rsip = 0 →
      (m_id_ref c s).bitp = s.bitp - s.bitp % 8 ∧ (m_id_ref c s).bitp % 8 = 0 ∧
      s.bitp % 8 ≤ 7 ∧ lbits (m_id_ref c s) = (lbits s).drop (s.bitp % 8) ∧
      (m_id_ref c s).next_in = s.next_in) ∧
    (¬ (flags.DATA_PREPROCESS = true ∧ s.rsip = 0) →
      (m_id_ref c s).bitp = s.bitp ∧ lbits (m_id_ref c s) = lbits s) ∧
    (∀ s', m_id c s = Except.ok (Status.M_EXIT, s') →
      lbits s' = lbits (m_id_ref c s) ∧ (m_id_ref c s').bitp = s'.bitp ∧
      lbits (m_id_ref c s') = lbits s') := by
  obtain ⟨hcfg, -, -⟩ := aec_decode_init_some h
  obtain ⟨hc, -, -, -, hf⟩ := init_config_accepted hcfg
  have hppeq : c.pp = flags.DATA_PREPROCESS := by rw [hc.pp_eq, hf]
  have hpadc : c.flags.PAD_RSI = true := by rw [hf]; exact hpad
  have hil : c.id_len ≤ 5 := (accepted_id_len_range hc).2
  have case1 : ∀ t : aec_stream, c.pp = true → t.rsip = 0 →
      m_id_ref c t = { t with ref := 1, bitp := t.bitp - t.bitp % 8 } := by
    intro t h1 h2
    unfold m_id_ref
    simp [h1, h2, hpadc]
  have case2 : ∀ t : aec_stream, ¬ (c.pp = true ∧ t.rsip = 0) →
      m_id_ref c t = { t with ref := 0 } := by
    intro t h1
    unfold m_id_ref
    simp only [h1, if_false]
  refine ⟨?_, ?_, ?_⟩
  · intro hpp hr
    rw [case1 s (by rw [hppeq]; exact hpp) hr]
    refine ⟨rfl, ?_, by omega, ?_, rfl⟩
    · show (s.bitp - s.bitp % 8) % 8 = 0
      omega
    · exact lbits_drop_acc s (s.bitp % 8) (Nat.mod_le _ _)
  · intro hn
    rw [case2 s (by rw [hppeq]; exact hn)]
    exact ⟨rfl, rfl⟩
  · intro s' hm
    unfold m_id at hm
    obtain ⟨f1, f2, f3, f4, f5, f6, f7, f8, f9, f10, f11⟩ := m_id_ref_fields c s
    obtain ⟨ni, a, b, e1, e2, e3, e4, e5, e6⟩ :=
      bits_ask_spec (m_id_ref c s) c.id_len (by omega) (by omega)
    obtain ⟨m, m1, m2, m3, m4⟩ := bits_ask_loop_count c.id_len _ (m_id_ref c s) le_rfl
    have hbits : bits_ask_loop (m_id_ref c s).next_in.length (m_id_ref c s) c.id_len
        = bits_ask (m_id_ref c s) c.id_len := rfl
    rw [hbits] at m2 m3
    by_cases hr : (bits_ask (m_id_ref c s) c.id_len).1 = false
    · simp only [hr, if_true, pure, Except.pure, Except.ok.injEq, Prod.mk.injEq, true_and] at hm
      subst hm
      have hl : lbits (bits_ask (m_id_ref c s) c.id_len).2 = lbits (m_id_ref c s) := by
        rw [e1]; exact e2
      have hrs : (bits_ask (m_id_ref c s) c.id_len).2.rsip = s.rsip := by
        rw [e1]; exact f7
      refine ⟨hl, ?_⟩
      by_cases hcase : c.pp = true ∧ s.rsip = 0
      · have hb8 : (m_id_ref c s).bitp % 8 = 0 := by
          rw [case1 s hcase.1 hcase.2]
          show (s.bitp - s.bitp % 8) % 8 = 0
          omega
        have hb8' : (bits_ask (m_id_ref c s) c.id_len).2.bitp % 8 = 0 := by
          rw [m3]; omega
        rw [case1 _ hcase.1 (by rw [hrs]; exact hcase.2)]
        refine ⟨?_, ?_⟩
        · show (bits_ask (m_id_ref c s) c.id_len).2.bitp
              - (bits_ask (m_id_ref c s) c.id_len).2.bitp % 8 = _
          omega
        · have := lbits_drop_acc (bits_ask (m_id_ref c s) c.id_len).2
            ((bits_ask (m_id_ref c s) c.id_len).2.bitp % 8) (Nat.mod_le _ _)
          rw [hb8', List.drop_zero] at this
          rw [← this, hb8']
          rfl
      · rw [case2 _ (by rw [hrs]; exact hcase)]
        exact ⟨rfl, rfl⟩
    · rw [if_neg hr] at hm
      simp only at hm
      split at hm
      · cases hm
      · simp only [pure, Except.pure, Except.ok.injEq, Prod.mk.injEq, reduceCtorEq,
          false_and] at hm

/-- C16 (counterexample): 8 bits per sample, block size 8, one block per RSI, `PAD_RSI` set and
`PREPROCESS` not.  At the start of an RSI with 5 pending bits `m_id` drops none of them.  On
two RSIs, each an uncompressed block padded to a byte boundary, the second block id is read
from the padding bits of the first RSI and the call returns `AEC_DATA_ERROR` after the 8
samples of the first RSI. -/
theorem C16_counterexample :
    (m_id_ref (config_of 8 8 1 { no_flags with PAD_RSI := true })
        { init_stream blank_stream with bitp := 5 }).bitp = 5 ∧
    (aec_decode true (config_of 8 8 1 { no_flags with PAD_RSI := true })
        { init_stream blank_stream with
          next_in := [0xE0, 0x00, 0x20, 0x40, 0x60, 0x80, 0xA0, 0xC0, 0xE0,
            0xE0, 0x00, 0x20, 0x40, 0x60, 0x80, 0xA0, 0xC0, 0xE0]
          avail_out := 100 }).map
      (fun r => (r.1, r.2.next_out))
      = Except.ok (Ret.AEC_DATA_ERROR, [0, 1, 2, 3, 4, 5, 6, 7]) :=
  ⟨rfl, rfl⟩

/-- Witness of C16 (amended): 8 bits per sample with `PAD_RSI` and `PREPROCESS`; at the start
of an RSI with 13 pending bits `m_id` drops 5 of them. -/
theorem C16_pad_rsi_alignment_witness :
    (m_id_ref (config_of 8 8 1 { no_flags with PAD_RSI := true, DATA_PREPROCESS := true })
        { init_stream blank_stream with bitp := 13 }).bitp = 8 ∧
    lbits (m_id_ref (config_of 8 8 1 { no_flags with PAD_RSI := true, DATA_PREPROCESS := true })
        { init_stream blank_stream with bitp := 13 })
      = (lbits { init_stream blank_stream with bitp := 13 }).drop 5 :=
  have h := C16_pad_rsi_alignment 8 8 1 { no_flags with PAD_RSI := true, DATA_PREPROCESS := true }
    blank_stream (config_of 8 8 1 { no_flags with PAD_RSI := true, DATA_PREPROCESS := true })
    (init_stream blank_stream) rfl rfl { init_stream blank_stream with bitp := 13 } (by decide)
  ⟨(h.1 rfl rfl).1, (h.1 rfl rfl).2.2.2.1⟩

theorem replicate_false_prefix {z b : Nat} {rest X : List Bool}
    (h : List.replicate b false ++ X = List.replicate z false ++ true :: rest) :
    b ≤ z ∧ X = List.replicate (z - b) false ++ true :: rest := by
  have hb : b ≤ z := by
    by_contra hlt
    have hzb : z < b := by omega
    have h1 : (List.replicate b false ++ X)[z]? = some false := by
      rw [List.getElem?_append_left (by simpa using hzb), List.getElem?_replicate, if_pos hzb]
    have h2 : (List.replicate z false ++ true :: rest)[z]? = some true := by
      rw [List.getElem?_append_right (by simp)]
      simp
    rw [h] at h1
    rw [h1] at h2
    cases h2
  refine ⟨hb, ?_⟩
  have := congrArg (List.drop b) h
  rw [List.drop_append_of_le_length (by simp), List.drop_append_of_le_length (by simpa using hb)]
    at this
  simpa using this

/-- The loop `while (state->acc == 0)` of `direct_get_fs` returns when the input reaches 56
bits beyond the fundamental sequence. -/
theorem direct_get_fs_fill_ok : ∀ (fuel fs : Nat) (t : aec_stream) (z : Nat) (rest : List Bool),
    t.bitp ≤ 63 → t.acc < 2 ^ t.bitp →
    lbits t = List.replicate z false ++ true :: rest → z + 56 ≤ (lbits t).length →
    t.next_in.length / 7 + 1 ≤ fuel →
    ∃ r, direct_get_fs_fill fuel fs t = Except.ok r := by
  intro fuel
  induction fuel with
  | zero => intro fs t z rest _ _ _ _ hf; omega
  | succ fuel ih =>
    intro fs t z rest hb ha hbits hlen hf
    unfold direct_get_fs_fill
    by_cases h0 : t.acc = 0
    · rw [if_pos h0]
      have hl : lbits t = List.replicate t.bitp false ++ bytes_bits t.next_in := by
        unfold lbits; rw [h0, acc_bits_zero_acc]
      rw [hl] at hbits
      obtain ⟨hbz, hX⟩ := replicate_false_prefix hbits
      rw [lbits_length] at hlen
      have h7 : 7 ≤ t.next_in.length := by omega
      have hfill : fill_acc { t with bitp := 0 }
          = Except.ok { t with
              acc := (t.next_in.take 7).foldl acc_push t.acc
              next_in := t.next_in.drop 7
              bitp := 56 } := by
        unfold fill_acc
        have e : (63 - 0) >>> 3 = 7 := by decide
        simp only [e]
        rw [if_neg (by omega)]
        rfl
      rw [hfill]
      simp only [bind, Except.bind]
      obtain ⟨g1, g2, g3, g4, g5⟩ := fill_acc_spec { t with bitp := 0 } _ (by show 0 ≤ 63; omega) hfill
      have g6 := fill_acc_lt { t with bitp := 0 } _ (by show 0 ≤ 63; omega)
        (by show t.acc < 2 ^ 0; rw [h0]; norm_num) hfill
      have hl0 : lbits { t with bitp := 0 } = bytes_bits t.next_in := by
        unfold lbits; rw [acc_bits_zero]; rfl
      apply ih _ _ (z - t.bitp) rest g2 g6
      · rw [g1, hl0, hX]
      · rw [g1, hl0, bytes_bits_length]; omega
      · show (t.next_in.drop 7).length / 7 + 1 ≤ fuel
        rw [List.length_drop]
        have : (t.next_in.length - 7) / 7 + 1 = t.next_in.length / 7 := by omega
        omega
    · rw [if_neg h0]
      exact ⟨_, rfl⟩

/-- The bit loop of `direct_get_fs` returns when a one bit lies at or below `bitp`. -/
theorem direct_get_fs_scan_ok : ∀ (fuel fs : Nat) (t : aec_stream),
    (∃ j, j ≤ t.bitp ∧ t.acc.testBit j = true) → t.bitp + 1 ≤ fuel →
    ∃ r, direct_get_fs_scan fuel fs t = Except.ok r := by
  intro fuel
  induction fuel with
  | zero => intro fs t _ hf; omega
  | succ fuel ih =>
    intro fs t hj hf
    obtain ⟨j, hj1, hj2⟩ := hj
    unfold direct_get_fs_scan
    by_cases hbit : t.acc &&& (1 <<< t.bitp) = 0
    · rw [if_pos hbit]
      have hbf : t.acc.testBit t.bitp = false := (and_one_shiftLeft_eq_zero _ _).mp hbit
      have hne : j ≠ t.bitp := by
        rintro rfl; rw [hbf] at hj2; cases hj2
      rw [if_neg (by omega)]
      apply ih
      · exact ⟨j, by show j ≤ t.bitp - 1; omega, hj2⟩
      · show t.bitp - 1 + 1 ≤ fuel; omega
    · rw [if_neg hbit]
      exact ⟨_, rfl⟩

/-- The function `direct_get_fs` returns when the input reaches 56 bits beyond the
fundamental sequence. -/
theorem direct_get_fs_ok (clz : Bool) (s : aec_stream) (z : Nat) (rest : List Bool)
    (hb : s.bitp ≤ 63) (hbits : lbits s = List.replicate z false ++ true :: rest)
    (hlen : z + 56 ≤ (lbits s).length) :
    ∃ r, direct_get_fs clz s = Except.ok r := by
  have hmask : lbits { s with acc := s.acc &&& ((1 <<< s.bitp) - 1) } = lbits s := by
    apply lbits_congr_acc
    intro j hj
    rw [Nat.one_shiftLeft, Nat.testBit_and, Nat.testBit_two_pow_sub_one]
    simp [hj]
  have hlt0 : s.acc &&& ((1 <<< s.bitp) - 1) < 2 ^ s.bitp := by
    rw [Nat.one_shiftLeft, Nat.and_pow_two_sub_one_eq_mod]
    exact Nat.mod_lt _ (Nat.pow_pos (by norm_num))
  obtain ⟨r, hr⟩ := direct_get_fs_fill_ok (s.next_in.length / 7 + 2) 0
    { s with acc := s.acc &&& ((1 <<< s.bitp) - 1) } z rest hb hlt0
    (by rw [hmask]; exact hbits) (by rw [hmask]; exact hlen)
    (by show s.next_in.length / 7 + 1 ≤ _; omega)
  obtain ⟨z1, e1, e2, eb, e3, e4, e5, e6, e7⟩ :=
    direct_get_fs_fill_spec _ 0 { s with acc := s.acc &&& ((1 <<< s.bitp) - 1) } r.2 r.1 hb hlt0 hr
  unfold direct_get_fs
  simp only [hr, bind, Except.bind]
  cases clz
  · simp only [Bool.false_eq_true, if_false]
    have hb0 : r.2.bitp ≠ 0 := by
      intro h0
      rw [h0] at e4
      simp at e4
      exact e3 e4
    rw [if_neg hb0]
    have hp : r.2.acc.log2 < r.2.bitp := (Nat.log2_lt e3).mpr e4
    exact direct_get_fs_scan_ok _ _ _ ⟨r.2.acc.log2, by show _ ≤ r.2.bitp - 1; omega,
      testBit_log2 _ e3⟩ (by show r.2.bitp - 1 + 1 ≤ r.2.bitp + 1; omega)
  · simp only [if_true]
    exact ⟨_, rfl⟩

/-- The suspended and resumed `fs_ask` finds what a scan of the whole bit stream finds. -/
theorem fs_ask_chunks_spec (rest : List Bool) (F : Nat) :
    ∀ (chunks : List (List Byte)) (s : aec_stream), s.bitp ≤ 63 →
      L_fs_scan (lbits s ++ bytes_bits chunks.flatten) s.fs = (true, true :: rest, F) →
      (fs_ask_chunks s chunks).1 = true ∧ (fs_ask_chunks s chunks).2.fs = F ∧
      (fs_ask_chunks s chunks).2.bitp ≤ 63 ∧ 1 ≤ (fs_ask_chunks s chunks).2.bitp ∧
      ∃ k, lbits (fs_ask_chunks s chunks).2 ++ bytes_bits (chunks.drop k).flatten
        = true :: rest := by
  intro chunks
  induction chunks with
  | nil =>
    intro s hb h
    obtain ⟨ni, a, b, f, e1, e2, e3, e4, e5⟩ := fs_ask_spec s hb
    simp only [List.flatten_nil, bytes_bits_nil, List.append_nil] at h
    unfold fs_ask_chunks
    rw [e1, h]
    rw [h] at e2 e3 e4
    refine ⟨rfl, e3, e5, e4 rfl, 0, ?_⟩
    simp only [List.drop_nil, List.flatten_nil, bytes_bits_nil, List.append_nil]
    exact e2
  | cons ch more ih =>
    intro s hb h
    obtain ⟨ni, a, b, f, e1, e2, e3, e4, e5⟩ := fs_ask_spec s hb
    unfold fs_ask_chunks
    simp only
    by_cases ht : (L_fs_scan (lbits s) s.fs).1 = true
    · have hx := L_fs_scan_ext_true (lbits s) s.fs (bytes_bits (ch :: more).flatten) ht
      rw [h] at hx
      simp only [Prod.mk.injEq, true_and] at hx
      rw [e1, if_pos ht]
      refine ⟨ht, ?_, e5, e4 ht, 0, ?_⟩
      · show f = F
        rw [e3]; exact hx.2.symm
      · show acc_bits a b ++ bytes_bits ni ++ _ = _
        rw [e2, List.drop_zero]
        exact hx.1.symm
    · have hf : (L_fs_scan (lbits s) s.fs).1 = false := by
        simpa using ht
      have hx := L_fs_scan_ext_false (lbits s) s.fs (bytes_bits (ch :: more).flatten) hf
      rw [e1, if_neg ht]
      have hl : lbits { ({ s with next_in := ni, acc := a, bitp := b, fs := f } : aec_stream)
          with next_in := ni ++ ch }
          = (L_fs_scan (lbits s) s.fs).2.1 ++ bytes_bits ch := by
        rw [← e2]
        unfold lbits
        simp only [bytes_bits_append, List.append_assoc]
      have hinv : L_fs_scan
          (lbits { ({ s with next_in := ni, acc := a, bitp := b, fs := f } : aec_stream)
            with next_in := ni ++ ch } ++ bytes_bits more.flatten) f
          = (true, true :: rest, F) := by
        rw [hl, e3, List.append_assoc, ← bytes_bits_append]
        have : ch ++ more.flatten = (ch :: more).flatten := by simp
        rw [this, hx, h]
      obtain ⟨i1, i2, i3, i4, k, i5⟩ := ih _ (by show b ≤ 63; exact e5) hinv
      refine ⟨i1, i2, i3, i4, k + 1, ?_⟩
      simpa using i5

theorem replicate_true_unique {a b : Nat} {X Y : List Bool}
    (h : List.replicate a false ++ true :: X = List.replicate b false ++ true :: Y) :
    a = b ∧ X = Y := by
  obtain ⟨h1, h2⟩ := replicate_false_prefix h
  obtain ⟨h3, -⟩ := replicate_false_prefix h.symm
  have hab : a = b := by omega
  subst hab
  simp only [Nat.sub_self, List.replicate_zero, List.nil_append, List.cons.injEq, true_and] at h2
  exact ⟨rfl, h2⟩

/-- C17 (amended): the fundamental-sequence readers agree.  Let the unread bits of the reader
(`bitp ≤ 63` pending bits, `fs = 0`) followed by the bits of the chunks still to come be `z`
zero bits, a one bit and `rest`, with `z < 2 ^ 31`.  The slow reader `fs_ask`, called again with
the next chunk appended each time it fails for lack of input, succeeds with `state->fs = z`, and
after `fs_drop` the unread bits are `rest`.  The fast reader `direct_get_fs`, with or without
`__builtin_clzll`, given the whole input, returns `z` and leaves the unread bits `rest`
whenever it returns, and it does return when the input (`bitp` pending bits and the unread
bytes) reaches at least 56 bits beyond the `z` zero bits, so that `fill_acc` finds the seven
bytes it takes. -/
theorem C17_fs_readers_agree (clz : Bool) (s : aec_stream) (z : Nat) (rest : List Bool)
    (chunks : List (List Byte)) (hb : s.bitp ≤ 63) (hfs : s.fs = 0) (hz : z < 2 ^ 31)
    (hbits : lbits s ++ bytes_bits chunks.flatten = List.replicate z false ++ true :: rest) :
    (fs_ask_chunks s chunks).1 = true ∧ (fs_ask_chunks s chunks).2.fs = z ∧
    (∃ k, lbits (fs_drop (fs_ask_chunks s chunks).2) ++ bytes_bits (chunks.drop k).flatten
      = rest) ∧
    (∀ v s', direct_get_fs clz { s with next_in := s.next_in ++ chunks.flatten }
        = Except.ok (v, s') → v = z ∧ lbits s' = rest) ∧
    (z + 56 ≤ s.bitp + 8 * (s.avail_in + chunks.flatten.length) →
      ∃ v s', direct_get_fs clz { s with next_in := s.next_in ++ chunks.flatten }
        = Except.ok (v, s')) := by
  have hscan : L_fs_scan (lbits s ++ bytes_bits chunks.flatten) s.fs
      = (true, true :: rest, z) := by
    rw [hbits, L_fs_scan_run, hfs, Nat.zero_add]
  obtain ⟨c1, c2, c3, c4, k, c5⟩ := fs_ask_chunks_spec rest z chunks s hb hscan
  have hall : lbits { s with next_in := s.next_in ++ chunks.flatten }
      = List.replicate z false ++ true :: rest := by
    rw [lbits_append]; exact hbits
  refine ⟨c1, c2, ⟨k, ?_⟩, ?_, ?_⟩
  · rw [lbits_fs_drop _ c4]
    have hlen : 1 ≤ (lbits (fs_ask_chunks s chunks).2).length := by
      rw [lbits_length]; omega
    rw [← List.drop_append_of_le_length hlen, c5]
    rfl
  · intro v s' hd
    obtain ⟨z', d1, d2, -⟩ := direct_get_fs_spec clz
      { s with next_in := s.next_in ++ chunks.flatten } s' v hb hd
    rw [hall] at d1
    obtain ⟨e1, e2⟩ := replicate_true_unique d1
    subst e1
    refine ⟨?_, e2.symm⟩
    rw [d2]
    apply Nat.mod_eq_of_lt
    have : (2 : Nat) ^ 31 < W32 := by unfold W32; norm_num
    omega
  · intro hlen
    obtain ⟨r, hr⟩ := direct_get_fs_ok clz { s with next_in := s.next_in ++ chunks.flatten }
      z rest hb hall (by
        rw [lbits_append, List.length_append, bytes_bits_length, lbits_length]
        unfold aec_stream.avail_in at hlen
        omega)
    exact ⟨r.1, r.2, hr⟩

/-- C17 (counterexample): an empty accumulator in front of the single input byte `0x80`.  The
remaining input contains a one bit and the slow reader finds the empty fundamental sequence,
`fs = 0`; the fast reader starts by taking seven bytes where one is left. -/
theorem C17_counterexample :
    (fs_ask { blank_stream with next_in := [0x80] }).1 = true ∧
    (fs_ask { blank_stream with next_in := [0x80] }).2.fs = 0 ∧
    (direct_get_fs true { blank_stream with next_in := [0x80] }).map (fun r => r.1)
      = Except.error Fault.input_overread ∧
    (direct_get_fs false { blank_stream with next_in := [0x80] }).map (fun r => r.1)
      = Except.error Fault.input_overread :=
  ⟨rfl, rfl, rfl, rfl⟩

/-- Witness of C17 (amended): the byte `0x00` at hand and the chunk `0x10 1 2 3 4 5 6 7` still
to come; the fundamental sequence is 11 zero bits and a one bit. -/
theorem C17_fs_readers_agree_witness :
    (fs_ask { blank_stream with next_in := [0x00] }).1 = false ∧
    (fs_ask_chunks { blank_stream with next_in := [0x00] } [[0x10, 1, 2, 3, 4, 5, 6, 7]]).2.fs
      = 11 ∧
    ∃ v s', direct_get_fs true
      { blank_stream with next_in := [0x00] ++ [[0x10, 1, 2, 3, 4, 5, 6, 7]].flatten }
        = Except.ok (v, s') ∧ v = 11 :=
  have h := C17_fs_readers_agree true { blank_stream with next_in := [0x00] } 11
    ((bytes_bits [0x10, 1, 2, 3, 4, 5, 6, 7]).drop 4) [[0x10, 1, 2, 3, 4, 5, 6, 7]]
    (by decide) rfl (by norm_num) rfl
  ⟨rfl, h.2.1,
    (h.2.2.2.2 (by decide)).elim fun v hv => hv.elim fun s' hs =>
      ⟨v, s', hs, (h.2.2.2.1 v s' hs).1⟩⟩

theorem L_fs_scan_zeros : ∀ (l : List Bool) (fs : Nat),
    ∃ d, l = List.replicate d false ++ (L_fs_scan l fs).2.1 ∧ (L_fs_scan l fs).2.2 = fs + d
  | [], _ => ⟨0, by simp [L_fs_scan]⟩
  | true :: rest, _ => ⟨0, by simp [L_fs_scan]⟩
  | [false], _ => ⟨0, by simp [L_fs_scan]⟩
  | false :: b :: rest, fs => by
    obtain ⟨d, h1, h2⟩ := L_fs_scan_zeros (b :: rest) (fs + 1)
    refine ⟨d + 1, ?_, ?_⟩
    · simp only [L_fs_scan, List.replicate_succ, List.cons_append]
      rw [← h1]
    · simp only [L_fs_scan]
      rw [h2]; omega

/-- What `bits_ask` leaves alone. -/
theorem bits_ask_kept (s : aec_stream) (n : Nat) (hn : n ≤ 56) (hb : s.bitp ≤ 63) :
    only_reader_moved s (bits_ask s n).2 ∧ lbits (bits_ask s n).2 = lbits s ∧
      (bits_ask s n).2.fs = s.fs ∧ (bits_ask s n).2.bitp ≤ 63 := by
  obtain ⟨ni, a, b, e1, e2, e3, e4, e5, e6⟩ := bits_ask_spec s n hn hb
  rw [e1]
  exact ⟨⟨rfl, rfl, rfl, rfl, rfl, rfl, rfl, rfl, rfl, rfl, rfl⟩, e2, rfl, e5⟩

/-- What `fs_ask` leaves alone: it moves zero bits into `state->fs` and nothing else. -/
theorem fs_ask_kept (s : aec_stream) (hb : s.bitp ≤ 63) :
    only_reader_moved s (fs_ask s).2 ∧
      (∃ d, lbits s = List.replicate d false ++ lbits (fs_ask s).2 ∧
        (fs_ask s).2.fs = s.fs + d) ∧
      ((fs_ask s).1 = true → ∃ rest, lbits (fs_ask s).2 = true :: rest) := by
  obtain ⟨ni, a, b, f, e1, e2, e3, e4, e5⟩ := fs_ask_spec s hb
  obtain ⟨d, d1, d2⟩ := L_fs_scan_zeros (lbits s) s.fs
  rw [e1]
  refine ⟨⟨rfl, rfl, rfl, rfl, rfl, rfl, rfl, rfl, rfl, rfl, rfl⟩, ⟨d, ?_, ?_⟩, ?_⟩
  · show lbits s = _ ++ (acc_bits a b ++ bytes_bits ni)
    rw [e2]; exact d1
  · show f = _
    rw [e3, d2]
  · intro ht
    obtain ⟨rest, hr⟩ := L_fs_scan_true_head _ _ ht
    exact ⟨rest, by show acc_bits a b ++ bytes_bits ni = _; rw [e2, hr]⟩

/-- The words `flush` emits are those below `rsip`. -/
theorem flush_samples_local (c : Config) (s t : aec_stream) (hfs : s.flush_start ≤ s.rsip)
    (h1 : t.flush_start = s.flush_start) (h2 : t.rsip = s.rsip) (h4 : t.last_out = s.last_out)
    (h3 : ∀ j, j < s.rsip → t.rsi_buffer j = s.rsi_buffer j) :
    flush_samples c t = flush_samples c s := by
  have := flush_samples_advance c s t 0 hfs h1 (by rw [h2]; rfl) h3 h4
  rw [this]
  simp [emit_words]

/-- The function `put_sample` leaves the bit reader and the counter `i` alone. -/
theorem put_sample_reader (c : Config) (s s1 : aec_stream) (w : Nat)
    (h : put_sample c s w = Except.ok s1) :
    s1.acc = s.acc ∧ s1.bitp = s.bitp ∧ s1.next_in = s.next_in ∧ s1.fs = s.fs ∧ s1.i = s.i := by
  unfold put_sample rsi_store at h
  by_cases hr : s.rsip < c.rsi_size
  · rw [if_pos hr] at h
    simp only [bind, Except.bind, pure, Except.pure, Except.ok.injEq] at h
    subst h
    unfold check_rsi_end
    split
    · exact ⟨rfl, rfl, rfl, rfl, rfl⟩
    · exact ⟨rfl, rfl, rfl, rfl, rfl⟩
  · rw [if_neg hr] at h
    cases h

/-- C15: no partial sample.  A pass of a slow-path loop that cannot complete its sample
returns `M_EXIT` with the RSI buffer, `rsip`, `flush_start`, `avail_out`, the output and the
counters as they were at the start of the pass; of the bit reader only the split between
accumulator and input has changed, and zero bits of a fundamental sequence have been counted
into `state->fs`.  This holds of `copysample`, of the passes of `m_split_fs`,
`m_split_output` and `m_zero_output` and of a pass of `m_se_decode` that stops before the
first sample of its pair; a pass of `m_se_decode` that runs out of space after the first
sample of the pair returns the state that sample left, with `state->fs` and the one bit that
ends the fundamental sequence still in place.  The flush that follows reads the RSI buffer
below `rsip` only, so a slot at or above `rsip`, such as one that holds `fs << k` without its
tail, is not emitted. -/
theorem C15_no_partial_sample (bps bs rsi : Nat) (flags : Flags) (strm0 : aec_stream)
    (c : Config) (s0 : aec_stream)
    (h : aec_decode_init bps bs rsi flags strm0 = (Ret.AEC_OK, some (c, s0)))
    (s : aec_stream) (hb : s.bitp ≤ 63) (k : Nat) (hk : k ≤ 32) (fuel : Nat) :
    (∀ s', copysample c s = Except.ok (false, s') →
      only_reader_moved s s' ∧ lbits s' = lbits s ∧ s'.fs = s.fs) ∧
    ((fs_ask s).1 = false →
      m_split_fs_loop c k (fuel + 1) s = Except.ok (Status.M_EXIT, (fs_ask s).2)) ∧
    ((bits_ask s k).1 = false ∨ s.avail_out = 0 →
      m_split_output_loop c k (fuel + 1) s = Except.ok (Status.M_EXIT, (bits_ask s k).2)) ∧
    (s.avail_out = 0 → m_zero_output_loop c (fuel + 1) s = Except.ok (Status.M_EXIT, s)) ∧
    (s.i < c.block_size → (fs_ask s).1 = false →
      m_se_decode_loop c (fuel + 1) s = Except.ok (Status.M_EXIT, (fs_ask s).2)) ∧
    (∀ t, s.i < c.block_size → (fs_ask s).1 = true →
      se_lookup c (fs_ask s).2.fs = Except.ok t → s.avail_out = 0 →
      m_se_decode_loop c (fuel + 1) s = Except.ok (Status.M_EXIT, (fs_ask s).2)) ∧
    (∀ t s2, s.i < c.block_size → (fs_ask s).1 = true →
      se_lookup c (fs_ask s).2.fs = Except.ok t → s.i % 2 = 0 → s.avail_out ≠ 0 →
      m_se_first c (fs_ask s).2 (to_u32 (t.2 - (((fs_ask s).2.fs : Int) - t.1))) = Except.ok s2 →
      s2.avail_out = 0 →
      m_se_decode_loop c (fuel + 1) s = Except.ok (Status.M_EXIT, s2) ∧
      s2.fs = (fs_ask s).2.fs ∧ lbits s2 = lbits (fs_ask s).2 ∧ s2.i = s.i + 1) ∧
    (only_reader_moved s (bits_ask s k).2 ∧ lbits (bits_ask s k).2 = lbits s ∧
      (bits_ask s k).2.fs = s.fs) ∧
    (only_reader_moved s (fs_ask s).2 ∧
      (∃ d, lbits s = List.replicate d false ++ lbits (fs_ask s).2 ∧
        (fs_ask s).2.fs = s.fs + d) ∧
      ((fs_ask s).1 = true → ∃ rest, lbits (fs_ask s).2 = true :: rest)) ∧
    (∀ t : aec_stream, s.flush_start ≤ s.rsip → t.flush_start = s.flush_start →
      t.rsip = s.rsip → t.last_out = s.last_out →
      (∀ j, j < s.rsip → t.rsi_buffer j = s.rsi_buffer j) →
      flush_samples c t = flush_samples c s) ∧
    (∀ j w, s.flush_start ≤ s.rsip →
      flush_samples c { s with rsi_buffer := upd s.rsi_buffer (s.rsip + j) w }
        = flush_samples c s) := by
  obtain ⟨hcfg, -, -⟩ := aec_decode_init_some h
  obtain ⟨hc, -, -, -, -⟩ := init_config_accepted hcfg
  have hbps := hc.bps_le
  obtain ⟨ka1, ka2, ka3, ka4⟩ := bits_ask_kept s k (by omega) hb
  obtain ⟨fa1, fa2, fa3⟩ := fs_ask_kept s hb
  have hfi : (fs_ask s).2.i = s.i := fa1.2.2.2.2.2.2.1
  have hfa : (fs_ask s).2.avail_out = s.avail_out := fa1.2.1
  refine ⟨?_, ?_, ?_, ?_, ?_, ?_, ?_, ⟨ka1, ka2, ka3⟩, ⟨fa1, fa2, fa3⟩, ?_, ?_⟩
  · intro s' hcs
    obtain ⟨b1, b2, b3, b4⟩ := bits_ask_kept s c.bits_per_sample (by omega) hb
    unfold copysample at hcs
    simp only at hcs
    split at hcs
    · simp only [pure, Except.pure, Except.ok.injEq, Prod.mk.injEq, true_and] at hcs
      subst hcs
      exact ⟨b1, b2, b3⟩
    · rcases hp : put_sample c (bits_ask s c.bits_per_sample).2
          (bits_get (bits_ask s c.bits_per_sample).2 c.bits_per_sample) with e | s1
      · rw [hp] at hcs; cases hcs
      · rw [hp] at hcs
        simp only [bind, Except.bind, pure, Except.pure, Except.ok.injEq, Prod.mk.injEq,
          Bool.true_eq_false, false_and] at hcs
  · intro hf
    unfold m_split_fs_loop
    simp only [hf, if_true]
    rfl
  · intro hf
    have hf' : (bits_ask s k).1 = false ∨ (bits_ask s k).2.avail_out = 0 := by
      rw [ka1.2.1]; exact hf
    unfold m_split_output_loop
    simp only [hf', if_true]
    rfl
  · intro hf
    unfold m_zero_output_loop
    simp only [hf, if_true]
    rfl
  · intro hi hf
    unfold m_se_decode_loop
    simp only [hi, hf, if_true]
    rfl
  · intro t hi ht hl ha
    unfold m_se_decode_loop
    simp only [hi, if_true, ht, Bool.true_eq_false, if_false, hl, bind, Except.bind]
    by_cases hev : (fs_ask s).2.i % 2 = 0
    · have : (fs_ask s).2.i % 2 = 0 ∧ (fs_ask s).2.avail_out = 0 := ⟨hev, by rw [hfa]; exact ha⟩
      rw [if_pos this]
      rfl
    · have : ¬ ((fs_ask s).2.i % 2 = 0 ∧ (fs_ask s).2.avail_out = 0) := fun x => hev x.1
      rw [if_neg this, if_neg hev]
      simp only [pure, Except.pure]
      rw [if_pos (by rw [hfa]; exact ha)]
  · intro t s2 hi ht hl hev ha hfirst hs2
    have hev' : (fs_ask s).2.i % 2 = 0 := by rw [hfi]; exact hev
    have hna : ¬ ((fs_ask s).2.i % 2 = 0 ∧ (fs_ask s).2.avail_out = 0) := by
      rw [hfa]; exact fun x => ha x.2
    refine ⟨?_, ?_⟩
    · unfold m_se_decode_loop
      simp only [hi, if_true, ht, Bool.true_eq_false, if_false, hl, bind, Except.bind]
      rw [if_neg hna, if_pos hev', hfirst]
      simp only [hs2, if_true]
      rfl
    · unfold m_se_first at hfirst
      rcases hp : put_sample c (fs_ask s).2
          (to_u32 (t.2 - (((fs_ask s).2.fs : Int) - t.1))) with e | s1
      · rw [hp] at hfirst; cases hfirst
      · rw [hp] at hfirst
        simp only [bind, Except.bind, pure, Except.pure, Except.ok.injEq] at hfirst
        obtain ⟨p1, p2, p3, p4, p5⟩ := put_sample_reader c _ s1 _ hp
        subst hfirst
        refine ⟨p4, ?_, ?_⟩
        · unfold lbits
          show acc_bits s1.acc s1.bitp ++ bytes_bits s1.next_in = _
          rw [p1, p2, p3]
        · show s1.i + 1 = s.i + 1
          rw [p5, hfi]
  · intro t hfs h1 h2 h4 h3
    exact flush_samples_local c s t hfs h1 h2 h4 h3
  · intro j w hfs
    refine flush_samples_local c s
      { s with rsi_buffer := upd s.rsi_buffer (s.rsip + j) w } hfs rfl rfl rfl ?_
    intro i hi
    show upd s.rsi_buffer (s.rsip + j) w i = s.rsi_buffer i
    unfold upd
    rw [if_neg (by omega)]

/-- Witness of C15: 8 bits per sample, block size 8; a decoder with the single input byte
`0x00`.  The pass of `m_split_fs` finds no one bit and returns `M_EXIT`; 7 zero bits have been
counted into `state->fs`, one zero bit is left in the accumulator, the RSI buffer and the
output space are as before. -/
theorem C15_no_partial_sample_witness :
    m_split_fs_loop (config_of 8 8 1 no_flags) 0 (0 + 1)
        { init_stream blank_stream with next_in := [0x00], avail_out := 8 }
      = Except.ok (Status.M_EXIT,
          (fs_ask { init_stream blank_stream with next_in := [0x00], avail_out := 8 }).2) ∧
    only_reader_moved { init_stream blank_stream with next_in := [0x00], avail_out := 8 }
      (fs_ask { init_stream blank_stream with next_in := [0x00], avail_out := 8 }).2 ∧
    (fs_ask { init_stream blank_stream with next_in := [0x00], avail_out := 8 }).2.fs = 7 ∧
    lbits (fs_ask { init_stream blank_stream with next_in := [0x00], avail_out := 8 }).2
      = [false] :=
  have h := C15_no_partial_sample 8 8 1 no_flags blank_stream (config_of 8 8 1 no_flags)
    (init_stream blank_stream) rfl
    { init_stream blank_stream with next_in := [0x00], avail_out := 8 } (by decide) 0
    (by decide) 0
  ⟨h.2.1 rfl, h.2.2.2.2.2.2.2.2.1.1, rfl, rfl⟩

theorem swap_rev_fuel (B : Nat) (hB : 1 ≤ B) : ∀ (n m : Nat) (r : List Nat),
    r.length ≤ n → r.length ≤ m → swap_rev B n r = swap_rev B m r := by
  intro n
  induction n with
  | zero =>
    intro m r h1 _
    have : r = [] := List.length_eq_zero.mp (by omega)
    subst this
    cases m <;> simp [swap_rev]
  | succ n ih =>
    intro m r h1 h2
    cases m with
    | zero =>
      have : r = [] := List.length_eq_zero.mp (by omega)
      subst this
      simp [swap_rev]
    | succ m =>
      unfold swap_rev
      by_cases hr : r = []
      · simp [hr]
      · rw [if_neg hr, if_neg hr]
        have hpos : 0 < r.length := List.length_pos.mpr hr
        rw [ih m (r.drop B) (by rw [List.length_drop]; omega) (by rw [List.length_drop]; omega)]

theorem swap_bytes_nil (B : Nat) : swap_bytes B [] = [] := rfl

theorem swap_rev_succ (B n : Nat) (r : List Nat) (h : r ≠ []) :
    swap_rev B (n + 1) r = swap_rev B n (r.drop B) ++ r.take B := by
  rw [swap_rev, if_neg h]

/-- One more sample: its bytes appear reversed. -/
theorem swap_bytes_append (B : Nat) (hB : 1 ≤ B) (o x : List Nat) (hx : x.length = B) :
    swap_bytes B (o ++ x) = swap_bytes B o ++ x.reverse := by
  unfold swap_bytes
  rw [List.length_append, List.reverse_append, hx]
  have hl : x.reverse.length = B := by rw [List.length_reverse, hx]
  have hne : x.reverse ++ o.reverse ≠ [] := by
    intro h
    have h1 := (List.append_eq_nil.mp h).1
    rw [h1] at hl
    simp at hl
    omega
  rw [show o.length + B = (o.length + B - 1) + 1 by omega, swap_rev_succ B _ _ hne,
    List.drop_left' hl, List.take_left' hl]
  rw [swap_rev_fuel B hB _ o.length o.reverse (by rw [List.length_reverse]; omega)
    (by rw [List.length_reverse])]

theorem put_mirror (K : FlushKind) (data : Nat) : put (mirror K) data = (put K data).reverse := by
  cases K <;> rfl

theorem put_length {c : Config} (hc : Accepted c) (data : Nat) :
    (put c.flush_output data).length = c.bytes_per_sample := by
  rw [hc.flush_eq, hc.bytes_eq]
  split_ifs <;> rfl

theorem bytes_per_sample_pos {c : Config} (hc : Accepted c) : 1 ≤ c.bytes_per_sample := by
  rw [hc.bytes_eq]
  split_ifs <;> omega

/-- The bytes of a sample sequence in the other byte order. -/
theorem swap_bytes_samples {c : Config} (hc : Accepted c) : ∀ (vs : List Int) (o : List Nat),
    swap_bytes c.bytes_per_sample (o ++ out_bytes c vs)
      = swap_bytes c.bytes_per_sample o ++ out_bytes (toggle_msb c) vs
  | [], o => by simp [out_bytes]
  | v :: vs, o => by
    have ih := swap_bytes_samples hc vs (o ++ put c.flush_output (to_u32 v))
    have e1 : out_bytes c (v :: vs) = put c.flush_output (to_u32 v) ++ out_bytes c vs := by
      simp [out_bytes]
    have e2 : out_bytes (toggle_msb c) (v :: vs)
        = put (mirror c.flush_output) (to_u32 v) ++ out_bytes (toggle_msb c) vs := by
      simp [out_bytes, toggle_msb]
    rw [e1, e2, ← List.append_assoc, ih,
      swap_bytes_append _ (bytes_per_sample_pos hc) _ _ (put_length hc _), put_mirror,
      List.append_assoc]

@[simp] theorem toggle_bits_per_sample (c : Config) :
    (toggle_msb c).bits_per_sample = c.bits_per_sample := rfl

@[simp] theorem toggle_block_size (c : Config) : (toggle_msb c).block_size = c.block_size := rfl

@[simp] theorem toggle_rsi (c : Config) : (toggle_msb c).rsi = c.rsi := rfl

@[simp] theorem toggle_id_len (c : Config) : (toggle_msb c).id_len = c.id_len := rfl

@[simp] theorem toggle_id_table (c : Config) : (toggle_msb c).id_table = c.id_table := rfl

@[simp] theorem toggle_xmin (c : Config) : (toggle_msb c).xmin = c.xmin := rfl

@[simp] theorem toggle_xmax (c : Config) : (toggle_msb c).xmax = c.xmax := rfl

@[simp] theorem toggle_in_blklen (c : Config) : (toggle_msb c).in_blklen = c.in_blklen := rfl

@[simp] theorem toggle_out_blklen (c : Config) : (toggle_msb c).out_blklen = c.out_blklen := rfl

@[simp] theorem toggle_pp (c : Config) : (toggle_msb c).pp = c.pp := rfl

@[simp] theorem toggle_bytes_per_sample (c : Config) :
    (toggle_msb c).bytes_per_sample = c.bytes_per_sample := rfl

@[simp] theorem toggle_rsi_size (c : Config) : (toggle_msb c).rsi_size = c.rsi_size := rfl

@[simp] theorem toggle_se_table (c : Config) : (toggle_msb c).se_table = c.se_table := rfl

@[simp] theorem toggle_PAD_RSI (c : Config) :
    (toggle_msb c).flags.PAD_RSI = c.flags.PAD_RSI := rfl

@[simp] theorem toggle_DATA_SIGNED (c : Config) :
    (toggle_msb c).flags.DATA_SIGNED = c.flags.DATA_SIGNED := rfl

@[simp] theorem toggle_flush_output (c : Config) :
    (toggle_msb c).flush_output = mirror c.flush_output := rfl

@[simp] theorem swap_out_next_in (B : Nat) (s : aec_stream) :
    (swap_out B s).next_in = s.next_in := rfl

@[simp] theorem swap_out_total_in (B : Nat) (s : aec_stream) :
    (swap_out B s).total_in = s.total_in := rfl

@[simp] theorem swap_out_next_out (B : Nat) (s : aec_stream) :
    (swap_out B s).next_out = swap_bytes B s.next_out := rfl

@[simp] theorem swap_out_avail_out (B : Nat) (s : aec_stream) :
    (swap_out B s).avail_out = s.avail_out := rfl

@[simp] theorem swap_out_total_out (B : Nat) (s : aec_stream) :
    (swap_out B s).total_out = s.total_out := rfl

@[simp] theorem swap_out_mode (B : Nat) (s : aec_stream) :
    (swap_out B s).mode = s.mode := rfl

@[simp] theorem swap_out_id (B : Nat) (s : aec_stream) :
    (swap_out B s).id = s.id := rfl

@[simp] theorem swap_out_last_out (B : Nat) (s : aec_stream) :
    (swap_out B s).last_out = s.last_out := rfl

@[simp] theorem swap_out_n (B : Nat) (s : aec_stream) :
    (swap_out B s).n = s.n := rfl

@[simp] theorem swap_out_i (B : Nat) (s : aec_stream) :
    (swap_out B s).i = s.i := rfl

@[simp] theorem swap_out_acc (B : Nat) (s : aec_stream) :
    (swap_out B s).acc = s.acc := rfl

@[simp] theorem swap_out_bitp (B : Nat) (s : aec_stream) :
    (swap_out B s).bitp = s.bitp := rfl

@[simp] theorem swap_out_fs (B : Nat) (s : aec_stream) :
    (swap_out B s).fs = s.fs := rfl

@[simp] theorem swap_out_ref (B : Nat) (s : aec_stream) :
    (swap_out B s).ref = s.ref := rfl

@[simp] theorem swap_out_rsi_buffer (B : Nat) (s : aec_stream) :
    (swap_out B s).rsi_buffer = s.rsi_buffer := rfl

@[simp] theorem swap_out_rsip (B : Nat) (s : aec_stream) :
    (swap_out B s).rsip = s.rsip := rfl

@[simp] theorem swap_out_flush_start (B : Nat) (s : aec_stream) :
    (swap_out B s).flush_start = s.flush_start := rfl

/-- A state whose output is a swapped output is the swap of a state. -/
theorem swap_out_fold (B : Nat) (a0 : List Byte) (a1 : Nat) (a2 : List Nat) (a3 : Nat) (a4 : Nat) (a5 : Mode) (a6 : Nat) (a7 : Int) (a8 : Int) (a9 : Int) (a10 : Nat) (a11 : Nat) (a12 : Nat) (a13 : Nat) (a14 : Nat → Nat) (a15 : Nat) (a16 : Nat) :
    (⟨a0, a1, swap_bytes B a2, a3, a4, a5, a6, a7, a8, a9, a10, a11, a12, a13, a14, a15, a16⟩ : aec_stream)
      = swap_out B ⟨a0, a1, a2, a3, a4, a5, a6, a7, a8, a9, a10, a11, a12, a13, a14, a15, a16⟩ := rfl

theorem on_state_ok {α : Type} (f : aec_stream → aec_stream) (a : α) (s : aec_stream) :
    on_state f (Except.ok (a, s)) = Except.ok (a, f s) := rfl

theorem on_state_pure {α : Type} (f : aec_stream → aec_stream) (a : α) (s : aec_stream) :
    on_state f (pure (a, s)) = pure (a, f s) := rfl

theorem on_state_error {α : Type} (f : aec_stream → aec_stream) (e : Fault) :
    on_state f (Except.error e : Res (α × aec_stream)) = Except.error e := rfl

theorem on_state_ite {α : Type} (f : aec_stream → aec_stream) (p : Prop) [Decidable p]
    (x y : Res (α × aec_stream)) :
    on_state f (if p then x else y) = if p then on_state f x else on_state f y := by
  split <;> rfl

theorem on_state_bind {α β : Type} (f : aec_stream → aec_stream) (x : Res β)
    (k : β → Res (α × aec_stream)) :
    on_state f (x >>= k) = x >>= fun b => on_state f (k b) := by
  cases x <;> rfl

theorem bind_on_state {α β : Type} (f : aec_stream → aec_stream) (x : Res (α × aec_stream))
    (k : α × aec_stream → Res β) :
    (on_state f x >>= k) = x >>= fun p => k (p.1, f p.2) := by
  cases x <;> rfl

theorem bind_map_state {β : Type} (f : aec_stream → aec_stream) (x : Res aec_stream)
    (k : aec_stream → Res β) :
    (Except.map f x >>= k) = x >>= fun s => k (f s) := by
  cases x <;> rfl

theorem map_bind_state {β : Type} (f : aec_stream → aec_stream) (x : Res β)
    (k : β → Res aec_stream) :
    Except.map f (x >>= k) = x >>= fun b => Except.map f (k b) := by
  cases x <;> rfl

theorem map_ite_state (f : aec_stream → aec_stream) (p : Prop) [Decidable p]
    (x y : Res aec_stream) :
    Except.map f (if p then x else y) = if p then Except.map f x else Except.map f y := by
  split <;> rfl

theorem map_pure_state (f : aec_stream → aec_stream) (s : aec_stream) :
    Except.map f (pure s : Res aec_stream) = pure (f s) := rfl

theorem map_ok_state (f : aec_stream → aec_stream) (s : aec_stream) :
    Except.map f (Except.ok s : Res aec_stream) = Except.ok (f s) := rfl

theorem map_error_state (f : aec_stream → aec_stream) (e : Fault) :
    Except.map f (Except.error e : Res aec_stream) = Except.error e := rfl

theorem fill_acc_swap (B : Nat) (s : aec_stream) :
    fill_acc (swap_out B s) = (fill_acc s).map (swap_out B) := by
  simp only [fill_acc, swap_out_next_in, swap_out_bitp, swap_out_acc, swap_out_total_in,
    swap_out_next_out, swap_out_avail_out, swap_out_total_out, swap_out_mode, swap_out_id,
    swap_out_last_out, swap_out_n, swap_out_i, swap_out_fs, swap_out_ref, swap_out_rsi_buffer,
    swap_out_rsip, swap_out_flush_start, swap_out_fold, map_ite_state, map_ok_state,
    map_error_state]

theorem direct_get_swap (B n : Nat) (s : aec_stream) :
    direct_get (swap_out B s) n = on_state (swap_out B) (direct_get s n) := by
  simp only [direct_get, fill_acc_swap, swap_out_next_in, swap_out_bitp, swap_out_acc,
    swap_out_total_in,
    swap_out_next_out, swap_out_avail_out, swap_out_total_out, swap_out_mode, swap_out_id,
    swap_out_last_out, swap_out_n, swap_out_i, swap_out_fs, swap_out_ref, swap_out_rsi_buffer,
    swap_out_rsip, swap_out_flush_start, swap_out_fold, on_state_bind, on_state_pure]
  by_cases h : s.bitp < n
  · simp only [h, if_true, bind_map_state, swap_out_next_in, swap_out_bitp, swap_out_acc,
    swap_out_total_in,
    swap_out_next_out, swap_out_avail_out, swap_out_total_out, swap_out_mode, swap_out_id,
    swap_out_last_out, swap_out_n, swap_out_i, swap_out_fs, swap_out_ref, swap_out_rsi_buffer,
    swap_out_rsip, swap_out_flush_start, swap_out_fold]
  · simp only [h, if_false]
    rfl

theorem bits_ask_loop_swap (B n : Nat) : ∀ (fuel : Nat) (s : aec_stream),
    bits_ask_loop fuel (swap_out B s) n
      = ((bits_ask_loop fuel s n).1, swap_out B (bits_ask_loop fuel s n).2)
  | 0, s => rfl
  | fuel + 1, s => by
    by_cases h : s.bitp < n
    · rcases hs : s.next_in with _ | ⟨b, rest⟩
      · simp only [bits_ask_loop, swap_out_next_in, swap_out_total_in, swap_out_next_out,
        swap_out_avail_out, swap_out_total_out, swap_out_mode, swap_out_id, swap_out_last_out,
        swap_out_n, swap_out_i, swap_out_acc, swap_out_bitp, swap_out_fs, swap_out_ref,
        swap_out_rsi_buffer, swap_out_rsip, swap_out_flush_start, swap_out_fold, h, hs, if_true]
      · simp only [bits_ask_loop, swap_out_next_in, swap_out_total_in, swap_out_next_out,
        swap_out_avail_out, swap_out_total_out, swap_out_mode, swap_out_id, swap_out_last_out,
        swap_out_n, swap_out_i, swap_out_acc, swap_out_bitp, swap_out_fs, swap_out_ref,
        swap_out_rsi_buffer, swap_out_rsip, swap_out_flush_start, swap_out_fold, h, hs, if_true,
        bits_ask_loop_swap B n fuel]
    · simp only [bits_ask_loop, swap_out_next_in, swap_out_total_in, swap_out_next_out,
      swap_out_avail_out, swap_out_total_out, swap_out_mode, swap_out_id, swap_out_last_out,
      swap_out_n, swap_out_i, swap_out_acc, swap_out_bitp, swap_out_fs, swap_out_ref,
      swap_out_rsi_buffer, swap_out_rsip, swap_out_flush_start, swap_out_fold, h, if_false]

theorem bits_ask_swap (B n : Nat) (s : aec_stream) :
    bits_ask (swap_out B s) n = ((bits_ask s n).1, swap_out B (bits_ask s n).2) :=
  bits_ask_loop_swap B n _ s

theorem bits_get_swap (B n : Nat) (s : aec_stream) :
    bits_get (swap_out B s) n = bits_get s n := rfl

theorem bits_drop_swap (B n : Nat) (s : aec_stream) :
    bits_drop (swap_out B s) n = swap_out B (bits_drop s n) := rfl

theorem fs_drop_swap (B : Nat) (s : aec_stream) :
    fs_drop (swap_out B s) = swap_out B (fs_drop s) := rfl

theorem fs_ask_loop_swap (B : Nat) : ∀ (fuel : Nat) (s : aec_stream),
    fs_ask_loop fuel (swap_out B s)
      = ((fs_ask_loop fuel s).1, swap_out B (fs_ask_loop fuel s).2)
  | 0, s => rfl
  | fuel + 1, s => by
    by_cases h : s.acc &&& (1 <<< (s.bitp - 1)) = 0
    · by_cases h1 : s.bitp = 1
      · have h' := h
        rw [h1] at h'
        rcases hs : s.next_in with _ | ⟨b, rest⟩
        · simp only [fs_ask_loop, swap_out_next_in, swap_out_total_in, swap_out_next_out,
          swap_out_avail_out, swap_out_total_out, swap_out_mode, swap_out_id, swap_out_last_out,
          swap_out_n, swap_out_i, swap_out_acc, swap_out_bitp, swap_out_fs, swap_out_ref,
          swap_out_rsi_buffer, swap_out_rsip, swap_out_flush_start, swap_out_fold, h', h1, hs,
          if_true]
        · simp only [fs_ask_loop, swap_out_next_in, swap_out_total_in, swap_out_next_out,
          swap_out_avail_out, swap_out_total_out, swap_out_mode, swap_out_id, swap_out_last_out,
          swap_out_n, swap_out_i, swap_out_acc, swap_out_bitp, swap_out_fs, swap_out_ref,
          swap_out_rsi_buffer, swap_out_rsip, swap_out_flush_start, swap_out_fold, h', h1, hs,
          if_true, fs_ask_loop_swap B fuel]
      · simp only [fs_ask_loop, swap_out_next_in, swap_out_total_in, swap_out_next_out,
        swap_out_avail_out, swap_out_total_out, swap_out_mode, swap_out_id, swap_out_last_out,
        swap_out_n, swap_out_i, swap_out_acc, swap_out_bitp, swap_out_fs, swap_out_ref,
        swap_out_rsi_buffer, swap_out_rsip, swap_out_flush_start, swap_out_fold, h, h1, if_true,
        if_false, fs_ask_loop_swap B fuel]
    · simp only [fs_ask_loop, swap_out_next_in, swap_out_total_in, swap_out_next_out,
      swap_out_avail_out, swap_out_total_out, swap_out_mode, swap_out_id, swap_out_last_out,
      swap_out_n, swap_out_i, swap_out_acc, swap_out_bitp, swap_out_fs, swap_out_ref,
      swap_out_rsi_buffer, swap_out_rsip, swap_out_flush_start, swap_out_fold, h, if_false]

theorem fs_ask_swap (B : Nat) (s : aec_stream) :
    fs_ask (swap_out B s) = ((fs_ask s).1, swap_out B (fs_ask s).2) := by
  by_cases h : (bits_ask s 1).1 = false
  · simp only [fs_ask, bits_ask_swap, h, if_true]
  · simp only [fs_ask, bits_ask_swap, h, if_false, fs_ask_loop_swap, swap_out_next_in,
    swap_out_total_in, swap_out_next_out, swap_out_avail_out, swap_out_total_out, swap_out_mode,
    swap_out_id, swap_out_last_out, swap_out_n, swap_out_i, swap_out_acc, swap_out_bitp,
    swap_out_fs, swap_out_ref, swap_out_rsi_buffer, swap_out_rsip, swap_out_flush_start,
    swap_out_fold, Bool.true_eq_false]

theorem direct_get_fs_fill_swap (B : Nat) : ∀ (fuel fs : Nat) (s : aec_stream),
    direct_get_fs_fill fuel fs (swap_out B s)
      = on_state (swap_out B) (direct_get_fs_fill fuel fs s)
  | 0, _, _ => rfl
  | fuel + 1, fs, s => by
    by_cases h : s.acc = 0
    · simp only [direct_get_fs_fill, swap_out_next_in, swap_out_total_in, swap_out_next_out,
      swap_out_avail_out, swap_out_total_out, swap_out_mode, swap_out_id, swap_out_last_out,
      swap_out_n, swap_out_i, swap_out_acc, swap_out_bitp, swap_out_fs, swap_out_ref,
      swap_out_rsi_buffer, swap_out_rsip, swap_out_flush_start, swap_out_fold, h, if_true,
      fill_acc_swap, Bool.true_eq_false, Bool.false_eq_true, if_false, if_true, on_state_bind,
      on_state_pure, on_state_ok, on_state_error, on_state_ite, bind_on_state, bind_map_state,
      map_bind_state, map_ite_state, map_pure_state, map_ok_state, map_error_state,
        direct_get_fs_fill_swap B fuel]
    · simp only [direct_get_fs_fill, swap_out_next_in, swap_out_total_in, swap_out_next_out,
      swap_out_avail_out, swap_out_total_out, swap_out_mode, swap_out_id, swap_out_last_out,
      swap_out_n, swap_out_i, swap_out_acc, swap_out_bitp, swap_out_fs, swap_out_ref,
      swap_out_rsi_buffer, swap_out_rsip, swap_out_flush_start, swap_out_fold, h, if_false,
      Bool.true_eq_false, Bool.false_eq_true, if_false, if_true, on_state_bind, on_state_pure,
      on_state_ok, on_state_error, on_state_ite, bind_on_state, bind_map_state, map_bind_state,
      map_ite_state, map_pure_state, map_ok_state, map_error_state]

theorem direct_get_fs_scan_swap (B : Nat) : ∀ (fuel fs : Nat) (s : aec_stream),
    direct_get_fs_scan fuel fs (swap_out B s)
      = on_state (swap_out B) (direct_get_fs_scan fuel fs s)
  | 0, _, _ => rfl
  | fuel + 1, fs, s => by
    by_cases h : s.acc &&& (1 <<< s.bitp) = 0
    · by_cases h0 : s.bitp = 0
      · simp only [direct_get_fs_scan, swap_out_next_in, swap_out_total_in, swap_out_next_out,
        swap_out_avail_out, swap_out_total_out, swap_out_mode, swap_out_id, swap_out_last_out,
        swap_out_n, swap_out_i, swap_out_acc, swap_out_bitp, swap_out_fs, swap_out_ref,
        swap_out_rsi_buffer, swap_out_rsip, swap_out_flush_start, swap_out_fold, h, h0, if_true,
        Bool.true_eq_false, Bool.false_eq_true, if_false, if_true, on_state_bind, on_state_pure,
        on_state_ok, on_state_error, on_state_ite, bind_on_state, bind_map_state,
        map_bind_state, map_ite_state, map_pure_state, map_ok_state, map_error_state]
      · simp only [direct_get_fs_scan, swap_out_next_in, swap_out_total_in, swap_out_next_out,
        swap_out_avail_out, swap_out_total_out, swap_out_mode, swap_out_id, swap_out_last_out,
        swap_out_n, swap_out_i, swap_out_acc, swap_out_bitp, swap_out_fs, swap_out_ref,
        swap_out_rsi_buffer, swap_out_rsip, swap_out_flush_start, swap_out_fold, h, h0, if_true,
        if_false, Bool.true_eq_false, Bool.false_eq_true, if_false, if_true, on_state_bind,
        on_state_pure, on_state_ok, on_state_error, on_state_ite, bind_on_state, bind_map_state,
        map_bind_state, map_ite_state, map_pure_state, map_ok_state, map_error_state,
          direct_get_fs_scan_swap B fuel]
    · simp only [direct_get_fs_scan, swap_out_next_in, swap_out_total_in, swap_out_next_out,
      swap_out_avail_out, swap_out_total_out, swap_out_mode, swap_out_id, swap_out_last_out,
      swap_out_n, swap_out_i, swap_out_acc, swap_out_bitp, swap_out_fs, swap_out_ref,
      swap_out_rsi_buffer, swap_out_rsip, swap_out_flush_start, swap_out_fold, h, if_false,
      Bool.true_eq_false, Bool.false_eq_true, if_false, if_true, on_state_bind, on_state_pure,
      on_state_ok, on_state_error, on_state_ite, bind_on_state, bind_map_state, map_bind_state,
      map_ite_state, map_pure_state, map_ok_state, map_error_state]

theorem direct_get_fs_swap (B : Nat) (clz : Bool) (s : aec_stream) :
    direct_get_fs clz (swap_out B s) = on_state (swap_out B) (direct_get_fs clz s) := by
  cases clz
  · simp only [direct_get_fs, swap_out_next_in, swap_out_total_in, swap_out_next_out,
    swap_out_avail_out, swap_out_total_out, swap_out_mode, swap_out_id, swap_out_last_out,
    swap_out_n, swap_out_i, swap_out_acc, swap_out_bitp, swap_out_fs, swap_out_ref,
    swap_out_rsi_buffer, swap_out_rsip, swap_out_flush_start, swap_out_fold,
    direct_get_fs_fill_swap, direct_get_fs_scan_swap, Bool.true_eq_false, Bool.false_eq_true,
    if_false, if_true, on_state_bind, on_state_pure, on_state_ok, on_state_error, on_state_ite,
    bind_on_state, bind_map_state, map_bind_state, map_ite_state, map_pure_state, map_ok_state,
    map_error_state,
      Bool.false_eq_true, if_false]
  · simp only [direct_get_fs, swap_out_next_in, swap_out_total_in, swap_out_next_out,
    swap_out_avail_out, swap_out_total_out, swap_out_mode, swap_out_id, swap_out_last_out,
    swap_out_n, swap_out_i, swap_out_acc, swap_out_bitp, swap_out_fs, swap_out_ref,
    swap_out_rsi_buffer, swap_out_rsip, swap_out_flush_start, swap_out_fold,
    direct_get_fs_fill_swap, direct_get_fs_scan_swap, Bool.true_eq_false, Bool.false_eq_true,
    if_false, if_true, on_state_bind, on_state_pure, on_state_ok, on_state_error, on_state_ite,
    bind_on_state, bind_map_state, map_bind_state, map_ite_state, map_pure_state, map_ok_state,
    map_error_state,
      if_true]

theorem rsi_store_swap (B : Nat) (c : Config) (s : aec_stream) (i v : Nat) :
    rsi_store (toggle_msb c) (swap_out B s) i v = (rsi_store c s i v).map (swap_out B) := by
  simp only [rsi_store, swap_out_next_in, swap_out_total_in, swap_out_next_out,
    swap_out_avail_out, swap_out_total_out, swap_out_mode, swap_out_id, swap_out_last_out,
    swap_out_n, swap_out_i, swap_out_acc, swap_out_bitp, swap_out_fs, swap_out_ref,
    swap_out_rsi_buffer, swap_out_rsip, swap_out_flush_start, swap_out_fold,
    toggle_bits_per_sample, toggle_block_size, toggle_rsi, toggle_id_len, toggle_id_table,
    toggle_xmin, toggle_xmax, toggle_in_blklen, toggle_out_blklen, toggle_pp,
    toggle_bytes_per_sample, toggle_rsi_size, toggle_se_table, toggle_PAD_RSI,
    toggle_DATA_SIGNED, toggle_flush_output, Bool.true_eq_false, Bool.false_eq_true, if_false,
    if_true, on_state_bind, on_state_pure, on_state_ok, on_state_error, on_state_ite,
    bind_on_state, bind_map_state, map_bind_state, map_ite_state, map_pure_state, map_ok_state,
    map_error_state]

theorem m_id_ref_swap (B : Nat) (c : Config) (s : aec_stream) :
    m_id_ref (toggle_msb c) (swap_out B s) = swap_out B (m_id_ref c s) := by
  by_cases h : c.pp = true ∧ s.rsip = 0
  · simp only [m_id_ref, swap_out_next_in, swap_out_total_in, swap_out_next_out,
    swap_out_avail_out, swap_out_total_out, swap_out_mode, swap_out_id, swap_out_last_out,
    swap_out_n, swap_out_i, swap_out_acc, swap_out_bitp, swap_out_fs, swap_out_ref,
    swap_out_rsi_buffer, swap_out_rsip, swap_out_flush_start, swap_out_fold,
    toggle_bits_per_sample, toggle_block_size, toggle_rsi, toggle_id_len, toggle_id_table,
    toggle_xmin, toggle_xmax, toggle_in_blklen, toggle_out_blklen, toggle_pp,
    toggle_bytes_per_sample, toggle_rsi_size, toggle_se_table, toggle_PAD_RSI,
    toggle_DATA_SIGNED, toggle_flush_output, Bool.true_eq_false, Bool.false_eq_true, if_false,
    if_true, on_state_bind, on_state_pure, on_state_ok, on_state_error, on_state_ite,
    bind_on_state, bind_map_state, map_bind_state, map_ite_state, map_pure_state, map_ok_state,
    map_error_state, h, and_self, if_true]
  · simp only [m_id_ref, swap_out_next_in, swap_out_total_in, swap_out_next_out,
    swap_out_avail_out, swap_out_total_out, swap_out_mode, swap_out_id, swap_out_last_out,
    swap_out_n, swap_out_i, swap_out_acc, swap_out_bitp, swap_out_fs, swap_out_ref,
    swap_out_rsi_buffer, swap_out_rsip, swap_out_flush_start, swap_out_fold,
    toggle_bits_per_sample, toggle_block_size, toggle_rsi, toggle_id_len, toggle_id_table,
    toggle_xmin, toggle_xmax, toggle_in_blklen, toggle_out_blklen, toggle_pp,
    toggle_bytes_per_sample, toggle_rsi_size, toggle_se_table, toggle_PAD_RSI,
    toggle_DATA_SIGNED, toggle_flush_output, Bool.true_eq_false, Bool.false_eq_true, if_false,
    if_true, on_state_bind, on_state_pure, on_state_ok, on_state_error, on_state_ite,
    bind_on_state, bind_map_state, map_bind_state, map_ite_state, map_pure_state, map_ok_state,
    map_error_state, h, if_false]

theorem flush_samples_swap (B : Nat) (c : Config) (s : aec_stream) :
    flush_samples (toggle_msb c) (swap_out B s) = flush_samples c s := rfl

theorem flush_swap {c : Config} (hc : Accepted c) (s : aec_stream) :
    flush (toggle_msb c) (swap_out c.bytes_per_sample s)
      = swap_out c.bytes_per_sample (flush c s) := by
  have h := swap_bytes_samples hc (flush_samples c s).1 s.next_out
  unfold flush
  rw [flush_samples_swap]
  show ({ s with
      next_out := swap_bytes c.bytes_per_sample s.next_out
        ++ out_bytes (toggle_msb c) (flush_samples c s).1
      last_out := (flush_samples c s).2
      flush_start := s.rsip } : aec_stream) = _
  rw [← h]
  rfl

theorem check_rsi_end_swap {c : Config} (hc : Accepted c) (s : aec_stream) :
    check_rsi_end (toggle_msb c) (swap_out c.bytes_per_sample s)
      = swap_out c.bytes_per_sample (check_rsi_end c s) := by
  by_cases h : s.rsip = c.rsi_size
  · simp only [check_rsi_end, toggle_bits_per_sample, toggle_block_size, toggle_rsi,
    toggle_id_len, toggle_id_table, toggle_xmin, toggle_xmax, toggle_in_blklen,
    toggle_out_blklen, toggle_pp, toggle_bytes_per_sample, toggle_rsi_size, toggle_se_table,
    toggle_PAD_RSI, toggle_DATA_SIGNED, toggle_flush_output, swap_out_rsip, h, if_true,
    flush_swap hc, swap_out_next_in, swap_out_total_in, swap_out_next_out, swap_out_avail_out,
    swap_out_total_out, swap_out_mode, swap_out_id, swap_out_last_out, swap_out_n, swap_out_i,
    swap_out_acc, swap_out_bitp, swap_out_fs, swap_out_ref, swap_out_rsi_buffer, swap_out_rsip,
    swap_out_flush_start, swap_out_fold]
  · simp only [check_rsi_end, toggle_bits_per_sample, toggle_block_size, toggle_rsi,
    toggle_id_len, toggle_id_table, toggle_xmin, toggle_xmax, toggle_in_blklen,
    toggle_out_blklen, toggle_pp, toggle_bytes_per_sample, toggle_rsi_size, toggle_se_table,
    toggle_PAD_RSI, toggle_DATA_SIGNED, toggle_flush_output, swap_out_rsip, h, if_false]

theorem put_sample_swap {c : Config} (hc : Accepted c) (s : aec_stream) (w : Nat) :
    put_sample (toggle_msb c) (swap_out c.bytes_per_sample s) w
      = (put_sample c s w).map (swap_out c.bytes_per_sample) := by
  simp only [put_sample, rsi_store_swap, swap_out_next_in, swap_out_total_in,
    swap_out_next_out, swap_out_avail_out, swap_out_total_out, swap_out_mode, swap_out_id,
    swap_out_last_out, swap_out_n, swap_out_i, swap_out_acc, swap_out_bitp, swap_out_fs,
    swap_out_ref, swap_out_rsi_buffer, swap_out_rsip, swap_out_flush_start, swap_out_fold,
    toggle_bits_per_sample, toggle_block_size, toggle_rsi, toggle_id_len, toggle_id_table,
    toggle_xmin, toggle_xmax, toggle_in_blklen, toggle_out_blklen, toggle_pp,
    toggle_bytes_per_sample, toggle_rsi_size, toggle_se_table, toggle_PAD_RSI,
    toggle_DATA_SIGNED, toggle_flush_output, Bool.true_eq_false, Bool.false_eq_true, if_false,
    if_true, on_state_bind, on_state_pure, on_state_ok, on_state_error, on_state_ite,
    bind_on_state, bind_map_state, map_bind_state, map_ite_state, map_pure_state, map_ok_state,
    map_error_state, check_rsi_end_swap hc]

theorem copysample_swap {c : Config} (hc : Accepted c) (s : aec_stream) :
    copysample (toggle_msb c) (swap_out c.bytes_per_sample s)
      = on_state (swap_out c.bytes_per_sample) (copysample c s) := by
  by_cases h : (bits_ask s c.bits_per_sample).1 = false ∨
      (bits_ask s c.bits_per_sample).2.avail_out = 0
  · simp only [copysample, bits_ask_swap, swap_out_next_in, swap_out_total_in,
    swap_out_next_out, swap_out_avail_out, swap_out_total_out, swap_out_mode, swap_out_id,
    swap_out_last_out, swap_out_n, swap_out_i, swap_out_acc, swap_out_bitp, swap_out_fs,
    swap_out_ref, swap_out_rsi_buffer, swap_out_rsip, swap_out_flush_start, swap_out_fold,
    toggle_bits_per_sample, toggle_block_size, toggle_rsi, toggle_id_len, toggle_id_table,
    toggle_xmin, toggle_xmax, toggle_in_blklen, toggle_out_blklen, toggle_pp,
    toggle_bytes_per_sample, toggle_rsi_size, toggle_se_table, toggle_PAD_RSI,
    toggle_DATA_SIGNED, toggle_flush_output, Bool.true_eq_false, Bool.false_eq_true, if_false,
    if_true, on_state_bind, on_state_pure, on_state_ok, on_state_error, on_state_ite,
    bind_on_state, bind_map_state, map_bind_state, map_ite_state, map_pure_state, map_ok_state,
    map_error_state, h, if_true]
  · simp only [copysample, bits_ask_swap, swap_out_next_in, swap_out_total_in,
    swap_out_next_out, swap_out_avail_out, swap_out_total_out, swap_out_mode, swap_out_id,
    swap_out_last_out, swap_out_n, swap_out_i, swap_out_acc, swap_out_bitp, swap_out_fs,
    swap_out_ref, swap_out_rsi_buffer, swap_out_rsip, swap_out_flush_start, swap_out_fold,
    toggle_bits_per_sample, toggle_block_size, toggle_rsi, toggle_id_len, toggle_id_table,
    toggle_xmin, toggle_xmax, toggle_in_blklen, toggle_out_blklen, toggle_pp,
    toggle_bytes_per_sample, toggle_rsi_size, toggle_se_table, toggle_PAD_RSI,
    toggle_DATA_SIGNED, toggle_flush_output, Bool.true_eq_false, Bool.false_eq_true, if_false,
    if_true, on_state_bind, on_state_pure, on_state_ok, on_state_error, on_state_ite,
    bind_on_state, bind_map_state, map_bind_state, map_ite_state, map_pure_state, map_ok_state,
    map_error_state, h, if_false, put_sample_swap hc,
      bits_get_swap, bits_drop_swap]

theorem BUFFERSPACE_swap (B : Nat) (c : Config) (s : aec_stream) :
    BUFFERSPACE (toggle_msb c) (swap_out B s) = BUFFERSPACE c s := rfl

theorem ite_bind_res {α β : Type} (p : Prop) [Decidable p] (x y : Res α) (k : α → Res β) :
    ((if p then x else y) >>= k) = if p then x >>= k else y >>= k := by
  split <;> rfl

theorem on_state_pure_pair {α : Type} (f : aec_stream → aec_stream) (p : α × aec_stream) :
    on_state f (pure p) = pure (p.1, f p.2) := rfl

theorem se_lookup_swap (c : Config) (m : Nat) : se_lookup (toggle_msb c) m = se_lookup c m := rfl

theorem m_id_swap {c : Config} (_hc : Accepted c) (s : aec_stream) :
    m_id (toggle_msb c) (swap_out c.bytes_per_sample s)
      = on_state (swap_out c.bytes_per_sample) (m_id c s) := by
  by_cases h : (bits_ask (m_id_ref c s) c.id_len).1 = false
  · simp only [m_id, bits_ask_swap, bits_get_swap, bits_drop_swap, fs_ask_swap, fs_drop_swap,
    fill_acc_swap, direct_get_swap, direct_get_fs_swap, rsi_store_swap, m_id_ref_swap,
    BUFFERSPACE_swap, se_lookup_swap, swap_out_next_in, swap_out_total_in, swap_out_next_out,
    swap_out_avail_out, swap_out_total_out, swap_out_mode, swap_out_id, swap_out_last_out,
    swap_out_n, swap_out_i, swap_out_acc, swap_out_bitp, swap_out_fs, swap_out_ref,
    swap_out_rsi_buffer, swap_out_rsip, swap_out_flush_start, swap_out_fold,
    toggle_bits_per_sample, toggle_block_size, toggle_rsi, toggle_id_len, toggle_id_table,
    toggle_xmin, toggle_xmax, toggle_in_blklen, toggle_out_blklen, toggle_pp,
    toggle_bytes_per_sample, toggle_rsi_size, toggle_se_table, toggle_PAD_RSI,
    toggle_DATA_SIGNED, toggle_flush_output, Bool.true_eq_false, Bool.false_eq_true, if_false,
    if_true, on_state_bind, on_state_pure, on_state_ok, on_state_error, on_state_ite,
    bind_on_state, bind_map_state, map_bind_state, map_ite_state, map_pure_state, map_ok_state,
    map_error_state, ite_bind_res, pure_bind, on_state_pure_pair, h]
  · rcases ht : c.id_table[bits_get (bits_ask (m_id_ref c s) c.id_len).2 c.id_len]? with _ | mode
    · simp only [m_id, bits_ask_swap, bits_get_swap, bits_drop_swap, fs_ask_swap,
      fs_drop_swap, fill_acc_swap, direct_get_swap, direct_get_fs_swap, rsi_store_swap,
      m_id_ref_swap, BUFFERSPACE_swap, se_lookup_swap, swap_out_next_in, swap_out_total_in,
      swap_out_next_out, swap_out_avail_out, swap_out_total_out, swap_out_mode, swap_out_id,
      swap_out_last_out, swap_out_n, swap_out_i, swap_out_acc, swap_out_bitp, swap_out_fs,
      swap_out_ref, swap_out_rsi_buffer, swap_out_rsip, swap_out_flush_start, swap_out_fold,
      toggle_bits_per_sample, toggle_block_size, toggle_rsi, toggle_id_len, toggle_id_table,
      toggle_xmin, toggle_xmax, toggle_in_blklen, toggle_out_blklen, toggle_pp,
      toggle_bytes_per_sample, toggle_rsi_size, toggle_se_table, toggle_PAD_RSI,
      toggle_DATA_SIGNED, toggle_flush_output, Bool.true_eq_false, Bool.false_eq_true, if_false,
      if_true, on_state_bind, on_state_pure, on_state_ok, on_state_error, on_state_ite,
      bind_on_state, bind_map_state, map_bind_state, map_ite_state, map_pure_state,
      map_ok_state, map_error_state, ite_bind_res, pure_bind, on_state_pure_pair, h, ht]
    · simp only [m_id, bits_ask_swap, bits_get_swap, bits_drop_swap, fs_ask_swap,
      fs_drop_swap, fill_acc_swap, direct_get_swap, direct_get_fs_swap, rsi_store_swap,
      m_id_ref_swap, BUFFERSPACE_swap, se_lookup_swap, swap_out_next_in, swap_out_total_in,
      swap_out_next_out, swap_out_avail_out, swap_out_total_out, swap_out_mode, swap_out_id,
      swap_out_last_out, swap_out_n, swap_out_i, swap_out_acc, swap_out_bitp, swap_out_fs,
      swap_out_ref, swap_out_rsi_buffer, swap_out_rsip, swap_out_flush_start, swap_out_fold,
      toggle_bits_per_sample, toggle_block_size, toggle_rsi, toggle_id_len, toggle_id_table,
      toggle_xmin, toggle_xmax, toggle_in_blklen, toggle_out_blklen, toggle_pp,
      toggle_bytes_per_sample, toggle_rsi_size, toggle_se_table, toggle_PAD_RSI,
      toggle_DATA_SIGNED, toggle_flush_output, Bool.true_eq_false, Bool.false_eq_true, if_false,
      if_true, on_state_bind, on_state_pure, on_state_ok, on_state_error, on_state_ite,
      bind_on_state, bind_map_state, map_bind_state, map_ite_state, map_pure_state,
      map_ok_state, map_error_state, ite_bind_res, pure_bind, on_state_pure_pair, h, ht]

theorem m_split_output_loop_swap {c : Config} (hc : Accepted c) (k : Nat) :
    ∀ (fuel : Nat) (s : aec_stream),
      m_split_output_loop (toggle_msb c) k fuel (swap_out c.bytes_per_sample s)
        = on_state (swap_out c.bytes_per_sample) (m_split_output_loop c k fuel s)
  | 0, _ => rfl
  | fuel + 1, s => by
    simp only [m_split_output_loop, bits_ask_swap, bits_get_swap, bits_drop_swap, fs_ask_swap,
      fs_drop_swap, fill_acc_swap, direct_get_swap, direct_get_fs_swap, rsi_store_swap,
      m_id_ref_swap, BUFFERSPACE_swap, se_lookup_swap, swap_out_next_in, swap_out_total_in,
      swap_out_next_out, swap_out_avail_out, swap_out_total_out, swap_out_mode, swap_out_id,
      swap_out_last_out, swap_out_n, swap_out_i, swap_out_acc, swap_out_bitp, swap_out_fs,
      swap_out_ref, swap_out_rsi_buffer, swap_out_rsip, swap_out_flush_start, swap_out_fold,
      toggle_bits_per_sample, toggle_block_size, toggle_rsi, toggle_id_len, toggle_id_table,
      toggle_xmin, toggle_xmax, toggle_in_blklen, toggle_out_blklen, toggle_pp,
      toggle_bytes_per_sample, toggle_rsi_size, toggle_se_table, toggle_PAD_RSI,
      toggle_DATA_SIGNED, toggle_flush_output, Bool.true_eq_false, Bool.false_eq_true, if_false,
      if_true, on_state_bind, on_state_pure, on_state_ok, on_state_error, on_state_ite,
      bind_on_state, bind_map_state, map_bind_state, map_ite_state, map_pure_state,
      map_ok_state, map_error_state, ite_bind_res, pure_bind, on_state_pure_pair,
      check_rsi_end_swap hc,
      m_split_output_loop_swap hc k fuel]

theorem m_split_output_swap {c : Config} (hc : Accepted c) (s : aec_stream) :
    m_split_output (toggle_msb c) (swap_out c.bytes_per_sample s)
      = on_state (swap_out c.bytes_per_sample) (m_split_output c s) :=
  m_split_output_loop_swap hc _ _ s

theorem m_split_fs_loop_swap {c : Config} (hc : Accepted c) (k : Nat) :
    ∀ (fuel : Nat) (s : aec_stream),
      m_split_fs_loop (toggle_msb c) k fuel (swap_out c.bytes_per_sample s)
        = on_state (swap_out c.bytes_per_sample) (m_split_fs_loop c k fuel s)
  | 0, _ => rfl
  | fuel + 1, s => by
    simp only [m_split_fs_loop, bits_ask_swap, bits_get_swap, bits_drop_swap, fs_ask_swap,
      fs_drop_swap, fill_acc_swap, direct_get_swap, direct_get_fs_swap, rsi_store_swap,
      m_id_ref_swap, BUFFERSPACE_swap, se_lookup_swap, swap_out_next_in, swap_out_total_in,
      swap_out_next_out, swap_out_avail_out, swap_out_total_out, swap_out_mode, swap_out_id,
      swap_out_last_out, swap_out_n, swap_out_i, swap_out_acc, swap_out_bitp, swap_out_fs,
      swap_out_ref, swap_out_rsi_buffer, swap_out_rsip, swap_out_flush_start, swap_out_fold,
      toggle_bits_per_sample, toggle_block_size, toggle_rsi, toggle_id_len, toggle_id_table,
      toggle_xmin, toggle_xmax, toggle_in_blklen, toggle_out_blklen, toggle_pp,
      toggle_bytes_per_sample, toggle_rsi_size, toggle_se_table, toggle_PAD_RSI,
      toggle_DATA_SIGNED, toggle_flush_output, Bool.true_eq_false, Bool.false_eq_true, if_false,
      if_true, on_state_bind, on_state_pure, on_state_ok, on_state_error, on_state_ite,
      bind_on_state, bind_map_state, map_bind_state, map_ite_state, map_pure_state,
      map_ok_state, map_error_state, ite_bind_res, pure_bind, on_state_pure_pair,
      m_split_fs_loop_swap hc k fuel]

theorem m_split_fs_swap {c : Config} (hc : Accepted c) (s : aec_stream) :
    m_split_fs (toggle_msb c) (swap_out c.bytes_per_sample s)
      = on_state (swap_out c.bytes_per_sample) (m_split_fs c s) :=
  m_split_fs_loop_swap hc _ _ s

theorem m_split_direct_fs_swap (B : Nat) (clz : Bool) (c : Config) (k : Nat) :
    ∀ (cnt i : Nat) (s : aec_stream),
      m_split_direct_fs clz (toggle_msb c) k cnt i (swap_out B s)
        = (m_split_direct_fs clz c k cnt i s).map (swap_out B)
  | 0, _, _ => rfl
  | cnt + 1, i, s => by
    simp only [m_split_direct_fs, bits_ask_swap, bits_get_swap, bits_drop_swap, fs_ask_swap,
      fs_drop_swap, fill_acc_swap, direct_get_swap, direct_get_fs_swap, rsi_store_swap,
      m_id_ref_swap, BUFFERSPACE_swap, se_lookup_swap, swap_out_next_in, swap_out_total_in,
      swap_out_next_out, swap_out_avail_out, swap_out_total_out, swap_out_mode, swap_out_id,
      swap_out_last_out, swap_out_n, swap_out_i, swap_out_acc, swap_out_bitp, swap_out_fs,
      swap_out_ref, swap_out_rsi_buffer, swap_out_rsip, swap_out_flush_start, swap_out_fold,
      toggle_bits_per_sample, toggle_block_size, toggle_rsi, toggle_id_len, toggle_id_table,
      toggle_xmin, toggle_xmax, toggle_in_blklen, toggle_out_blklen, toggle_pp,
      toggle_bytes_per_sample, toggle_rsi_size, toggle_se_table, toggle_PAD_RSI,
      toggle_DATA_SIGNED, toggle_flush_output, Bool.true_eq_false, Bool.false_eq_true, if_false,
      if_true, on_state_bind, on_state_pure, on_state_ok, on_state_error, on_state_ite,
      bind_on_state, bind_map_state, map_bind_state, map_ite_state, map_pure_state,
      map_ok_state, map_error_state, ite_bind_res, pure_bind, on_state_pure_pair,
      m_split_direct_fs_swap B clz c k cnt]

theorem m_split_direct_out_swap (B : Nat) (c : Config) (k : Nat) :
    ∀ (cnt : Nat) (s : aec_stream),
      m_split_direct_out (toggle_msb c) k cnt (swap_out B s)
        = (m_split_direct_out c k cnt s).map (swap_out B)
  | 0, _ => rfl
  | cnt + 1, s => by
    simp only [m_split_direct_out, bits_ask_swap, bits_get_swap, bits_drop_swap, fs_ask_swap,
      fs_drop_swap, fill_acc_swap, direct_get_swap, direct_get_fs_swap, rsi_store_swap,
      m_id_ref_swap, BUFFERSPACE_swap, se_lookup_swap, swap_out_next_in, swap_out_total_in,
      swap_out_next_out, swap_out_avail_out, swap_out_total_out, swap_out_mode, swap_out_id,
      swap_out_last_out, swap_out_n, swap_out_i, swap_out_acc, swap_out_bitp, swap_out_fs,
      swap_out_ref, swap_out_rsi_buffer, swap_out_rsip, swap_out_flush_start, swap_out_fold,
      toggle_bits_per_sample, toggle_block_size, toggle_rsi, toggle_id_len, toggle_id_table,
      toggle_xmin, toggle_xmax, toggle_in_blklen, toggle_out_blklen, toggle_pp,
      toggle_bytes_per_sample, toggle_rsi_size, toggle_se_table, toggle_PAD_RSI,
      toggle_DATA_SIGNED, toggle_flush_output, Bool.true_eq_false, Bool.false_eq_true, if_false,
      if_true, on_state_bind, on_state_pure, on_state_ok, on_state_error, on_state_ite,
      bind_on_state, bind_map_state, map_bind_state, map_ite_state, map_pure_state,
      map_ok_state, map_error_state, ite_bind_res, pure_bind, on_state_pure_pair,
      m_split_direct_out_swap B c k cnt]

theorem m_split_direct_ref_swap (B : Nat) (c : Config) (s : aec_stream) :
    m_split_direct_ref (toggle_msb c) (swap_out B s)
      = (m_split_direct_ref c s).map (swap_out B) := by
  simp only [m_split_direct_ref, bits_ask_swap, bits_get_swap, bits_drop_swap, fs_ask_swap,
    fs_drop_swap, fill_acc_swap, direct_get_swap, direct_get_fs_swap, rsi_store_swap,
    m_id_ref_swap, BUFFERSPACE_swap, se_lookup_swap, swap_out_next_in, swap_out_total_in,
    swap_out_next_out, swap_out_avail_out, swap_out_total_out, swap_out_mode, swap_out_id,
    swap_out_last_out, swap_out_n, swap_out_i, swap_out_acc, swap_out_bitp, swap_out_fs,
    swap_out_ref, swap_out_rsi_buffer, swap_out_rsip, swap_out_flush_start, swap_out_fold,
    toggle_bits_per_sample, toggle_block_size, toggle_rsi, toggle_id_len, toggle_id_table,
    toggle_xmin, toggle_xmax, toggle_in_blklen, toggle_out_blklen, toggle_pp,
    toggle_bytes_per_sample, toggle_rsi_size, toggle_se_table, toggle_PAD_RSI,
    toggle_DATA_SIGNED, toggle_flush_output, Bool.true_eq_false, Bool.false_eq_true, if_false,
    if_true, on_state_bind, on_state_pure, on_state_ok, on_state_error, on_state_ite,
    bind_on_state, bind_map_state, map_bind_state, map_ite_state, map_pure_state, map_ok_state,
    map_error_state, ite_bind_res, pure_bind, on_state_pure_pair]

theorem m_split_swap {c : Config} (hc : Accepted c) (clz : Bool) (s : aec_stream) :
    m_split clz (toggle_msb c) (swap_out c.bytes_per_sample s)
      = on_state (swap_out c.bytes_per_sample) (m_split clz c s) := by
  simp only [m_split, bits_ask_swap, bits_get_swap, bits_drop_swap, fs_ask_swap, fs_drop_swap,
    fill_acc_swap, direct_get_swap, direct_get_fs_swap, rsi_store_swap, m_id_ref_swap,
    BUFFERSPACE_swap, se_lookup_swap, swap_out_next_in, swap_out_total_in, swap_out_next_out,
    swap_out_avail_out, swap_out_total_out, swap_out_mode, swap_out_id, swap_out_last_out,
    swap_out_n, swap_out_i, swap_out_acc, swap_out_bitp, swap_out_fs, swap_out_ref,
    swap_out_rsi_buffer, swap_out_rsip, swap_out_flush_start, swap_out_fold,
    toggle_bits_per_sample, toggle_block_size, toggle_rsi, toggle_id_len, toggle_id_table,
    toggle_xmin, toggle_xmax, toggle_in_blklen, toggle_out_blklen, toggle_pp,
    toggle_bytes_per_sample, toggle_rsi_size, toggle_se_table, toggle_PAD_RSI,
    toggle_DATA_SIGNED, toggle_flush_output, Bool.true_eq_false, Bool.false_eq_true, if_false,
    if_true, on_state_bind, on_state_pure, on_state_ok, on_state_error, on_state_ite,
    bind_on_state, bind_map_state, map_bind_state, map_ite_state, map_pure_state, map_ok_state,
    map_error_state, ite_bind_res, pure_bind, on_state_pure_pair, check_rsi_end_swap hc,
    copysample_swap hc,
    m_split_direct_ref_swap, m_split_direct_fs_swap, m_split_direct_out_swap]

theorem m_zero_output_loop_swap {c : Config} (hc : Accepted c) :
    ∀ (fuel : Nat) (s : aec_stream),
      m_zero_output_loop (toggle_msb c) fuel (swap_out c.bytes_per_sample s)
        = on_state (swap_out c.bytes_per_sample) (m_zero_output_loop c fuel s)
  | 0, _ => rfl
  | fuel + 1, s => by
    simp only [m_zero_output_loop, bits_ask_swap, bits_get_swap, bits_drop_swap, fs_ask_swap,
      fs_drop_swap, fill_acc_swap, direct_get_swap, direct_get_fs_swap, rsi_store_swap,
      m_id_ref_swap, BUFFERSPACE_swap, se_lookup_swap, swap_out_next_in, swap_out_total_in,
      swap_out_next_out, swap_out_avail_out, swap_out_total_out, swap_out_mode, swap_out_id,
      swap_out_last_out, swap_out_n, swap_out_i, swap_out_acc, swap_out_bitp, swap_out_fs,
      swap_out_ref, swap_out_rsi_buffer, swap_out_rsip, swap_out_flush_start, swap_out_fold,
      toggle_bits_per_sample, toggle_block_size, toggle_rsi, toggle_id_len, toggle_id_table,
      toggle_xmin, toggle_xmax, toggle_in_blklen, toggle_out_blklen, toggle_pp,
      toggle_bytes_per_sample, toggle_rsi_size, toggle_se_table, toggle_PAD_RSI,
      toggle_DATA_SIGNED, toggle_flush_output, Bool.true_eq_false, Bool.false_eq_true, if_false,
      if_true, on_state_bind, on_state_pure, on_state_ok, on_state_error, on_state_ite,
      bind_on_state, bind_map_state, map_bind_state, map_ite_state, map_pure_state,
      map_ok_state, map_error_state, ite_bind_res, pure_bind, on_state_pure_pair,
      put_sample_swap hc,
      m_zero_output_loop_swap hc fuel]

theorem m_zero_output_swap {c : Config} (hc : Accepted c) (s : aec_stream) :
    m_zero_output (toggle_msb c) (swap_out c.bytes_per_sample s)
      = on_state (swap_out c.bytes_per_sample) (m_zero_output c s) :=
  m_zero_output_loop_swap hc _ s

theorem zero_samples_swap (c : Config) (fs rsip ref : Nat) :
    zero_samples (toggle_msb c) fs rsip ref = zero_samples c fs rsip ref := rfl

theorem m_zero_block_swap {c : Config} (hc : Accepted c) (s : aec_stream) :
    m_zero_block (toggle_msb c) (swap_out c.bytes_per_sample s)
      = on_state (swap_out c.bytes_per_sample) (m_zero_block c s) := by
  simp only [m_zero_block, bits_ask_swap, bits_get_swap, bits_drop_swap, fs_ask_swap,
    fs_drop_swap, fill_acc_swap, direct_get_swap, direct_get_fs_swap, rsi_store_swap,
    m_id_ref_swap, BUFFERSPACE_swap, se_lookup_swap, swap_out_next_in, swap_out_total_in,
    swap_out_next_out, swap_out_avail_out, swap_out_total_out, swap_out_mode, swap_out_id,
    swap_out_last_out, swap_out_n, swap_out_i, swap_out_acc, swap_out_bitp, swap_out_fs,
    swap_out_ref, swap_out_rsi_buffer, swap_out_rsip, swap_out_flush_start, swap_out_fold,
    toggle_bits_per_sample, toggle_block_size, toggle_rsi, toggle_id_len, toggle_id_table,
    toggle_xmin, toggle_xmax, toggle_in_blklen, toggle_out_blklen, toggle_pp,
    toggle_bytes_per_sample, toggle_rsi_size, toggle_se_table, toggle_PAD_RSI,
    toggle_DATA_SIGNED, toggle_flush_output, Bool.true_eq_false, Bool.false_eq_true, if_false,
    if_true, on_state_bind, on_state_pure, on_state_ok, on_state_error, on_state_ite,
    bind_on_state, bind_map_state, map_bind_state, map_ite_state, map_pure_state, map_ok_state,
    map_error_state, ite_bind_res, pure_bind, on_state_pure_pair, check_rsi_end_swap hc,
    zero_samples_swap]

theorem m_se_first_swap {c : Config} (hc : Accepted c) (s : aec_stream) (w : Nat) :
    m_se_first (toggle_msb c) (swap_out c.bytes_per_sample s) w
      = (m_se_first c s w).map (swap_out c.bytes_per_sample) := by
  simp only [m_se_first, bits_ask_swap, bits_get_swap, bits_drop_swap, fs_ask_swap,
    fs_drop_swap, fill_acc_swap, direct_get_swap, direct_get_fs_swap, rsi_store_swap,
    m_id_ref_swap, BUFFERSPACE_swap, se_lookup_swap, swap_out_next_in, swap_out_total_in,
    swap_out_next_out, swap_out_avail_out, swap_out_total_out, swap_out_mode, swap_out_id,
    swap_out_last_out, swap_out_n, swap_out_i, swap_out_acc, swap_out_bitp, swap_out_fs,
    swap_out_ref, swap_out_rsi_buffer, swap_out_rsip, swap_out_flush_start, swap_out_fold,
    toggle_bits_per_sample, toggle_block_size, toggle_rsi, toggle_id_len, toggle_id_table,
    toggle_xmin, toggle_xmax, toggle_in_blklen, toggle_out_blklen, toggle_pp,
    toggle_bytes_per_sample, toggle_rsi_size, toggle_se_table, toggle_PAD_RSI,
    toggle_DATA_SIGNED, toggle_flush_output, Bool.true_eq_false, Bool.false_eq_true, if_false,
    if_true, on_state_bind, on_state_pure, on_state_ok, on_state_error, on_state_ite,
    bind_on_state, bind_map_state, map_bind_state, map_ite_state, map_pure_state, map_ok_state,
    map_error_state, ite_bind_res, pure_bind, on_state_pure_pair, put_sample_swap hc]

theorem m_se_decode_loop_swap {c : Config} (hc : Accepted c) :
    ∀ (fuel : Nat) (s : aec_stream),
      m_se_decode_loop (toggle_msb c) fuel (swap_out c.bytes_per_sample s)
        = on_state (swap_out c.bytes_per_sample) (m_se_decode_loop c fuel s)
  | 0, _ => rfl
  | fuel + 1, s => by
    simp only [m_se_decode_loop, bits_ask_swap, bits_get_swap, bits_drop_swap, fs_ask_swap,
      fs_drop_swap, fill_acc_swap, direct_get_swap, direct_get_fs_swap, rsi_store_swap,
      m_id_ref_swap, BUFFERSPACE_swap, se_lookup_swap, swap_out_next_in, swap_out_total_in,
      swap_out_next_out, swap_out_avail_out, swap_out_total_out, swap_out_mode, swap_out_id,
      swap_out_last_out, swap_out_n, swap_out_i, swap_out_acc, swap_out_bitp, swap_out_fs,
      swap_out_ref, swap_out_rsi_buffer, swap_out_rsip, swap_out_flush_start, swap_out_fold,
      toggle_bits_per_sample, toggle_block_size, toggle_rsi, toggle_id_len, toggle_id_table,
      toggle_xmin, toggle_xmax, toggle_in_blklen, toggle_out_blklen, toggle_pp,
      toggle_bytes_per_sample, toggle_rsi_size, toggle_se_table, toggle_PAD_RSI,
      toggle_DATA_SIGNED, toggle_flush_output, Bool.true_eq_false, Bool.false_eq_true, if_false,
      if_true, on_state_bind, on_state_pure, on_state_ok, on_state_error, on_state_ite,
      bind_on_state, bind_map_state, map_bind_state, map_ite_state, map_pure_state,
      map_ok_state, map_error_state, ite_bind_res, pure_bind, on_state_pure_pair,
      put_sample_swap hc, m_se_first_swap hc,
      m_se_decode_loop_swap hc fuel]

theorem m_se_decode_swap {c : Config} (hc : Accepted c) (s : aec_stream) :
    m_se_decode (toggle_msb c) (swap_out c.bytes_per_sample s)
      = on_state (swap_out c.bytes_per_sample) (m_se_decode c s) :=
  m_se_decode_loop_swap hc _ s

theorem m_se_direct_swap {c : Config} (hc : Accepted c) (clz : Bool) :
    ∀ (fuel i : Nat) (s : aec_stream),
      m_se_direct clz (toggle_msb c) fuel i (swap_out c.bytes_per_sample s)
        = (m_se_direct clz c fuel i s).map (swap_out c.bytes_per_sample)
  | 0, _, _ => rfl
  | fuel + 1, i, s => by
    simp only [m_se_direct, bits_ask_swap, bits_get_swap, bits_drop_swap, fs_ask_swap,
      fs_drop_swap, fill_acc_swap, direct_get_swap, direct_get_fs_swap, rsi_store_swap,
      m_id_ref_swap, BUFFERSPACE_swap, se_lookup_swap, swap_out_next_in, swap_out_total_in,
      swap_out_next_out, swap_out_avail_out, swap_out_total_out, swap_out_mode, swap_out_id,
      swap_out_last_out, swap_out_n, swap_out_i, swap_out_acc, swap_out_bitp, swap_out_fs,
      swap_out_ref, swap_out_rsi_buffer, swap_out_rsip, swap_out_flush_start, swap_out_fold,
      toggle_bits_per_sample, toggle_block_size, toggle_rsi, toggle_id_len, toggle_id_table,
      toggle_xmin, toggle_xmax, toggle_in_blklen, toggle_out_blklen, toggle_pp,
      toggle_bytes_per_sample, toggle_rsi_size, toggle_se_table, toggle_PAD_RSI,
      toggle_DATA_SIGNED, toggle_flush_output, Bool.true_eq_false, Bool.false_eq_true, if_false,
      if_true, on_state_bind, on_state_pure, on_state_ok, on_state_error, on_state_ite,
      bind_on_state, bind_map_state, map_bind_state, map_ite_state, map_pure_state,
      map_ok_state, map_error_state, ite_bind_res, pure_bind, on_state_pure_pair,
      put_sample_swap hc, m_se_direct_swap hc clz fuel]

theorem m_se_swap {c : Config} (hc : Accepted c) (clz : Bool) (s : aec_stream) :
    m_se clz (toggle_msb c) (swap_out c.bytes_per_sample s)
      = on_state (swap_out c.bytes_per_sample) (m_se clz c s) := by
  simp only [m_se, bits_ask_swap, bits_get_swap, bits_drop_swap, fs_ask_swap, fs_drop_swap,
    fill_acc_swap, direct_get_swap, direct_get_fs_swap, rsi_store_swap, m_id_ref_swap,
    BUFFERSPACE_swap, se_lookup_swap, swap_out_next_in, swap_out_total_in, swap_out_next_out,
    swap_out_avail_out, swap_out_total_out, swap_out_mode, swap_out_id, swap_out_last_out,
    swap_out_n, swap_out_i, swap_out_acc, swap_out_bitp, swap_out_fs, swap_out_ref,
    swap_out_rsi_buffer, swap_out_rsip, swap_out_flush_start, swap_out_fold,
    toggle_bits_per_sample, toggle_block_size, toggle_rsi, toggle_id_len, toggle_id_table,
    toggle_xmin, toggle_xmax, toggle_in_blklen, toggle_out_blklen, toggle_pp,
    toggle_bytes_per_sample, toggle_rsi_size, toggle_se_table, toggle_PAD_RSI,
    toggle_DATA_SIGNED, toggle_flush_output, Bool.true_eq_false, Bool.false_eq_true, if_false,
    if_true, on_state_bind, on_state_pure, on_state_ok, on_state_error, on_state_ite,
    bind_on_state, bind_map_state, map_bind_state, map_ite_state, map_pure_state, map_ok_state,
    map_error_state, ite_bind_res, pure_bind, on_state_pure_pair, m_se_direct_swap hc]

theorem m_low_entropy_ref_swap {c : Config} (hc : Accepted c) (s : aec_stream) :
    m_low_entropy_ref (toggle_msb c) (swap_out c.bytes_per_sample s)
      = on_state (swap_out c.bytes_per_sample) (m_low_entropy_ref c s) := by
  simp only [m_low_entropy_ref, bits_ask_swap, bits_get_swap, bits_drop_swap, fs_ask_swap,
    fs_drop_swap, fill_acc_swap, direct_get_swap, direct_get_fs_swap, rsi_store_swap,
    m_id_ref_swap, BUFFERSPACE_swap, se_lookup_swap, swap_out_next_in, swap_out_total_in,
    swap_out_next_out, swap_out_avail_out, swap_out_total_out, swap_out_mode, swap_out_id,
    swap_out_last_out, swap_out_n, swap_out_i, swap_out_acc, swap_out_bitp, swap_out_fs,
    swap_out_ref, swap_out_rsi_buffer, swap_out_rsip, swap_out_flush_start, swap_out_fold,
    toggle_bits_per_sample, toggle_block_size, toggle_rsi, toggle_id_len, toggle_id_table,
    toggle_xmin, toggle_xmax, toggle_in_blklen, toggle_out_blklen, toggle_pp,
    toggle_bytes_per_sample, toggle_rsi_size, toggle_se_table, toggle_PAD_RSI,
    toggle_DATA_SIGNED, toggle_flush_output, Bool.true_eq_false, Bool.false_eq_true, if_false,
    if_true, on_state_bind, on_state_pure, on_state_ok, on_state_error, on_state_ite,
    bind_on_state, bind_map_state, map_bind_state, map_ite_state, map_pure_state, map_ok_state,
    map_error_state, ite_bind_res, pure_bind, on_state_pure_pair, copysample_swap hc]

theorem m_low_entropy_swap (B : Nat) (s : aec_stream) :
    m_low_entropy (swap_out B s) = on_state (swap_out B) (m_low_entropy s) := by
  simp only [m_low_entropy, bits_ask_swap, bits_get_swap, bits_drop_swap, fs_ask_swap,
    fs_drop_swap, fill_acc_swap, direct_get_swap, direct_get_fs_swap, rsi_store_swap,
    m_id_ref_swap, BUFFERSPACE_swap, se_lookup_swap, swap_out_next_in, swap_out_total_in,
    swap_out_next_out, swap_out_avail_out, swap_out_total_out, swap_out_mode, swap_out_id,
    swap_out_last_out, swap_out_n, swap_out_i, swap_out_acc, swap_out_bitp, swap_out_fs,
    swap_out_ref, swap_out_rsi_buffer, swap_out_rsip, swap_out_flush_start, swap_out_fold,
    toggle_bits_per_sample, toggle_block_size, toggle_rsi, toggle_id_len, toggle_id_table,
    toggle_xmin, toggle_xmax, toggle_in_blklen, toggle_out_blklen, toggle_pp,
    toggle_bytes_per_sample, toggle_rsi_size, toggle_se_table, toggle_PAD_RSI,
    toggle_DATA_SIGNED, toggle_flush_output, Bool.true_eq_false, Bool.false_eq_true, if_false,
    if_true, on_state_bind, on_state_pure, on_state_ok, on_state_error, on_state_ite,
    bind_on_state, bind_map_state, map_bind_state, map_ite_state, map_pure_state, map_ok_state,
    map_error_state, ite_bind_res, pure_bind, on_state_pure_pair]

theorem m_uncomp_copy_loop_swap {c : Config} (hc : Accepted c) :
    ∀ (fuel : Nat) (s : aec_stream),
      m_uncomp_copy_loop (toggle_msb c) fuel (swap_out c.bytes_per_sample s)
        = on_state (swap_out c.bytes_per_sample) (m_uncomp_copy_loop c fuel s)
  | 0, _ => rfl
  | fuel + 1, s => by
    simp only [m_uncomp_copy_loop, bits_ask_swap, bits_get_swap, bits_drop_swap, fs_ask_swap,
      fs_drop_swap, fill_acc_swap, direct_get_swap, direct_get_fs_swap, rsi_store_swap,
      m_id_ref_swap, BUFFERSPACE_swap, se_lookup_swap, swap_out_next_in, swap_out_total_in,
      swap_out_next_out, swap_out_avail_out, swap_out_total_out, swap_out_mode, swap_out_id,
      swap_out_last_out, swap_out_n, swap_out_i, swap_out_acc, swap_out_bitp, swap_out_fs,
      swap_out_ref, swap_out_rsi_buffer, swap_out_rsip, swap_out_flush_start, swap_out_fold,
      toggle_bits_per_sample, toggle_block_size, toggle_rsi, toggle_id_len, toggle_id_table,
      toggle_xmin, toggle_xmax, toggle_in_blklen, toggle_out_blklen, toggle_pp,
      toggle_bytes_per_sample, toggle_rsi_size, toggle_se_table, toggle_PAD_RSI,
      toggle_DATA_SIGNED, toggle_flush_output, Bool.true_eq_false, Bool.false_eq_true, if_false,
      if_true, on_state_bind, on_state_pure, on_state_ok, on_state_error, on_state_ite,
      bind_on_state, bind_map_state, map_bind_state, map_ite_state, map_pure_state,
      map_ok_state, map_error_state, ite_bind_res, pure_bind, on_state_pure_pair,
      copysample_swap hc,
      m_uncomp_copy_loop_swap hc fuel]

theorem m_uncomp_copy_swap {c : Config} (hc : Accepted c) (s : aec_stream) :
    m_uncomp_copy (toggle_msb c) (swap_out c.bytes_per_sample s)
      = on_state (swap_out c.bytes_per_sample) (m_uncomp_copy c s) :=
  m_uncomp_copy_loop_swap hc _ s

theorem m_uncomp_direct_swap (B : Nat) (c : Config) :
    ∀ (cnt : Nat) (s : aec_stream),
      m_uncomp_direct (toggle_msb c) cnt (swap_out B s)
        = (m_uncomp_direct c cnt s).map (swap_out B)
  | 0, _ => rfl
  | cnt + 1, s => by
    simp only [m_uncomp_direct, bits_ask_swap, bits_get_swap, bits_drop_swap, fs_ask_swap,
      fs_drop_swap, fill_acc_swap, direct_get_swap, direct_get_fs_swap, rsi_store_swap,
      m_id_ref_swap, BUFFERSPACE_swap, se_lookup_swap, swap_out_next_in, swap_out_total_in,
      swap_out_next_out, swap_out_avail_out, swap_out_total_out, swap_out_mode, swap_out_id,
      swap_out_last_out, swap_out_n, swap_out_i, swap_out_acc, swap_out_bitp, swap_out_fs,
      swap_out_ref, swap_out_rsi_buffer, swap_out_rsip, swap_out_flush_start, swap_out_fold,
      toggle_bits_per_sample, toggle_block_size, toggle_rsi, toggle_id_len, toggle_id_table,
      toggle_xmin, toggle_xmax, toggle_in_blklen, toggle_out_blklen, toggle_pp,
      toggle_bytes_per_sample, toggle_rsi_size, toggle_se_table, toggle_PAD_RSI,
      toggle_DATA_SIGNED, toggle_flush_output, Bool.true_eq_false, Bool.false_eq_true, if_false,
      if_true, on_state_bind, on_state_pure, on_state_ok, on_state_error, on_state_ite,
      bind_on_state, bind_map_state, map_bind_state, map_ite_state, map_pure_state,
      map_ok_state, map_error_state, ite_bind_res, pure_bind, on_state_pure_pair,
      m_uncomp_direct_swap B c cnt]

theorem m_uncomp_swap {c : Config} (hc : Accepted c) (s : aec_stream) :
    m_uncomp (toggle_msb c) (swap_out c.bytes_per_sample s)
      = on_state (swap_out c.bytes_per_sample) (m_uncomp c s) := by
  simp only [m_uncomp, bits_ask_swap, bits_get_swap, bits_drop_swap, fs_ask_swap,
    fs_drop_swap, fill_acc_swap, direct_get_swap, direct_get_fs_swap, rsi_store_swap,
    m_id_ref_swap, BUFFERSPACE_swap, se_lookup_swap, swap_out_next_in, swap_out_total_in,
    swap_out_next_out, swap_out_avail_out, swap_out_total_out, swap_out_mode, swap_out_id,
    swap_out_last_out, swap_out_n, swap_out_i, swap_out_acc, swap_out_bitp, swap_out_fs,
    swap_out_ref, swap_out_rsi_buffer, swap_out_rsip, swap_out_flush_start, swap_out_fold,
    toggle_bits_per_sample, toggle_block_size, toggle_rsi, toggle_id_len, toggle_id_table,
    toggle_xmin, toggle_xmax, toggle_in_blklen, toggle_out_blklen, toggle_pp,
    toggle_bytes_per_sample, toggle_rsi_size, toggle_se_table, toggle_PAD_RSI,
    toggle_DATA_SIGNED, toggle_flush_output, Bool.true_eq_false, Bool.false_eq_true, if_false,
    if_true, on_state_bind, on_state_pure, on_state_ok, on_state_error, on_state_ite,
    bind_on_state, bind_map_state, map_bind_state, map_ite_state, map_pure_state, map_ok_state,
    map_error_state, ite_bind_res, pure_bind, on_state_pure_pair, check_rsi_end_swap hc,
    m_uncomp_direct_swap]

theorem call_mode_swap {c : Config} (hc : Accepted c) (clz : Bool) (s : aec_stream) :
    call_mode clz (toggle_msb c) (swap_out c.bytes_per_sample s)
      = on_state (swap_out c.bytes_per_sample) (call_mode clz c s) := by
  unfold call_mode
  rw [swap_out_mode]
  cases s.mode
  · exact m_id_swap hc s
  · exact m_split_swap hc clz s
  · exact m_split_fs_swap hc s
  · exact m_split_output_swap hc s
  · exact m_zero_block_swap hc s
  · exact m_zero_output_swap hc s
  · exact m_se_swap hc clz s
  · exact m_se_decode_swap hc s
  · exact m_low_entropy_swap _ s
  · exact m_low_entropy_ref_swap hc s
  · exact m_uncomp_swap hc s
  · exact m_uncomp_copy_swap hc s

theorem run_modes_swap {c : Config} (hc : Accepted c) (clz : Bool) :
    ∀ (fuel : Nat) (s : aec_stream),
      run_modes clz (toggle_msb c) fuel (swap_out c.bytes_per_sample s)
        = on_state (swap_out c.bytes_per_sample) (run_modes clz c fuel s)
  | 0, _ => rfl
  | fuel + 1, s => by
    simp only [run_modes, call_mode_swap hc, swap_out_next_in, swap_out_total_in,
      swap_out_next_out, swap_out_avail_out, swap_out_total_out, swap_out_mode, swap_out_id,
      swap_out_last_out, swap_out_n, swap_out_i, swap_out_acc, swap_out_bitp, swap_out_fs,
      swap_out_ref, swap_out_rsi_buffer, swap_out_rsip, swap_out_flush_start, swap_out_fold,
      toggle_bits_per_sample, toggle_block_size, toggle_rsi, toggle_id_len, toggle_id_table,
      toggle_xmin, toggle_xmax, toggle_in_blklen, toggle_out_blklen, toggle_pp,
      toggle_bytes_per_sample, toggle_rsi_size, toggle_se_table, toggle_PAD_RSI,
      toggle_DATA_SIGNED, toggle_flush_output, Bool.true_eq_false, Bool.false_eq_true, if_false,
      if_true, on_state_bind, on_state_pure, on_state_ok, on_state_error, on_state_ite,
      bind_on_state, bind_map_state, map_bind_state, map_ite_state, map_pure_state,
      map_ok_state, map_error_state, ite_bind_res, pure_bind, on_state_pure_pair, run_modes_swap
      hc clz fuel]

/-- The decoder with the flag `AEC_DATA_MSB` toggled, on the state with swapped output, does
what the decoder does, with swapped output. -/
theorem aec_decode_swap {c : Config} (hc : Accepted c) (clz : Bool) (s : aec_stream) :
    aec_decode clz (toggle_msb c) (swap_out c.bytes_per_sample s)
      = on_state (swap_out c.bytes_per_sample) (aec_decode clz c s) := by
  have e : ∀ t : aec_stream, (swap_out c.bytes_per_sample t).avail_in = t.avail_in :=
    fun _ => rfl
  have d : ∀ t : aec_stream, decode_fuel (swap_out c.bytes_per_sample t) = decode_fuel t :=
    fun _ => rfl
  simp only [aec_decode, e, swap_out_next_in, swap_out_total_in, swap_out_next_out,
    swap_out_avail_out, swap_out_total_out, swap_out_mode, swap_out_id, swap_out_last_out,
    swap_out_n, swap_out_i, swap_out_acc, swap_out_bitp, swap_out_fs, swap_out_ref,
    swap_out_rsi_buffer, swap_out_rsip, swap_out_flush_start, swap_out_fold,
    toggle_bits_per_sample, toggle_block_size, toggle_rsi, toggle_id_len, toggle_id_table,
    toggle_xmin, toggle_xmax, toggle_in_blklen, toggle_out_blklen, toggle_pp,
    toggle_bytes_per_sample, toggle_rsi_size, toggle_se_table, toggle_PAD_RSI,
    toggle_DATA_SIGNED, toggle_flush_output, Bool.true_eq_false, Bool.false_eq_true, if_false,
    if_true, on_state_bind, on_state_pure, on_state_ok, on_state_error, on_state_ite,
    bind_on_state, bind_map_state, map_bind_state, map_ite_state, map_pure_state, map_ok_state,
    map_error_state, ite_bind_res, pure_bind, on_state_pure_pair, d, run_modes_swap hc,
    flush_swap hc]

theorem init_config_toggle (bps bs rsi : Nat) (flags : Flags) (c : Config)
    (h : init_config bps bs rsi flags = (Ret.AEC_OK, some c)) :
    init_config bps bs rsi { flags with DATA_MSB := !flags.DATA_MSB }
      = (Ret.AEC_OK, some (toggle_msb c)) := by
  rcases flags with ⟨sg, tb, msb, ppf, rs, pad⟩
  unfold init_config at h ⊢
  split_ifs at h ⊢ <;>
    first
    | (cases h; done)
    | (cases h; cases msb <;> simp_all [toggle_msb, mirror])

theorem out_bytes_length {c : Config} (hc : Accepted c) (vs : List Int) :
    (out_bytes c vs).length = vs.length * c.bytes_per_sample := by
  induction vs with
  | nil => simp [out_bytes]
  | cons v vs ih =>
    have e : out_bytes c (v :: vs) = put c.flush_output (to_u32 v) ++ out_bytes c vs := by
      simp [out_bytes]
    rw [e, List.length_append, ih, put_length hc, List.length_cons]
    ring

theorem swap_rev_length (B : Nat) (hB : 1 ≤ B) : ∀ (n : Nat) (r : List Nat),
    r.length ≤ n → (swap_rev B n r).length = r.length := by
  intro n
  induction n with
  | zero =>
    intro r h
    have : r = [] := List.length_eq_zero.mp (by omega)
    subst this
    rfl
  | succ n ih =>
    intro r h
    unfold swap_rev
    by_cases hr : r = []
    · simp [hr]
    · rw [if_neg hr, List.length_append, ih (r.drop B) (by
        have hpos : 0 < r.length := List.length_pos.mpr hr
        rw [List.length_drop]; omega), List.length_drop, List.length_take]
      omega

theorem swap_bytes_length (B : Nat) (hB : 1 ≤ B) (o : List Nat) :
    (swap_bytes B o).length = o.length := by
  unfold swap_bytes
  rw [swap_rev_length B hB _ _ (by rw [List.length_reverse]), List.length_reverse]

theorem swap_bytes_groups (B : Nat) (hB : 1 ≤ B) (gs : List (List Nat)) :
    (∀ g ∈ gs, g.length = B) → swap_bytes B gs.flatten = (gs.map List.reverse).flatten := by
  induction gs using List.reverseRecOn with
  | nil => intro _; rfl
  | append_singleton gs g ih =>
    intro h
    have hg : g.length = B := h g (by simp)
    have hgs : ∀ x ∈ gs, x.length = B := fun x hx => h x (by simp [hx])
    rw [List.flatten_append, List.map_append, List.flatten_append]
    simp only [List.flatten_cons, List.flatten_nil, List.append_nil, List.map_cons, List.map_nil]
    rw [swap_bytes_append B hB _ _ hg, ih hgs]

theorem decode_chunks_swap {c : Config} (hc : Accepted c) (clz : Bool) :
    ∀ (chunks : List (List Byte)) (s : aec_stream),
      decode_chunks clz (toggle_msb c) (swap_out c.bytes_per_sample s) chunks
        = on_state (swap_out c.bytes_per_sample) (decode_chunks clz c s chunks)
  | [], s => rfl
  | chunk :: rest, s => by
    unfold decode_chunks
    have e : ({ swap_out c.bytes_per_sample s with
          next_in := (swap_out c.bytes_per_sample s).next_in ++ chunk } : aec_stream)
        = swap_out c.bytes_per_sample { s with next_in := s.next_in ++ chunk } := rfl
    rw [e, aec_decode_swap hc]
    rcases aec_decode clz c { s with next_in := s.next_in ++ chunk } with err | r
    · rfl
    · show (if r.1 = Ret.AEC_OK then
          decode_chunks clz (toggle_msb c) (swap_out c.bytes_per_sample r.2) rest
          else pure (r.1, swap_out c.bytes_per_sample r.2)) = _
      rw [decode_chunks_swap hc clz rest r.2]
      show _ = on_state (swap_out c.bytes_per_sample)
        (if r.1 = Ret.AEC_OK then decode_chunks clz c r.2 rest else pure r)
      split_ifs <;> rfl

theorem swap_out_empty (B : Nat) (s : aec_stream) (h : s.next_out = []) : swap_out B s = s := by
  rcases s with ⟨a1, a2, a3, a4, a5, a6, a7, a8, a9, a10, a11, a12, a13, a14, a15, a16, a17⟩
  simp only at h
  subst h
  rfl

/-- C11 (byte-order symmetry).  For every sample word the bytes of `put_msb_N` are those of
`put_lsb_N` reversed (N = 16, 24, 32); a put of an accepted configuration writes
`bytes_per_sample` bytes, three for the 24-bit puts.  Initialisation with `AEC_DATA_MSB`
toggled succeeds with the configuration `toggle_msb c`, which differs from `c` in that flag
and in the put function only, and whose put writes the bytes of the put of `c` reversed.  A
call of `aec_decode` (and a sequence of calls) under the toggled configuration, started in
the state whose output so far has the bytes of every sample reversed, gives the same return
code and the same state except that again the bytes of every sample of the output are
reversed: in particular from an empty output both decodes succeed or fail together, and if
the output of one is the byte sequence of the samples `vs` the output of the other is the byte
sequence of the same samples `vs` in the other byte order, with the same number of bytes. -/
theorem C11_byte_order_symmetry (bps bs rsi : Nat) (flags : Flags) (strm0 : aec_stream)
    (c : Config) (s0 : aec_stream)
    (hinit : aec_decode_init bps bs rsi flags strm0 = (Ret.AEC_OK, some (c, s0)))
    (clz : Bool) :
    (∀ data : Nat, put_msb_16 data = (put_lsb_16 data).reverse ∧
      put_msb_24 data = (put_lsb_24 data).reverse ∧
      put_msb_32 data = (put_lsb_32 data).reverse) ∧
    (∀ data : Nat, (put c.flush_output data).length = c.bytes_per_sample ∧
      (put_msb_24 data).length = 3 ∧ (put_lsb_24 data).length = 3 ∧
      put (toggle_msb c).flush_output data = (put c.flush_output data).reverse) ∧
    aec_decode_init bps bs rsi { flags with DATA_MSB := !flags.DATA_MSB } strm0
      = (Ret.AEC_OK, some (toggle_msb c, s0)) ∧
    (toggle_msb c).bytes_per_sample = c.bytes_per_sample ∧
    (∀ s : aec_stream,
      aec_decode clz (toggle_msb c) (swap_out c.bytes_per_sample s)
        = on_state (swap_out c.bytes_per_sample) (aec_decode clz c s)) ∧
    (∀ (s : aec_stream) (chunks : List (List Byte)),
      decode_chunks clz (toggle_msb c) (swap_out c.bytes_per_sample s) chunks
        = on_state (swap_out c.bytes_per_sample) (decode_chunks clz c s chunks)) ∧
    (∀ s : aec_stream, s.next_out = [] →
      aec_decode clz (toggle_msb c) s
        = on_state (swap_out c.bytes_per_sample) (aec_decode clz c s)) ∧
    (∀ (o : List Nat) (vs : List Int),
      swap_bytes c.bytes_per_sample (o ++ out_bytes c vs)
        = swap_bytes c.bytes_per_sample o ++ out_bytes (toggle_msb c) vs) ∧
    (∀ vs : List Int,
      swap_bytes c.bytes_per_sample (out_bytes c vs) = out_bytes (toggle_msb c) vs ∧
      (out_bytes c vs).length = vs.length * c.bytes_per_sample ∧
      (out_bytes (toggle_msb c) vs).length = vs.length * c.bytes_per_sample) ∧
    (∀ gs : List (List Nat), (∀ g ∈ gs, g.length = c.bytes_per_sample) →
      swap_bytes c.bytes_per_sample gs.flatten = (gs.map List.reverse).flatten) ∧
    (∀ o : List Nat, (swap_bytes c.bytes_per_sample o).length = o.length) := by
  have hcfg : init_config bps bs rsi flags = (Ret.AEC_OK, some c) ∧ s0 = init_stream strm0 := by
    unfold aec_decode_init at hinit
    rcases hi : init_config bps bs rsi flags with ⟨r, _ | c1⟩
    · rw [hi] at hinit; cases hinit
    · rw [hi] at hinit
      simp only [Prod.mk.injEq, Option.some.injEq] at hinit
      obtain ⟨h1, h2, h3⟩ := hinit
      subst h1 h2
      exact ⟨rfl, h3.symm⟩
  have hc : Accepted c := (init_config_accepted (by rw [hcfg.1])).1
  have hB := bytes_per_sample_pos hc
  have hct : Accepted (toggle_msb c) :=
    (init_config_accepted (by rw [init_config_toggle bps bs rsi flags c hcfg.1])).1
  refine ⟨fun _ => ⟨rfl, rfl, rfl⟩,
    fun data => ⟨put_length hc data, rfl, rfl, put_mirror c.flush_output data⟩,
    ?_, rfl, aec_decode_swap hc clz, fun s chunks => decode_chunks_swap hc clz chunks s, ?_,
    fun o vs => swap_bytes_samples hc vs o, ?_, swap_bytes_groups _ hB, swap_bytes_length _ hB⟩
  · unfold aec_decode_init
    rw [init_config_toggle bps bs rsi flags c hcfg.1, hcfg.2]
  · intro s hs
    have h := aec_decode_swap hc clz s
    rw [swap_out_empty _ s hs] at h
    exact h
  · intro vs
    have h := swap_bytes_samples hc vs []
    rw [List.nil_append, swap_bytes_nil, List.nil_append] at h
    have hl := out_bytes_length hct vs
    exact ⟨h, out_bytes_length hc vs, hl⟩

/-- Witness for C11: one uncompressed block of eight 16-bit samples 1..8 decoded with and
without `AEC_DATA_MSB`. -/
theorem C11_byte_order_symmetry_witness :
    aec_decode_init 16 8 1 no_flags blank_stream
      = (Ret.AEC_OK, some (config_of 16 8 1 no_flags, init_stream blank_stream)) ∧
    (aec_decode true (config_of 16 8 1 no_flags)
        { init_stream blank_stream with
          next_in := [0xF0, 0x00, 0x10, 0x00, 0x20, 0x00, 0x30, 0x00, 0x40, 0x00, 0x50, 0x00,
            0x60, 0x00, 0x70, 0x00, 0x80]
          avail_out := 100 }).map (fun r => (r.1, r.2.next_out))
      = Except.ok (Ret.AEC_OK, [1, 0, 2, 0, 3, 0, 4, 0, 5, 0, 6, 0, 7, 0, 8, 0]) ∧
    (aec_decode true (toggle_msb (config_of 16 8 1 no_flags))
        { init_stream blank_stream with
          next_in := [0xF0, 0x00, 0x10, 0x00, 0x20, 0x00, 0x30, 0x00, 0x40, 0x00, 0x50, 0x00,
            0x60, 0x00, 0x70, 0x00, 0x80]
          avail_out := 100 }).map (fun r => (r.1, r.2.next_out))
      = Except.ok (Ret.AEC_OK, [0, 1, 0, 2, 0, 3, 0, 4, 0, 5, 0, 6, 0, 7, 0, 8]) ∧
    aec_decode true (toggle_msb (config_of 16 8 1 no_flags))
        { init_stream blank_stream with
          next_in := [0xF0, 0x00, 0x10, 0x00, 0x20, 0x00, 0x30, 0x00, 0x40, 0x00, 0x50, 0x00,
            0x60, 0x00, 0x70, 0x00, 0x80]
          avail_out := 100 }
      = on_state (swap_out (config_of 16 8 1 no_flags).bytes_per_sample)
          (aec_decode true (config_of 16 8 1 no_flags)
            { init_stream blank_stream with
              next_in := [0xF0, 0x00, 0x10, 0x00, 0x20, 0x00, 0x30, 0x00, 0x40, 0x00, 0x50, 0x00,
                0x60, 0x00, 0x70, 0x00, 0x80]
              avail_out := 100 }) :=
  ⟨rfl, rfl, rfl,
    (C11_byte_order_symmetry 16 8 1 no_flags blank_stream (config_of 16 8 1 no_flags)
      (init_stream blank_stream) rfl true).2.2.2.2.2.2.1 _ rfl⟩

/-! ### The handlers return: forward lemmas -/

theorem run_modes_continue (clz : Bool) (c : Config) (n : Nat) (s s1 : aec_stream)
    (h : call_mode clz c s = Except.ok (Status.M_CONTINUE, s1)) :
    run_modes clz c (n + 1) s = run_modes clz c n s1 := by
  show (call_mode clz c s >>= fun r =>
    if r.1 = Status.M_CONTINUE then run_modes clz c n r.2 else pure r) = _
  rw [h]
  rfl

theorem run_modes_stop (clz : Bool) (c : Config) (n : Nat) (s s1 : aec_stream) (st : Status)
    (h : call_mode clz c s = Except.ok (st, s1)) (hst : st ≠ Status.M_CONTINUE) :
    run_modes clz c (n + 1) s = Except.ok (st, s1) := by
  show (call_mode clz c s >>= fun r =>
    if r.1 = Status.M_CONTINUE then run_modes clz c n r.2 else pure r) = _
  rw [h]
  show (if st = Status.M_CONTINUE then run_modes clz c n s1 else pure (st, s1)) = _
  rw [if_neg hst]
  rfl

theorem αr_set_id_mode (c : Config) (s : aec_stream) (x : Nat) (m : Mode) :
    αr c { s with id := x, mode := m } = { αr c s with id := x, mode := m } := by
  have hf : flush_samples c { s with id := x, mode := m } = flush_samples c s :=
    flush_samples_congr c s _ rfl rfl rfl rfl
  unfold αr
  rw [hf]
  rfl

theorem bool_eq_true_of_ne_false {b : Bool} (h : ¬ b = false) : b = true := by
  cases b
  · exact absurd rfl h
  · rfl

/-- The handler `m_id` returns: it suspends when the identifier is not there, else it
selects the handler of the block. -/
theorem m_id_fwd (c : Config) (hc : Accepted c) (s : aec_stream) (hI : Inv s)
    (hm : s.mode = Mode.m_id) :
    ∃ st s', m_id c s = Except.ok (st, s') ∧ Inv s' ∧ SameTotals s s' ∧
      (L_ask (L_id_ref c (αr c s)) c.id_len = false →
        st = Status.M_EXIT ∧ αr c s' = L_id_ref c (αr c s)) ∧
      (L_ask (L_id_ref c (αr c s)) c.id_len = true →
        st = Status.M_CONTINUE ∧
        αr c s' = { L_drop (L_id_ref c (αr c s)) c.id_len with
          id := L_get (L_id_ref c (αr c s)) c.id_len
          mode :=
            if L_get (L_id_ref c (αr c s)) c.id_len = (1 <<< c.id_len) - 1 then Mode.m_uncomp
            else if L_get (L_id_ref c (αr c s)) c.id_len = 0 then Mode.m_low_entropy
            else Mode.m_split }) := by
  have hid := accepted_id_len_range hc
  obtain ⟨hL0, hI0, hT0, hm0⟩ := m_id_ref_sim c s hI
  obtain ⟨a1, a2, a3, a4, a5, a6, a7⟩ :=
    bits_ask_sim c (m_id_ref c s) c.id_len (by omega) hI0
  have hmode : (bits_ask (m_id_ref c s) c.id_len).2.mode = s.mode := by
    have := congrArg LState.mode a2
    simp only [αr_mode] at this
    rw [this, hm0]
  rw [hL0] at a1 a2
  unfold m_id
  simp only
  by_cases hr : (bits_ask (m_id_ref c s) c.id_len).1 = false
  · rw [if_pos hr]
    refine ⟨_, _, rfl, a3, hT0.trans a4, fun _ => ⟨rfl, a2⟩, fun h => ?_⟩
    rw [← a1, hr] at h
    cases h
  · rw [if_neg hr]
    have hok := bool_eq_true_of_ne_false hr
    have hbit := a5 hok
    have hget : bits_get (bits_ask (m_id_ref c s) c.id_len).2 c.id_len
        = L_get (L_id_ref c (αr c s)) c.id_len := by
      rw [bits_get_sim c _ _ hbit, a2]
    have hlt : bits_get (bits_ask (m_id_ref c s) c.id_len).2 c.id_len < 1 <<< c.id_len := by
      rw [Nat.one_shiftLeft]
      exact bits_get_lt _ _
    have htab := make_id_table_getElem? (1 <<< c.id_len) _ hlt
    rw [← hc.id_table_eq] at htab
    rw [htab]
    obtain ⟨d1, d2, d3⟩ := bits_drop_sim c _ c.id_len hbit a3
    have hfs : (bits_ask (m_id_ref c s) c.id_len).2.fs = 0 := by
      apply a3.fs_zero
      rw [hmode, hm]; rfl
    refine ⟨_, _, rfl, ?_, ?_, fun h => ?_, fun _ => ⟨rfl, ?_⟩⟩
    · exact ⟨d2.flush_le, d2.avail_lt, d2.bitp_le, fun _ => hfs,
        fun _ => bits_get_le c _ _ hbit (by omega)⟩
    · exact ⟨d3.1.trans (a4.1.trans hT0.1), d3.2.trans (a4.2.trans hT0.2)⟩
    · rw [← a1, hok] at h
      cases h
    · rw [αr_set_id_mode, d1, a2, hget]

/-- The handler `m_low_entropy` returns. -/
theorem m_low_entropy_fwd (c : Config) (s : aec_stream) (hI : Inv s)
    (hm : s.mode = Mode.m_low_entropy) :
    ∃ st s', m_low_entropy s = Except.ok (st, s') ∧ Inv s' ∧ SameTotals s s' ∧
      (L_ask (αr c s) 1 = false → st = Status.M_EXIT ∧ αr c s' = αr c s) ∧
      (L_ask (αr c s) 1 = true →
        st = Status.M_CONTINUE ∧
        αr c s' = { L_drop (αr c s) 1 with
          id := L_get (αr c s) 1, mode := Mode.m_low_entropy_ref }) := by
  obtain ⟨a1, a2, a3, a4, a5, a6, a7⟩ := bits_ask_sim c s 1 (by norm_num) hI
  have hmode : (bits_ask s 1).2.mode = s.mode := by
    have := congrArg LState.mode a2; simpa using this
  unfold m_low_entropy
  simp only
  by_cases hr : (bits_ask s 1).1 = false
  · rw [if_pos hr]
    refine ⟨_, _, rfl, a3, a4, fun _ => ⟨rfl, a2⟩, fun h => ?_⟩
    rw [← a1, hr] at h
    cases h
  · rw [if_neg hr]
    have hok := bool_eq_true_of_ne_false hr
    obtain ⟨d1, d2, d3⟩ := bits_drop_sim c _ 1 (a5 hok) a3
    refine ⟨_, _, rfl, ?_, ?_, fun h => ?_, fun _ => ⟨rfl, ?_⟩⟩
    · exact ⟨d2.flush_le, d2.avail_lt, d2.bitp_le, fun _ => by
        have := d2.fs_zero (by show fs_live (bits_ask s 1).2.mode = false; rw [hmode, hm]; rfl)
        exact this, fun _ => bits_get_le c _ _ (a5 hok) (by norm_num)⟩
    · exact ⟨d3.1.trans a4.1, d3.2.trans a4.2⟩
    · rw [← a1, hok] at h
      cases h
    · rw [αr_set_id_mode, d1, a2, bits_get_sim c _ _ (a5 hok), a2]

/-- The function `copysample` returns when the RSI buffer has room. -/
theorem copysample_fwd (c : Config) (s : aec_stream) (hI : Inv s)
    (hbps : c.bits_per_sample ≤ 32) (hr : s.rsip < c.rsi_size) :
    ∃ r, copysample c s = Except.ok r ∧ r.1 = (L_copysample c (αr c s)).1 ∧
      αr c r.2 = (L_copysample c (αr c s)).2 ∧ Inv r.2 ∧ SameTotals s r.2 := by
  have hok : ∃ r, copysample c s = Except.ok r := by
    unfold copysample
    simp only
    split_ifs with hcond
    · exact ⟨_, rfl⟩
    · have hrs : (bits_ask s c.bits_per_sample).2.rsip = s.rsip :=
        (bits_ask_fields c s c.bits_per_sample (by omega) hI).2.2.2.2.2.1
      unfold put_sample rsi_store
      rw [if_pos (by rw [hrs]; exact hr)]
      exact ⟨_, rfl⟩
  obtain ⟨r, h⟩ := hok
  obtain ⟨c1, c2, c3, c4⟩ := copysample_sim c s r hI hbps h
  exact ⟨r, h, c1, c2, c3, c4⟩

/-- The handler `m_low_entropy_ref` returns. -/
theorem m_low_entropy_ref_fwd (c : Config) (hc : Accepted c) (s : aec_stream) (hI : Inv s)
    (hm : s.mode = Mode.m_low_entropy_ref) (hr : s.ref ≠ 0 → s.rsip < c.rsi_size) :
    ∃ st s', m_low_entropy_ref c s = Except.ok (st, s') ∧ Inv s' ∧ SameTotals s s' ∧
      ((if s.ref ≠ 0 then L_copysample c (αr c s) else (true, αr c s)).1 = false →
        st = Status.M_EXIT ∧
        αr c s' = (if s.ref ≠ 0 then L_copysample c (αr c s) else (true, αr c s)).2) ∧
      ((if s.ref ≠ 0 then L_copysample c (αr c s) else (true, αr c s)).1 = true →
        st = Status.M_CONTINUE ∧
        αr c s' =
          { (if s.ref ≠ 0 then L_copysample c (αr c s) else (true, αr c s)).2 with
            mode := if s.id = 1 then Mode.m_se else Mode.m_zero_block }) := by
  have key : ∃ r : Bool × aec_stream,
      (if s.ref ≠ 0 then copysample c s else pure (true, s)) = Except.ok r ∧
      r.1 = (if s.ref ≠ 0 then L_copysample c (αr c s) else (true, αr c s)).1 ∧
      αr c r.2 = (if s.ref ≠ 0 then L_copysample c (αr c s) else (true, αr c s)).2 ∧
      Inv r.2 ∧ SameTotals s r.2 ∧ r.2.mode = s.mode ∧ r.2.id = s.id ∧ r.2.fs = s.fs := by
    by_cases href : s.ref ≠ 0
    · rw [if_pos href, if_pos href]
      obtain ⟨r, h, c1, c2, c3, c4⟩ := copysample_fwd c s hI hc.bps_le (hr href)
      obtain ⟨f1, f2, f3, f4, f5, f6⟩ := copysample_fields c s r c2
      exact ⟨r, h, c1, c2, c3, c4, f1, f2, f5⟩
    · rw [if_neg href, if_neg href]
      exact ⟨(true, s), rfl, rfl, rfl, hI, ⟨rfl, rfl⟩, rfl, rfl, rfl⟩
  obtain ⟨r, h, c1, c2, c3, c4, f1, f2, f5⟩ := key
  have hfs0 : s.fs = 0 := hI.fs_zero (by rw [hm]; rfl)
  have hid : s.id ≤ 32 := hI.id_le (by rw [hm]; simp)
  unfold m_low_entropy_ref
  rw [h]
  show ∃ st s', (if r.1 = false then pure (Status.M_EXIT, r.2)
      else if r.2.id = 1 then pure (Status.M_CONTINUE, { r.2 with mode := Mode.m_se })
      else pure (Status.M_CONTINUE, { r.2 with mode := Mode.m_zero_block })) = Except.ok (st, s') ∧ _
  by_cases h1 : r.1 = false
  · rw [if_pos h1]
    refine ⟨_, _, rfl, c3, c4, fun _ => ⟨rfl, c2⟩, fun h => ?_⟩
    rw [← c1, h1] at h
    cases h
  · rw [if_neg h1]
    have hok := bool_eq_true_of_ne_false h1
    by_cases h2 : r.2.id = 1
    · rw [if_pos h2]
      refine ⟨_, _, rfl, ?_, c4, fun h => ?_, fun _ => ⟨rfl, ?_⟩⟩
      · exact ⟨c3.flush_le, c3.avail_lt, c3.bitp_le, fun _ => by show r.2.fs = 0; rw [f5, hfs0],
          fun _ => by show r.2.id ≤ 32; rw [f2]; exact hid⟩
      · rw [← c1, hok] at h
        cases h
      · have hid1 : s.id = 1 := by rw [← f2]; exact h2
        rw [αr_set_mode, c2, if_pos hid1]
    · rw [if_neg h2]
      refine ⟨_, _, rfl, ?_, c4, fun h => ?_, fun _ => ⟨rfl, ?_⟩⟩
      · exact ⟨c3.flush_le, c3.avail_lt, c3.bitp_le, fun _ => by show r.2.fs = 0; rw [f5, hfs0],
          fun _ => by show r.2.id ≤ 32; rw [f2]; exact hid⟩
      · rw [← c1, hok] at h
        cases h
      · have hid1 : ¬ s.id = 1 := by rw [← f2]; exact h2
        rw [αr_set_mode, c2, if_neg hid1]

/-- The handler `m_zero_block` suspends when the fundamental sequence is not complete. -/
theorem m_zero_block_fwd_exit (c : Config) (s : aec_stream) (hI : Inv s)
    (hm : s.mode = Mode.m_zero_block) (h : (L_fs_ask (αr c s)).1 = false) :
    ∃ s', m_zero_block c s = Except.ok (Status.M_EXIT, s') ∧ Inv s' ∧ SameTotals s s' ∧
      αr c s' = (L_fs_ask (αr c s)).2 := by
  have hlive : fs_live s.mode = true := by rw [hm]; rfl
  obtain ⟨f1, f2, f3, f4, f5, f6⟩ := fs_ask_sim c s hI hlive
  unfold m_zero_block
  simp only
  rw [if_pos (by rw [f1]; exact h)]
  exact ⟨_, rfl, f3, f4, f2⟩

/-- The handler `m_zero_block` on its block path: the zero samples are stored and the
handler of the next block is `m_id`. -/
theorem m_zero_block_fwd_go (c : Config) (s : aec_stream) (hI : Inv s)
    (hm : s.mode = Mode.m_zero_block) (R : LState) (hR : L_fs_ask (αr c s) = (true, R))
    (i : Int) (hi : zero_samples c R.fs R.rsip R.ref = i)
    (hovf : ¬ (i * (c.bytes_per_sample : Int) < INT_MIN ∨
      -INT_MIN ≤ i * (c.bytes_per_sample : Int)))
    (hsz : to_size_t (i * (c.bytes_per_sample : Int)) ≤ R.avail_out)
    (herr : ¬ sub_size_t c.rsi_size R.rsip < to_size_t i)
    (hov : ¬ c.rsi_size < R.rsip + i.toNat) :
    ∃ s', m_zero_block c s = Except.ok (Status.M_CONTINUE, s') ∧ Inv s' ∧ SameTotals s s' ∧
      αr c s' =
        { L_check_rsi_end c
            { L_commit c
                { L_fs_drop R with rsi_buffer := memset_zero R.rsi_buffer R.rsip i.toNat }
                i.toNat with
              avail_out := sub_size_t R.avail_out (to_size_t (i * (c.bytes_per_sample : Int))) }
          with mode := Mode.m_id } := by
  have hlive : fs_live s.mode = true := by rw [hm]; rfl
  obtain ⟨f1, f2, f3, f4, f5, f6⟩ := fs_ask_sim c s hI hlive
  obtain ⟨g1, g2, g3, g4, g5, g6, g7, g8⟩ := fs_ask_fields c s hI hlive
  have hid0 : s.id ≤ 32 := hI.id_le (by rw [hm]; simp)
  rw [hR] at f1 f2
  simp only at f1 f2
  obtain ⟨d1, d2, d3⟩ := fs_drop_sim c _ (f5 f1) f3
  rw [f2] at d1
  have e1 : (fs_ask s).2.fs = R.fs := by rw [← f2]; rfl
  have e2 : (fs_ask s).2.rsip = R.rsip := by rw [← f2]; rfl
  have e3 : (fs_ask s).2.ref = R.ref := by rw [← f2]; rfl
  have e4 : (fs_ask s).2.avail_out = R.avail_out := by rw [← f2]; rfl
  have e5 : (fs_ask s).2.rsi_buffer = R.rsi_buffer := by rw [← f2]; rfl
  unfold m_zero_block
  simp only
  rw [if_neg (by rw [f1]; simp), e1, e2, e3, hi]
  generalize hs1 : fs_drop (fs_ask s).2 = s1 at d1 d2 d3
  have hm1 : s1.mode = Mode.m_zero_block := by
    rw [← hs1]; show (fs_ask s).2.mode = _; rw [g1, hm]
  have hid1 : s1.id ≤ 32 := by rw [← hs1]; show (fs_ask s).2.id ≤ 32; rw [g2]; exact hid0
  have hfs1 : s1.fs = 0 := by rw [← hs1]; rfl
  have hrs1 : s1.rsip = R.rsip := by rw [← hs1]; exact e2
  have hao1 : s1.avail_out = R.avail_out := by rw [← hs1]; exact e4
  have hbuf1 : s1.rsi_buffer = R.rsi_buffer := by rw [← hs1]; exact e5
  have hT1 : SameTotals s s1 := ⟨d3.1.trans f4.1, d3.2.trans f4.2⟩
  rw [if_neg hovf, if_pos (by rw [hao1]; exact hsz), if_neg (by rw [hrs1]; exact herr),
    if_neg (by rw [hrs1]; exact hov)]
  have hadv := advance_sim c s1
    { s1 with rsi_buffer := memset_zero s1.rsi_buffer s1.rsip i.toNat, rsip := s1.rsip + i.toNat }
    i.toNat d2 rfl rfl rfl rfl rfl rfl rfl rfl
    (fun j hj => by
      show memset_zero s1.rsi_buffer s1.rsip i.toNat j = s1.rsi_buffer j
      unfold memset_zero
      have : ¬ (s1.rsip ≤ j ∧ j < s1.rsip + i.toNat) := by omega
      simp [this]) rfl rfl rfl rfl
  obtain ⟨X, hX⟩ : ∃ X : aec_stream, X = { s1 with rsi_buffer := memset_zero s1.rsi_buffer s1.rsip i.toNat, rsip := s1.rsip + i.toNat, avail_out := sub_size_t s1.avail_out (to_size_t (i * c.bytes_per_sample)) } := ⟨_, rfl⟩
  have hXr : αr c X = { L_commit c { αr c s1 with rsi_buffer := memset_zero s1.rsi_buffer s1.rsip i.toNat } i.toNat with avail_out := sub_size_t s1.avail_out (to_size_t (i * c.bytes_per_sample)) } := by
    rw [← hadv, hX]; rfl
  have hI2 : Inv X := by
    rw [hX]
    exact ⟨by show s1.flush_start ≤ s1.rsip + i.toNat; have := d2.flush_le; omega,
      sub_size_t_lt _ _, d2.bitp_le, fun _ => hfs1, fun _ => hid1⟩
  obtain ⟨k1, k2, k3, k4⟩ := check_rsi_end_sim c X hI2
  have hfsX : (check_rsi_end c X).fs = 0 := by
    have h1 := congrArg LState.fs k1
    rw [(L_check_rsi_end_fields c (αr c X)).2.2.2.2.1] at h1
    have h2 : X.fs = 0 := by rw [hX]; exact hfs1
    exact h1.trans h2
  have hTX : SameTotals s1 X := by rw [hX]; exact ⟨rfl, rfl⟩
  rw [← hX]
  refine ⟨_, rfl, ?_, ?_, ?_⟩
  · exact ⟨k2.flush_le, k2.avail_lt, k2.bitp_le, fun _ => hfsX, fun hh => absurd rfl hh⟩
  · exact ⟨k3.1.trans (hTX.1.trans hT1.1), k3.2.trans (hTX.2.trans hT1.2)⟩
  · rw [αr_set_mode, k1, hXr, d1, hbuf1, hrs1, hao1]

theorem L_fs_scan_all_false : ∀ (k fs : Nat), (L_fs_scan (List.replicate k false) fs).1 = false
  | 0, _ => rfl
  | 1, _ => rfl
  | k + 2, fs => by
    have h := L_fs_scan_all_false (k + 1) (fs + 1)
    simp only [List.replicate_succ] at h ⊢
    simp only [L_fs_scan]
    exact h

theorem bits_val_all_false (k : Nat) : bits_val (List.replicate k false) = 0 := by
  induction k with
  | zero => rfl
  | succ k ih =>
    rw [List.replicate_succ, bits_val_cons, ih]
    simp

theorem call_mode_m_id (clz : Bool) (c : Config) (s : aec_stream) (hm : s.mode = Mode.m_id) :
    call_mode clz c s = m_id c s := by
  unfold call_mode; rw [hm]

theorem call_mode_m_low_entropy (clz : Bool) (c : Config) (s : aec_stream)
    (hm : s.mode = Mode.m_low_entropy) : call_mode clz c s = m_low_entropy s := by
  unfold call_mode; rw [hm]

theorem call_mode_m_low_entropy_ref (clz : Bool) (c : Config) (s : aec_stream)
    (hm : s.mode = Mode.m_low_entropy_ref) : call_mode clz c s = m_low_entropy_ref c s := by
  unfold call_mode; rw [hm]

theorem call_mode_m_zero_block (clz : Bool) (c : Config) (s : aec_stream)
    (hm : s.mode = Mode.m_zero_block) : call_mode clz c s = m_zero_block c s := by
  unfold call_mode; rw [hm]

theorem L_id_ref_tail (c : Config) (L : LState) :
    (L_id_ref c L).vout = L.vout ∧ (L_id_ref c L).avail_out = L.avail_out ∧
    (L_id_ref c L).rsip = L.rsip ∧ (L_id_ref c L).mode = L.mode ∧
    ((L_id_ref c L).ref ≠ 0 → c.pp = true ∧ L.rsip = 0) ∧
    (∀ z, L.bits = List.replicate z false →
      ∃ z', z' ≤ z ∧ (L_id_ref c L).bits = List.replicate z' false) := by
  unfold L_id_ref
  by_cases h : c.pp = true ∧ L.rsip = 0
  · rw [if_pos h]
    refine ⟨rfl, rfl, rfl, rfl, fun _ => h, fun z hz => ?_⟩
    simp only
    split_ifs
    · rw [hz]
      exact ⟨z - z % 8, by omega, by simp⟩
    · exact ⟨z, le_rfl, hz⟩
  · rw [if_neg h]
    exact ⟨rfl, rfl, rfl, rfl, fun hh => absurd rfl hh, fun z hz => ⟨z, le_rfl, hz⟩⟩

/-- The decoder on padding: from `m_id` with only zero bits unread, too few to hold a
reference sample when the preprocessor is on, the handlers suspend within four calls, and
nothing is added to the output. -/
theorem run_modes_zero_tail (clz : Bool) (c : Config) (hc : Accepted c) (s : aec_stream)
    (hI : Inv s) (hm : s.mode = Mode.m_id) (z : Nat) (hz : lbits s = List.replicate z false)
    (hcase : c.pp = true → z < c.id_len + 1 + c.bits_per_sample)
    (hrs : c.pp = true → 0 < c.rsi_size) (n : Nat) :
    ∃ s', run_modes clz c (n + 4) s = Except.ok (Status.M_EXIT, s') ∧ Inv s' ∧
      SameTotals s s' ∧ (αr c s').vout = (αr c s).vout ∧ s'.avail_out = s.avail_out := by
  have hid := accepted_id_len_range hc
  obtain ⟨st1, s1, e1, I1, T1, x1, g1⟩ := m_id_fwd c hc s hI hm
  obtain ⟨r1, r2, r3, r4, r5, r6⟩ := L_id_ref_tail c (αr c s)
  obtain ⟨z1, hz1, hb1⟩ := r6 z hz
  by_cases a1 : L_ask (L_id_ref c (αr c s)) c.id_len = false
  · obtain ⟨rfl, h1⟩ := x1 a1
    refine ⟨s1, ?_, I1, T1, ?_, ?_⟩
    · exact run_modes_stop clz c _ s s1 _ (by rw [call_mode_m_id clz c s hm]; exact e1)
        (by simp)
    · rw [h1, r1]
    · have := congrArg LState.avail_out h1
      rw [r2] at this
      exact this
  obtain ⟨rfl, h1⟩ := g1 (bool_eq_true_of_ne_false a1)
  have hlen1 : c.id_len ≤ z1 := by
    have := bool_eq_true_of_ne_false a1
    unfold L_ask at this
    rw [hb1] at this
    simpa using this
  have hget1 : L_get (L_id_ref c (αr c s)) c.id_len = 0 := by
    unfold L_get
    rw [hb1, List.take_replicate, bits_val_all_false]
  have hne : ¬ (0 = (1 <<< c.id_len) - 1) := by
    rw [Nat.one_shiftLeft]
    have : 2 ^ 1 ≤ 2 ^ c.id_len := Nat.pow_le_pow_right (by norm_num) hid.1
    omega
  rw [hget1, if_neg hne, if_pos rfl] at h1
  have hm1 : s1.mode = Mode.m_low_entropy := by
    have := congrArg LState.mode h1
    exact this
  have hb2 : lbits s1 = List.replicate (z1 - c.id_len) false := by
    have := congrArg LState.bits h1
    simp only [αr_bits] at this
    rw [this]
    show (L_id_ref c (αr c s)).bits.drop c.id_len = _
    rw [hb1, List.drop_replicate]
  have hv1 : (αr c s1).vout = (αr c s).vout := by rw [h1]; exact r1
  have ho1 : s1.avail_out = s.avail_out := by
    have := congrArg LState.avail_out h1
    exact this.trans r2
  have hrf1 : s1.ref = (L_id_ref c (αr c s)).ref := congrArg LState.ref h1
  have hrp1 : s1.rsip = s.rsip := (congrArg LState.rsip h1).trans r3
  have hc1 : call_mode clz c s = Except.ok (Status.M_CONTINUE, s1) := by
    rw [call_mode_m_id clz c s hm]; exact e1
  rw [run_modes_continue clz c (n + 3) s s1 hc1]
  -- the low-entropy selector bit
  obtain ⟨st2, s2, e2, I2, T2, x2, g2⟩ := m_low_entropy_fwd c s1 I1 hm1
  by_cases a2 : L_ask (αr c s1) 1 = false
  · obtain ⟨rfl, h2⟩ := x2 a2
    refine ⟨s2, ?_, I2, T1.trans T2, ?_, ?_⟩
    · exact run_modes_stop clz c _ s1 s2 _
        (by rw [call_mode_m_low_entropy clz c s1 hm1]; exact e2) (by simp)
    · rw [h2, hv1]
    · have := congrArg LState.avail_out h2
      exact this.trans ho1
  obtain ⟨rfl, h2⟩ := g2 (bool_eq_true_of_ne_false a2)
  have hlen2 : 1 ≤ z1 - c.id_len := by
    have := bool_eq_true_of_ne_false a2
    unfold L_ask at this
    rw [αr_bits, hb2] at this
    simpa using this
  have hget2 : L_get (αr c s1) 1 = 0 := by
    unfold L_get
    rw [αr_bits, hb2, List.take_replicate, bits_val_all_false]
  rw [hget2] at h2
  have hm2 : s2.mode = Mode.m_low_entropy_ref := congrArg LState.mode h2
  have hid2 : s2.id = 0 := congrArg LState.id h2
  have hb3 : lbits s2 = List.replicate (z1 - c.id_len - 1) false := by
    have := congrArg LState.bits h2
    simp only [αr_bits] at this
    rw [this]
    show (αr c s1).bits.drop 1 = _
    rw [αr_bits, hb2, List.drop_replicate]
  have hv2 : (αr c s2).vout = (αr c s).vout := by rw [h2]; exact hv1
  have ho2 : s2.avail_out = s.avail_out := (congrArg LState.avail_out h2).trans ho1
  have hrf2 : s2.ref = s1.ref := congrArg LState.ref h2
  have hrp2 : s2.rsip = s1.rsip := congrArg LState.rsip h2
  have hc2 : call_mode clz c s1 = Except.ok (Status.M_CONTINUE, s2) := by
    rw [call_mode_m_low_entropy clz c s1 hm1]; exact e2
  rw [run_modes_continue clz c (n + 2) s1 s2 hc2]
  -- the reference sample
  have hpp_of_ref : s2.ref ≠ 0 → c.pp = true ∧ s.rsip = 0 := by
    intro h
    rw [hrf2, hrf1] at h
    exact r5 h
  obtain ⟨st3, s3, e3, I3, T3, x3, g3⟩ := m_low_entropy_ref_fwd c hc s2 I2 hm2
    (fun h => by
      obtain ⟨p1, p2⟩ := hpp_of_ref h
      rw [hrp2, hrp1, p2]
      exact hrs p1)
  by_cases href : s2.ref ≠ 0
  · rw [if_pos href] at x3
    obtain ⟨p1, p2⟩ := hpp_of_ref href
    have hcs : L_copysample c (αr c s2) = (false, αr c s2) := by
      unfold L_copysample
      have hask : L_ask (αr c s2) c.bits_per_sample = false := by
        unfold L_ask
        rw [αr_bits, hb3]
        have := hcase p1
        simp only [List.length_replicate, decide_eq_false_iff_not, not_le]
        omega
      rw [if_pos (Or.inl hask)]
    rw [hcs] at x3
    obtain ⟨rfl, h3⟩ := x3 rfl
    refine ⟨s3, ?_, I3, (T1.trans T2).trans T3, ?_, ?_⟩
    · exact run_modes_stop clz c _ s2 s3 _
        (by rw [call_mode_m_low_entropy_ref clz c s2 hm2]; exact e3) (by simp)
    · rw [h3, hv2]
    · exact (congrArg LState.avail_out h3).trans ho2
  rw [if_neg href] at g3
  obtain ⟨rfl, h3⟩ := g3 rfl
  rw [hid2, if_neg (by norm_num)] at h3
  have hm3 : s3.mode = Mode.m_zero_block := congrArg LState.mode h3
  have hb4 : lbits s3 = List.replicate (z1 - c.id_len - 1) false :=
    (congrArg LState.bits h3).trans hb3
  have hv3 : (αr c s3).vout = (αr c s).vout := by rw [h3]; exact hv2
  have ho3 : s3.avail_out = s.avail_out := (congrArg LState.avail_out h3).trans ho2
  have hc3 : call_mode clz c s2 = Except.ok (Status.M_CONTINUE, s3) := by
    rw [call_mode_m_low_entropy_ref clz c s2 hm2]; exact e3
  rw [run_modes_continue clz c (n + 1) s2 s3 hc3]
  -- the zero run without its end
  have hfs : (L_fs_ask (αr c s3)).1 = false := by
    unfold L_fs_ask
    simp only [αr_bits, hb4]
    exact L_fs_scan_all_false _ _
  obtain ⟨s4, e4, I4, T4, h4⟩ := m_zero_block_fwd_exit c s3 I3 hm3 hfs
  refine ⟨s4, ?_, I4, ((T1.trans T2).trans T3).trans T4, ?_, ?_⟩
  · exact run_modes_stop clz c _ s3 s4 _
      (by rw [call_mode_m_zero_block clz c s3 hm3]; exact e4) (by simp)
  · rw [h4]
    exact hv3
  · exact (congrArg LState.avail_out h4).trans ho3

theorem zero_samples_ros (c : Config) (hbs : 2 ≤ c.block_size) (hrsi : 1 ≤ c.rsi)
    (hsz : c.rsi * c.block_size < 2 ^ 31) :
    zero_samples c 4 1 1 = ((min c.rsi 64 * c.block_size - 1 : Nat) : Int) := by
  have hb : 1 / c.block_size = 0 := Nat.div_eq_of_lt (by omega)
  have hr : c.rsi < 2 ^ 31 := by
    calc c.rsi = c.rsi * 1 := by ring
      _ ≤ c.rsi * c.block_size := Nat.mul_le_mul_left _ (by omega)
      _ < 2 ^ 31 := hsz
  have hN1 : min c.rsi 64 * c.block_size ≤ c.rsi * c.block_size :=
    Nat.mul_le_mul_right _ (min_le_left _ _)
  have hN2 : 1 * 2 ≤ min c.rsi 64 * c.block_size :=
    Nat.mul_le_mul (by simp; omega) hbs
  unfold zero_samples ROS
  simp only [hb, Nat.zero_mod, Nat.sub_zero, Nat.reduceAdd, if_true, ne_eq, one_ne_zero,
    not_false_eq_true]
  have e1 : (c.rsi + W32) % W32 = c.rsi := by
    rw [Nat.add_mod_right]
    exact Nat.mod_eq_of_lt (by unfold W32; omega)
  rw [e1]
  generalize hN : min c.rsi 64 * c.block_size = N at hN1 hN2 ⊢
  unfold to_int
  have e2 : (N + (W32 - 1)) % W32 = N - 1 := by
    unfold W32
    omega
  rw [e2, if_pos (by omega)]

theorem out_bytes_replicate_8 (c : Config) (h : c.flush_output = FlushKind.flush_8) (n : Nat)
    (v : Nat) (hv : v < 256) :
    out_bytes c (List.replicate n (v : Int)) = List.replicate n v := by
  induction n with
  | zero => rfl
  | succ n ih =>
    have e : out_bytes c (List.replicate (n + 1) (v : Int))
        = put c.flush_output (to_u32 (v : Int)) ++ out_bytes c (List.replicate n (v : Int)) := by
      simp [out_bytes, List.replicate_succ]
    rw [e, ih, h]
    have e2 : to_u32 (v : Int) = v := by
      unfold to_u32
      omega
    rw [e2]
    show [v % 256] ++ _ = _
    rw [Nat.mod_eq_of_lt hv]
    rfl

theorem L_check_rsi_end_vout (c : Config) (L : LState) :
    (L_check_rsi_end c L).vout = L.vout := by
  unfold L_check_rsi_end
  split_ifs <;> rfl

/-- A call of `aec_decode` whose handlers suspend returns `AEC_OK` after the final flush. -/
theorem aec_decode_of_run (clz : Bool) (c : Config) (strm S s' : aec_stream)
    (hS : S = { strm with
      total_in := (strm.total_in + strm.avail_in) % W64
      total_out := (strm.total_out + strm.avail_out) % W64 })
    (h : run_modes clz c (decode_fuel S) S = Except.ok (Status.M_EXIT, s')) :
    aec_decode clz c strm = Except.ok (Ret.AEC_OK,
      { flush c s' with
        total_in := sub_size_t (flush c s').total_in (flush c s').avail_in
        total_out := sub_size_t (flush c s').total_out (flush c s').avail_out }) := by
  subst hS
  unfold aec_decode
  simp only
  rw [h]
  rfl

/-- C9 (zero-block with the ROS escape), as the code has it.  With `bits_per_sample = 8` and
only `AEC_DATA_PREPROCESS` set, for every `block_size ≥ 2` and every `rsi ≥ 1` with
`rsi * block_size < 2^31`, the three input bytes `02 A0 80` (identifier `000`, selector bit
`0`, reference sample 42, fundamental sequence `00001`, seven padding bits) and an output
space of at least `min(rsi, 64) * block_size` bytes: `aec_decode` returns `AEC_OK` and the
output is the reference 42 followed by `min(rsi, 64) * block_size - 1` further samples 42,
`min(rsi, 64) * block_size` bytes in all; `avail_out` has gone down and `total_out` up by
that number. -/
theorem C9_zero_block_ros (bs rsi ao : Nat) (clz : Bool) (strm0 : aec_stream)
    (hbs : 2 ≤ bs) (hrsi : 1 ≤ rsi) (hsz : rsi * bs < 2 ^ 31)
    (hao : min rsi 64 * bs ≤ ao) (hao64 : ao < 2 ^ 64) :
    ∃ s', aec_decode clz (config_of 8 bs rsi pp_flags)
        { init_stream strm0 with
          next_in := [0x02, 0xA0, 0x80], next_out := [], avail_out := ao }
        = Except.ok (Ret.AEC_OK, s') ∧
      s'.next_out = List.replicate (min rsi 64 * bs) 42 ∧
      s'.avail_out = ao - min rsi 64 * bs ∧ s'.total_out = min rsi 64 * bs := by
  obtain ⟨c, hcdef⟩ : ∃ c, c = config_of 8 bs rsi pp_flags := ⟨_, rfl⟩
  rw [← hcdef]
  have hc : Accepted c := by
    rw [hcdef]
    exact (@init_config_accepted 8 bs rsi pp_flags _ rfl).1
  have hpp : c.pp = true := by rw [hcdef]; rfl
  have hidl : c.id_len = 3 := by rw [hcdef]; rfl
  have hbps : c.bits_per_sample = 8 := by rw [hcdef]; rfl
  have hbytes : c.bytes_per_sample = 1 := by rw [hcdef]; rfl
  have hrsz : c.rsi_size = rsi * bs := by rw [hcdef]; rfl
  have hcbs : c.block_size = bs := by rw [hcdef]; rfl
  have hcrsi : c.rsi = rsi := by rw [hcdef]; rfl
  have hpad : c.flags.PAD_RSI = false := by rw [hcdef]; rfl
  have hsg : c.flags.DATA_SIGNED = false := by rw [hcdef]; rfl
  have hxmin : c.xmin = 0 := by rw [hcdef]; rfl
  have hxmax : c.xmax = 255 := by rw [hcdef]; rfl
  have hfo : c.flush_output = FlushKind.flush_8 := by rw [hcdef]; rfl
  have hN1 : min rsi 64 * bs ≤ rsi * bs := Nat.mul_le_mul_right _ (min_le_left _ _)
  have hN2 : 1 * 2 ≤ min rsi 64 * bs := Nat.mul_le_mul (by simp; omega) hbs
  have hzs := zero_samples_ros c (by rw [hcbs]; exact hbs) (by rw [hcrsi]; exact hrsi)
    (by rw [hcbs, hcrsi]; exact hsz)
  rw [hcbs, hcrsi] at hzs
  generalize hN : min rsi 64 * bs = N at hN1 hN2 hzs hao ⊢
  have hW : W64 = 2 ^ 64 := rfl
  obtain ⟨S, hS⟩ : ∃ S : aec_stream, S =
      { init_stream strm0 with
        next_in := [0x02, 0xA0, 0x80], next_out := [], avail_out := ao
        total_in := (0 + 3) % W64, total_out := (0 + ao) % W64 } := ⟨_, rfl⟩
  have hIS : Inv S := by
    rw [hS]
    exact ⟨Nat.le_refl 0, hao64, by show 0 ≤ 63; omega, fun _ => rfl, fun h => absurd rfl h⟩
  have hmS : S.mode = Mode.m_id := by rw [hS]; rfl
  have htoS : S.total_out = ao := by
    rw [hS]
    show (0 + ao) % W64 = ao
    rw [Nat.zero_add]
    exact Nat.mod_eq_of_lt hao64
  obtain ⟨L0, hL0⟩ : ∃ L0 : LState, L0 =
      { bits := [false, false, false, false, false, false, true, false, true, false, true,
          false, false, false, false, false, true, false, false, false, false, false,
          false, false]
        avail_out := ao, mode := Mode.m_id, id := strm0.id, n := strm0.n, i := strm0.i, fs := 0
        ref := strm0.ref, rsi_buffer := strm0.rsi_buffer, rsip := 0, vout := []
        vlast := strm0.last_out } := ⟨_, rfl⟩
  have hα0 : αr c S = L0 := by
    unfold αr
    rw [flush_samples_flushed c S (by rw [hS]; rfl), hS, hL0]
    rfl
  -- the identifier
  obtain ⟨st1, s1, e1, I1, T1, -, g1⟩ := m_id_fwd c hc S hIS hmS
  have hLR : L_id_ref c (αr c S) = { L0 with ref := 1 } := by
    rw [hα0]
    unfold L_id_ref
    rw [if_pos ⟨hpp, by rw [hL0]⟩, hpad]
    rfl
  rw [hLR, hidl] at g1
  obtain ⟨rfl, h1⟩ := g1 (by rw [hL0]; rfl)
  have h1' : αr c s1 = { L0 with
      ref := 1, id := 0, mode := Mode.m_low_entropy
      bits := [false, false, false, true, false, true, false, true, false, false, false,
          false, false, true, false, false, false, false, false, false, false] } := by
    rw [h1, hL0]
    simp [L_drop, L_get, bits_val]
  have hm1 : s1.mode = Mode.m_low_entropy := by
    have := congrArg LState.mode h1'
    exact this
  -- the low-entropy selector
  obtain ⟨st2, s2, e2, I2, T2, -, g2⟩ := m_low_entropy_fwd c s1 I1 hm1
  rw [h1'] at g2
  obtain ⟨rfl, h2⟩ := g2 (by rw [hL0]; rfl)
  have h2' : αr c s2 = { L0 with
      ref := 1, id := 0, mode := Mode.m_low_entropy_ref
      bits := [false, false, true, false, true, false, true, false, false, false, false,
          false, true, false, false, false, false, false, false, false] } := by
    rw [h2, hL0]
    simp [L_drop, L_get, bits_val]
  have hm2 : s2.mode = Mode.m_low_entropy_ref := congrArg LState.mode h2'
  have hrf2 : s2.ref = 1 := by
    have := congrArg LState.ref h2'
    exact this
  have hid2 : s2.id = 0 := by
    have := congrArg LState.id h2'
    exact this
  have hrp2 : s2.rsip = 0 := by
    have := congrArg LState.rsip h2'
    rw [hL0] at this
    exact this
  -- the reference sample
  obtain ⟨st3, s3, e3, I3, T3, -, g3⟩ := m_low_entropy_ref_fwd c hc s2 I2 hm2
    (fun _ => by rw [hrp2, hrsz]; omega)
  have hao1 : sub_size_t ao 1 = ao - 1 := sub_size_t_eq ao 1 (by omega) hao64
  have hcs : L_copysample c (αr c s2) = (true,
      { bits := [false, false, false, false, true, false, false, false, false, false, false,
          false]
        avail_out := ao - 1, mode := Mode.m_low_entropy_ref, id := 0, n := strm0.n
        i := strm0.i, fs := 0, ref := 1, rsi_buffer := upd strm0.rsi_buffer 0 42, rsip := 1
        vout := [42], vlast := 42 }) := by
    rw [h2', hL0]
    have hne : ¬ ao = 0 := by omega
    have h1r : ¬ (1 = rsi * bs) := by omega
    simp [L_copysample, L_ask, L_get, L_drop, L_put_sample, L_commit, L_check_rsi_end,
      emit_words, emit1, bits_val, hbps, hpp, hsg, hbytes, hrsz, hne, h1r, hao1, upd, out_bytes,
      hfo, put, put_8, to_u32]
  rw [if_pos (by rw [hrf2]; norm_num), hcs, hid2, if_neg (by norm_num)] at g3
  obtain ⟨rfl, h3⟩ := g3 rfl
  have hm3 : s3.mode = Mode.m_zero_block := congrArg LState.mode h3
  -- the zero block
  obtain ⟨R, hRdef⟩ : ∃ R : LState, R =
      { bits := [true, false, false, false, false, false, false, false]
        avail_out := ao - 1, mode := Mode.m_zero_block, id := 0, n := strm0.n
        i := strm0.i, fs := 4, ref := 1, rsi_buffer := upd strm0.rsi_buffer 0 42, rsip := 1
        vout := [42], vlast := 42 } := ⟨_, rfl⟩
  have hR : L_fs_ask (αr c s3) = (true, R) := by
    rw [h3, hRdef]
    simp [L_fs_ask, L_fs_scan]
  have hi : zero_samples c R.fs R.rsip R.ref = ((N - 1 : Nat) : Int) := by
    rw [hRdef]
    exact hzs
  have hNi : (((N - 1 : Nat) : Int) * (c.bytes_per_sample : Int)) = ((N - 1 : Nat) : Int) := by
    rw [hbytes]
    simp
  have hts : to_size_t ((N - 1 : Nat) : Int) = N - 1 := by
    unfold to_size_t
    omega
  obtain ⟨s4, e4, I4, T4, h4⟩ := m_zero_block_fwd_go c s3 I3 hm3 R hR _ hi
    (by
      rw [hNi]
      unfold INT_MIN
      omega)
    (by
      rw [hNi, hts, hRdef]
      show N - 1 ≤ ao - 1
      omega)
    (by
      rw [hts, hrsz, hRdef]
      show ¬ sub_size_t (rsi * bs) 1 < N - 1
      rw [sub_size_t_eq _ 1 (by omega) (by rw [hW]; omega)]
      omega)
    (by
      rw [hrsz, hRdef]
      show ¬ rsi * bs < 1 + (((N - 1 : Nat) : Int)).toNat
      rw [Int.toNat_ofNat]
      omega)
  rw [hNi, hts, Int.toNat_ofNat] at h4
  have hm4 : s4.mode = Mode.m_id := congrArg LState.mode h4
  have hb4 : lbits s4 = List.replicate 7 false := by
    have := congrArg LState.bits h4
    rw [αr_bits] at this
    rw [this]
    show (L_check_rsi_end c _).bits = _
    rw [(L_check_rsi_end_fields c _).2.2.2.2.2.2.1, hRdef]
    rfl
  have hao4 : s4.avail_out = ao - N := by
    have := congrArg LState.avail_out h4
    rw [αr_avail_out] at this
    rw [this]
    show (L_check_rsi_end c _).avail_out = _
    rw [(L_check_rsi_end_fields c _).2.2.2.2.2.2.2, hRdef]
    show sub_size_t (ao - 1) (N - 1) = _
    rw [sub_size_t_eq _ _ (by omega) (by rw [hW]; omega)]
    omega
  have hzero : (List.range' 1 (N - 1)).map (memset_zero (upd strm0.rsi_buffer 0 42) 1 (N - 1))
      = List.replicate (N - 1) 0 := by
    rw [List.eq_replicate_iff]
    refine ⟨by simp, ?_⟩
    intro b hb
    rw [List.mem_map] at hb
    obtain ⟨j, hj, rfl⟩ := hb
    rw [List.mem_range'_1] at hj
    unfold memset_zero
    rw [if_pos ⟨hj.1, hj.2⟩]
  have hv4 : (αr c s4).vout = List.replicate N 42 := by
    rw [h4]
    show (L_check_rsi_end c _).vout = _
    rw [L_check_rsi_end_vout, hRdef]
    show [42] ++ out_bytes c (emit_words c 1 42
      ((List.range' 1 (N - 1)).map (memset_zero (upd strm0.rsi_buffer 0 42) 1 (N - 1)))).1 = _
    rw [hzero, emit_words_pp c hpp _ 1 42 le_rfl,
      flush_loop_zeros _ _ _ 42 (by rw [hxmin]; norm_num) (by rw [hxmax]; norm_num)]
    show [42] ++ out_bytes c (List.replicate (N - 1) ((42 : Nat) : Int)) = _
    rw [out_bytes_replicate_8 c hfo _ 42 (by norm_num)]
    have : N = (N - 1) + 1 := by omega
    conv_rhs => rw [this, List.replicate_succ]
    rfl
  -- the padding
  obtain ⟨s5, e5, I5, T5, hv5, hao5⟩ := run_modes_zero_tail clz c hc s4 I4 hm4 7 hb4
    (fun _ => by rw [hidl, hbps]; norm_num) (fun _ => by rw [hrsz]; omega) 144
  have hfuel : decode_fuel S = 144 + 4 + 1 + 1 + 1 + 1 := by rw [hS]; rfl
  have hrun : run_modes clz c (decode_fuel S) S = Except.ok (Status.M_EXIT, s5) := by
    rw [hfuel,
      run_modes_continue clz c _ S s1 (by rw [call_mode_m_id clz c S hmS]; exact e1),
      run_modes_continue clz c _ s1 s2 (by rw [call_mode_m_low_entropy clz c s1 hm1]; exact e2),
      run_modes_continue clz c _ s2 s3
        (by rw [call_mode_m_low_entropy_ref clz c s2 hm2]; exact e3),
      run_modes_continue clz c _ s3 s4 (by rw [call_mode_m_zero_block clz c s3 hm3]; exact e4)]
    exact e5
  have hT : SameTotals S s5 := (((T1.trans T2).trans T3).trans T4).trans T5
  have hdec := aec_decode_of_run clz c
    { init_stream strm0 with next_in := [0x02, 0xA0, 0x80], next_out := [], avail_out := ao }
    S s5 (by rw [hS]; rfl) hrun
  rw [hdec]
  refine ⟨_, rfl, ?_, ?_, ?_⟩
  · show (αr c s5).vout = _
    rw [hv5, hv4]
  · show s5.avail_out = _
    rw [hao5, hao4]
  · show sub_size_t s5.total_out s5.avail_out = N
    rw [hT.2, htoS, hao5, hao4, sub_size_t_eq _ _ (by omega) hao64]
    omega

/-- Witness for C9: `block_size = 8`, `rsi = 2`, 100 bytes of output space. -/
theorem C9_zero_block_ros_witness :
    ∃ s', aec_decode true (config_of 8 8 2 pp_flags)
        { init_stream blank_stream with
          next_in := [0x02, 0xA0, 0x80], next_out := [], avail_out := 100 }
        = Except.ok (Ret.AEC_OK, s') ∧
      s'.next_out = List.replicate (min 2 64 * 8) 42 ∧
      s'.avail_out = 100 - min 2 64 * 8 ∧ s'.total_out = min 2 64 * 8 :=
  C9_zero_block_ros 8 2 100 true blank_stream (by decide) (by decide) (by decide) (by decide)
    (by decide)

/-- Counterexample for C9: with `block_size = 8` and `rsi = 2` the zero-block with the ROS
escape in the first block of the RSI yields the reference 42 and 15 further samples 42
(16 output bytes), not `block_size * min(rsi - 1, 63) = 8` further samples; with `rsi = 1`
it yields 7 further samples, not 0. -/
theorem C9_counterexample :
    (aec_decode true (config_of 8 8 2 pp_flags)
        { init_stream blank_stream with
          next_in := [0x02, 0xA0, 0x80], avail_out := 100 }).map
        (fun r => (r.1, r.2.next_out, r.2.total_out))
      = Except.ok (Ret.AEC_OK, List.replicate 16 42, 16) ∧
    (aec_decode true (config_of 8 8 1 pp_flags)
        { init_stream blank_stream with
          next_in := [0x02, 0xA0, 0x80], avail_out := 100 }).map
        (fun r => (r.1, r.2.next_out, r.2.total_out))
      = Except.ok (Ret.AEC_OK, List.replicate 8 42, 8) ∧
    1 + 8 * min (2 - 1) 63 ≠ 16 ∧ 1 + 8 * min (1 - 1) 63 ≠ 8 :=
  ⟨rfl, rfl, by decide, by decide⟩

/-- C20, the case `block_size = 1` with a reference sample.  With `bits_per_sample = 8`,
`block_size = 1`, `rsi = 4` and `AEC_DATA_PREPROCESS`, the stream `25 46 52 40` holds four
split blocks with `k = 0`: the reference sample 42 alone, then one residual each (0, 1, 2).
On the fast path `m_split` reads `block_size - ref = 0` fundamental sequences for the first
block and the RSI gets one word (`rsip = 1`); on the slow path the do-while loops of
`m_split_fs` and `m_split_output` run once and the RSI gets two words for that block
(`rsip = 2`, the second the fundamental sequence 2 read from the bits of the next block).
The same input decoded in one call (fast path, 14 padding bytes follow) gives the samples
42 42 41 42, fed one byte per call (slow path) it gives 42 43 44 45. -/
theorem C20_split_slow_path_block_size_one :
    ((m_id (config_of 8 1 4 pp_flags)
        { init_stream blank_stream with
          next_in := [0x25, 0x46, 0x52, 0x40, 0, 0, 0, 0, 0, 0, 0, 0, 0, 0, 0, 0, 0, 0]
          avail_out := 100 } >>= fun r =>
      m_split true (config_of 8 1 4 pp_flags) r.2).map
        (fun r => (r.1, r.2.mode, r.2.rsip, r.2.rsi_buffer 0)))
      = Except.ok (Status.M_CONTINUE, Mode.m_id, 1, 42) ∧
    ((m_id (config_of 8 1 4 pp_flags)
        { init_stream blank_stream with
          next_in := [0x25, 0x46, 0x52, 0x40], avail_out := 100 } >>= fun r =>
      m_split true (config_of 8 1 4 pp_flags) r.2 >>= fun r =>
      m_split_fs (config_of 8 1 4 pp_flags) r.2 >>= fun r =>
      m_split_output (config_of 8 1 4 pp_flags) r.2).map
        (fun r => (r.1, r.2.mode, r.2.rsip, r.2.rsi_buffer 0, r.2.rsi_buffer 1)))
      = Except.ok (Status.M_CONTINUE, Mode.m_id, 2, 42, 2) ∧
    (aec_decode false (config_of 8 1 4 pp_flags)
        { init_stream blank_stream with
          next_in := [0x25, 0x46, 0x52, 0x40, 0, 0, 0, 0, 0, 0, 0, 0, 0, 0, 0, 0, 0, 0]
          avail_out := 100 }).map (fun r => (r.1, r.2.next_out))
      = Except.ok (Ret.AEC_OK, [42, 42, 41, 42, 0]) ∧
    (decode_chunks false (config_of 8 1 4 pp_flags)
        { init_stream blank_stream with avail_out := 100 }
        [[0x25], [0x46], [0x52], [0x40], [0], [0], [0], [0], [0], [0], [0], [0], [0], [0],
          [0], [0], [0], [0]]).map (fun r => (r.1, r.2.next_out))
      = Except.ok (Ret.AEC_OK, [42, 43, 44, 45, 0]) ∧
    (config_of 8 1 4 pp_flags).block_size = 1 :=
  ⟨rfl, rfl, rfl, rfl, rfl⟩

/-- The CCSDS mapping undoes one pass of the flush loop: for a prediction in range and any
residual word `d`, mapping the value the pass computes gives `d` back. -/
theorem ccsds_map_flush_step {c : Config} (h : Accepted c) {p : Int} (d : Nat)
    (hp : c.xmin ≤ p ∧ p ≤ c.xmax) :
    ccsds_map c.xmin c.xmax p (flush_step (flush_med c) c.xmin c.xmax p d) = (d : Int) := by
  have hx := flush_step_eq (flush_med c) c.xmin c.xmax p d
  have hth := accepted_theta h p
  obtain ⟨M, hM1, -, -, hcase⟩ := accepted_range h
  generalize flush_step (flush_med c) c.xmin c.xmax p d = x at hx
  unfold ccsds_map
  simp only []
  rw [hth]
  rcases hcase with ⟨-, h1, h2, h3⟩ | ⟨-, h1, h2, h3⟩ <;>
  · rw [h1, h2] at hp hx ⊢
    rw [h3] at hx ⊢
    rcases abs_cases (x - p) with ⟨ha, hs⟩ | ⟨ha, hs⟩ <;>
    · rw [ha]
      split_ifs at hx ⊢ <;> omega

/-- C22: one pass of the preprocessor loop of `FLUSH` is a bijection.  For every accepted
configuration (1 to 32 bits, signed or unsigned) and every predictor value `data` in
`[xmin, xmax]`, the map that sends a residual `d` to the sample the loop body computes
(`flush_step`, which is what `flush_loop` emits for the word `d`) maps
`{0, ..., xmax - xmin}` into `{xmin, ..., xmax}`, is injective (on all residual words),
and reaches every sample value in range by exactly one residual of `{0, ..., xmax - xmin}`;
its inverse is the CCSDS mapping `ccsds_map`. -/
theorem C22_flush_step_bijection (bps bs rsi : Nat) (flags : Flags) (strm0 : aec_stream)
    (c : Config) (s0 : aec_stream)
    (h : aec_decode_init bps bs rsi flags strm0 = (Ret.AEC_OK, some (c, s0)))
    (data : Int) (hdata : c.xmin ≤ data ∧ data ≤ c.xmax) :
    (1 ≤ c.bits_per_sample ∧ c.bits_per_sample ≤ 32) ∧
    (∀ d : Nat, flush_loop (flush_med c) c.xmin c.xmax data [d]
      = ([flush_step (flush_med c) c.xmin c.xmax data d],
          flush_step (flush_med c) c.xmin c.xmax data d)) ∧
    Set.BijOn (fun d : Nat => flush_step (flush_med c) c.xmin c.xmax data d)
      {d : Nat | (d : Int) ≤ c.xmax - c.xmin} {x : Int | c.xmin ≤ x ∧ x ≤ c.xmax} ∧
    (∀ d : Nat, (d : Int) ≤ c.xmax - c.xmin →
      c.xmin ≤ flush_step (flush_med c) c.xmin c.xmax data d ∧
      flush_step (flush_med c) c.xmin c.xmax data d ≤ c.xmax) ∧
    (∀ d1 d2 : Nat,
      flush_step (flush_med c) c.xmin c.xmax data d1
        = flush_step (flush_med c) c.xmin c.xmax data d2 → d1 = d2) ∧
    (∀ x : Int, c.xmin ≤ x → x ≤ c.xmax →
      ∃! d : Nat, (d : Int) ≤ c.xmax - c.xmin ∧
        flush_step (flush_med c) c.xmin c.xmax data d = x) ∧
    (∀ d : Nat,
      ccsds_map c.xmin c.xmax data (flush_step (flush_med c) c.xmin c.xmax data d)
        = (d : Int)) ∧
    (∀ x : Int, c.xmin ≤ x → x ≤ c.xmax →
      flush_step (flush_med c) c.xmin c.xmax data (ccsds_map c.xmin c.xmax data x).toNat
        = x) := by
  obtain ⟨hc, -, -⟩ := aec_decode_init_some h
  obtain ⟨ha, -, -, -, -⟩ := init_config_accepted hc
  have hb : ∀ d : Nat, (d : Int) ≤ c.xmax - c.xmin →
      c.xmin ≤ flush_step (flush_med c) c.xmin c.xmax data d ∧
      flush_step (flush_med c) c.xmin c.xmax data d ≤ c.xmax :=
    fun d hd => flush_step_bounds ha hdata hd
  have hinj : ∀ d1 d2 : Nat,
      flush_step (flush_med c) c.xmin c.xmax data d1
        = flush_step (flush_med c) c.xmin c.xmax data d2 → d1 = d2 := by
    intro d1 d2 he
    have e1 := ccsds_map_flush_step ha d1 hdata
    have e2 := ccsds_map_flush_step ha d2 hdata
    rw [he, e2] at e1
    exact_mod_cast e1.symm
  have hsur : ∀ x : Int, c.xmin ≤ x → x ≤ c.xmax →
      ∃ d : Nat, (d : Int) ≤ c.xmax - c.xmin ∧
        flush_step (flush_med c) c.xmin c.xmax data d = x := by
    intro x hx1 hx2
    obtain ⟨b0, b1⟩ := @ccsds_map_bounds c data x hdata ⟨hx1, hx2⟩
    refine ⟨(ccsds_map c.xmin c.xmax data x).toNat, ?_, flush_step_ccsds_map ha hdata ⟨hx1, hx2⟩⟩
    rw [Int.toNat_of_nonneg b0]
    exact b1
  refine ⟨⟨ha.bps_pos, ha.bps_le⟩, fun d => rfl, ⟨?_, ?_, ?_⟩, hb, hinj, ?_,
    fun d => ccsds_map_flush_step ha d hdata,
    fun x hx1 hx2 => flush_step_ccsds_map ha hdata ⟨hx1, hx2⟩⟩
  · intro d hd
    exact hb d hd
  · intro d1 _ d2 _ he
    exact hinj d1 d2 he
  · intro x hx
    obtain ⟨d, hd, e⟩ := hsur x hx.1 hx.2
    exact ⟨d, hd, e⟩
  · intro x hx1 hx2
    obtain ⟨d, hd, e⟩ := hsur x hx1 hx2
    refine ⟨d, ⟨hd, e⟩, ?_⟩
    rintro d' ⟨hd', e'⟩
    exact hinj d' d (e'.trans e.symm)

/-- Witness of C22: 8 bits unsigned, predictor 10: the residuals 0 .. 255 and the samples
0 .. 255 correspond one to one; the residual 3 gives the sample 8 and the residual 21 the
sample 21. -/
theorem C22_flush_step_bijection_witness :
    Set.BijOn
      (fun d : Nat => flush_step (flush_med (config_of 8 8 1 pp_flags))
        (config_of 8 8 1 pp_flags).xmin (config_of 8 8 1 pp_flags).xmax 10 d)
      {d : Nat | (d : Int) ≤ (config_of 8 8 1 pp_flags).xmax - (config_of 8 8 1 pp_flags).xmin}
      {x : Int | (config_of 8 8 1 pp_flags).xmin ≤ x ∧ x ≤ (config_of 8 8 1 pp_flags).xmax} ∧
    (config_of 8 8 1 pp_flags).xmin = 0 ∧ (config_of 8 8 1 pp_flags).xmax = 255 ∧
    flush_step (flush_med (config_of 8 8 1 pp_flags))
        (config_of 8 8 1 pp_flags).xmin (config_of 8 8 1 pp_flags).xmax 10 3 = 8 ∧
    flush_step (flush_med (config_of 8 8 1 pp_flags))
        (config_of 8 8 1 pp_flags).xmin (config_of 8 8 1 pp_flags).xmax 10 21 = 21 :=
  ⟨(C22_flush_step_bijection 8 8 1 pp_flags blank_stream (config_of 8 8 1 pp_flags)
      (init_stream blank_stream) rfl 10 (by decide)).2.2.1, rfl, rfl, by decide, by decide⟩

theorem create_se_table_length : (create_se_table (List.replicate 182 0)).length = 182 := by
  rw [create_se_table_eq]
  rfl

theorem se_lookup_out_of_table {c : Config} (hc : Accepted c) (m : Nat) (hm : 91 ≤ m) :
    se_lookup c m = Except.error Fault.se_table_index := by
  unfold se_lookup
  have h1 : c.se_table[2 * m + 1]? = none := by
    rw [List.getElem?_eq_none]
    rw [hc.se_table_eq, create_se_table_length]
    omega
  rw [h1]

theorem se_lookup_in_table {c : Config} (hc : Accepted c) (k : Nat) (hk : k ≤ 90) :
    ∃ t, se_lookup c k = Except.ok t := by
  obtain ⟨i, -, t0, t1, -, -⟩ := se_table_rows k (by omega)
  unfold se_lookup
  rw [hc.se_table_eq, t0, t1]
  exact ⟨_, rfl⟩

theorem replicate_false_cons_true_inj :
    ∀ (a b : Nat) (r1 r2 : List Bool),
      List.replicate a false ++ true :: r1 = List.replicate b false ++ true :: r2 → a = b
  | 0, 0, _, _, _ => rfl
  | 0, b + 1, _, _, h => by simp [List.replicate_succ] at h
  | a + 1, 0, _, _, h => by simp [List.replicate_succ] at h
  | a + 1, b + 1, r1, r2, h => by
    simp only [List.replicate_succ, List.cons_append, List.cons.injEq, true_and] at h
    rw [replicate_false_cons_true_inj a b r1 r2 h]

/-- C23, as the code has it: the table index is not checked.  `create_se_table` fills 182
entries and `se_table[2 * k]`, `se_table[2 * k + 1]` are inside them exactly for `k ≤ 90`.
For every `m ≥ 91` (below `2^31`) and every decoder state whose unread bits are `m` zero
bits and a one bit — a fundamental sequence that any input can hold — `m_se_decode` (slow
path, with `i < block_size`) and `m_se` (fast path, with `BUFFERSPACE`, `ref < block_size`
and 56 more bits of input) read the table at `2 * m + 1 ≥ 183`: the model returns the fault
`se_table_index`, which stands for a read outside the 182 entries. -/
theorem C23_se_table_index_unchecked (bps bs rsi : Nat) (flags : Flags) (strm0 : aec_stream)
    (c : Config) (s0 : aec_stream)
    (h : aec_decode_init bps bs rsi flags strm0 = (Ret.AEC_OK, some (c, s0)))
    (clz : Bool) (m : Nat) (hm : 91 ≤ m) (hm2 : m < 2 ^ 31) (s : aec_stream)
    (rest : List Bool) (hb : s.bitp ≤ 63) (hfs : s.fs = 0)
    (hbits : lbits s = List.replicate m false ++ true :: rest) :
    c.se_table.length = 182 ∧
    (∀ k : Nat, k ≤ 90 ↔ ∃ t, se_lookup c k = Except.ok t) ∧
    se_lookup c m = Except.error Fault.se_table_index ∧
    (fs_ask s).1 = true ∧ (fs_ask s).2.fs = m ∧
    (s.i < c.block_size → m_se_decode c s = Except.error Fault.se_table_index) ∧
    (BUFFERSPACE c s = true → s.ref < c.block_size → m + 56 ≤ (lbits s).length →
      (∃ s', direct_get_fs clz s = Except.ok (m, s')) ∧
      m_se clz c s = Except.error Fault.se_table_index) := by
  obtain ⟨hcfg, -, -⟩ := aec_decode_init_some h
  obtain ⟨hc, -, -, -, -⟩ := init_config_accepted hcfg
  have hout := se_lookup_out_of_table hc m hm
  obtain ⟨ni, a, b, f, e1, e2, e3, e4, e5⟩ := fs_ask_spec s hb
  rw [hbits, L_fs_scan_run] at e1 e3
  simp only at e1 e3
  rw [hfs, Nat.zero_add] at e3
  have hask1 : (fs_ask s).1 = true := by rw [e1]
  have hask2 : (fs_ask s).2.fs = m := by rw [e1]; exact e3
  refine ⟨by rw [hc.se_table_eq, create_se_table_length], fun k => ⟨se_lookup_in_table hc k,
    fun ⟨t, ht⟩ => ?_⟩, hout, hask1, hask2, fun hi => ?_, fun hB href hlen => ?_⟩
  · by_contra hk
    rw [se_lookup_out_of_table hc k (by omega)] at ht
    cases ht
  · unfold m_se_decode m_se_decode_loop
    rw [if_pos hi]
    simp only
    rw [if_neg (by rw [hask1]; simp), hask2, hout]
    rfl
  · obtain ⟨r, hr⟩ := direct_get_fs_ok clz s m rest hb hbits hlen
    obtain ⟨z, d1, d2, -, -, -⟩ := direct_get_fs_spec clz s r.2 r.1 hb hr
    have hz : m = z := replicate_false_cons_true_inj m z _ _ (hbits.symm.trans d1)
    have hW : W32 = 2 ^ 32 := rfl
    have hr1 : r.1 = m := by
      rw [d2, ← hz]
      exact Nat.mod_eq_of_lt (by rw [hW]; omega)
    have hr' : direct_get_fs clz s = Except.ok (m, r.2) := by rw [hr, ← hr1]
    refine ⟨⟨r.2, hr'⟩, ?_⟩
    unfold m_se
    rw [if_pos hB]
    have hd : m_se_direct clz c (c.block_size - s.ref + 1) s.ref s
        = Except.error Fault.se_table_index := by
      unfold m_se_direct
      rw [if_pos href, hr']
      show (se_lookup c m >>= _) = _
      rw [hout]
      rfl
    rw [hd]
    rfl

set_option maxRecDepth 4000 in
theorem se_overrun_bits :
    lbits { init_stream blank_stream with
        acc := 0x10, bitp := 4, next_in := [0, 0, 0, 0, 0, 0, 0, 0, 0, 0, 1]
        mode := Mode.m_se_decode, avail_out := 100 }
      = List.replicate 91 false ++ true :: [] := rfl

set_option maxRecDepth 4000 in
theorem se_overrun_slow :
    aec_decode true (config_of 8 8 1 no_flags)
      { init_stream blank_stream with
        next_in := [0x10, 0, 0, 0, 0, 0, 0, 0, 0, 0, 0, 1], avail_out := 100 }
      = Except.error Fault.se_table_index := rfl

set_option maxRecDepth 4000 in
theorem se_overrun_fast :
    aec_decode false (config_of 8 8 1 no_flags)
      { init_stream blank_stream with
        next_in := [0x10, 0, 0, 0, 0, 0, 0, 0, 0, 0, 0, 1, 0, 0, 0, 0, 0, 0, 0, 0, 0, 0,
          0, 0, 0, 0, 0, 0, 0, 0, 0, 0]
        avail_out := 100 }
      = Except.error Fault.se_table_index := rfl

/-- Witness of C23: 8 bits, `block_size = 8`, `rsi = 1`, no flags; the input
`10 00 00 00 00 00 00 00 00 00 00 01` is the identifier `000`, the selector bit `1`
(second extension) and a fundamental sequence of 91 zero bits and a one bit.  After the
identifier and the selector the slow path `m_se_decode` reads `m = 91` and the table at
index 183; `aec_decode` on the twelve bytes (slow path) and on them followed by 20 more
bytes (fast path) ends in that read. -/
theorem C23_se_table_index_unchecked_witness :
    (fs_ask { init_stream blank_stream with
        acc := 0x10, bitp := 4, next_in := [0, 0, 0, 0, 0, 0, 0, 0, 0, 0, 1]
        mode := Mode.m_se_decode, avail_out := 100 }).2.fs = 91 ∧
    m_se_decode (config_of 8 8 1 no_flags)
      { init_stream blank_stream with
        acc := 0x10, bitp := 4, next_in := [0, 0, 0, 0, 0, 0, 0, 0, 0, 0, 1]
        mode := Mode.m_se_decode, avail_out := 100 }
      = Except.error Fault.se_table_index ∧
    (config_of 8 8 1 no_flags).se_table.length = 182 ∧
    aec_decode true (config_of 8 8 1 no_flags)
      { init_stream blank_stream with
        next_in := [0x10, 0, 0, 0, 0, 0, 0, 0, 0, 0, 0, 1], avail_out := 100 }
      = Except.error Fault.se_table_index ∧
    aec_decode false (config_of 8 8 1 no_flags)
      { init_stream blank_stream with
        next_in := [0x10, 0, 0, 0, 0, 0, 0, 0, 0, 0, 0, 1, 0, 0, 0, 0, 0, 0, 0, 0, 0, 0,
          0, 0, 0, 0, 0, 0, 0, 0, 0, 0]
        avail_out := 100 }
      = Except.error Fault.se_table_index :=
  have h := C23_se_table_index_unchecked 8 8 1 no_flags blank_stream (config_of 8 8 1 no_flags)
    (init_stream blank_stream) rfl true 91 (by norm_num) (by norm_num)
    { init_stream blank_stream with
      acc := 0x10, bitp := 4, next_in := [0, 0, 0, 0, 0, 0, 0, 0, 0, 0, 1]
      mode := Mode.m_se_decode, avail_out := 100 }
    [] (by decide) rfl se_overrun_bits
  ⟨h.2.2.2.2.1, h.2.2.2.2.2.1 (by decide), h.1, se_overrun_slow, se_overrun_fast⟩

theorem flush_loop_last (med xmin xmax : Int) : ∀ (ds : List Nat) (data : Int),
    (flush_loop med xmin xmax data ds).2 = (flush_loop med xmin xmax data ds).1.getLastD data
  | [], _ => rfl
  | d :: ds, data => by
    have ih := flush_loop_last med xmin xmax ds (flush_step med xmin xmax data d)
    simp only [flush_loop]
    rw [ih]
    cases (flush_loop med xmin xmax (flush_step med xmin xmax data d) ds).1 <;>
      simp [List.getLastD]

theorem getLastD_cons_self (a b : Int) (l : List Int) :
    (a :: l).getLastD b = l.getLastD a := by
  cases l <;> simp [List.getLastD]

theorem flush_last_out (c : Config) (s : aec_stream) :
    (flush c s).last_out
      = if c.pp then (flush_samples c s).1.getLastD s.last_out else s.last_out := by
  show (flush_samples c s).2 = _
  unfold flush_samples
  by_cases hpp : c.pp = true
  · by_cases href : s.flush_start = 0 ∧ 0 < s.rsip
    · simp only [hpp, href, if_true, and_self, decide_True]
      rw [flush_loop_last, getLastD_cons_self]
    · simp only [hpp, href, if_true, decide_False, Bool.false_eq_true, if_false]
      rw [flush_loop_last]
  · simp only [hpp, Bool.false_eq_true, if_false]

set_option maxRecDepth 4000 in
theorem odd_block_before_store :
    ((m_id (config_of 8 3 1 no_flags)
        { init_stream blank_stream with
          next_in := [0x1F, 0x80, 0x81, 0x01, 0x80, 0, 0, 0, 0, 0, 0, 0, 0, 0, 0, 0, 0, 0, 0]
          avail_out := 100 } >>= fun r =>
      m_low_entropy r.2 >>= fun r =>
      m_low_entropy_ref (config_of 8 3 1 no_flags) r.2 >>= fun r =>
      m_se false (config_of 8 3 1 no_flags) r.2 >>= fun r =>
      m_id (config_of 8 3 1 no_flags) r.2).map
        (fun r => (r.1, r.2.mode, r.2.rsip, r.2.flush_start, r.2.next_out,
          BUFFERSPACE (config_of 8 3 1 no_flags) r.2))
      = Except.ok (Status.M_CONTINUE, Mode.m_uncomp, 1, 0, [0, 0, 0], true)) := rfl

set_option maxRecDepth 4000 in
theorem odd_block_store_fault :
    ((m_id (config_of 8 3 1 no_flags)
        { init_stream blank_stream with
          next_in := [0x1F, 0x80, 0x81, 0x01, 0x80, 0, 0, 0, 0, 0, 0, 0, 0, 0, 0, 0, 0, 0, 0]
          avail_out := 100 } >>= fun r =>
      m_low_entropy r.2 >>= fun r =>
      m_low_entropy_ref (config_of 8 3 1 no_flags) r.2 >>= fun r =>
      m_se false (config_of 8 3 1 no_flags) r.2 >>= fun r =>
      m_id (config_of 8 3 1 no_flags) r.2 >>= fun r =>
      m_uncomp (config_of 8 3 1 no_flags) r.2)
      = Except.error Fault.rsi_overflow) := rfl

set_option maxRecDepth 4000 in
theorem odd_block_decode_fault :
    aec_decode false (config_of 8 3 1 no_flags)
        { init_stream blank_stream with
          next_in := [0x1F, 0x80, 0x81, 0x01, 0x80, 0, 0, 0, 0, 0, 0, 0, 0, 0, 0, 0, 0, 0, 0]
          avail_out := 100 }
      = Except.error Fault.rsi_overflow := rfl

set_option maxRecDepth 4000 in
theorem odd_block_slow_output :
    (aec_decode false (config_of 8 3 1 no_flags)
        { init_stream blank_stream with
          next_in := [0x1F, 0x80, 0x81, 0x01, 0x80], avail_out := 100 }).map
        (fun r => (r.1, r.2.next_out, r.2.rsip, r.2.flush_start))
      = Except.ok (Ret.AEC_OK, [0, 0, 0, 0, 1, 2, 3], 1, 1) := rfl

/-- C21.  What holds of `flush` and `check_rsi_end` in every state: after `flush` the cursor
`flush_start` equals `rsip`, `rsip` is unchanged, the emitted bytes are appended and, with
the preprocessor on, `last_out` is the last emitted sample (unchanged if none was emitted);
`check_rsi_end` flushes and resets both cursors exactly when `rsip` is `rsi_size`.  What
does not hold is `rsip ≤ rsi_buffer + rsi_size` in every reachable state: with
`bits_per_sample = 8`, `block_size = 3`, `rsi = 1`, no flags (accepted by `aec_decode_init`),
the input `1F 80 81 01 80` holds a second-extension block (two fundamental sequences `1`)
and an uncompressed block (samples 1, 2, 3).  The loop of `m_se` emits two samples per
fundamental sequence, four for the block of three: `rsip` wraps and is 1 when the next block
starts.  On the slow path the seven samples come out (`rsip = 1` at the end); on the fast
path (14 more input bytes) `m_uncomp` stores three words from `rsi_buffer[1]` on, the last
one at `rsi_buffer[3]`, outside the buffer of `rsi_size = 3` words: the model returns the
fault `rsi_overflow`. -/
theorem C21_rsi_cursor_odd_block_size (c : Config) (s : aec_stream) :
    ((flush c s).flush_start = (flush c s).rsip ∧ (flush c s).rsip = s.rsip ∧
      (flush c s).next_out = s.next_out ++ out_bytes c (flush_samples c s).1 ∧
      (flush c s).last_out
        = (if c.pp then (flush_samples c s).1.getLastD s.last_out else s.last_out)) ∧
    ((check_rsi_end c s).rsip = (if s.rsip = c.rsi_size then 0 else s.rsip) ∧
      (check_rsi_end c s).flush_start = (if s.rsip = c.rsi_size then 0 else s.flush_start) ∧
      (check_rsi_end c s).next_out
        = (if s.rsip = c.rsi_size then (flush c s).next_out else s.next_out)) ∧
    (aec_decode_init 8 3 1 no_flags blank_stream
        = (Ret.AEC_OK, some (config_of 8 3 1 no_flags, init_stream blank_stream)) ∧
      (config_of 8 3 1 no_flags).rsi_size = 3) ∧
    ((m_id (config_of 8 3 1 no_flags)
        { init_stream blank_stream with
          next_in := [0x1F, 0x80, 0x81, 0x01, 0x80, 0, 0, 0, 0, 0, 0, 0, 0, 0, 0, 0, 0, 0, 0]
          avail_out := 100 } >>= fun r =>
      m_low_entropy r.2 >>= fun r =>
      m_low_entropy_ref (config_of 8 3 1 no_flags) r.2 >>= fun r =>
      m_se false (config_of 8 3 1 no_flags) r.2 >>= fun r =>
      m_id (config_of 8 3 1 no_flags) r.2).map
        (fun r => (r.1, r.2.mode, r.2.rsip, r.2.flush_start, r.2.next_out,
          BUFFERSPACE (config_of 8 3 1 no_flags) r.2))
      = Except.ok (Status.M_CONTINUE, Mode.m_uncomp, 1, 0, [0, 0, 0], true)) ∧
    ((m_id (config_of 8 3 1 no_flags)
        { init_stream blank_stream with
          next_in := [0x1F, 0x80, 0x81, 0x01, 0x80, 0, 0, 0, 0, 0, 0, 0, 0, 0, 0, 0, 0, 0, 0]
          avail_out := 100 } >>= fun r =>
      m_low_entropy r.2 >>= fun r =>
      m_low_entropy_ref (config_of 8 3 1 no_flags) r.2 >>= fun r =>
      m_se false (config_of 8 3 1 no_flags) r.2 >>= fun r =>
      m_id (config_of 8 3 1 no_flags) r.2 >>= fun r =>
      m_uncomp (config_of 8 3 1 no_flags) r.2)
      = Except.error Fault.rsi_overflow) ∧
    aec_decode false (config_of 8 3 1 no_flags)
        { init_stream blank_stream with
          next_in := [0x1F, 0x80, 0x81, 0x01, 0x80, 0, 0, 0, 0, 0, 0, 0, 0, 0, 0, 0, 0, 0, 0]
          avail_out := 100 }
      = Except.error Fault.rsi_overflow ∧
    (aec_decode false (config_of 8 3 1 no_flags)
        { init_stream blank_stream with
          next_in := [0x1F, 0x80, 0x81, 0x01, 0x80], avail_out := 100 }).map
        (fun r => (r.1, r.2.next_out, r.2.rsip, r.2.flush_start))
      = Except.ok (Ret.AEC_OK, [0, 0, 0, 0, 1, 2, 3], 1, 1) := by
  refine ⟨⟨rfl, rfl, rfl, flush_last_out c s⟩, ⟨?_, ?_, ?_⟩, ⟨rfl, rfl⟩, odd_block_before_store,
    odd_block_store_fault, odd_block_decode_fault, odd_block_slow_output⟩
  all_goals
    unfold check_rsi_end
    split_ifs <;> rfl

theorem bits_ask_loop_asked : ∀ (f : Nat) (s : aec_stream) (n : Nat),
    s.next_in.length ≤ f → asked (bits_ask_loop f s n).2 n (bits_ask_loop f s n).1
  | 0, s, n, h => by
    have hn : s.next_in = [] := List.length_eq_zero.mp (Nat.le_zero.mp h)
    unfold bits_ask_loop
    by_cases hb : n ≤ s.bitp
    · left; exact ⟨by simp [hb], hb⟩
    · right; exact ⟨by simp [hb], hn, by show s.bitp < n; omega⟩
  | f + 1, s, n, h => by
    unfold bits_ask_loop
    by_cases hlt : s.bitp < n
    · rw [if_pos hlt]
      rcases hni : s.next_in with _ | ⟨b, rest⟩
      · right; exact ⟨rfl, hni, hlt⟩
      · rw [hni] at h
        exact bits_ask_loop_asked f _ n (by simpa using h)
    · rw [if_neg hlt]
      left; exact ⟨rfl, by show n ≤ s.bitp; omega⟩

theorem bits_ask_loop_frame : ∀ (f : Nat) (s : aec_stream) (n : Nat),
    reader_frame s (bits_ask_loop f s n).2 ∧ (bits_ask_loop f s n).2.fs = s.fs ∧
      (bits_ask_loop f s n).2.bitp % 8 = s.bitp % 8
  | 0, s, n => by
    unfold bits_ask_loop
    exact ⟨⟨rfl, rfl, rfl, rfl, rfl, rfl, rfl, rfl, rfl, rfl, rfl, rfl, rfl, le_rfl⟩, rfl, rfl⟩
  | f + 1, s, n => by
    unfold bits_ask_loop
    by_cases hlt : s.bitp < n
    · rw [if_pos hlt]
      rcases hni : s.next_in with _ | ⟨b, rest⟩
      · exact ⟨⟨rfl, rfl, rfl, rfl, rfl, rfl, rfl, rfl, rfl, rfl, rfl, rfl, rfl, le_rfl⟩,
          rfl, rfl⟩
      · obtain ⟨⟨h1, h2, h3, h4, h5, h6, h7, h8, h9, h10, h11, h12, h13, h14⟩, h16, h15⟩ :=
          bits_ask_loop_frame f
            { s with next_in := rest, acc := acc_push s.acc b, bitp := s.bitp + 8 } n
        refine ⟨⟨h1, h2, h3, h4, h5, h6, h7, h8, h9, h10, h11, h12, h13, ?_⟩, h16, ?_⟩
        · exact le_trans h14 (by rw [hni]; exact Nat.le_succ _)
        · rw [h15]; show (s.bitp + 8) % 8 = s.bitp % 8; omega
    · rw [if_neg hlt]
      exact ⟨⟨rfl, rfl, rfl, rfl, rfl, rfl, rfl, rfl, rfl, rfl, rfl, rfl, rfl, le_rfl⟩, rfl, rfl⟩

/-- The state `bits_ask` leaves is one in which it gives the same answer again. -/
theorem bits_ask_asked (s : aec_stream) (n : Nat) :
    asked (bits_ask s n).2 n (bits_ask s n).1 :=
  bits_ask_loop_asked _ s n le_rfl

theorem bits_ask_frame (s : aec_stream) (n : Nat) :
    reader_frame s (bits_ask s n).2 ∧ (bits_ask s n).2.fs = s.fs ∧
      (bits_ask s n).2.bitp % 8 = s.bitp % 8 :=
  bits_ask_loop_frame _ s n

theorem bits_ask_again (s : aec_stream) (n : Nat) (b : Bool) (h : asked s n b) :
    bits_ask s n = (b, s) := by
  unfold bits_ask
  rcases h with ⟨hb, h⟩ | ⟨hb, hn, h⟩
  · subst hb
    rcases hlen : s.next_in.length with _ | m
    · unfold bits_ask_loop; simp [h]
    · unfold bits_ask_loop; rw [if_neg (by omega)]
  · subst hb
    rw [hn]
    show (decide (n ≤ s.bitp), s) = _
    have : ¬ n ≤ s.bitp := by omega
    simp [this]

theorem fs_ask_loop_asked : ∀ (f : Nat) (s : aec_stream),
    1 ≤ s.bitp → s.bitp + 8 * s.next_in.length < f →
    fs_asked (fs_ask_loop f s).2 (fs_ask_loop f s).1
  | 0, s, _, h => by omega
  | f + 1, s, h1, h => by
    unfold fs_ask_loop
    by_cases hc : s.acc &&& (1 <<< (s.bitp - 1)) = 0
    · rw [if_pos hc]
      by_cases hb : s.bitp = 1
      · rw [if_pos hb]
        rcases hni : s.next_in with _ | ⟨b, rest⟩
        · right; exact ⟨rfl, hni, Or.inr ⟨hb, hc⟩⟩
        · rw [hni] at h
          refine fs_ask_loop_asked f _ ?_ ?_
          · show 1 ≤ s.bitp + 8 - 1; omega
          · show s.bitp + 8 - 1 + 8 * rest.length < f
            simp only [List.length_cons] at h; omega
      · rw [if_neg hb]
        refine fs_ask_loop_asked f _ ?_ ?_
        · show 1 ≤ s.bitp - 1; omega
        · show s.bitp - 1 + 8 * s.next_in.length < f; omega
    · rw [if_neg hc]
      left; exact ⟨rfl, h1, hc⟩

theorem reader_frame_refl (s : aec_stream) : reader_frame s s :=
  ⟨rfl, rfl, rfl, rfl, rfl, rfl, rfl, rfl, rfl, rfl, rfl, rfl, rfl, le_rfl⟩

theorem reader_frame_trans {s t u : aec_stream} (h1 : reader_frame s t)
    (h2 : reader_frame t u) : reader_frame s u := by
  obtain ⟨a1, a2, a3, a4, a5, a6, a7, a8, a9, a10, a11, a12, a13, a14⟩ := h1
  obtain ⟨b1, b2, b3, b4, b5, b6, b7, b8, b9, b10, b11, b12, b13, b14⟩ := h2
  exact ⟨b1.trans a1, b2.trans a2, b3.trans a3, b4.trans a4, b5.trans a5, b6.trans a6,
    b7.trans a7, b8.trans a8, b9.trans a9, b10.trans a10, b11.trans a11, b12.trans a12,
    b13.trans a13, le_trans b14 a14⟩

theorem fs_ask_loop_frame : ∀ (f : Nat) (s : aec_stream),
    reader_frame s (fs_ask_loop f s).2
  | 0, s => by
    unfold fs_ask_loop
    exact reader_frame_refl s
  | f + 1, s => by
    unfold fs_ask_loop
    by_cases hc : s.acc &&& (1 <<< (s.bitp - 1)) = 0
    · rw [if_pos hc]
      by_cases hb : s.bitp = 1
      · rw [if_pos hb]
        rcases hni : s.next_in with _ | ⟨b, rest⟩
        · exact ⟨rfl, rfl, rfl, rfl, rfl, rfl, rfl, rfl, rfl, rfl, rfl, rfl, rfl,
            by rw [hni]⟩
        · refine reader_frame_trans ?_ (fs_ask_loop_frame f _)
          exact ⟨rfl, rfl, rfl, rfl, rfl, rfl, rfl, rfl, rfl, rfl, rfl, rfl, rfl,
            by rw [hni]; simp⟩
      · rw [if_neg hb]
        refine reader_frame_trans ?_ (fs_ask_loop_frame f _)
        exact ⟨rfl, rfl, rfl, rfl, rfl, rfl, rfl, rfl, rfl, rfl, rfl, rfl, rfl, le_rfl⟩
    · rw [if_neg hc]
      exact reader_frame_refl s

/-- The state `fs_ask` leaves is one in which it gives the same answer again. -/
theorem fs_ask_asked (s : aec_stream) : fs_asked (fs_ask s).2 (fs_ask s).1 := by
  have ha := bits_ask_asked s 1
  unfold fs_ask
  rcases ha with ⟨hb, h⟩ | ⟨hb, hn, h⟩
  · simp only [hb, Bool.true_eq_false, if_false]
    exact fs_ask_loop_asked _ _ h (by omega)
  · simp only [hb, if_true]
    right; exact ⟨rfl, hn, Or.inl (by omega)⟩

theorem fs_ask_frame (s : aec_stream) : reader_frame s (fs_ask s).2 := by
  have h := (bits_ask_frame s 1).1
  unfold fs_ask
  by_cases hb : (bits_ask s 1).1 = false
  · simp only [hb, if_true]; exact h
  · simp only [hb, if_false]
    exact reader_frame_trans h (fs_ask_loop_frame _ _)

theorem fs_ask_again (s : aec_stream) (b : Bool) (h : fs_asked s b) :
    fs_ask s = (b, s) := by
  rcases h with ⟨hb, h1, h2⟩ | ⟨hb, hn, h0 | ⟨h1, h2⟩⟩
  · subst hb
    unfold fs_ask
    rw [bits_ask_again s 1 true (Or.inl ⟨rfl, h1⟩)]
    simp only [Bool.true_eq_false, if_false]
    unfold fs_ask_loop
    rw [if_neg h2]
  · subst hb
    unfold fs_ask
    rw [bits_ask_again s 1 false (Or.inr ⟨rfl, hn, by omega⟩)]
    simp
  · subst hb
    unfold fs_ask
    rw [bits_ask_again s 1 true (Or.inl ⟨rfl, by omega⟩)]
    simp only [Bool.true_eq_false, if_false]
    unfold fs_ask_loop
    rw [if_pos h2, if_pos h1, hn]

theorem put_sample_keeps (c : Config) (s s1 : aec_stream) (w : Nat)
    (h : put_sample c s w = Except.ok s1) :
    s1.mode = s.mode ∧ s1.id = s.id ∧ s1.n = s.n ∧ s1.i = s.i ∧ s1.fs = s.fs ∧
    s1.ref = s.ref ∧ s1.acc = s.acc ∧ s1.bitp = s.bitp ∧ s1.next_in = s.next_in := by
  unfold put_sample rsi_store at h
  by_cases hr : s.rsip < c.rsi_size
  · rw [if_pos hr] at h
    simp only [bind, Except.bind, pure, Except.pure, Except.ok.injEq] at h
    subst h
    unfold check_rsi_end
    split
    · exact ⟨rfl, rfl, rfl, rfl, rfl, rfl, rfl, rfl, rfl⟩
    · exact ⟨rfl, rfl, rfl, rfl, rfl, rfl, rfl, rfl, rfl⟩
  · rw [if_neg hr] at h
    cases h

theorem rsi_store_keeps (c : Config) (s s1 : aec_stream) (j v : Nat)
    (h : rsi_store c s j v = Except.ok s1) :
    s1 = { s with rsi_buffer := upd s.rsi_buffer j v } := by
  unfold rsi_store at h
  split at h
  · cases h; rfl
  · cases h

/-- A call of `copysample` that returns 0 leaves a state in which it returns 0 again. -/
theorem copysample_exit (c : Config) (t r : aec_stream)
    (h : copysample c t = Except.ok (false, r)) :
    copy_waiting c r ∧ reader_frame t r := by
  unfold copysample at h
  have ha := bits_ask_asked t c.bits_per_sample
  have hf := (bits_ask_frame t c.bits_per_sample).1
  by_cases hc : (bits_ask t c.bits_per_sample).1 = false ∨
      (bits_ask t c.bits_per_sample).2.avail_out = 0
  · simp only [hc, if_true, pure, Except.pure, Except.ok.injEq, Prod.mk.injEq, true_and] at h
    subst h
    exact ⟨⟨_, ha, hc⟩, hf⟩
  · simp only [hc, if_false] at h
    rcases hp : put_sample c (bits_ask t c.bits_per_sample).2
        (bits_get (bits_ask t c.bits_per_sample).2 c.bits_per_sample) with e | s1
    · rw [hp] at h; cases h
    · rw [hp] at h
      simp [bind, Except.bind, pure, Except.pure] at h

theorem copysample_ok_keeps (c : Config) (t r : aec_stream)
    (h : copysample c t = Except.ok (true, r)) :
    r.mode = t.mode ∧ r.id = t.id ∧ r.n = t.n ∧ r.i = t.i ∧ r.ref = t.ref ∧
      r.next_in.length ≤ t.next_in.length := by
  unfold copysample at h
  obtain ⟨-, -, g3, -, g5, g6, -, g8, g9, g10, -, -, -, g14⟩ :=
    (bits_ask_frame t c.bits_per_sample).1
  by_cases hc : (bits_ask t c.bits_per_sample).1 = false ∨
      (bits_ask t c.bits_per_sample).2.avail_out = 0
  · simp [hc, pure, Except.pure] at h
  · simp only [hc, if_false] at h
    rcases hp : put_sample c (bits_ask t c.bits_per_sample).2
        (bits_get (bits_ask t c.bits_per_sample).2 c.bits_per_sample) with e | s1
    · rw [hp] at h; cases h
    · rw [hp] at h
      simp only [bind, Except.bind, pure, Except.pure, Except.ok.injEq, Prod.mk.injEq,
        true_and] at h
      subst h
      obtain ⟨k1, k2, k3, k4, k5, k6, k7, k8, k9⟩ := put_sample_keeps c _ _ _ hp
      refine ⟨k1.trans g5, k2.trans g6, k3.trans g8, k4.trans g9, k6.trans g10, ?_⟩
      show s1.next_in.length ≤ _
      rw [k9]; exact g14

theorem copysample_again (c : Config) (s : aec_stream) (h : copy_waiting c s) :
    copysample c s = Except.ok (false, s) := by
  obtain ⟨b, ha, hb⟩ := h
  unfold copysample
  rw [bits_ask_again s _ b ha]
  simp only [hb, if_true]
  rfl

/-! ### The call that returns `M_EXIT` leaves a waiting state -/

theorem m_id_exit (c : Config) (t r : aec_stream) (hm : t.mode = Mode.m_id)
    (h : m_id c t = Except.ok (Status.M_EXIT, r)) : waiting c r := by
  unfold m_id at h
  have ha := bits_ask_asked (m_id_ref c t) c.id_len
  obtain ⟨⟨-, -, -, -, g5, -, -, -, -, g10, -, g12, -, -⟩, -, g15⟩ :=
    bits_ask_frame (m_id_ref c t) c.id_len
  obtain ⟨-, -, -, -, -, -, f7, -, f9, -, -⟩ := m_id_ref_fields c t
  by_cases hb : (bits_ask (m_id_ref c t) c.id_len).1 = false
  · simp only [hb, if_true, pure, Except.pure, Except.ok.injEq, Prod.mk.injEq, true_and] at h
    subst h
    unfold waiting
    rw [g5, f9, hm]
    refine ⟨?_, by rw [hb] at ha; exact ha⟩
    rw [g10, g12, g15, f7]
    unfold m_id_ref
    by_cases hq : c.pp = true ∧ t.rsip = 0
    · rw [if_pos hq, if_pos hq]
      refine ⟨rfl, fun hp => ?_⟩
      show (if c.flags.PAD_RSI = true then t.bitp - t.bitp % 8 else t.bitp) % 8 = 0
      rw [if_pos hp]; omega
    · rw [if_neg hq, if_neg hq]
  · have hb' : (bits_ask (m_id_ref c t) c.id_len).1 = true := by simpa using hb
    simp only [hb', Bool.true_eq_false, if_false] at h
    split at h
    · cases h
    · simp [pure, Except.pure] at h

theorem m_low_entropy_exit (t r : aec_stream) (c : Config) (hm : t.mode = Mode.m_low_entropy)
    (h : m_low_entropy t = Except.ok (Status.M_EXIT, r)) : waiting c r := by
  unfold m_low_entropy at h
  have ha := bits_ask_asked t 1
  obtain ⟨⟨-, -, -, -, g5, -⟩, -⟩ := bits_ask_frame t 1
  by_cases hb : (bits_ask t 1).1 = false
  · simp only [hb, if_true, pure, Except.pure, Except.ok.injEq, Prod.mk.injEq, true_and] at h
    subst h
    unfold waiting
    rw [g5, hm]
    rw [hb] at ha; exact ha
  · simp [hb, pure, Except.pure] at h

theorem m_low_entropy_ref_exit (c : Config) (t r : aec_stream)
    (hm : t.mode = Mode.m_low_entropy_ref)
    (h : m_low_entropy_ref c t = Except.ok (Status.M_EXIT, r)) : waiting c r := by
  unfold m_low_entropy_ref at h
  by_cases href : t.ref ≠ 0
  · rw [if_pos href] at h
    rcases hcp : copysample c t with e | ⟨b, q⟩
    · rw [hcp] at h; cases h
    · rw [hcp] at h
      cases b
      · simp only [bind, Except.bind, if_true, pure, Except.pure, Except.ok.injEq,
          Prod.mk.injEq, true_and] at h
        subst h
        obtain ⟨hw, -, -, -, -, g5, -, -, -, -, g10, -⟩ := copysample_exit c t q hcp
        unfold waiting
        rw [g5, hm]
        exact ⟨by rw [g10]; exact href, hw⟩
      · simp only [bind, Except.bind, Bool.true_eq_false, if_false] at h
        split at h <;> simp [pure, Except.pure] at h
  · rw [if_neg href] at h
    simp only [bind, Except.bind, pure, Except.pure, Bool.true_eq_false, if_false] at h
    split at h <;> simp at h

theorem m_zero_block_exit (c : Config) (t r : aec_stream) (hm : t.mode = Mode.m_zero_block)
    (h : m_zero_block c t = Except.ok (Status.M_EXIT, r)) : waiting c r := by
  unfold m_zero_block at h
  have ha := fs_ask_asked t
  obtain ⟨-, -, -, -, g5, -⟩ := fs_ask_frame t
  by_cases hb : (fs_ask t).1 = false
  · simp only [hb, if_true, pure, Except.pure, Except.ok.injEq, Prod.mk.injEq, true_and] at h
    subst h
    unfold waiting
    rw [g5, hm]
    rw [hb] at ha; exact ha
  · have hb' : (fs_ask t).1 = true := by simpa using hb
    simp only [hb', Bool.true_eq_false, if_false] at h
    split_ifs at h <;> simp [pure, Except.pure] at h

theorem m_se_no_exit (clz : Bool) (c : Config) (t r : aec_stream)
    (h : m_se clz c t = Except.ok (Status.M_EXIT, r)) : False := by
  unfold m_se at h
  split at h
  · rcases hd : m_se_direct clz c (c.block_size - t.ref + 1) t.ref t with e | q
    · rw [hd] at h; cases h
    · rw [hd] at h; simp [bind, Except.bind, pure, Except.pure] at h
  · simp [pure, Except.pure] at h

theorem m_uncomp_no_exit (c : Config) (t r : aec_stream)
    (h : m_uncomp c t = Except.ok (Status.M_EXIT, r)) : False := by
  unfold m_uncomp at h
  split at h
  · rcases hd : m_uncomp_direct c c.block_size t with e | q
    · rw [hd] at h; cases h
    · rw [hd] at h; simp [bind, Except.bind, pure, Except.pure] at h
  · simp [pure, Except.pure] at h

theorem m_split_exit (clz : Bool) (c : Config) (t r : aec_stream) (hm : t.mode = Mode.m_split)
    (h : m_split clz c t = Except.ok (Status.M_EXIT, r)) : waiting c r := by
  unfold m_split at h
  by_cases hB : BUFFERSPACE c t = true
  · rw [if_pos hB] at h
    exfalso
    rcases h1 : (if t.ref ≠ 0 then m_split_direct_ref c t else pure t) with e | q1
    · rw [h1] at h; cases h
    · rw [h1] at h
      simp only [bind, Except.bind] at h
      rcases h2 : m_split_direct_fs clz c (t.id - 1) (c.block_size - t.ref) 0 q1 with e | q2
      · rw [h2] at h; cases h
      · rw [h2] at h
        simp only at h
        rcases h3 : m_split_direct_out c (t.id - 1) (c.block_size - t.ref) q2 with e | q3
        · rw [h3] at h; cases h
        · rw [h3] at h
          simp [pure, Except.pure] at h
  · rw [if_neg hB] at h
    by_cases href : t.ref ≠ 0
    · rw [if_pos href] at h
      rcases hcp : copysample c t with e | ⟨b, q⟩
      · rw [hcp] at h; cases h
      · rw [hcp] at h
        cases b
        · simp only [bind, Except.bind, if_true, pure, Except.pure, Except.ok.injEq,
            Prod.mk.injEq, true_and] at h
          subst h
          obtain ⟨hw, -, -, g3, -, g5, -, -, -, -, g10, -, -, -, g14⟩ :=
            copysample_exit c t q hcp
          unfold waiting
          rw [g5, hm]
          refine ⟨?_, by rw [g10]; exact href, hw⟩
          rintro ⟨a1, a2⟩
          apply hB
          unfold BUFFERSPACE
          unfold aec_stream.avail_in at a1 ⊢
          rw [g3] at a2
          simp only [Bool.and_eq_true, decide_eq_true_eq]
          exact ⟨le_trans a1 g14, a2⟩
        · simp [bind, Except.bind, pure, Except.pure] at h
    · rw [if_neg href] at h
      simp [pure, Except.pure] at h

theorem m_split_fs_loop_exit (c : Config) (k : Nat) : ∀ (f : Nat) (t r : aec_stream),
    m_split_fs_loop c k f t = Except.ok (Status.M_EXIT, r) →
    fs_asked r false ∧ r.mode = t.mode
  | 0, t, r, h => by unfold m_split_fs_loop at h; cases h
  | f + 1, t, r, h => by
    unfold m_split_fs_loop at h
    have ha := fs_ask_asked t
    obtain ⟨-, -, -, -, g5, -⟩ := fs_ask_frame t
    cases hb : (fs_ask t).1
    · simp only [hb, if_true, pure, Except.pure, Except.ok.injEq, Prod.mk.injEq, true_and] at h
      subst h
      rw [hb] at ha
      exact ⟨ha, g5⟩
    · simp only [hb, Bool.true_eq_false, if_false] at h
      rcases hs : rsi_store c (fs_ask t).2 ((fs_ask t).2.rsip + (fs_ask t).2.i.toNat)
          (((fs_ask t).2.fs <<< k) % W32) with e | s1
      · rw [hs] at h; cases h
      · rw [hs] at h
        simp only [bind, Except.bind] at h
        have e1 := rsi_store_keeps c _ _ _ _ hs
        split at h
        · obtain ⟨q1, q2⟩ := m_split_fs_loop_exit c k f _ r h
          refine ⟨q1, q2.trans ?_⟩
          rw [e1]; exact g5
        · simp [pure, Except.pure] at h

theorem m_split_fs_exit (c : Config) (t r : aec_stream) (hm : t.mode = Mode.m_split_fs)
    (h : m_split_fs c t = Except.ok (Status.M_EXIT, r)) : waiting c r := by
  obtain ⟨q1, q2⟩ := m_split_fs_loop_exit c _ _ t r h
  unfold waiting
  rw [q2, hm]
  exact q1

theorem m_split_output_loop_exit (c : Config) (k : Nat) : ∀ (f : Nat) (t r : aec_stream),
    m_split_output_loop c k f t = Except.ok (Status.M_EXIT, r) →
    (∃ b, asked r k b ∧ (b = false ∨ r.avail_out = 0)) ∧ r.mode = t.mode ∧ r.id = t.id
  | 0, t, r, h => by unfold m_split_output_loop at h; cases h
  | f + 1, t, r, h => by
    unfold m_split_output_loop at h
    have ha := bits_ask_asked t k
    obtain ⟨⟨-, -, -, -, g5, g6, -⟩, -⟩ := bits_ask_frame t k
    by_cases hc : (bits_ask t k).1 = false ∨ (bits_ask t k).2.avail_out = 0
    · simp only [hc, if_true, pure, Except.pure, Except.ok.injEq, Prod.mk.injEq, true_and] at h
      subst h
      exact ⟨⟨_, ha, hc⟩, g5, g6⟩
    · simp only [hc, if_false] at h
      rcases hs : rsi_store c (bits_ask t k).2 (bits_ask t k).2.rsip
          (((bits_ask t k).2.rsi_buffer (bits_ask t k).2.rsip + bits_get (bits_ask t k).2 k)
            % W32) with e | s1
      · rw [hs] at h; cases h
      · rw [hs] at h
        simp only [bind, Except.bind] at h
        have e1 := rsi_store_keeps c _ _ _ _ hs
        split at h
        · obtain ⟨q1, q2, q3⟩ := m_split_output_loop_exit c k f _ r h
          refine ⟨q1, q2.trans ?_, q3.trans ?_⟩
          · rw [e1]; exact g5
          · rw [e1]; exact g6
        · simp [pure, Except.pure] at h

theorem m_split_output_exit (c : Config) (t r : aec_stream)
    (hm : t.mode = Mode.m_split_output)
    (h : m_split_output c t = Except.ok (Status.M_EXIT, r)) : waiting c r := by
  obtain ⟨q1, q2, q3⟩ := m_split_output_loop_exit c _ _ t r h
  unfold waiting
  rw [q2, hm, q3]
  exact q1

theorem m_zero_output_loop_exit (c : Config) : ∀ (f : Nat) (t r : aec_stream),
    m_zero_output_loop c f t = Except.ok (Status.M_EXIT, r) →
    r.avail_out = 0 ∧ r.mode = t.mode
  | 0, t, r, h => by unfold m_zero_output_loop at h; cases h
  | f + 1, t, r, h => by
    unfold m_zero_output_loop at h
    by_cases hc : t.avail_out = 0
    · simp only [hc, if_true, pure, Except.pure, Except.ok.injEq, Prod.mk.injEq, true_and] at h
      subst h
      exact ⟨hc, rfl⟩
    · simp only [hc, if_false] at h
      rcases hp : put_sample c t 0 with e | s1
      · rw [hp] at h; cases h
      · rw [hp] at h
        simp only [bind, Except.bind] at h
        obtain ⟨k1, -⟩ := put_sample_keeps c _ _ _ hp
        split at h
        · cases h
        · split at h
          · obtain ⟨q1, q2⟩ := m_zero_output_loop_exit c f _ r h
            exact ⟨q1, q2.trans k1⟩
          · simp [pure, Except.pure] at h

theorem m_zero_output_exit (c : Config) (t r : aec_stream)
    (hm : t.mode = Mode.m_zero_output)
    (h : m_zero_output c t = Except.ok (Status.M_EXIT, r)) : waiting c r := by
  obtain ⟨q1, q2⟩ := m_zero_output_loop_exit c _ t r h
  unfold waiting
  rw [q2, hm]
  exact q1

theorem m_uncomp_copy_loop_exit (c : Config) : ∀ (f : Nat) (t r : aec_stream),
    m_uncomp_copy_loop c f t = Except.ok (Status.M_EXIT, r) →
    copy_waiting c r ∧ r.mode = t.mode
  | 0, t, r, h => by unfold m_uncomp_copy_loop at h; cases h
  | f + 1, t, r, h => by
    unfold m_uncomp_copy_loop at h
    rcases hcp : copysample c t with e | ⟨b, q⟩
    · rw [hcp] at h; cases h
    · rw [hcp] at h
      simp only [bind, Except.bind] at h
      cases b
      · simp only [if_true, pure, Except.pure, Except.ok.injEq, Prod.mk.injEq, true_and] at h
        subst h
        obtain ⟨hw, -, -, -, -, g5, -⟩ := copysample_exit c t q hcp
        exact ⟨hw, g5⟩
      · simp only [Bool.true_eq_false, if_false] at h
        obtain ⟨k1, -⟩ := copysample_ok_keeps c t q hcp
        split at h
        · cases h
        · split at h
          · obtain ⟨q1, q2⟩ := m_uncomp_copy_loop_exit c f _ r h
            exact ⟨q1, q2.trans k1⟩
          · simp [pure, Except.pure] at h

theorem m_uncomp_copy_exit (c : Config) (t r : aec_stream)
    (hm : t.mode = Mode.m_uncomp_copy)
    (h : m_uncomp_copy c t = Except.ok (Status.M_EXIT, r)) : waiting c r := by
  obtain ⟨q1, q2⟩ := m_uncomp_copy_loop_exit c _ t r h
  unfold waiting
  rw [q2, hm]
  exact q1

/-- The exits of `m_se_decode`.  After the first sample of a pair `state->i` is odd; it is
below `block_size` when `block_size` is even. -/
theorem m_se_decode_loop_exit (c : Config) : ∀ (f : Nat) (t r : aec_stream),
    m_se_decode_loop c f t = Except.ok (Status.M_EXIT, r) →
    r.mode = t.mode ∧
    (fs_asked r false ∨
      (fs_asked r true ∧ (∃ u, se_lookup c r.fs = Except.ok u) ∧ r.avail_out = 0)) ∧
    (Even c.block_size → r.i < c.block_size)
  | 0, t, r, h => by unfold m_se_decode_loop at h; cases h
  | f + 1, t, r, h => by
    unfold m_se_decode_loop at h
    by_cases hi : t.i < c.block_size
    · rw [if_pos hi] at h
      have ha := fs_ask_asked t
      obtain ⟨-, -, g3, -, g5, -, -, -, g9, -⟩ := fs_ask_frame t
      cases hb : (fs_ask t).1
      · simp only [hb, if_true, pure, Except.pure, Except.ok.injEq, Prod.mk.injEq,
          true_and] at h
        subst h
        rw [hb] at ha
        exact ⟨g5, Or.inl ha, fun _ => by rw [g9]; exact hi⟩
      · simp only [hb, Bool.true_eq_false, if_false] at h
        rw [hb] at ha
        rcases hl : se_lookup c (fs_ask t).2.fs with e | u
        · rw [hl] at h; cases h
        · rw [hl] at h
          simp only [bind, Except.bind] at h
          by_cases h1 : (fs_ask t).2.i % 2 = 0 ∧ (fs_ask t).2.avail_out = 0
          · rw [if_pos h1] at h
            simp only [pure, Except.pure, Except.ok.injEq, Prod.mk.injEq, true_and] at h
            subst h
            exact ⟨g5, Or.inr ⟨ha, ⟨u, hl⟩, h1.2⟩, fun _ => by rw [g9]; exact hi⟩
          · rw [if_neg h1] at h
            by_cases h2 : (fs_ask t).2.i % 2 = 0
            · rw [if_pos h2] at h
              unfold m_se_first at h
              rcases hp : put_sample c (fs_ask t).2
                  (to_u32 (u.2 - ((((fs_ask t).2.fs : Nat) : Int) - u.1))) with e | s1
              · rw [hp] at h; cases h
              · rw [hp] at h
                simp only [bind, Except.bind, pure, Except.pure] at h
                obtain ⟨k1, k2, k3, k4, k5, k6, k7, k8, k9⟩ := put_sample_keeps c _ _ _ hp
                by_cases h3 : s1.avail_out = 0
                · rw [if_pos h3] at h
                  simp only [Except.ok.injEq, Prod.mk.injEq, true_and] at h
                  subst h
                  refine ⟨k1.trans g5, Or.inr ⟨?_, ⟨u, ?_⟩, h3⟩, ?_⟩
                  · rcases ha with ⟨-, a1, a2⟩ | ⟨a0, -⟩
                    · left
                      refine ⟨rfl, ?_, ?_⟩
                      · show 1 ≤ s1.bitp; rw [k8]; exact a1
                      · show s1.acc &&& (1 <<< (s1.bitp - 1)) ≠ 0
                        rw [k7, k8]; exact a2
                    · cases a0
                  · show se_lookup c s1.fs = _
                    rw [k5]; exact hl
                  · rintro ⟨m, hm⟩
                    show s1.i + 1 < _
                    rw [k4]
                    rw [g9] at h2 ⊢
                    rw [hm] at hi ⊢
                    push_cast at hi ⊢
                    omega
                · rw [if_neg h3] at h
                  rcases hp2 : put_sample c { s1 with i := s1.i + 1 }
                      (to_u32 ((((fs_ask t).2.fs : Nat) : Int) - u.1)) with e | s3
                  · rw [hp2] at h; cases h
                  · rw [hp2] at h
                    simp only at h
                    obtain ⟨q1, q2, q3⟩ := m_se_decode_loop_exit c f _ r h
                    obtain ⟨j1, -⟩ := put_sample_keeps c _ _ _ hp2
                    refine ⟨q1.trans ?_, q2, q3⟩
                    show s3.mode = _
                    rw [j1]; exact k1.trans g5
            · rw [if_neg h2] at h
              simp only [bind, Except.bind, pure, Except.pure] at h
              by_cases h3 : (fs_ask t).2.avail_out = 0
              · rw [if_pos h3] at h
                simp only [Except.ok.injEq, Prod.mk.injEq, true_and] at h
                subst h
                exact ⟨g5, Or.inr ⟨ha, ⟨u, hl⟩, h3⟩, fun _ => by rw [g9]; exact hi⟩
              · rw [if_neg h3] at h
                rcases hp2 : put_sample c (fs_ask t).2
                    (to_u32 ((((fs_ask t).2.fs : Nat) : Int) - u.1)) with e | s3
                · rw [hp2] at h; cases h
                · rw [hp2] at h
                  simp only at h
                  obtain ⟨q1, q2, q3⟩ := m_se_decode_loop_exit c f _ r h
                  obtain ⟨j1, -⟩ := put_sample_keeps c _ _ _ hp2
                  refine ⟨q1.trans ?_, q2, q3⟩
                  show s3.mode = _
                  rw [j1]; exact g5
    · rw [if_neg hi] at h
      simp [pure, Except.pure] at h

theorem m_se_decode_exit (c : Config) (t r : aec_stream) (hm : t.mode = Mode.m_se_decode)
    (hbs : Even c.block_size ∨ (r.mode = Mode.m_se_decode → r.i < c.block_size))
    (h : m_se_decode c t = Except.ok (Status.M_EXIT, r)) : waiting c r := by
  obtain ⟨q1, q2, q3⟩ := m_se_decode_loop_exit c _ t r h
  have hi : r.i < c.block_size := by
    rcases hbs with he | hr
    · exact q3 he
    · exact hr (q1.trans hm)
  unfold waiting
  rw [q1, hm]
  exact ⟨hi, q2⟩

/-- Every call of a handler that returns `M_EXIT` leaves a waiting state. -/
theorem call_mode_exit (clz : Bool) (c : Config) (t r : aec_stream)
    (hbs : Even c.block_size ∨ (r.mode = Mode.m_se_decode → r.i < c.block_size))
    (h : call_mode clz c t = Except.ok (Status.M_EXIT, r)) : waiting c r := by
  unfold call_mode at h
  cases hm : t.mode <;> rw [hm] at h <;> simp only at h
  · exact m_id_exit c t r hm h
  · exact m_split_exit clz c t r hm h
  · exact m_split_fs_exit c t r hm h
  · exact m_split_output_exit c t r hm h
  · exact m_zero_block_exit c t r hm h
  · exact m_zero_output_exit c t r hm h
  · exact (m_se_no_exit clz c t r h).elim
  · exact m_se_decode_exit c t r hm hbs h
  · exact m_low_entropy_exit t r c hm h
  · exact m_low_entropy_ref_exit c t r hm h
  · exact (m_uncomp_no_exit c t r h).elim
  · exact m_uncomp_copy_exit c t r hm h

theorem m_id_ref_fix (c : Config) (s : aec_stream)
    (h : if c.pp = true ∧ s.rsip = 0 then
      s.ref = 1 ∧ (c.flags.PAD_RSI = true → s.bitp % 8 = 0) else s.ref = 0) :
    m_id_ref c s = s := by
  unfold m_id_ref
  rcases s with ⟨a1, a2, a3, a4, a5, a6, a7, a8, a9, a10, a11, a12, a13, a14, a15, a16, a17⟩
  simp only at h ⊢
  by_cases hq : c.pp = true ∧ a16 = 0
  · rw [if_pos hq] at h
    obtain ⟨h1, h2⟩ := h
    subst h1
    rw [if_pos hq]
    by_cases hp : c.flags.PAD_RSI = true
    · have := h2 hp
      simp only [hp, if_true, this, Nat.sub_zero]
    · simp only [hp, Bool.false_eq_true, if_false]
  · rw [if_neg hq] at h
    subst h
    rw [if_neg hq]

/-- In a waiting state the handler returns `M_EXIT` and leaves the state as it is. -/
theorem call_mode_waiting (clz : Bool) (c : Config) (s : aec_stream) (h : waiting c s) :
    call_mode clz c s = Except.ok (Status.M_EXIT, s) := by
  unfold waiting at h
  unfold call_mode
  cases hm : s.mode <;> rw [hm] at h <;> simp only at h ⊢
  · obtain ⟨h1, h2⟩ := h
    unfold m_id
    rw [m_id_ref_fix c s h1, bits_ask_again s _ false h2]
    rfl
  · obtain ⟨h1, h2, h3⟩ := h
    have hB : ¬ BUFFERSPACE c s = true := by
      unfold BUFFERSPACE
      simpa only [Bool.and_eq_true, decide_eq_true_eq] using h1
    unfold m_split
    rw [if_neg hB, if_pos h2, copysample_again c s h3]
    rfl
  · unfold m_split_fs m_split_fs_loop
    rw [fs_ask_again s false h]
    rfl
  · obtain ⟨b, h1, h2⟩ := h
    unfold m_split_output m_split_output_loop
    rw [bits_ask_again s _ b h1]
    simp only [h2, if_true]
    rfl
  · unfold m_zero_block
    rw [fs_ask_again s false h]
    rfl
  · unfold m_zero_output m_zero_output_loop
    rw [if_pos h]
    rfl
  · obtain ⟨h1, h2⟩ := h
    unfold m_se_decode m_se_decode_loop
    rw [if_pos h1]
    rcases h2 with h2 | ⟨h2, ⟨u, h3⟩, h4⟩
    · rw [fs_ask_again s false h2]
      rfl
    · rw [fs_ask_again s true h2]
      simp only [Bool.true_eq_false, if_false, h3, bind, Except.bind]
      by_cases hp : s.i % 2 = 0
      · rw [if_pos ⟨hp, h4⟩]
        rfl
      · rw [if_neg (fun hh => hp hh.1), if_neg hp]
        simp only [pure, Except.pure, if_pos h4]
  · unfold m_low_entropy
    rw [bits_ask_again s _ false h]
    rfl
  · obtain ⟨h1, h2⟩ := h
    unfold m_low_entropy_ref
    rw [if_pos h1, copysample_again c s h2]
    rfl
  · unfold m_uncomp_copy m_uncomp_copy_loop
    rw [copysample_again c s h]
    rfl

theorem asked_of (s s' : aec_stream) (n : Nat) (b : Bool) (h : asked s n b)
    (hb : s'.bitp = s.bitp) (hn : s'.next_in = []) : asked s' n b := by
  unfold asked at h ⊢
  rw [hb]
  rcases h with h | ⟨h1, -, h3⟩
  · exact Or.inl h
  · exact Or.inr ⟨h1, hn, h3⟩

theorem fs_asked_of (s s' : aec_stream) (b : Bool) (h : fs_asked s b)
    (ha : s'.acc = s.acc) (hb : s'.bitp = s.bitp) (hn : s'.next_in = []) :
    fs_asked s' b := by
  unfold fs_asked at h ⊢
  rw [hb, ha]
  rcases h with h | ⟨h1, -, h3⟩
  · exact Or.inl h
  · exact Or.inr ⟨h1, hn, h3⟩

theorem copy_waiting_of (c : Config) (s s' : aec_stream) (h : copy_waiting c s)
    (hb : s'.bitp = s.bitp) (hn : s'.next_in = []) (ho : s'.avail_out = s.avail_out) :
    copy_waiting c s' := by
  obtain ⟨b, h1, h2⟩ := h
  exact ⟨b, asked_of s s' _ b h1 hb hn, by rw [ho]; exact h2⟩

theorem copy_waiting_input (c : Config) (s s' : aec_stream) (h : copy_waiting c s)
    (h0 : s.avail_out ≠ 0) (hb : s'.bitp = s.bitp) (hn : s'.next_in = []) :
    copy_waiting c s' := by
  obtain ⟨b, h1, h2⟩ := h
  rcases h2 with h2 | h2
  · exact ⟨b, asked_of s s' _ b h1 hb hn, Or.inl h2⟩
  · exact absurd h2 h0

/-- Whether a state is waiting depends neither on the output written so far nor on the
counters; a state that waits with input left still waits when the input is taken away; and a
state that waits with output space left, so for input, still waits when the output space is
changed. -/
theorem waiting_frame (c : Config) (r : aec_stream) (no : List Nat) (lo : Int)
    (fl ti tout ao : Nat) (h : waiting c r)
    (hout : ao = r.avail_out ∨ (r.avail_out ≠ 0 ∧ 0 < c.in_blklen)) :
    waiting c { r with
      next_in := [], next_out := no, avail_out := ao, last_out := lo, flush_start := fl
      total_in := ti, total_out := tout } := by
  rcases r with ⟨a1, a2, a3, a4, a5, a6, a7, a8, a9, a10, a11, a12, a13, a14, a15, a16, a17⟩
  unfold waiting at h ⊢
  simp only at h hout ⊢
  rcases hout with hao | ⟨h0, hin⟩
  · subst hao
    cases a6 <;> simp only at h ⊢
    · exact ⟨h.1, asked_of _ _ _ _ h.2 rfl rfl⟩
    · refine ⟨?_, h.2.1, copy_waiting_of c _ _ h.2.2 rfl rfl rfl⟩
      rintro ⟨b1, b2⟩
      apply h.1
      refine ⟨le_trans b1 ?_, b2⟩
      unfold aec_stream.avail_in
      exact Nat.zero_le _
    · exact fs_asked_of _ _ _ h rfl rfl rfl
    · obtain ⟨b, h1, h2⟩ := h
      exact ⟨b, asked_of _ _ _ _ h1 rfl rfl, h2⟩
    · exact fs_asked_of _ _ _ h rfl rfl rfl
    · exact h
    · refine ⟨h.1, ?_⟩
      rcases h.2 with h2 | ⟨h2, h3, h4⟩
      · exact Or.inl (fs_asked_of _ _ _ h2 rfl rfl rfl)
      · exact Or.inr ⟨fs_asked_of _ _ _ h2 rfl rfl rfl, h3, h4⟩
    · exact asked_of _ _ _ _ h rfl rfl
    · exact ⟨h.1, copy_waiting_of c _ _ h.2 rfl rfl rfl⟩
    · exact copy_waiting_of c _ _ h rfl rfl rfl
  · cases a6 <;> simp only at h ⊢
    · exact ⟨h.1, asked_of _ _ _ _ h.2 rfl rfl⟩
    · refine ⟨?_, h.2.1, copy_waiting_input c _ _ h.2.2 h0 rfl rfl⟩
      rintro ⟨b1, -⟩
      unfold aec_stream.avail_in at b1
      simp only [List.length_nil] at b1
      omega
    · exact fs_asked_of _ _ _ h rfl rfl rfl
    · obtain ⟨b, h1, h2⟩ := h
      rcases h2 with h2 | h2
      · exact ⟨b, asked_of _ _ _ _ h1 rfl rfl, Or.inl h2⟩
      · exact absurd h2 h0
    · exact fs_asked_of _ _ _ h rfl rfl rfl
    · exact absurd h h0
    · refine ⟨h.1, ?_⟩
      rcases h.2 with h2 | ⟨h2, h3, h4⟩
      · exact Or.inl (fs_asked_of _ _ _ h2 rfl rfl rfl)
      · exact absurd h4 h0
    · exact asked_of _ _ _ _ h rfl rfl
    · exact ⟨h.1, copy_waiting_input c _ _ h.2 h0 rfl rfl⟩
    · exact copy_waiting_input c _ _ h h0 rfl rfl

theorem sub_size_t_undo (x a : Nat) (hx : x < W64) : sub_size_t ((x + a) % W64) a = x := by
  have h := sub_size_t_add ((x + a) % W64) a
  have h2 := sub_size_t_lt ((x + a) % W64) a
  rw [Nat.mod_mod] at h
  have h3 : sub_size_t ((x + a) % W64) a ≡ x [MOD W64] := Nat.ModEq.add_right_cancel' a h
  have h4 := Nat.ModEq.eq_of_lt_of_lt h3 h2 hx
  exact h4

/-- The last handler call of `run_modes`. -/
theorem run_modes_last (clz : Bool) (c : Config) : ∀ (f : Nat) (s r : aec_stream) (st : Status),
    run_modes clz c f s = Except.ok (st, r) →
    st ≠ Status.M_CONTINUE ∧ ∃ t, call_mode clz c t = Except.ok (st, r)
  | 0, s, r, st, h => by unfold run_modes at h; cases h
  | f + 1, s, r, st, h => by
    unfold run_modes at h
    rcases hc : call_mode clz c s with e | ⟨st1, q⟩
    · rw [hc] at h; cases h
    · rw [hc] at h
      simp only [bind, Except.bind] at h
      by_cases h1 : st1 = Status.M_CONTINUE
      · rw [if_pos h1] at h
        exact run_modes_last clz c f q r st h
      · rw [if_neg h1] at h
        simp only [pure, Except.pure, Except.ok.injEq, Prod.mk.injEq] at h
        obtain ⟨e1, e2⟩ := h
        subst e1; subst e2
        exact ⟨h1, s, hc⟩

/-- On a waiting state with no input and nothing to flush `aec_decode` returns `AEC_OK` and
leaves the state as it is. -/
theorem aec_decode_waiting (clz : Bool) (c : Config) (t : aec_stream) (hn : t.next_in = [])
    (hw : waiting c t) (hf : t.flush_start = t.rsip) (hti : t.total_in < W64)
    (hto : t.total_out < W64) : aec_decode clz c t = Except.ok (Ret.AEC_OK, t) := by
  rcases t with ⟨a1, a2, a3, a4, a5, a6, a7, a8, a9, a10, a11, a12, a13, a14, a15, a16, a17⟩
  simp only at hn hf hti hto
  subst hn
  subst hf
  have hw0 := waiting_frame c _ a3 a8 a17 ((a2 + 0) % W64) ((a5 + a4) % W64) a4 hw
    (Or.inl rfl)
  have hc := call_mode_waiting clz c _ hw0
  have hrun : ∀ f, run_modes clz c (f + 1) _ = Except.ok (Status.M_EXIT, _) := fun f => by
    unfold run_modes
    rw [hc]
    rfl
  have h := aec_decode_of_run clz c _ _ _ rfl (hrun _)
  rw [h, flush_idle c _ rfl]
  simp only [aec_stream.avail_in, List.length_nil]
  rw [sub_size_t_undo a2 0 hti, sub_size_t_undo a5 a4 hto]

set_option maxRecDepth 4000 in
/-- Why the block size is asked to be even, or the decoder not to have stopped between the
two samples of the last pair of a second-extension block: 8 bits per sample, block size 3,
two blocks per RSI (`rsi_size = 6`), no flags, six input bytes and 10 bytes of output space.
The call returns `AEC_OK` with all input taken and the output space used up; it has stopped in
`m_se_decode` after the first sample of a pair, with `state->i = 3 = block_size` and
`rsip = rsi_buffer + 4`.  The next call, with `avail_in = 0` and the state as it was left,
finds `i < block_size` false, goes on to `m_id` and decodes the pending bits as a split block,
whose third fundamental sequence `m_split_fs` stores at `rsip[2]`, one word past the end of the
RSI buffer. -/
theorem idle_call_odd_block_size :
    ((aec_decode true (config_of 8 3 2 no_flags)
        { init_stream blank_stream with
          next_in := [0x15, 0xE0, 0x00, 0x00, 0x03, 0x9C], avail_out := 10 }).map
      (fun r => (r.1, r.2.mode, r.2.i, r.2.rsip, r.2.avail_in, r.2.avail_out, r.2.next_out))
      = Except.ok (Ret.AEC_OK, Mode.m_se_decode, 3, 4, 0, 0, [1, 0, 1, 0, 0, 0, 0, 0, 0, 0])) ∧
    (config_of 8 3 2 no_flags).rsi_size = 6 ∧
    (aec_decode true (config_of 8 3 2 no_flags)
        (result_stream (aec_decode true (config_of 8 3 2 no_flags)
          { init_stream blank_stream with
            next_in := [0x15, 0xE0, 0x00, 0x00, 0x03, 0x9C], avail_out := 10 }))).map
      (fun r => r.1) = Except.error Fault.rsi_overflow :=
  ⟨rfl, rfl, rfl⟩

/-- The state `aec_decode` leaves when it returns `AEC_OK` is waiting. -/
theorem aec_decode_leaves_waiting (clz : Bool) (c : Config) (s s' : aec_stream) (ao : Nat)
    (hcall : aec_decode clz c s = Except.ok (Ret.AEC_OK, s'))
    (hbs : Even c.block_size ∨ (s'.mode = Mode.m_se_decode → s'.i < c.block_size))
    (hout : ao = s'.avail_out ∨ (s'.avail_out ≠ 0 ∧ 0 < c.in_blklen)) :
    waiting c { s' with next_in := [], avail_out := ao } ∧ s'.flush_start = s'.rsip ∧
      s'.total_in < W64 ∧ s'.total_out < W64 := by
  unfold aec_decode at hcall
  simp only at hcall
  rcases hr : run_modes clz c
      (decode_fuel { s with
        total_in := (s.total_in + s.avail_in) % W64
        total_out := (s.total_out + s.avail_out) % W64 })
      { s with
        total_in := (s.total_in + s.avail_in) % W64
        total_out := (s.total_out + s.avail_out) % W64 } with e | ⟨st, r⟩
  · rw [hr] at hcall; cases hcall
  · rw [hr] at hcall
    simp only [bind, Except.bind] at hcall
    obtain ⟨hne, t, ht⟩ := run_modes_last clz c _ _ r st hr
    by_cases he : st = Status.M_ERROR
    · rw [if_pos he] at hcall
      simp [pure, Except.pure] at hcall
    · rw [if_neg he] at hcall
      simp only [pure, Except.pure, Except.ok.injEq, Prod.mk.injEq, true_and] at hcall
      have hst : st = Status.M_EXIT := by
        cases st
        · exact absurd rfl hne
        · rfl
        · exact absurd rfl he
      subst hst
      subst hcall
      have hw := call_mode_exit clz c t r hbs ht
      exact ⟨waiting_frame c r _ _ _ _ _ ao hw hout, rfl, sub_size_t_lt _ _,
        sub_size_t_lt _ _⟩

/-- C12 (amended): a further call without input.  Let `s'` be the state any call of
`aec_decode` has left with `AEC_OK`, whatever the mode it stopped in and whether or not an RSI
boundary has just been flushed.  The next call has `avail_in = 0` and an output space `ao`
which is the `avail_out` the call left, or any other value if the call left output space
unused (`avail_out` not 0, so it stopped for lack of input; `in_blklen` is not 0, as in every
configuration `aec_decode_init` builds).  `block_size` is even, or the call did not stop in
`m_se_decode` with `state->i` at `block_size` (with an odd `block_size` the first sample of
the last pair of a second-extension block brings `i` to `block_size`).  Then the next call
returns `AEC_OK` and leaves the state exactly as it was given: no output byte is written,
`avail_out`, `total_out` and `total_in` are unchanged and no input is consumed; the state being
the same, so does every call after it.  What is left out is the call that gives new output
space to a decoder that had used up the old one. -/
theorem C12_idle_call_after_decode (c : Config) (clz : Bool) (s s' : aec_stream) (ao : Nat)
    (hcall : aec_decode clz c s = Except.ok (Ret.AEC_OK, s'))
    (hbs : Even c.block_size ∨ (s'.mode = Mode.m_se_decode → s'.i < c.block_size))
    (hout : ao = s'.avail_out ∨ (s'.avail_out ≠ 0 ∧ 0 < c.in_blklen)) :
    aec_decode clz c { s' with next_in := [], avail_out := ao }
      = Except.ok (Ret.AEC_OK, { s' with next_in := [], avail_out := ao }) := by
  obtain ⟨hw, hf, h1, h2⟩ := aec_decode_leaves_waiting clz c s s' ao hcall hbs hout
  exact aec_decode_waiting clz c _ rfl hw hf h1 h2

/-- Witness of C12 (amended): scenario 1 of the specification, 8 bits per sample, block size
8, one block per RSI, no flags, the nine bytes of an uncompressed block with the samples
0 .. 7, and 100 bytes of output space.  The call writes the eight samples and stops in
`m_zero_block` with one pending bit, an RSI boundary just flushed and 92 bytes of output space
left; the next call without input, here with 200 bytes of output space, changes nothing. -/
theorem C12_idle_call_after_decode_witness :
    ((aec_decode true (config_of 8 8 1 no_flags)
        { init_stream blank_stream with
          next_in := [0xE0, 0x00, 0x20, 0x40, 0x60, 0x80, 0xA0, 0xC0, 0xE0]
          avail_out := 100 }).map
      (fun r => (r.1, r.2.mode, r.2.bitp, r.2.rsip, r.2.flush_start, r.2.next_out,
        r.2.avail_out))
      = Except.ok (Ret.AEC_OK, Mode.m_zero_block, 1, 0, 0, [0, 1, 2, 3, 4, 5, 6, 7], 92)) ∧
    aec_decode true (config_of 8 8 1 no_flags)
      { result_stream (aec_decode true (config_of 8 8 1 no_flags)
          { init_stream blank_stream with
            next_in := [0xE0, 0x00, 0x20, 0x40, 0x60, 0x80, 0xA0, 0xC0, 0xE0]
            avail_out := 100 }) with next_in := [], avail_out := 200 }
      = Except.ok (Ret.AEC_OK,
        { result_stream (aec_decode true (config_of 8 8 1 no_flags)
            { init_stream blank_stream with
              next_in := [0xE0, 0x00, 0x20, 0x40, 0x60, 0x80, 0xA0, 0xC0, 0xE0]
              avail_out := 100 }) with next_in := [], avail_out := 200 }) :=
  ⟨rfl, C12_idle_call_after_decode (config_of 8 8 1 no_flags) true
    { init_stream blank_stream with
      next_in := [0xE0, 0x00, 0x20, 0x40, 0x60, 0x80, 0xA0, 0xC0, 0xE0]
      avail_out := 100 }
    (result_stream (aec_decode true (config_of 8 8 1 no_flags)
      { init_stream blank_stream with
        next_in := [0xE0, 0x00, 0x20, 0x40, 0x60, 0x80, 0xA0, 0xC0, 0xE0]
        avail_out := 100 }))
    200 (result_stream_eq _ rfl) (Or.inl ⟨4, rfl⟩) (Or.inr ⟨by decide, by decide⟩)⟩

/-- C12 (counterexample): 8 bits per sample, block size 8, one block per RSI, no flags.  A first
call with 10 input bytes (an uncompressed block and the start of a second one) and 8 bytes of
output space ends at an RSI boundary that has been flushed (`rsip = flush_start = 0`), with no
input left and 10 bits pending in the accumulator.  A further call with `avail_in = 0` and 8
bytes of output space writes one more byte and moves `total_out` from 8 to 9 and `avail_out`
from 8 to 7. -/
theorem C12_counterexample :
    ((aec_decode true (config_of 8 8 1 no_flags)
        { init_stream blank_stream with
          next_in := [0xE0, 0x00, 0x20, 0x40, 0x60, 0x80, 0xA0, 0xC0, 0xFC, 0x00]
          avail_out := 8 }).map
      (fun r => (r.1, r.2.rsip, r.2.flush_start, r.2.avail_in, r.2.next_out, r.2.total_out))
      = Except.ok (Ret.AEC_OK, 0, 0, 0, [0, 1, 2, 3, 4, 5, 6, 7], 8)) ∧
    ((aec_decode true (config_of 8 8 1 no_flags)
        { result_stream (aec_decode true (config_of 8 8 1 no_flags)
            { init_stream blank_stream with
              next_in := [0xE0, 0x00, 0x20, 0x40, 0x60, 0x80, 0xA0, 0xC0, 0xFC, 0x00]
              avail_out := 8 }) with avail_out := 8 }).map
      (fun r => (r.1, r.2.avail_in, r.2.next_out, r.2.total_out, r.2.avail_out))
      = Except.ok (Ret.AEC_OK, 0, [0, 1, 2, 3, 4, 5, 6, 7, 0], 9, 7)) :=
  ⟨rfl, rfl⟩

end Aec
